import Mathlib

/-!
# Yakuake session core: split tree, leaf registry, focus order

A shallow embedding of `src/app/session.cpp` (class `Session`) together with the
parts of `src/app/browser.cpp` it relies on.

* The widget tree is an arena of `Splitter` nodes addressed by index; index `0`
  is `m_baseSplitter`.  A node stores its orientation, the ordered list of the
  widgets it holds, the list last handed to `setSizes` (what `sizes()` gives
  when the code reads the list in order to change it), its parent and whether
  `deleteLater` was called on it.  The entry `Session::tryGrow` reads back right
  after its `setSizes` call, from which it computes its result, is decided by
  `QSplitter` and is a parameter of the model.
* The base splitter has no parent in the arena; its parent widget is the
  `SessionStack` the session was constructed under.
* `std::map<int, Terminal *>` / `std::map<int, Browser *>` are association lists
  kept in ascending key order (`StdMap`).
* The static id counters live in `Statics` and are threaded through every
  operation that constructs an object.
* Values the windowing layer reports during a call (`width()`, `height()`,
  whether the KPart produced a content widget, the initial title) are the
  fields of `Env`.
* A result `none` stands for undefined behaviour of the C++ code: an
  out-of-range `QList` read or a null / dangling pointer dereference.
* `widget->setFocus()` on a leaf's content widget is modelled as delivering the
  focus-in event at once: the leaf emits `activated(id)`, which is connected to
  `Session::setActiveId`.
-/

namespace Yakuake

/-- Qt::Orientation. -/
inductive Orientation where
  | Horizontal
  | Vertical
  deriving DecidableEq, Repr

/-- Session::SessionContent. -/
inductive SessionContent where
  | TerminalType
  | BrowserType
  deriving DecidableEq, Repr

/-- Session::SessionType. -/
inductive SessionType where
  | Single
  | TwoHorizontal
  | TwoVertical
  | Quad
  deriving DecidableEq, Repr

/-- Session::GrowthDirection. -/
inductive GrowthDirection where
  | Up
  | Right
  | Down
  | Left
  deriving DecidableEq, Repr

/-- A widget held by a splitter: the part widget of a leaf (`partWidget()`),
named by the leaf's id, or a nested splitter, named by its arena index. -/
inductive Widget where
  | part (id : Int)
  | splitter (index : Nat)
  deriving DecidableEq, Repr

/-- A `Splitter` (a `QSplitter`): `sizes` is the list last passed to `setSizes`,
`parent` is `parentWidget()` inside the session's tree (`none` for the base
splitter, whose parent widget is the `SessionStack`), `deleteLater` records that `deleteLater()` was called on the node. -/
structure Splitter where
  orientation : Orientation
  widgets : List Widget
  sizes : List Int
  parent : Option Nat
  deleteLater : Bool
  deriving DecidableEq, Repr

/-- A leaf content object (`Terminal` or `Browser`): `splitter` is
`m_parentSplitter`, `contentWidget` tells whether `terminalWidget()` /
`browserWidget()` is non-null, `closable` is the leaf's `m_closable`
(`true` on construction, browser.h). The part widget itself always exists
(both constructor paths of `Browser` assign `m_partWidget`). -/
structure Leaf where
  splitter : Nat
  title : String
  contentWidget : Bool
  closable : Bool := true
  deriving DecidableEq, Repr

/-- The static counters `Session::m_availableSessionId`,
`Terminal::m_availableTerminalId` and `Browser::m_availableBrowserId`. -/
structure Statics where
  availableSessionId : Int
  availableTerminalId : Int
  availableBrowserId : Int
  deriving DecidableEq, Repr

/-- What the windowing layer and the part loader report during one call. -/
structure Env where
  splitterWidth : Int
  splitterHeight : Int
  partWidth : Int
  partHeight : Int
  partLoaded : Bool
  newTitle : String
  deriving DecidableEq, Repr

/-- The member variables of `Session`. `baseSplitter` is `m_baseSplitter`
(`some 0` until `prepareShutdown` clears it); `splitters` is the arena. -/
structure Session where
  sessionId : Int
  contentType : SessionContent
  activeId : Int
  terminals : List (Int × Leaf)
  browsers : List (Int × Leaf)
  title : String
  closable : Bool
  baseSplitter : Option Nat
  splitters : List Splitter
  deriving DecidableEq, Repr

/-! ## std::map -/

namespace StdMap

/-- `m.contains(id)`. -/
def contains (m : List (Int × Leaf)) (id : Int) : Bool :=
  m.any (fun e => e.1 == id)

/-- The value of `m.find(id)`, `none` for `end()`. -/
def find : List (Int × Leaf) → Int → Option Leaf
  | [], _ => none
  | e :: rest, id => if e.1 = id then some e.2 else find rest id

/-- `m[id] = leaf`: ordered insertion, replacing an equal key. -/
def insert : List (Int × Leaf) → Int → Leaf → List (Int × Leaf)
  | [], id, leaf => [(id, leaf)]
  | e :: rest, id, leaf =>
    if id < e.1 then (id, leaf) :: e :: rest
    else if id = e.1 then (id, leaf) :: rest
    else e :: insert rest id leaf

/-- `m.erase(id)`. -/
def erase (m : List (Int × Leaf)) (id : Int) : List (Int × Leaf) :=
  m.filter (fun e => e.1 != id)

/-- A mutation of the object stored under `id` (the map itself is untouched). -/
def update (m : List (Int × Leaf)) (id : Int) (f : Leaf → Leaf) : List (Int × Leaf) :=
  m.map (fun e => if e.1 = id then (e.1, f e.2) else e)

/-- The keys in iteration order. -/
def keys (m : List (Int × Leaf)) : List Int :=
  m.map Prod.fst

/-- Position of the iterator `m.find(id)`. -/
def position : List (Int × Leaf) → Int → Option Nat
  | [], _ => none
  | e :: rest, id => if e.1 = id then some 0 else (position rest id).map Nat.succ

/-- The entry `focusNext` picks: `std::next(m.find(id))`, or `m.begin()` when
that is `m.end()`. -/
def nextEntry (m : List (Int × Leaf)) (id : Int) : Option (Int × Leaf) :=
  match position m id with
  | none => none
  | some i =>
    match m[i + 1]? with
    | some e => some e
    | none => m.head?

/-- The entry `focusPrevious` picks: `std::prev(m.end())` when `m.find(id)` is
`m.begin()`, else `std::prev(m.find(id))`. -/
def previousEntry (m : List (Int × Leaf)) (id : Int) : Option (Int × Leaf) :=
  match position m id with
  | none => none
  | some 0 => m.getLast?
  | some (i + 1) => m[i]?

end StdMap

/-! ## QSplitter primitives on the arena -/

/-- Apply `f` to the node at index `i`. -/
def updateAt (arena : List Splitter) (i : Nat) (f : Splitter → Splitter) : List Splitter :=
  match arena[i]? with
  | some n => arena.set i (f n)
  | none => arena

/-- `QSplitter::indexOf`: the position of the widget, `-1` when absent. -/
def indexOf : List Widget → Widget → Int
  | [], _ => -1
  | w :: ws, x => if w = x then 0 else (if indexOf ws x = -1 then -1 else indexOf ws x + 1)

/-- `splitter->setOrientation(o)`. -/
def setOrientation (arena : List Splitter) (i : Nat) (o : Orientation) : List Splitter :=
  updateAt arena i (fun n => { n with orientation := o })

/-- `splitter->setSizes(l)`. -/
def setSizes (arena : List Splitter) (i : Nat) (l : List Int) : List Splitter :=
  updateAt arena i (fun n => { n with sizes := l })

/-- A widget constructed with the splitter as parent, or handed to
`addWidget`: it goes to the end of the splitter's list. -/
def addWidget (arena : List Splitter) (i : Nat) (w : Widget) : List Splitter :=
  updateAt arena i (fun n => { n with widgets := n.widgets ++ [w] })

/-- `splitter->insertWidget(0, w)` for a widget that may already be in the
splitter: it is moved to the front. -/
def insertWidgetFront (arena : List Splitter) (i : Nat) (w : Widget) : List Splitter :=
  updateAt arena i (fun n => { n with widgets := w :: n.widgets.erase w })

/-- A widget leaves the tree (it is destroyed or about to be reparented): its
parent drops it from its list. -/
def removeWidget (arena : List Splitter) (w : Widget) : List Splitter :=
  arena.map (fun n => { n with widgets := n.widgets.erase w })

/-- `w->setParent(newParent)`. -/
def setParent (arena : List Splitter) (w : Widget) (newParent : Nat) : List Splitter :=
  addWidget (removeWidget arena w) newParent w

/-- `new Splitter(orientation, parent)`: the node is appended to the arena and,
being a child widget of `parent`, to the end of the parent's list. -/
def newSplitter (arena : List Splitter) (o : Orientation) (parent : Nat) : List Splitter :=
  addWidget
    (arena ++ [{ orientation := o, widgets := [], sizes := [], parent := some parent,
                 deleteLater := false }])
    parent (Widget.splitter arena.length)

/-- `child->parentWidget()` for a widget of the tree: the splitter holding it. -/
def parentWidget : List Splitter → Widget → Option Nat
  | [], _ => none
  | n :: rest, w => if w ∈ n.widgets then some 0 else (parentWidget rest w).map Nat.succ

/-- Modelled from the spec: one step of `Splitter::recursiveCleanup` (splitter.cpp
is not among the sources): a node whose child count has reached zero is
removed; for a nested node the removal reaches the parent, which drops it from
its children; for the top-level node it is the signal that the tree is empty. -/
def pruneIfEmpty (arena : List Splitter) (j : Nat) : List Splitter :=
  match arena[j]? with
  | none => arena
  | some n =>
    if n.widgets.isEmpty && !n.deleteLater then
      let marked := arena.set j { n with deleteLater := true }
      match n.parent with
      | some p => updateAt marked p (fun q => { q with widgets := q.widgets.erase (Widget.splitter j) })
      | none => marked
    else arena

/-- Modelled from the spec: the bottom-up order of `Splitter::recursiveCleanup`:
nodes are visited from the highest arena index down to the base, so that a
parent is looked at after all the nodes nested in it. -/
def pruneDown : Nat → List Splitter → List Splitter
  | 0, arena => pruneIfEmpty arena 0
  | j + 1, arena => pruneDown j (pruneIfEmpty arena (j + 1))

/-- Modelled from the spec: `Splitter::recursiveCleanup` called on the base
splitter (splitter.cpp is not among the sources): "bottom-up pass removing any
node whose child count reaches zero, propagating removal to the parent chain". -/
def recursiveCleanup (arena : List Splitter) : List Splitter :=
  pruneDown (arena.length - 1) arena

/-! ## Session -/

/-- The map `m_terminals` or `m_browsers`. -/
def Session.registry (s : Session) : SessionContent → List (Int × Leaf)
  | SessionContent.TerminalType => s.terminals
  | SessionContent.BrowserType => s.browsers

/-- Replace `m_terminals` or `m_browsers`. -/
def Session.setRegistry (s : Session) (kind : SessionContent) (m : List (Int × Leaf)) : Session :=
  match kind with
  | SessionContent.TerminalType => { s with terminals := m }
  | SessionContent.BrowserType => { s with browsers := m }

/-- The map the session's `m_contentType` selects. -/
def Session.leaves (s : Session) : List (Int × Leaf) :=
  s.registry s.contentType

/-- The counter a new leaf of the given kind takes its id from. -/
def Statics.available (g : Statics) : SessionContent → Int
  | SessionContent.TerminalType => g.availableTerminalId
  | SessionContent.BrowserType => g.availableBrowserId

/-- `m_availableBrowserId++` (browser.cpp), and the same for terminals. -/
def Statics.bump (g : Statics) : SessionContent → Statics
  | SessionContent.TerminalType => { g with availableTerminalId := g.availableTerminalId + 1 }
  | SessionContent.BrowserType => { g with availableBrowserId := g.availableBrowserId + 1 }

/-- Session::setTitle. -/
def setTitle (s : Session) (id : Int) (title : String) : Session :=
  if id = s.activeId then { s with title := title } else s

/-- Session::setActiveId. `m_terminals[m_activeId]->title()` dereferences a null
pointer when the id is not registered. -/
def setActiveId (s : Session) (id : Int) : Option Session :=
  match StdMap.find s.leaves id with
  | some leaf => some (setTitle { s with activeId := id } id leaf.title)
  | none => none

/-- The guarded focus request `if (widget) widget->setFocus();` on the leaf
registered under `id`: the focus-in event makes the leaf emit `activated(id)`. -/
def requestFocus (s : Session) (id : Int) (leaf : Leaf) : Option Session :=
  if leaf.contentWidget then setActiveId s id else some s

/-- Session::addTerminal and Session::addBrowser (the constructor of the leaf
takes the next id and records `parent` as its splitter). Returns the new id. -/
def addLeaf (kind : SessionContent) (g : Statics) (s : Session) (parent : Nat) (env : Env) :
    Option (Statics × Session × Int) :=
  let id := g.available kind
  let leaf : Leaf := { splitter := parent, title := env.newTitle, contentWidget := env.partLoaded }
  let s1 := s.setRegistry kind (StdMap.insert (s.registry kind) id leaf)
  let s2 := { s1 with splitters := addWidget s1.splitters parent (Widget.part id) }
  match requestFocus s2 id leaf with
  | some s3 => some (g.bump kind, s3, id)
  | none => none

/-- Session::addTerminal. -/
def addTerminal (g : Statics) (s : Session) (parent : Nat) (env : Env) :
    Option (Statics × Session × Int) :=
  addLeaf SessionContent.TerminalType g s parent env

/-- Session::addBrowser. -/
def addBrowser (g : Statics) (s : Session) (parent : Nat) (env : Env) :
    Option (Statics × Session × Int) :=
  addLeaf SessionContent.BrowserType g s parent env

/-- Session::focusPrevious. -/
def focusPrevious (s : Session) : Option Session :=
  if s.activeId = -1 then some s
  else if !StdMap.contains s.leaves s.activeId then some s
  else
    match StdMap.previousEntry s.leaves s.activeId with
    | some previous => requestFocus s previous.1 previous.2
    | none => none

/-- Session::focusNext. -/
def focusNext (s : Session) : Option Session :=
  if s.activeId = -1 then some s
  else if !StdMap.contains s.leaves s.activeId then some s
  else
    match StdMap.nextEntry s.leaves s.activeId with
    | some next => requestFocus s next.1 next.2
    | none => none

/-- Both overloads `Session::split(Terminal *, Qt::Orientation)` and
`Session::split(Browser *, Qt::Orientation)`; `id` and `leaf` are the object
the pointer designates. -/
def split (kind : SessionContent) (g : Statics) (s : Session) (id : Int) (leaf : Leaf)
    (orientation : Orientation) (env : Env) : Option (Statics × Session × Int) :=
  match s.splitters[leaf.splitter]? with
  | none => none
  | some splitter =>
    if splitter.widgets.length = 1 then
      let splitterWidth := env.splitterWidth
      let s1 := { s with splitters := setOrientation s.splitters leaf.splitter orientation }
      match addLeaf kind g s1 leaf.splitter env with
      | none => none
      | some (g2, s2, newId) =>
        let newSplitterSizes := [splitterWidth.tdiv 2, splitterWidth.tdiv 2]
        some (g2, { s2 with splitters := setSizes s2.splitters leaf.splitter newSplitterSizes,
                            activeId := newId }, newId)
    else
      let splitterSizes := splitter.sizes
      let created := s.splitters.length
      let a1 := newSplitter s.splitters orientation leaf.splitter
      let a2 :=
        match a1[leaf.splitter]? with
        | some p =>
          if indexOf p.widgets (Widget.part id) = 0 then
            insertWidgetFront a1 leaf.splitter (Widget.splitter created)
          else a1
        | none => a1
      let a3 := setParent a2 (Widget.part id) created
      let s1 := ({ s with splitters := a3 }).setRegistry kind
        (StdMap.update (s.registry kind) id (fun l => { l with splitter := created }))
      match addLeaf kind g s1 created env with
      | none => none
      | some (g2, s2, newId) =>
        let a4 := setSizes s2.splitters leaf.splitter splitterSizes
        match splitterSizes[1]? with
        | none => none
        | some second =>
          let newSplitterSizes := [second.tdiv 2, second.tdiv 2]
          some (g2, { s2 with splitters := setSizes a4 created newSplitterSizes,
                              activeId := newId }, newId)

/-- The opening `if (id == -1) id = m_activeId;` of the id-taking slots. -/
def resolve (s : Session) (id : Int) : Int :=
  if id = -1 then s.activeId else id

/-- The common body of `splitLeftRight` and `splitTopBottom`. -/
def splitWith (orientation : Orientation) (g : Statics) (s : Session) (id : Int) (env : Env) :
    Option (Statics × Session × Int) :=
  if resolve s id = -1 then some (g, s, -1)
  else if !StdMap.contains s.leaves (resolve s id) then some (g, s, -1)
  else
    match StdMap.find s.leaves (resolve s id) with
    | some leaf => split s.contentType g s (resolve s id) leaf orientation env
    | none => some (g, s, -1)

/-- Session::splitLeftRight. -/
def splitLeftRight (g : Statics) (s : Session) (id : Int) (env : Env) :
    Option (Statics × Session × Int) :=
  splitWith Orientation.Horizontal g s id env

/-- Session::splitTopBottom. -/
def splitTopBottom (g : Statics) (s : Session) (id : Int) (env : Env) :
    Option (Statics × Session × Int) :=
  splitWith Orientation.Vertical g s id env

/-- Session::splitAuto. -/
def splitAuto (g : Statics) (s : Session) (id : Int) (env : Env) :
    Option (Statics × Session × Int) :=
  if resolve s id = -1 then some (g, s, -1)
  else if !StdMap.contains s.leaves (resolve s id) then some (g, s, -1)
  else
    match StdMap.find s.leaves (resolve s id) with
    | some leaf =>
      if env.partWidth > env.partHeight then
        split s.contentType g s (resolve s id) leaf Orientation.Horizontal env
      else
        split s.contentType g s (resolve s id) leaf Orientation.Vertical env
    | none => some (g, s, -1)

/-- The 32-bit result of `int += uint` / `int -= uint`: the sum is formed modulo
`2^32` and read back as a signed value. -/
def wrap32 (x : Int) : Int :=
  (x + 2147483648) % 4294967296 - 2147483648

/-- The `while (splitter)` loop of `Session::tryGrow`. The first argument bounds
the number of iterations; `none` is returned when it is used up, when a node
index dangles or when a size list is read out of range.

A node without a parent in the arena is the base splitter. It is constructed
under the widget the `Session` constructor received (`new Splitter(Qt::Horizontal,
parent)`), and `SessionStack::addSessionImpl`, the only place that constructs a
session, passes the stack. So at the base splitter
`static_cast<Splitter *>(splitter->parentWidget())` is a non-null pointer to a
`QStackedWidget`, the loop goes on and calls `orientation()` on it: `none`.

`readBack` is the value `splitter->sizes().at(currentPos)` has after the
`setSizes` call: the layout `QSplitter` makes of the list it is handed is not
part of the sources, and the returned delta is computed from it. -/
def tryGrowLoop (isHorizontal isForward : Bool) (pixels : Nat) (readBack : Int) :
    Nat → List Splitter → Widget → Option Nat → Option (List Splitter × Int)
  | _, arena, _, none => some (arena, -1)
  | 0, _, _, some _ => none
  | fuel + 1, arena, child, some sp =>
    match arena[sp]? with
    | none => none
    | some splitter =>
      if (decide (splitter.orientation = Orientation.Horizontal) && isHorizontal)
          || (decide (splitter.orientation = Orientation.Vertical) && !isHorizontal) then
        let currentPos := indexOf splitter.widgets child
        if currentPos != -1 && (currentPos != 0 || isForward)
            && (currentPos != (splitter.widgets.length : Int) - 1 || !isForward) then
          let currentSizes := splitter.sizes
          let affected := if isForward then currentPos + 1 else currentPos - 1
          match currentSizes[currentPos.toNat]? with
          | none => none
          | some oldSize =>
            let grown := currentSizes.set currentPos.toNat (wrap32 (oldSize + (pixels : Int)))
            match grown[affected.toNat]? with
            | none => none
            | some neighbour =>
              let shrunk := grown.set affected.toNat (wrap32 (neighbour - (pixels : Int)))
              some (setSizes arena sp shrunk, readBack - oldSize)
        else
          match splitter.parent with
          | some p =>
            tryGrowLoop isHorizontal isForward pixels readBack fuel arena (Widget.splitter sp)
              (some p)
          | none => none
      else
        match splitter.parent with
        | some p =>
          tryGrowLoop isHorizontal isForward pixels readBack fuel arena (Widget.splitter sp)
            (some p)
        | none => none

/-- Session::getTerminal. -/
def getTerminal (s : Session) (terminalId : Int) : Option Leaf :=
  if !StdMap.contains s.terminals terminalId then none else StdMap.find s.terminals terminalId

/-- Session::getBrowser. -/
def getBrowser (s : Session) (browserId : Int) : Option Leaf :=
  if !StdMap.contains s.browsers browserId then none else StdMap.find s.browsers browserId

/-- Session::tryGrow; `pixels` is the `uint` argument, `readBack` the value
`splitter->sizes().at(currentPos)` has after `setSizes` (see `tryGrowLoop`). -/
def tryGrow (s : Session) (id : Int) (direction : GrowthDirection) (pixels : Nat)
    (readBack : Int) : Option (Session × Int) :=
  let leaf :=
    match s.contentType with
    | SessionContent.TerminalType => getTerminal s id
    | SessionContent.BrowserType => getBrowser s id
  match leaf with
  | none => some (s, -1)
  | some _ =>
    let child := Widget.part id
    let isHorizontal := decide (direction = GrowthDirection.Right ∨ direction = GrowthDirection.Left)
    let isForward := decide (direction = GrowthDirection.Down ∨ direction = GrowthDirection.Right)
    match tryGrowLoop isHorizontal isForward pixels readBack s.splitters.length s.splitters child
        (parentWidget s.splitters child) with
    | some (arena, delta) => some ({ s with splitters := arena }, delta)
    | none => none

/-- The effect of `delete m_terminals[id]; m_terminals.erase(id);` and of
`delete m_browsers[id]; m_browsers.erase(id);`.

Modelled from the spec: the destructor of `Terminal` (terminal.cpp is not among
the sources) destroys the leaf with its part widget, which thereby leaves its
splitter. `Browser::~Browser` (browser.cpp) deletes `m_part` only: the wrapper
`m_partWidget`, a child of the splitter, stays where it is. -/
def deleteLeaf (kind : SessionContent) (s : Session) (id : Int) : Session :=
  match kind with
  | SessionContent.TerminalType =>
    { s with splitters := (if StdMap.contains s.terminals id then
                              removeWidget s.splitters (Widget.part id) else s.splitters),
             terminals := StdMap.erase s.terminals id }
  | SessionContent.BrowserType =>
    { s with browsers := StdMap.erase s.browsers id }

/-- `Session::cleanup()`. The deferred deletion of the base splitter is recorded
in the node's `deleteLater` flag. -/
def cleanup (s : Session) : Session :=
  match s.baseSplitter with
  | none => s
  | some base =>
    if s.terminals.isEmpty && s.browsers.isEmpty then
      { s with splitters := updateAt (recursiveCleanup s.splitters) base
                  (fun n => { n with deleteLater := true }) }
    else { s with splitters := recursiveCleanup s.splitters }

/-- `Session::cleanup(int id)`. -/
def cleanupId (s : Session) (id : Int) : Option Session :=
  match (if s.activeId = id ∧ s.leaves.length > 1 then focusPrevious s else some s) with
  | none => none
  | some s1 => some (cleanup (deleteLeaf s1.contentType s1 id))

/-- Session::closeSession. -/
def closeSession (s : Session) (id : Int) : Option Session :=
  if resolve s id = -1 then some s
  else if !StdMap.contains s.leaves (resolve s id) then some s
  else cleanupId s (resolve s id)

/-- Session::closeTerminal. -/
def closeTerminal (s : Session) (terminalId : Int) : Session :=
  if !StdMap.contains s.terminals terminalId then s
  else cleanup (deleteLeaf SessionContent.TerminalType s terminalId)

/-- Session::closeBrowser. -/
def closeBrowser (s : Session) (browserId : Int) : Session :=
  if !StdMap.contains s.browsers browserId then s
  else cleanup (deleteLeaf SessionContent.BrowserType s browserId)

/-- Session::prepareShutdown, the slot run when the base splitter is destroyed. -/
def prepareShutdown (s : Session) : Session :=
  { s with baseSplitter := none }

/-- The tail `if (terminalWidget) { terminalWidget->setFocus(); setActiveId(terminal->id()); }`
of the multi-leaf layouts in `Session::setupSession`. -/
def focusFirst (s : Session) (terminal : Int) : Option Session :=
  match StdMap.find s.terminals terminal with
  | none => none
  | some leaf =>
    if leaf.contentWidget then
      match requestFocus s terminal leaf with
      | some s1 => setActiveId s1 terminal
      | none => none
    else some s

/-- Session::setupSession. -/
def setupSession (g : Statics) (s : Session) (type : SessionType) (env : Env) :
    Option (Statics × Session) :=
  match s.baseSplitter with
  | none => none
  | some base =>
    match s.contentType with
    | SessionContent.TerminalType =>
      match type with
      | SessionType.Single =>
        match addTerminal g s base env with
        | none => none
        | some (g1, s1, terminal) =>
          match setActiveId s1 terminal with
          | none => none
          | some s2 => some (g1, { s2 with splitters := setSizes s2.splitters base [100] })
      | SessionType.TwoHorizontal =>
        let splitterWidth := env.splitterWidth
        match addTerminal g s base env with
        | none => none
        | some (g1, s1, terminal) =>
          match addTerminal g1 s1 base env with
          | none => none
          | some (g2, s2, _) =>
            let newSplitterSizes := [splitterWidth.tdiv 2, splitterWidth.tdiv 2]
            match focusFirst { s2 with splitters := setSizes s2.splitters base newSplitterSizes }
                terminal with
            | none => none
            | some s3 => some (g2, s3)
      | SessionType.TwoVertical =>
        let s0 := { s with splitters := setOrientation s.splitters base Orientation.Vertical }
        let splitterHeight := env.splitterHeight
        match addTerminal g s0 base env with
        | none => none
        | some (g1, s1, terminal) =>
          match addTerminal g1 s1 base env with
          | none => none
          | some (g2, s2, _) =>
            let newSplitterSizes := [splitterHeight.tdiv 2, splitterHeight.tdiv 2]
            match focusFirst { s2 with splitters := setSizes s2.splitters base newSplitterSizes }
                terminal with
            | none => none
            | some s3 => some (g2, s3)
      | SessionType.Quad =>
        let splitterWidth := env.splitterWidth
        let splitterHeight := env.splitterHeight
        let a0 := setOrientation s.splitters base Orientation.Vertical
        let upperSplitter := a0.length
        let a1 := newSplitter a0 Orientation.Horizontal base
        let lowerSplitter := a1.length
        let a2 := newSplitter a1 Orientation.Horizontal base
        match addTerminal g { s with splitters := a2 } upperSplitter env with
        | none => none
        | some (g1, s1, terminal) =>
          match addTerminal g1 s1 upperSplitter env with
          | none => none
          | some (g2, s2, _) =>
            match addTerminal g2 s2 lowerSplitter env with
            | none => none
            | some (g3, s3, _) =>
              match addTerminal g3 s3 lowerSplitter env with
              | none => none
              | some (g4, s4, _) =>
                let a3 := setSizes s4.splitters base [splitterHeight.tdiv 2, splitterHeight.tdiv 2]
                let newSplitterSizes := [splitterWidth.tdiv 2, splitterWidth.tdiv 2]
                let a4 := setSizes a3 upperSplitter newSplitterSizes
                let a5 := setSizes a4 lowerSplitter newSplitterSizes
                match focusFirst { s4 with splitters := a5 } terminal with
                | none => none
                | some s5 => some (g4, s5)
    | SessionContent.BrowserType =>
      match addBrowser g s base env with
      | none => none
      | some (g1, s1, browser) =>
        match setActiveId s1 browser with
        | none => none
        | some s2 => some (g1, { s2 with splitters := setSizes s2.splitters base [100] })

/-- The constructor `Session::Session`, as `SessionStack::addSessionImpl` calls it
(with the stack as `parent`, which becomes the parent widget of the base
splitter). -/
def newSession (g : Statics) (contentType : SessionContent) (type : SessionType) (env : Env) :
    Option (Statics × Session) :=
  let s : Session :=
    { sessionId := g.availableSessionId
      contentType := contentType
      activeId := -1
      terminals := []
      browsers := []
      title := ""
      closable := true
      baseSplitter := some 0
      splitters := [{ orientation := Orientation.Horizontal, widgets := [], sizes := [],
                      parent := none, deleteLater := false }] }
  setupSession { g with availableSessionId := g.availableSessionId + 1 } s type env

/-- The two signals of `Session` that carry its title: `titleChanged(const
QString &)` and `titleChanged(int, const QString &)`. -/
inductive TitleSignal where
  | titleChanged (title : String)
  | titleChangedFor (sessionId : Int) (title : String)
  deriving DecidableEq, Repr

/-- The signals `Session::setTitle` emits, in order. -/
def setTitleSignals (s : Session) (id : Int) (title : String) : List TitleSignal :=
  if id = s.activeId then
    [TitleSignal.titleChanged title, TitleSignal.titleChangedFor s.sessionId title]
  else []

/-- The signals `Session::setActiveId` emits: those of the `setTitle` call it
makes with the new active id and the title of the leaf. -/
def setActiveIdSignals (s : Session) (id : Int) : Option (List TitleSignal) :=
  match StdMap.find s.leaves id with
  | some leaf => some (setTitleSignals { s with activeId := id } id leaf.title)
  | none => none

/-- `QString::number(n)` for an `int`: the decimal representation, with a
leading minus sign for a negative number. -/
def qNumber (n : Int) : String :=
  toString n

/-- The loop `for (auto &[id, leaf] : m) idList << QString::number(id);`. -/
def idStrings (m : List (Int × Leaf)) : List String :=
  m.foldl (fun idList e => idList ++ [qNumber e.1]) []

/-- Session::terminalIdList; the join is `QStringList::join(QLatin1Char(','))`. -/
def terminalIdList (s : Session) : String :=
  match s.contentType with
  | SessionContent.TerminalType => String.intercalate "," (idStrings s.terminals)
  | SessionContent.BrowserType => String.intercalate "," (idStrings s.browsers)

/-! ## Reachable states -/

/-- The events a live `Session` receives: its public slots, the two close
methods `SessionStack` calls, the signals of its leaves, and the construction
of objects elsewhere in the process (which advances the static counters). -/
inductive Op where
  | splitLeftRight (id : Int) (env : Env)
  | splitTopBottom (id : Int) (env : Env)
  | splitAuto (id : Int) (env : Env)
  | closeSession (id : Int)
  | closeTerminal (id : Int)
  | closeBrowser (id : Int)
  | focusNext
  | focusPrevious
  | tryGrow (id : Int) (direction : GrowthDirection) (pixels : Nat) (readBack : Int)
  | activated (id : Int)
  | titleChanged (id : Int) (title : String)
  | constructedElsewhere (sessions terminals browsers : Nat)
  | prepareShutdown
  deriving DecidableEq, Repr

/-- The signal `activated(id)` of a leaf: only a registered leaf with a content
widget (the event filter sits on it) can emit it. -/
def leafActivated (s : Session) (id : Int) : Option Session :=
  match StdMap.find s.leaves id with
  | some leaf => if leaf.contentWidget then setActiveId s id else some s
  | none => some s

/-- The signal `titleChanged(id, title)` of a registered leaf, emitted after the
leaf stored its new title (`Browser::setTitle`). -/
def leafTitleChanged (s : Session) (id : Int) (title : String) : Session :=
  if StdMap.contains s.leaves id then
    setTitle (s.setRegistry s.contentType
      (StdMap.update s.leaves id (fun l => { l with title := title }))) id title
  else s

/-- The effect of one event. -/
def applyOp (g : Statics) (s : Session) : Op → Option (Statics × Session)
  | Op.splitLeftRight id env => (splitLeftRight g s id env).map (fun r => (r.1, r.2.1))
  | Op.splitTopBottom id env => (splitTopBottom g s id env).map (fun r => (r.1, r.2.1))
  | Op.splitAuto id env => (splitAuto g s id env).map (fun r => (r.1, r.2.1))
  | Op.closeSession id => (closeSession s id).map (fun s1 => (g, s1))
  | Op.closeTerminal id => some (g, closeTerminal s id)
  | Op.closeBrowser id => some (g, closeBrowser s id)
  | Op.focusNext => (focusNext s).map (fun s1 => (g, s1))
  | Op.focusPrevious => (focusPrevious s).map (fun s1 => (g, s1))
  | Op.tryGrow id direction pixels readBack =>
    (tryGrow s id direction pixels readBack).map (fun r => (g, r.1))
  | Op.activated id => (leafActivated s id).map (fun s1 => (g, s1))
  | Op.titleChanged id title => some (g, leafTitleChanged s id title)
  | Op.constructedElsewhere sessions terminals browsers =>
    some ({ availableSessionId := g.availableSessionId + sessions
            availableTerminalId := g.availableTerminalId + terminals
            availableBrowserId := g.availableBrowserId + browsers }, s)
  | Op.prepareShutdown =>
    match s.splitters[0]? with
    | some base => if base.deleteLater then some (g, prepareShutdown s) else some (g, s)
    | none => some (g, s)

/-- The states a session goes through: it is constructed, with counters that
have only ever been incremented from `0`, and then receives events. The two
parameters restrict the environments of construction and the events. -/
inductive ReachableVia (initial : SessionContent → SessionType → Env → Prop) (allowed : Op → Prop) :
    Statics → Session → Prop where
  | init (g0 : Statics) (contentType : SessionContent) (type : SessionType) (env : Env)
      (g : Statics) (s : Session) :
      0 ≤ g0.availableTerminalId → 0 ≤ g0.availableBrowserId → initial contentType type env →
      newSession g0 contentType type env = some (g, s) → ReachableVia initial allowed g s
  | step (g : Statics) (s : Session) (op : Op) (g1 : Statics) (s1 : Session) :
      ReachableVia initial allowed g s → allowed op → applyOp g s op = some (g1, s1) →
      ReachableVia initial allowed g1 s1

/-- Every state a session can be in. -/
def Reachable (g : Statics) (s : Session) : Prop :=
  ReachableVia (fun _ _ _ => True) (fun _ => True) g s

/-- The structural invariant of reachable states. -/
structure WF (g : Statics) (s : Session) : Prop where
  sorted : (StdMap.keys s.leaves).Pairwise (fun a b => a < b)
  fresh : ∀ k ∈ StdMap.keys s.leaves, 0 ≤ k ∧ k < g.available s.contentType
  counters : 0 ≤ g.availableTerminalId ∧ 0 ≤ g.availableBrowserId
  otherTerminals : s.contentType = SessionContent.BrowserType → s.terminals = []
  otherBrowsers : s.contentType = SessionContent.TerminalType → s.browsers = []
  held : ∀ e ∈ s.leaves, ∃ n, s.splitters[e.2.splitter]? = some n ∧ Widget.part e.1 ∈ n.widgets
  atMostTwo : ∀ (j : Nat) (n : Splitter), s.splitters[j]? = some n → n.widgets.length ≤ 2
  sized : ∀ (j : Nat) (n : Splitter), s.splitters[j]? = some n → n.widgets.length = 2 → n.sizes.length = 2
  parentLt : ∀ (j : Nat) (n : Splitter) (p : Nat), s.splitters[j]? = some n → n.parent = some p → p < j
  nestedLt : ∀ (j : Nat) (n : Splitter) (k : Nat), s.splitters[j]? = some n → Widget.splitter k ∈ n.widgets →
    k < s.splitters.length
  nodup : ∀ (j : Nat) (n : Splitter), s.splitters[j]? = some n → n.widgets.Nodup
  unique : ∀ (i j : Nat) (n m : Splitter) (w : Widget), s.splitters[i]? = some n →
    s.splitters[j]? = some m → w ∈ n.widgets → w ∈ m.widgets → i = j
  partsFresh : ∀ (j : Nat) (n : Splitter) (k : Int), s.splitters[j]? = some n →
    Widget.part k ∈ n.widgets → k < g.available s.contentType

/-! ## SessionStack -/

namespace QHash

/-- `m.contains(k)` on the `QHash<int, Session *>`, kept as an association list
in the hash's iteration order. -/
def contains (m : List (Int × Session)) (k : Int) : Bool :=
  m.any (fun e => e.1 == k)

/-- `m.value(k)`: `none` is the default-constructed value, a null pointer. -/
def value : List (Int × Session) → Int → Option Session
  | [], _ => none
  | e :: rest, k => if e.1 = k then some e.2 else value rest k

/-- `m.insert(k, v)`; also the effect of a call that mutates the session object
stored under `k`. -/
def insert (m : List (Int × Session)) (k : Int) (v : Session) : List (Int × Session) :=
  if contains m k then m.map (fun e => if e.1 = k then (k, v) else e) else m ++ [(k, v)]

/-- `m.remove(k)`. -/
def remove (m : List (Int × Session)) (k : Int) : List (Int × Session) :=
  m.filter (fun e => e.1 != k)

/-- `m.keys()`. -/
def keys (m : List (Int × Session)) : List Int :=
  m.map Prod.fst

end QHash

/-- The member variables of `SessionStack`: `m_activeSessionId` and
`m_sessions`. -/
structure SessionStack where
  activeSessionId : Int
  sessions : List (Int × Session)
  deriving DecidableEq, Repr

/-- What the settings and the user report during one call of `queryClose`:
`Settings::confirmQuit()`, and whether the user answers Cancel when the warning
is presented. -/
structure Dialog where
  confirmQuit : Bool
  cancel : Bool
  deriving DecidableEq, Repr

/-- SessionStack::QueryCloseType. -/
inductive QueryCloseType where
  | QueryCloseSession
  | QueryCloseTerminal
  | QueryCloseBrowser
  deriving DecidableEq, Repr

/-- Session::hasTerminal. -/
def hasTerminal (s : Session) (terminalId : Int) : Bool :=
  StdMap.contains s.terminals terminalId

/-- Session::hasBrowser. -/
def hasBrowser (s : Session) (browserId : Int) : Bool :=
  StdMap.contains s.browsers browserId

/-- The loop `QHashIterator<int, Session *> it(m_sessions)` that
`sessionIdForContentId`, `splitContentLeftRight`, `splitContentTopBottom` and the
four `tryGrow...` methods of `SessionStack` run: the first entry whose session,
by its content type, has the terminal or has the browser. -/
def findContent : List (Int × Session) → Int → Option (Int × Session)
  | [], _ => none
  | e :: rest, contentId =>
    match e.2.contentType with
    | SessionContent.TerminalType =>
      if hasTerminal e.2 contentId then some e else findContent rest contentId
    | SessionContent.BrowserType =>
      if hasBrowser e.2 contentId then some e else findContent rest contentId

/-- SessionStack::sessionIdForContentId. -/
def SessionStack.sessionIdForContentId (st : SessionStack) (contentId : Int) : Int :=
  match findContent st.sessions contentId with
  | some e => e.1
  | none => -1

/-- SessionStack::activeId. -/
def SessionStack.activeId (st : SessionStack) : Int :=
  if !QHash.contains st.sessions st.activeSessionId then -1
  else
    match QHash.value st.sessions st.activeSessionId with
    | some session => session.activeId
    | none => -1

/-- SessionStack::addSessionImpl. The working directory it reads from the
current session is not part of the state; the read is guarded against a missing
session and a missing terminal. Returns the id of the new session. -/
def SessionStack.addSessionImpl (g : Statics) (st : SessionStack) (contentType : SessionContent)
    (type : SessionType) (env : Env) : Option (Statics × SessionStack × Int) :=
  match newSession g contentType type env with
  | none => none
  | some (g1, session) =>
    some (g1, { st with sessions := QHash.insert st.sessions session.sessionId session },
          session.sessionId)

/-- SessionStack::addTerminalSession. -/
def SessionStack.addTerminalSession (g : Statics) (st : SessionStack) (env : Env) :
    Option (Statics × SessionStack) :=
  (SessionStack.addSessionImpl g st SessionContent.TerminalType SessionType.Single env).map
    (fun r => (r.1, r.2.1))

/-- SessionStack::raiseSession. The focus it gives back to the session's focus
widget is taken to stay with the active leaf. For a browser session
`session->getBrowser(session->activeId())->urlBar()` dereferences a null
pointer when activeId is not a registered browser. -/
def SessionStack.raiseSession (st : SessionStack) (sessionId : Int) : Option SessionStack :=
  if sessionId = -1 || !QHash.contains st.sessions sessionId then some st
  else
    match QHash.value st.sessions sessionId with
    | none => none
    | some session =>
      match session.contentType with
      | SessionContent.BrowserType =>
        match getBrowser session session.activeId with
        | none => none
        | some _ => some { st with activeSessionId := sessionId }
      | SessionContent.TerminalType => some { st with activeSessionId := sessionId }

/-- SessionStack::cleanup, the slot connected to `Session::destroyed(int)`. -/
def SessionStack.cleanup (st : SessionStack) (sessionId : Int) : SessionStack :=
  { activeSessionId := if sessionId = st.activeSessionId then -1 else st.activeSessionId,
    sessions := QHash.remove st.sessions sessionId }

/-- The idiom `if (sessionId == -1) sessionId = m_activeSessionId;`. -/
def SessionStack.resolve (st : SessionStack) (sessionId : Int) : Int :=
  if sessionId = -1 then st.activeSessionId else sessionId

/-- SessionStack::queryClose. The first component tells whether the warning was
presented to the user, the second is the return value. `none`: the active leaf
whose `closable()` is read is not registered (null pointer). -/
def SessionStack.queryClose (st : SessionStack) (sessionId : Int) (type : QueryCloseType)
    (dlg : Dialog) : Option (Bool × Bool) :=
  if !QHash.contains st.sessions sessionId then some (false, false)
  else
    match QHash.value st.sessions sessionId with
    | none => none
    | some session =>
      match type with
      | QueryCloseType.QueryCloseSession =>
        let confirmQuit := dlg.confirmQuit
        let hasUnclosableSessions := !session.closable
        let count : Nat :=
          match session.contentType with
          | SessionContent.TerminalType => session.terminals.length
          | SessionContent.BrowserType => session.browsers.length
        if (confirmQuit && decide (count > 1)) || hasUnclosableSessions then
          some (true, !dlg.cancel)
        else some (false, true)
      | QueryCloseType.QueryCloseTerminal =>
        let confirmQuit := dlg.confirmQuit
        match session.contentType with
        | SessionContent.TerminalType =>
          match getTerminal session session.activeId with
          | none => none
          | some terminal =>
            if confirmQuit || !terminal.closable then some (true, !dlg.cancel)
            else some (false, true)
        | SessionContent.BrowserType =>
          if confirmQuit then some (true, !dlg.cancel) else some (false, true)
      | QueryCloseType.QueryCloseBrowser =>
        let confirmQuit := dlg.confirmQuit
        match session.contentType with
        | SessionContent.BrowserType =>
          match getBrowser session session.activeId with
          | none => none
          | some browser =>
            if confirmQuit || !browser.closable then some (true, !dlg.cancel)
            else some (false, true)
        | SessionContent.TerminalType =>
          if confirmQuit then some (true, !dlg.cancel) else some (false, true)

/-- The lines `m_sessions.remove(sessionId); ... delete session;` of
`removeSession`: `Session::~Session` emits `destroyed(id)`, which runs
`SessionStack::cleanup(id)`. -/
def SessionStack.deleteSession (st : SessionStack) (sessionId : Int) : SessionStack :=
  SessionStack.cleanup { st with sessions := QHash.remove st.sessions sessionId } sessionId

/-- SessionStack::removeSession. -/
def SessionStack.removeSession (g : Statics) (st : SessionStack) (sessionId : Int)
    (dlg : Dialog) (env : Env) : Option (Statics × SessionStack) :=
  if SessionStack.resolve st sessionId = -1 then some (g, st)
  else if !QHash.contains st.sessions (SessionStack.resolve st sessionId) then some (g, st)
  else
    match SessionStack.queryClose st (SessionStack.resolve st sessionId)
        QueryCloseType.QueryCloseSession dlg with
    | none => none
    | some q =>
      if q.2 then
        if (SessionStack.deleteSession st (SessionStack.resolve st sessionId)).sessions.isEmpty
        then
          SessionStack.addTerminalSession g
            (SessionStack.deleteSession st (SessionStack.resolve st sessionId)) env
        else some (g, SessionStack.deleteSession st (SessionStack.resolve st sessionId))
      else some (g, st)

/-- The session stored under `sessionId` after a call changed it to `session`. -/
def SessionStack.store (st : SessionStack) (sessionId : Int) (session : Session) : SessionStack :=
  { st with sessions := QHash.insert st.sessions sessionId session }

/-- SessionStack::removeContent. `m_sessions.value(sessionId)` is a null pointer
when no session is registered under `sessionId`; `->closable()` dereferences
it. -/
def SessionStack.removeContent (st : SessionStack) (contentId : Int) : Option SessionStack :=
  if contentId = -1 then
    if st.activeSessionId = -1 then some st
    else if !QHash.contains st.sessions st.activeSessionId then some st
    else
      match QHash.value st.sessions st.activeSessionId with
      | none => none
      | some session =>
        if session.closable then
          (closeSession session (-1)).map (SessionStack.store st st.activeSessionId)
        else some st
  else
    match QHash.value st.sessions (SessionStack.sessionIdForContentId st contentId) with
    | none => none
    | some session =>
      if session.closable then
        (closeSession session contentId).map
          (SessionStack.store st (SessionStack.sessionIdForContentId st contentId))
      else some st

/-- SessionStack::closeActive. -/
def SessionStack.closeActive (st : SessionStack) (sessionId : Int) (dlg : Dialog) :
    Option SessionStack :=
  if SessionStack.resolve st sessionId = -1 then some st
  else if !QHash.contains st.sessions (SessionStack.resolve st sessionId) then some st
  else
    match QHash.value st.sessions (SessionStack.resolve st sessionId) with
    | none => none
    | some session =>
      match session.contentType with
      | SessionContent.TerminalType =>
        match SessionStack.queryClose st (SessionStack.resolve st sessionId)
            QueryCloseType.QueryCloseTerminal dlg with
        | none => none
        | some q =>
          if q.2 then
            some (SessionStack.store st (SessionStack.resolve st sessionId)
              (closeTerminal session session.activeId))
          else some st
      | SessionContent.BrowserType =>
        match SessionStack.queryClose st (SessionStack.resolve st sessionId)
            QueryCloseType.QueryCloseBrowser dlg with
        | none => none
        | some q =>
          if q.2 then
            some (SessionStack.store st (SessionStack.resolve st sessionId)
              (closeBrowser session session.activeId))
          else some st

/-- SessionStack::setSessionClosable. -/
def SessionStack.setSessionClosable (st : SessionStack) (sessionId : Int) ( closable : Bool) :
    SessionStack :=
  if SessionStack.resolve st sessionId = -1 then st
  else if !QHash.contains st.sessions (SessionStack.resolve st sessionId) then st
  else
    match QHash.value st.sessions (SessionStack.resolve st sessionId) with
    | none => st
    | some session =>
      SessionStack.store st (SessionStack.resolve st sessionId)
        { session with closable := closable }

/-- The common shape of `splitSessionLeftRight`, `splitSessionTopBottom` and
`splitSessionAuto`, `f` being the slot of `Session` that is called without
argument (so with the default id `-1`). `m_sessions[sessionId]` inserts a null
pointer under a key that is not registered, and `session->contentType()`
dereferences it: the result is `none`. -/
def SessionStack.splitSessionWith
    (f : Statics → Session → Int → Env → Option (Statics × Session × Int))
    (g : Statics) (st : SessionStack) (sessionId : Int) (env : Env) :
    Option (Statics × SessionStack × Int) :=
  if SessionStack.resolve st sessionId = -1 then some (g, st, -1)
  else
    match QHash.value st.sessions (SessionStack.resolve st sessionId) with
    | none => none
    | some session =>
      (f g session (-1) env).map (fun r =>
        (r.1, SessionStack.store st (SessionStack.resolve st sessionId)
                r.2.1, r.2.2))

/-- SessionStack::splitSessionLeftRight. -/
def SessionStack.splitSessionLeftRight (g : Statics) (st : SessionStack) (sessionId : Int)
    (env : Env) : Option (Statics × SessionStack × Int) :=
  SessionStack.splitSessionWith splitLeftRight g st sessionId env

/-- SessionStack::splitSessionAuto. -/
def SessionStack.splitSessionAuto (g : Statics) (st : SessionStack) (sessionId : Int)
    (env : Env) : Option (Statics × SessionStack × Int) :=
  SessionStack.splitSessionWith splitAuto g st sessionId env

/-- SessionStack::splitSessionTopBottom. -/
def SessionStack.splitSessionTopBottom (g : Statics) (st : SessionStack) (sessionId : Int)
    (env : Env) : Option (Statics × SessionStack × Int) :=
  SessionStack.splitSessionWith splitTopBottom g st sessionId env

/-- The common shape of `splitContentLeftRight` and `splitContentTopBottom`. -/
def SessionStack.splitContentWith
    (f : Statics → Session → Int → Env → Option (Statics × Session × Int))
    (g : Statics) (st : SessionStack) (contentId : Int) (env : Env) :
    Option (Statics × SessionStack × Int) :=
  match findContent st.sessions contentId with
  | none => some (g, st, -1)
  | some e =>
    (f g e.2 contentId env).map (fun r => (r.1, SessionStack.store st e.1 r.2.1, r.2.2))

/-- SessionStack::splitContentLeftRight. -/
def SessionStack.splitContentLeftRight (g : Statics) (st : SessionStack) (contentId : Int)
    (env : Env) : Option (Statics × SessionStack × Int) :=
  SessionStack.splitContentWith splitLeftRight g st contentId env

/-- SessionStack::splitContentTopBottom. -/
def SessionStack.splitContentTopBottom (g : Statics) (st : SessionStack) (contentId : Int)
    (env : Env) : Option (Statics × SessionStack × Int) :=
  SessionStack.splitContentWith splitTopBottom g st contentId env

/-- SessionStack::tryGrowRight, tryGrowLeft, tryGrowTop and tryGrowBottom, which
pass Right, Left, Up and Down to `Session::tryGrow`. -/
def SessionStack.tryGrow (st : SessionStack) (direction : GrowthDirection) (id : Int)
    (pixels : Nat) (readBack : Int) : Option (SessionStack × Int) :=
  match findContent st.sessions id with
  | none => some (st, -1)
  | some e =>
    (Yakuake.tryGrow e.2 id direction pixels readBack).map
      (fun r => (SessionStack.store st e.1 r.1, r.2))

/-- An event a registered session receives by itself (a signal of one of its
leaves, a slot connected by `raiseSession`, the deferred deletion of its base
splitter). -/
def SessionStack.sessionEvent (g : Statics) (st : SessionStack) (sessionId : Int) (op : Op) :
    Option (Statics × SessionStack) :=
  match QHash.value st.sessions sessionId with
  | none => some (g, st)
  | some session =>
    (applyOp g session op).map (fun r => (r.1, SessionStack.store st sessionId r.2))

/-- The calls and events a `SessionStack` receives. -/
inductive StackOp where
  | addSessionImpl (contentType : SessionContent) (type : SessionType) (env : Env)
  | raiseSession (sessionId : Int)
  | removeSession (sessionId : Int) (dlg : Dialog) (env : Env)
  | removeContent (contentId : Int)
  | closeActive (sessionId : Int) (dlg : Dialog)
  | cleanup (sessionId : Int)
  | setSessionClosable (sessionId : Int) ( closable : Bool)
  | splitSessionLeftRight (sessionId : Int) (env : Env)
  | splitSessionTopBottom (sessionId : Int) (env : Env)
  | splitSessionAuto (sessionId : Int) (env : Env)
  | splitContentLeftRight (contentId : Int) (env : Env)
  | splitContentTopBottom (contentId : Int) (env : Env)
  | tryGrow (direction : GrowthDirection) (id : Int) (pixels : Nat) (readBack : Int)
  | sessionEvent (sessionId : Int) (op : Op)
  deriving DecidableEq, Repr

/-- The effect of one call or event on the stack. -/
def applyStackOp (g : Statics) (st : SessionStack) : StackOp → Option (Statics × SessionStack)
  | StackOp.addSessionImpl ct ty env =>
    (SessionStack.addSessionImpl g st ct ty env).map (fun r => (r.1, r.2.1))
  | StackOp.raiseSession id => (SessionStack.raiseSession st id).map (fun st1 => (g, st1))
  | StackOp.removeSession id dlg env => SessionStack.removeSession g st id dlg env
  | StackOp.removeContent id => (SessionStack.removeContent st id).map (fun st1 => (g, st1))
  | StackOp.closeActive id dlg => (SessionStack.closeActive st id dlg).map (fun st1 => (g, st1))
  | StackOp.cleanup id => some (g, SessionStack.cleanup st id)
  | StackOp.setSessionClosable id b => some (g, SessionStack.setSessionClosable st id b)
  | StackOp.splitSessionLeftRight id env =>
    (SessionStack.splitSessionLeftRight g st id env).map (fun r => (r.1, r.2.1))
  | StackOp.splitSessionTopBottom id env =>
    (SessionStack.splitSessionTopBottom g st id env).map (fun r => (r.1, r.2.1))
  | StackOp.splitSessionAuto id env =>
    (SessionStack.splitSessionAuto g st id env).map (fun r => (r.1, r.2.1))
  | StackOp.splitContentLeftRight id env =>
    (SessionStack.splitContentLeftRight g st id env).map (fun r => (r.1, r.2.1))
  | StackOp.splitContentTopBottom id env =>
    (SessionStack.splitContentTopBottom g st id env).map (fun r => (r.1, r.2.1))
  | StackOp.tryGrow d id px rb => (SessionStack.tryGrow st d id px rb).map (fun r => (g, r.1))
  | StackOp.sessionEvent id op => SessionStack.sessionEvent g st id op

/-- The states of a `SessionStack`: it is constructed without sessions (the
constructor does not initialise `m_activeSessionId`, which holds an arbitrary
value), with counters that have only ever been incremented from `0`, and then
receives calls and events. -/
inductive StackReachable : Statics → SessionStack → Prop where
  | init (g : Statics) (uninitialised : Int) :
      0 ≤ g.availableSessionId → 0 ≤ g.availableTerminalId → 0 ≤ g.availableBrowserId →
      StackReachable g { activeSessionId := uninitialised, sessions := [] }
  | step (g : Statics) (st : SessionStack) (op : StackOp) (g1 : Statics) (st1 : SessionStack) :
      StackReachable g st → applyStackOp g st op = some (g1, st1) → StackReachable g1 st1

/-- The states a stack goes through when it is constructed while
`m_activeSessionId`, which the constructor does not initialise, holds
`uninitialised`, and then receives the calls and events that `allowed` admits. -/
inductive StackReachableVia (allowed : StackOp → Prop) (uninitialised : Int) :
    Statics → SessionStack → Prop where
  | init (g : Statics) :
      0 ≤ g.availableSessionId → 0 ≤ g.availableTerminalId → 0 ≤ g.availableBrowserId →
      StackReachableVia allowed uninitialised g
        { activeSessionId := uninitialised, sessions := [] }
  | step (g : Statics) (st : SessionStack) (op : StackOp) (g1 : Statics) (st1 : SessionStack) :
      StackReachableVia allowed uninitialised g st → allowed op →
      applyStackOp g st op = some (g1, st1) → StackReachableVia allowed uninitialised g1 st1

/-- The calls of the session life cycle: `addSessionImpl`, `raiseSession`,
`removeSession` and the slot `cleanup`. -/
def lifecycle : StackOp → Prop
  | StackOp.addSessionImpl _ _ _ => True
  | StackOp.raiseSession _ => True
  | StackOp.removeSession _ _ _ => True
  | StackOp.cleanup _ => True
  | _ => False

/-- SessionStack::contentIdsForSessionId. -/
def SessionStack.contentIdsForSessionId (st : SessionStack) (sessionId : Int) : Option String :=
  if !QHash.contains st.sessions sessionId then some (qNumber (-1))
  else
    match QHash.value st.sessions sessionId with
    | some session => some (terminalIdList session)
    | none => none

/-! ## Auxiliary definitions -/

/-- The state `addLeaf` produces. -/
def afterAdd (kind : SessionContent) (g : Statics) (s : Session) (parent : Nat) (env : Env) : Session :=
  let id := g.available kind
  let leaf : Leaf := { splitter := parent, title := env.newTitle, contentWidget := env.partLoaded }
  let s1 := s.setRegistry kind (s.registry kind ++ [(id, leaf)])
  { s1 with
    splitters := addWidget s.splitters parent (Widget.part id)
    activeId := if env.partLoaded then id else s.activeId
    title := if env.partLoaded then env.newTitle else s.title }

/-- The arena after the single-child branch of `split`. -/
def singleArena (a : List Splitter) (sp : Nat) (o : Orientation) (newId : Int) (width : Int) :
    List Splitter :=
  setSizes (addWidget (setOrientation a sp o) sp (Widget.part newId)) sp
    [width.tdiv 2, width.tdiv 2]

/-- The arena after the nesting branch of `split`. -/
def nestArena (a : List Splitter) (sp : Nat) (p : Splitter) (o : Orientation) (id newId : Int)
    (second : Int) : List Splitter :=
  let created := a.length
  let a1 := newSplitter a o sp
  let a2 :=
    match a1[sp]? with
    | some q =>
      if indexOf q.widgets (Widget.part id) = 0 then
        insertWidgetFront a1 sp (Widget.splitter created)
      else a1
    | none => a1
  let a3 := setParent a2 (Widget.part id) created
  let a4 := addWidget a3 created (Widget.part newId)
  setSizes (setSizes a4 sp p.sizes) created [second.tdiv 2, second.tdiv 2]

/-- The parent's child list after the nesting branch of `split`. -/
def nestWidgets (ws : List Widget) (id : Int) (created : Nat) : List Widget :=
  (if indexOf (ws ++ [Widget.splitter created]) (Widget.part id) = 0 then
      Widget.splitter created :: (ws ++ [Widget.splitter created]).erase (Widget.splitter created)
    else ws ++ [Widget.splitter created]).erase (Widget.part id)

/-- The second arena has the same nodes as the first, each with the same parent,
a size list of the same length and a sub-list of the widgets that still holds
every widget satisfying `keep`. -/
def Shrinks (keep : Widget → Prop) (a b : List Splitter) : Prop :=
  b.length = a.length ∧
    ∀ (i : Nat) (q1 : Splitter), b[i]? = some q1 →
      ∃ q, a[i]? = some q ∧ q1.parent = q.parent ∧ q1.sizes.length = q.sizes.length
        ∧ q1.widgets.Sublist q.widgets ∧ ∀ w, keep w → w ∈ q.widgets → w ∈ q1.widgets

/-- The widget is the part widget of a leaf. -/
def isPart : Widget → Prop
  | Widget.part _ => True
  | Widget.splitter _ => False

/-- Two states with the same content type, maps and tree. -/
def SameTree (s s1 : Session) : Prop :=
  s1.contentType = s.contentType ∧ s1.terminals = s.terminals ∧ s1.browsers = s.browsers
    ∧ s1.splitters = s.splitters

/-- Counters of a fresh process. -/
def sampleStatics : Statics :=
  { availableSessionId := 0, availableTerminalId := 0, availableBrowserId := 0 }

/-- A 640x480 splitter, a loaded part. -/
def sampleEnv : Env :=
  { splitterWidth := 640, splitterHeight := 480, partWidth := 640, partHeight := 480,
    partLoaded := true, newTitle := "shell" }

/-- The same geometry when the part fails to load (no content widget). -/
def sampleEnvNoPart : Env :=
  { splitterWidth := 640, splitterHeight := 480, partWidth := 640, partHeight := 480,
    partLoaded := false, newTitle := "shell" }

/-- Run a list of events. -/
def runOps : Statics → Session → List Op → Option (Statics × Session)
  | g, s, [] => some (g, s)
  | g, s, op :: rest =>
    match applyOp g s op with
    | some (g1, s1) => runOps g1 s1 rest
    | none => none

/-- Construct a session in a fresh process and run a list of events. -/
def runFresh (contentType : SessionContent) (type : SessionType) (env : Env) (ops : List Op) :
    Option (Statics × Session) :=
  match newSession sampleStatics contentType type env with
  | some (g, s) => runOps g s ops
  | none => none

/-- A single terminal, as constructed. -/
def sampleSingle : Statics × Session :=
  ({ availableSessionId := 1, availableTerminalId := 1, availableBrowserId := 0 },
   { sessionId := 0, contentType := SessionContent.TerminalType, activeId := 0,
     terminals := [(0, { splitter := 0, title := "shell", contentWidget := true })],
     browsers := [], title := "shell", closable := true, baseSplitter := some 0,
     splitters := [{ orientation := Orientation.Horizontal, widgets := [Widget.part 0],
                     sizes := [100], parent := none, deleteLater := false }] })

namespace StdMap

/-- The keys are in strictly ascending order, as in a `std::map`. -/
def Sorted (m : List (Int × Leaf)) : Prop :=
  (keys m).Pairwise (fun a b => a < b)

/-- `k` is the least key greater than `a`. -/
def IsLeastAbove (m : List (Int × Leaf)) (a k : Int) : Prop :=
  k ∈ keys m ∧ a < k ∧ ∀ x ∈ keys m, a < x → k ≤ x

/-- `k` is the least key. -/
def IsLeast (m : List (Int × Leaf)) (k : Int) : Prop :=
  k ∈ keys m ∧ ∀ x ∈ keys m, k ≤ x

/-- `k` is the greatest key smaller than `a`. -/
def IsGreatestBelow (m : List (Int × Leaf)) (a k : Int) : Prop :=
  k ∈ keys m ∧ k < a ∧ ∀ x ∈ keys m, x < a → x ≤ k

/-- `k` is the greatest key. -/
def IsGreatest (m : List (Int × Leaf)) (k : Int) : Prop :=
  k ∈ keys m ∧ ∀ x ∈ keys m, x ≤ k

end StdMap

/-- Two terminals side by side, as constructed; leaf 0 is active. -/
def sampleTwo : Statics × Session :=
  ({ availableSessionId := 1, availableTerminalId := 2, availableBrowserId := 0 },
   { sessionId := 0, contentType := SessionContent.TerminalType, activeId := 0,
     terminals := [(0, { splitter := 0, title := "shell", contentWidget := true }),
                   (1, { splitter := 0, title := "shell", contentWidget := true })],
     browsers := [], title := "shell", closable := true, baseSplitter := some 0,
     splitters := [{ orientation := Orientation.Horizontal,
                     widgets := [Widget.part 0, Widget.part 1],
                     sizes := [320, 320], parent := none, deleteLater := false }] })

/-- Three terminals of which the middle one (id 1) has no content widget: a
single terminal is split while the part fails to load, the new leaf is split
again with the part loading, then leaf 0 is activated. -/
def sampleMixed : Statics × Session :=
  ({ availableSessionId := 1, availableTerminalId := 3, availableBrowserId := 0 },
   { sessionId := 0, contentType := SessionContent.TerminalType, activeId := 0,
     terminals := [(0, { splitter := 0, title := "shell", contentWidget := true }),
                   (1, { splitter := 1, title := "shell", contentWidget := false }),
                   (2, { splitter := 1, title := "shell", contentWidget := true })],
     browsers := [], title := "shell", closable := true, baseSplitter := some 0,
     splitters := [{ orientation := Orientation.Horizontal,
                     widgets := [Widget.part 0, Widget.splitter 1],
                     sizes := [320, 320], parent := none, deleteLater := false },
                   { orientation := Orientation.Horizontal,
                     widgets := [Widget.part 1, Widget.part 2],
                     sizes := [160, 160], parent := some 0, deleteLater := false }] })

/-- Two terminals without content widget (the terminal part is not installed):
a single terminal is constructed and split; leaf 1 is active. -/
def sampleNoPart : Statics × Session :=
  ({ availableSessionId := 1, availableTerminalId := 2, availableBrowserId := 0 },
   { sessionId := 0, contentType := SessionContent.TerminalType, activeId := 1,
     terminals := [(0, { splitter := 0, title := "shell", contentWidget := false }),
                   (1, { splitter := 0, title := "shell", contentWidget := false })],
     browsers := [], title := "shell", closable := true, baseSplitter := some 0,
     splitters := [{ orientation := Orientation.Horizontal,
                     widgets := [Widget.part 0, Widget.part 1],
                     sizes := [320, 320], parent := none, deleteLater := false }] })

/-- Construction with a part that loads. -/
def loadedInitial : SessionContent → SessionType → Env → Prop :=
  fun _ _ env => env.partLoaded = true

/-- The events other than `closeTerminal` and `closeBrowser`, with every new part
loading. -/
def focusKeeping : Op → Prop
  | Op.splitLeftRight _ env => env.partLoaded = true
  | Op.splitTopBottom _ env => env.partLoaded = true
  | Op.splitAuto _ env => env.partLoaded = true
  | Op.closeTerminal _ => False
  | Op.closeBrowser _ => False
  | _ => True

/-- Every leaf has a content widget, and activeId is -1, a registry key, or the
registry is empty. -/
def ActiveOk (s : Session) : Prop :=
  (∀ e ∈ s.leaves, e.2.contentWidget = true)
    ∧ (s.activeId = -1 ∨ StdMap.contains s.leaves s.activeId = true ∨ s.leaves = [])

/-- Two loaded terminals after `closeTerminal(0)` on the active leaf 0, which is
what `SessionStack::closeActive` calls. -/
def sampleLeafClosed : Statics × Session :=
  ({ availableSessionId := 1, availableTerminalId := 2, availableBrowserId := 0 },
   { sessionId := 0, contentType := SessionContent.TerminalType, activeId := 0,
     terminals := [(1, { splitter := 0, title := "shell", contentWidget := true })],
     browsers := [], title := "shell", closable := true, baseSplitter := some 0,
     splitters := [{ orientation := Orientation.Horizontal, widgets := [Widget.part 1],
                     sizes := [320, 320], parent := none, deleteLater := false }] })

/-- Two terminals without content widget after `closeSession()` on the active
leaf 1. -/
def sampleNoPartClosed : Statics × Session :=
  ({ availableSessionId := 1, availableTerminalId := 2, availableBrowserId := 0 },
   { sessionId := 0, contentType := SessionContent.TerminalType, activeId := 1,
     terminals := [(0, { splitter := 0, title := "shell", contentWidget := false })],
     browsers := [], title := "shell", closable := true, baseSplitter := some 0,
     splitters := [{ orientation := Orientation.Horizontal, widgets := [Widget.part 0],
                     sizes := [320, 320], parent := none, deleteLater := false }] })

/-- A single terminal after `closeSession()`: the registry is empty and the base
splitter is scheduled for deletion. -/
def sampleLastClosed : Statics × Session :=
  ({ availableSessionId := 1, availableTerminalId := 1, availableBrowserId := 0 },
   { sessionId := 0, contentType := SessionContent.TerminalType, activeId := 0,
     terminals := [], browsers := [], title := "shell", closable := true,
     baseSplitter := some 0,
     splitters := [{ orientation := Orientation.Horizontal, widgets := [],
                     sizes := [100], parent := none, deleteLater := true }] })

/-- A single loaded terminal is split, the focus moves on to leaf 0, and the
active leaf is closed with `closeSession()`. -/
def sampleSplitClosed : Statics × Session :=
  ({ availableSessionId := 1, availableTerminalId := 2, availableBrowserId := 0 },
   { sessionId := 0, contentType := SessionContent.TerminalType, activeId := 1,
     terminals := [(1, { splitter := 0, title := "shell", contentWidget := true })],
     browsers := [], title := "shell", closable := true, baseSplitter := some 0,
     splitters := [{ orientation := Orientation.Horizontal, widgets := [Widget.part 1],
                     sizes := [320, 320], parent := none, deleteLater := false }] })

/-- The orientation a growth direction runs along. -/
def axisOf : GrowthDirection → Orientation
  | GrowthDirection.Right => Orientation.Horizontal
  | GrowthDirection.Left => Orientation.Horizontal
  | GrowthDirection.Up => Orientation.Vertical
  | GrowthDirection.Down => Orientation.Vertical

/-- Right and Down point towards the following child, Left and Up towards the
preceding one. -/
def towardsNext : GrowthDirection → Bool
  | GrowthDirection.Right => true
  | GrowthDirection.Down => true
  | GrowthDirection.Left => false
  | GrowthDirection.Up => false

/-- `Ancestor a id sp child`: the node `sp` is an ancestor of the leaf `id` in the
arena `a`, and `child` is the widget of `sp` (the leaf's branch) through which
it holds the leaf. -/
inductive Ancestor (a : List Splitter) (id : Int) : Nat → Widget → Prop where
  | parent (sp : Nat) : parentWidget a (Widget.part id) = some sp →
      Ancestor a id sp (Widget.part id)
  | up (sp : Nat) (child : Widget) (n : Splitter) (p : Nat) : Ancestor a id sp child →
      a[sp]? = some n → n.parent = some p → Ancestor a id p (Widget.splitter sp)

/-- The widget stands in the list at a position with a neighbour in the given
direction. -/
def HasNeighbour (ws : List Widget) (child : Widget) (d : GrowthDirection) : Prop :=
  ∃ i, ws[i]? = some child ∧ (if towardsNext d then i + 1 < ws.length else 0 < i)

/-- The node `sp` is an ancestor of the leaf that has the orientation of the
direction's axis and holds the leaf's branch at a position with a neighbour in
that direction. -/
def Qualifies (a : List Splitter) (id : Int) (d : GrowthDirection) (sp : Nat) : Prop :=
  ∃ child n, Ancestor a id sp child ∧ a[sp]? = some n ∧ n.orientation = axisOf d
    ∧ HasNeighbour n.widgets child d

/-- `AncestorAt a id k sp child`: the node `sp` is the `k`-th node on the way up
from the leaf `id` in the arena `a` (its parent for `k = 0`), and `child` is the
widget of `sp` (the leaf's branch) through which it holds the leaf. -/
inductive AncestorAt (a : List Splitter) (id : Int) : Nat → Nat → Widget → Prop where
  | parent (sp : Nat) : parentWidget a (Widget.part id) = some sp →
      AncestorAt a id 0 sp (Widget.part id)
  | up (k sp : Nat) (child : Widget) (n : Splitter) (p : Nat) : AncestorAt a id k sp child →
      a[sp]? = some n → n.parent = some p → AncestorAt a id (k + 1) p (Widget.splitter sp)

/-- The node `sp` has the orientation of the direction's axis and holds `child`
at a position with a neighbour in that direction. -/
def QualifiesWith (a : List Splitter) (d : GrowthDirection) (sp : Nat) (child : Widget) : Prop :=
  ∃ n, a[sp]? = some n ∧ n.orientation = axisOf d ∧ HasNeighbour n.widgets child d

/-- The index next to `i` in the given direction. -/
def adjacentIndex (d : GrowthDirection) (i : Nat) : Nat :=
  if towardsNext d then i + 1 else i - 1

/-- The list `tryGrow` hands to `setSizes`: the branch's entry plus the pixel
count, the neighbour's entry minus the pixel count, both in 32-bit arithmetic. -/
def grownSizes (sizes : List Int) (d : GrowthDirection) (i : Nat) (old nb : Int) (px : Nat) :
    List Int :=
  (sizes.set i (wrap32 (old + (px : Int)))).set (adjacentIndex d i) (wrap32 (nb - (px : Int)))

/-- The leaf constructed under `env` in the splitter `sp`. -/
def freshLeaf (env : Env) (sp : Nat) : Leaf :=
  { splitter := sp, title := env.newTitle, contentWidget := env.partLoaded }

/-- The counters after one session and `n` terminals were constructed. -/
def afterTerminals (g : Statics) (n : Int) : Statics :=
  { availableSessionId := g.availableSessionId + 1,
    availableTerminalId := g.availableTerminalId + n,
    availableBrowserId := g.availableBrowserId }

/-- The counters after one session and one browser were constructed. -/
def afterBrowser (g : Statics) : Statics :=
  { availableSessionId := g.availableSessionId + 1,
    availableTerminalId := g.availableTerminalId,
    availableBrowserId := g.availableBrowserId + 1 }

/-- A node with two children and two equal size entries. -/
def pairNode (o : Orientation) (u v : Widget) (half : Int) (parent : Option Nat) : Splitter :=
  { orientation := o, widgets := [u, v], sizes := [half, half], parent := parent,
    deleteLater := false }

/-- Every node that has not been removed (`deleteLater` not called on it) has at
least one child. -/
def NoEmptyNode (a : List Splitter) : Prop :=
  ∀ (j : Nat) (n : Splitter), a[j]? = some n → n.deleteLater = false → n.widgets ≠ []

/-- The parent of a nested node has a smaller arena index. -/
def ParentLt (a : List Splitter) : Prop :=
  ∀ (j : Nat) (n : Splitter) (p : Nat), a[j]? = some n → n.parent = some p → p < j

/-- Every node that was not removed in `a` and is removed in `b` has been dropped
from the child list of its parent. -/
def DetachedSince (a b : List Splitter) : Prop :=
  ∀ (j : Nat) (n0 n : Splitter) (p : Nat) (q : Splitter),
    a[j]? = some n0 → n0.deleteLater = false → b[j]? = some n → n.deleteLater = true →
    n.parent = some p → b[p]? = some q → Widget.splitter j ∉ q.widgets

/-- Every child list is free of duplicates. -/
def NodupLists (a : List Splitter) : Prop :=
  ∀ (j : Nat) (n : Splitter), a[j]? = some n → n.widgets.Nodup

/-- The state `s1` left by a close operation on `s`: no node that has not been
removed is without children, a further run of `cleanup()` changes nothing, and
every nested node (any node but the base splitter) removed by the operation has
been dropped from the child list of its parent. -/
def Cleaned (s s1 : Session) : Prop :=
  NoEmptyNode s1.splitters ∧ cleanup s1 = s1
    ∧ ∀ (j : Nat) (n0 n : Splitter) (p : Nat) (q : Splitter), some j ≠ s.baseSplitter →
        s.splitters[j]? = some n0 → n0.deleteLater = false → s1.splitters[j]? = some n →
        n.deleteLater = true → n.parent = some p → s1.splitters[p]? = some q →
        Widget.splitter j ∉ q.widgets

/-- No counter has gone down. -/
def Advances (g g1 : Statics) : Prop :=
  g.availableSessionId ≤ g1.availableSessionId ∧ g.availableTerminalId ≤ g1.availableTerminalId
    ∧ g.availableBrowserId ≤ g1.availableBrowserId

/-- What a step of one session means for the stack: the session keeps its
content type, and every key of its registry is an old key or a value the
counter of its kind had not reached before. -/
def SessionStep (g : Statics) (s : Session) (g1 : Statics) (s1 : Session) : Prop :=
  Advances g g1 ∧ s1.contentType = s.contentType
    ∧ ∀ k ∈ StdMap.keys s1.leaves, k ∈ StdMap.keys s.leaves ∨ g.available s.contentType ≤ k

/-- The invariant of the stack: the registry has no key twice, every key is a
session id already handed out, every registered session is well formed, and two
registered sessions of the same content type have no leaf id in common. -/
structure StackWF (g : Statics) (st : SessionStack) : Prop where
  nodup : (QHash.keys st.sessions).Nodup
  counters : 0 ≤ g.availableSessionId ∧ 0 ≤ g.availableTerminalId ∧ 0 ≤ g.availableBrowserId
  ids : ∀ e ∈ st.sessions, 0 ≤ e.1 ∧ e.1 < g.availableSessionId
  wf : ∀ e ∈ st.sessions, WF g e.2
  disjoint : ∀ e1 ∈ st.sessions, ∀ e2 ∈ st.sessions, e1.1 ≠ e2.1 →
    e1.2.contentType = e2.2.contentType →
    ∀ c, c ∈ StdMap.keys e1.2.leaves → c ∉ StdMap.keys e2.2.leaves

/-- The session has the content id in the registry of its content type. -/
def hasContent (s : Session) (contentId : Int) : Bool :=
  StdMap.contains s.leaves contentId

/-- The slot of `Session` called by a split method of the stack keeps the session
well formed and is a step of that session. -/
def GoodSplit (f : Statics → Session → Int → Env → Option (Statics × Session × Int)) : Prop :=
  ∀ (g : Statics) (s : Session) (id : Int) (env : Env) (g1 : Statics) (s1 : Session) (r : Int),
    WF g s → f g s id env = some (g1, s1, r) → WF g1 s1 ∧ SessionStep g s g1 s1

/-- Run a list of calls and events on a stack. -/
def runStackOps : Statics → SessionStack → List StackOp → Option (Statics × SessionStack)
  | g, st, [] => some (g, st)
  | g, st, op :: rest =>
    match applyStackOp g st op with
    | some (g1, st1) => runStackOps g1 st1 rest
    | none => none

/-- A stack as constructed, in a process whose `m_activeSessionId` happens to
hold `-1`. -/
def sampleStackEmpty : SessionStack :=
  { activeSessionId := -1, sessions := [] }

/-- A browser session with one browser, constructed after `sampleSingle`. -/
def sampleBrowserSession : Session :=
  { sessionId := 1, contentType := SessionContent.BrowserType, activeId := 0,
    terminals := [], browsers := [(0, { splitter := 0, title := "shell", contentWidget := true })],
    title := "shell", closable := true, baseSplitter := some 0,
    splitters := [{ orientation := Orientation.Horizontal, widgets := [Widget.part 0],
                    sizes := [100], parent := none, deleteLater := false }] }

/-- A stack with one single-terminal session. -/
def sampleStackOne : Statics × SessionStack :=
  (sampleSingle.1, { activeSessionId := -1, sessions := [(0, sampleSingle.2)] })

/-- A stack with a terminal session and a browser session. -/
def sampleStackMixed : Statics × SessionStack :=
  ({ availableSessionId := 2, availableTerminalId := 1, availableBrowserId := 1 },
   { activeSessionId := -1, sessions := [(0, sampleSingle.2), (1, sampleBrowserSession)] })

/-- A second single-terminal session, constructed after `sampleSingle`. -/
def sampleSecondSession : Session :=
  { sessionId := 1, contentType := SessionContent.TerminalType, activeId := 1,
    terminals := [(1, { splitter := 0, title := "shell", contentWidget := true })],
    browsers := [], title := "shell", closable := true, baseSplitter := some 0,
    splitters := [{ orientation := Orientation.Horizontal, widgets := [Widget.part 1],
                    sizes := [100], parent := none, deleteLater := false }] }

/-- A stack with two single-terminal sessions. -/
def sampleStackTwo : Statics × SessionStack :=
  ({ availableSessionId := 2, availableTerminalId := 2, availableBrowserId := 0 },
   { activeSessionId := -1, sessions := [(0, sampleSingle.2), (1, sampleSecondSession)] })

/-- The stack after the only session of `sampleStackOne` was removed. -/
def sampleStackReplaced : Statics × SessionStack :=
  ({ availableSessionId := 2, availableTerminalId := 2, availableBrowserId := 0 },
   { activeSessionId := -1, sessions := [(1, sampleSecondSession)] })

/-- Settings without quit confirmation, and a user who would not cancel. -/
def sampleDialog : Dialog :=
  { confirmQuit := false, cancel := false }

/-- The active session id is the value the constructor left, or `-1`, or the key
of a registered session. -/
def ActiveKnown (uninitialised : Int) (st : SessionStack) : Prop :=
  st.activeSessionId = uninitialised ∨ st.activeSessionId = -1
    ∨ QHash.contains st.sessions st.activeSessionId = true

/-- Two terminal sessions are added, session 1 is raised and then removed. -/
def sampleLifecycleOps : List StackOp :=
  [StackOp.addSessionImpl SessionContent.TerminalType SessionType.Single sampleEnv,
   StackOp.addSessionImpl SessionContent.TerminalType SessionType.Single sampleEnv,
   StackOp.raiseSession 1,
   StackOp.removeSession 1 sampleDialog sampleEnv]

/-- The stack after `sampleLifecycleOps`. -/
def sampleStackOrphaned : Statics × SessionStack :=
  ({ availableSessionId := 2, availableTerminalId := 2, availableBrowserId := 0 },
   { activeSessionId := -1, sessions := [(0, sampleSingle.2)] })

/-- Settings with quit confirmation, and a user who would not cancel. -/
def sampleDialogConfirm : Dialog :=
  { confirmQuit := true, cancel := false }

/-- Settings with quit confirmation, and a user who cancels. -/
def sampleDialogCancel : Dialog :=
  { confirmQuit := true, cancel := true }

/-- The session `sampleSecondSession` marked non-closable. -/
def sampleLockedSession : Session :=
  { sampleSecondSession with closable := false }

/-- The stack `sampleStackTwo` after `setSessionClosable(1, false)`. -/
def sampleStackLocked : Statics × SessionStack :=
  (sampleStackTwo.1, SessionStack.setSessionClosable sampleStackTwo.2 1 false)

/-- The spec's reading of splitAuto: a leaf wider than tall is split left/right,
a leaf taller than wide is split top/bottom. The spec does not say what happens
to a square leaf; `square` is the orientation used there. -/
def splitAutoSpec (square : Orientation) (g : Statics) (s : Session) (id : Int) (env : Env) :
    Option (Statics × Session × Int) :=
  if env.partWidth > env.partHeight then splitLeftRight g s id env
  else if env.partHeight > env.partWidth then splitTopBottom g s id env
  else splitWith square g s id env

/-- A stack with one session of two terminals side by side. -/
def sampleStackPair : Statics × SessionStack :=
  (sampleTwo.1, { activeSessionId := -1, sessions := [(0, sampleTwo.2)] })

/-! ## Theorems -/

namespace StdMap

theorem contains_iff (m : List (Int × Leaf)) (id : Int) :
    contains m id = true ↔ id ∈ keys m := by
  simp only [contains, keys, List.any_eq_true, List.mem_map, beq_iff_eq]

theorem find_eq_none_iff (m : List (Int × Leaf)) (id : Int) :
    find m id = none ↔ id ∉ keys m := by
  induction m with
  | nil => simp [find, keys]
  | cons e rest ih =>
    by_cases h : e.1 = id
    · simp [find, keys, h]
    · have h' : ¬ id = e.1 := fun h2 => h h2.symm
      simpa [find, keys, h, h'] using ih

theorem find_some_mem (m : List (Int × Leaf)) (id : Int) (leaf : Leaf)
    (h : find m id = some leaf) : (id, leaf) ∈ m := by
  induction m with
  | nil => simp [find] at h
  | cons e rest ih =>
    by_cases h1 : e.1 = id
    · simp [find, h1] at h
      subst h; subst h1
      simp
    · simp [find, h1] at h
      exact List.mem_cons_of_mem _ (ih h)

theorem find_of_mem (m : List (Int × Leaf)) (e : Int × Leaf) (h : e ∈ m) :
    ∃ leaf, find m e.1 = some leaf := by
  cases hf : find m e.1 with
  | some leaf => exact ⟨leaf, rfl⟩
  | none =>
    exfalso
    exact (find_eq_none_iff m e.1).1 hf (List.mem_map.2 ⟨e, h, rfl⟩)

theorem find_of_contains (m : List (Int × Leaf)) (id : Int) (h : contains m id = true) :
    ∃ leaf, find m id = some leaf := by
  cases hf : find m id with
  | some leaf => exact ⟨leaf, rfl⟩
  | none => exact absurd ((contains_iff m id).1 h) ((find_eq_none_iff m id).1 hf)

theorem insert_of_gt (m : List (Int × Leaf)) (id : Int) (leaf : Leaf)
    (h : ∀ k ∈ keys m, k < id) : insert m id leaf = m ++ [(id, leaf)] := by
  induction m with
  | nil => rfl
  | cons e rest ih =>
    have h1 : e.1 < id := h e.1 (by simp [keys])
    have h2 : ¬ id < e.1 := not_lt.2 (le_of_lt h1)
    have h3 : ¬ id = e.1 := fun h4 => by omega
    have h5 : ∀ k ∈ keys rest, k < id := fun k hk => h k (by
      simp only [keys, List.map_cons, List.mem_cons]
      exact Or.inr hk)
    simp [insert, h2, h3, ih h5]

theorem keys_update (m : List (Int × Leaf)) (id : Int) (f : Leaf → Leaf) :
    keys (update m id f) = keys m := by
  induction m with
  | nil => rfl
  | cons e rest ih =>
    simp only [update, keys, List.map_cons] at ih ⊢
    rw [ih]
    by_cases h : e.1 = id <;> simp [h]

theorem keys_erase (m : List (Int × Leaf)) (id : Int) :
    keys (erase m id) = (keys m).filter (fun k => k != id) := by
  induction m with
  | nil => rfl
  | cons e rest ih =>
    simp only [erase, keys] at ih ⊢
    by_cases h : e.1 = id
    · simp [List.filter_cons, h, ih]
    · simp [List.filter_cons, h, ih]

theorem mem_update (m : List (Int × Leaf)) (id : Int) (f : Leaf → Leaf) (e : Int × Leaf)
    (h : e ∈ update m id f) :
    (e ∈ m ∧ e.1 ≠ id) ∨ ∃ l, (id, l) ∈ m ∧ e = (id, f l) := by
  simp only [update, List.mem_map] at h
  obtain ⟨e0, he0, rfl⟩ := h
  by_cases h1 : e0.1 = id
  · right
    refine ⟨e0.2, ?_, by simp [h1]⟩
    rw [← h1]
    exact he0
  · left
    simpa [h1] using he0

theorem find_append_self (m : List (Int × Leaf)) (id : Int) (leaf : Leaf)
    (h : id ∉ keys m) : find (m ++ [(id, leaf)]) id = some leaf := by
  induction m with
  | nil => simp [find]
  | cons e rest ih =>
    have h1 : ¬ e.1 = id := fun h2 => h (by simp [keys, h2.symm])
    have h3 : id ∉ keys rest := fun h2 => h (by
      simp only [keys, List.map_cons, List.mem_cons]
      exact Or.inr h2)
    simp [find, h1, ih h3]

end StdMap

theorem updateAt_of_some (a : List Splitter) (i : Nat) (f : Splitter → Splitter) (n : Splitter)
    (h : a[i]? = some n) : updateAt a i f = a.set i (f n) := by
  simp [updateAt, h]

theorem length_updateAt (a : List Splitter) (i : Nat) (f : Splitter → Splitter) :
    (updateAt a i f).length = a.length := by
  unfold updateAt
  cases a[i]? <;> simp

theorem getElem?_updateAt (a : List Splitter) (i j : Nat) (f : Splitter → Splitter) :
    (updateAt a i f)[j]? = if i = j then (a[j]?).map f else a[j]? := by
  unfold updateAt
  cases h : a[i]? with
  | none =>
    by_cases hij : i = j
    · subst hij
      simp [h]
    · simp [hij]
  | some n =>
    by_cases hij : i = j
    · subst hij
      have hlt : i < a.length := by
        rcases List.getElem?_eq_some.1 h with ⟨hlt, _⟩
        exact hlt
      simp [List.getElem?_set_self hlt, h]
    · simp [List.getElem?_set_ne hij, hij]

theorem getElem?_removeWidget (a : List Splitter) (w : Widget) (j : Nat) :
    (removeWidget a w)[j]? = (a[j]?).map (fun n => { n with widgets := n.widgets.erase w }) := by
  simp [removeWidget, List.getElem?_map]

theorem length_removeWidget (a : List Splitter) (w : Widget) :
    (removeWidget a w).length = a.length := by
  simp [removeWidget]

@[simp]
theorem setRegistry_splitters (s : Session) (k : SessionContent) (m : List (Int × Leaf)) :
    (s.setRegistry k m).splitters = s.splitters := by
  cases k <;> rfl

@[simp]
theorem setRegistry_activeId (s : Session) (k : SessionContent) (m : List (Int × Leaf)) :
    (s.setRegistry k m).activeId = s.activeId := by
  cases k <;> rfl

@[simp]
theorem setRegistry_contentType (s : Session) (k : SessionContent) (m : List (Int × Leaf)) :
    (s.setRegistry k m).contentType = s.contentType := by
  cases k <;> rfl

@[simp]
theorem setRegistry_title (s : Session) (k : SessionContent) (m : List (Int × Leaf)) :
    (s.setRegistry k m).title = s.title := by
  cases k <;> rfl

@[simp]
theorem setRegistry_baseSplitter (s : Session) (k : SessionContent) (m : List (Int × Leaf)) :
    (s.setRegistry k m).baseSplitter = s.baseSplitter := by
  cases k <;> rfl

@[simp]
theorem setRegistry_registry_same (s : Session) (k : SessionContent) (m : List (Int × Leaf)) :
    (s.setRegistry k m).registry k = m := by
  cases k <;> rfl

theorem setRegistry_registry_other (s : Session) (k k2 : SessionContent) (m : List (Int × Leaf))
    (h : k2 ≠ k) : (s.setRegistry k m).registry k2 = s.registry k2 := by
  cases k <;> cases k2 <;> first | rfl | exact absurd rfl h

theorem addLeaf_eq (kind : SessionContent) (g : Statics) (s : Session) (parent : Nat) (env : Env)
    (hk : kind = s.contentType) (hfresh : ∀ k ∈ StdMap.keys (s.registry kind), k < g.available kind) :
    addLeaf kind g s parent env = some (g.bump kind, afterAdd kind g s parent env, g.available kind) := by
  have hnot : g.available kind ∉ StdMap.keys (s.registry kind) := fun h => by
    have := hfresh _ h
    omega
  unfold addLeaf afterAdd requestFocus setActiveId
  simp only [StdMap.insert_of_gt _ _ _ hfresh]
  cases hl : env.partLoaded
  · simp
  · cases kind
    · simp only [Session.registry] at hnot
      simp [Session.leaves, Session.registry, Session.setRegistry, ← hk,
        StdMap.find_append_self _ _ _ hnot, setTitle]
    · simp only [Session.registry] at hnot
      simp [Session.leaves, Session.registry, Session.setRegistry, ← hk,
        StdMap.find_append_self _ _ _ hnot, setTitle]

theorem split_single (kind : SessionContent) (g : Statics) (s : Session) (id : Int) (leaf : Leaf)
    (o : Orientation) (env : Env) (p : Splitter)
    (hk : kind = s.contentType)
    (hfresh : ∀ k ∈ StdMap.keys (s.registry kind), k < g.available kind)
    (hp : s.splitters[leaf.splitter]? = some p) (hone : p.widgets.length = 1) :
    ∃ s1, split kind g s id leaf o env = some (g.bump kind, s1, g.available kind)
      ∧ s1.splitters = singleArena s.splitters leaf.splitter o (g.available kind) env.splitterWidth
      ∧ s1.registry kind = s.registry kind ++ [(g.available kind,
          { splitter := leaf.splitter, title := env.newTitle, contentWidget := env.partLoaded })]
      ∧ (∀ k2, k2 ≠ kind → s1.registry k2 = s.registry k2)
      ∧ s1.activeId = g.available kind
      ∧ s1.title = (if env.partLoaded then env.newTitle else s.title)
      ∧ s1.contentType = s.contentType ∧ s1.baseSplitter = s.baseSplitter
      ∧ s1.sessionId = s.sessionId ∧ s1.closable = s.closable := by
  have h1 := addLeaf_eq kind g { s with splitters := setOrientation s.splitters leaf.splitter o }
    leaf.splitter env hk (by cases kind <;> exact hfresh)
  unfold split
  simp only [hp, hone, if_true, h1]
  refine ⟨_, rfl, ?_, ?_, ?_, rfl, ?_, ?_, ?_, ?_, ?_⟩
  · simp [afterAdd, singleArena]
  · cases kind <;> simp [afterAdd, Session.registry, Session.setRegistry]
  · intro k2 hk2
    cases kind <;> cases k2 <;> simp [afterAdd, Session.registry, Session.setRegistry] at hk2 ⊢
  · simp [afterAdd]
  · cases kind <;> simp [afterAdd, Session.setRegistry]
  · cases kind <;> simp [afterAdd, Session.setRegistry]
  · cases kind <;> simp [afterAdd, Session.setRegistry]
  · cases kind <;> simp [afterAdd, Session.setRegistry]

theorem split_nest (kind : SessionContent) (g : Statics) (s : Session) (id : Int) (leaf : Leaf)
    (o : Orientation) (env : Env) (p : Splitter) (second : Int)
    (hk : kind = s.contentType)
    (hfresh : ∀ k ∈ StdMap.keys (s.registry kind), k < g.available kind)
    (hp : s.splitters[leaf.splitter]? = some p) (hmany : p.widgets.length ≠ 1)
    (hsecond : p.sizes[1]? = some second) :
    ∃ s1, split kind g s id leaf o env = some (g.bump kind, s1, g.available kind)
      ∧ s1.splitters = nestArena s.splitters leaf.splitter p o id (g.available kind) second
      ∧ s1.registry kind =
          StdMap.update (s.registry kind) id (fun l => { l with splitter := s.splitters.length })
            ++ [(g.available kind, { splitter := s.splitters.length, title := env.newTitle,
                                     contentWidget := env.partLoaded })]
      ∧ (∀ k2, k2 ≠ kind → s1.registry k2 = s.registry k2)
      ∧ s1.activeId = g.available kind
      ∧ s1.title = (if env.partLoaded then env.newTitle else s.title)
      ∧ s1.contentType = s.contentType ∧ s1.baseSplitter = s.baseSplitter
      ∧ s1.sessionId = s.sessionId ∧ s1.closable = s.closable := by
  unfold split
  simp only [hp, hmany, if_false]
  rw [addLeaf_eq kind g _ _ env (by simpa using hk) (by
      intro k hkk
      rw [setRegistry_registry_same, StdMap.keys_update] at hkk
      exact hfresh k hkk)]
  simp only [hsecond]
  refine ⟨_, rfl, ?_, ?_, ?_, rfl, ?_, ?_, ?_, ?_, ?_⟩
  · simp [afterAdd, nestArena]
  · cases kind <;> simp [afterAdd, Session.registry, Session.setRegistry]
  · intro k2 hk2
    cases kind <;> cases k2 <;> simp [afterAdd, Session.registry, Session.setRegistry] at hk2 ⊢
  · simp [afterAdd]
  · cases kind <;> simp [afterAdd, Session.setRegistry]
  · cases kind <;> simp [afterAdd, Session.setRegistry]
  · cases kind <;> simp [afterAdd, Session.setRegistry]
  · cases kind <;> simp [afterAdd, Session.setRegistry]

theorem getElem?_singleArena (a : List Splitter) (sp : Nat) (o : Orientation) (newId width : Int)
    (j : Nat) :
    (singleArena a sp o newId width)[j]? =
      if sp = j then (a[j]?).map (fun p =>
        { orientation := o, widgets := p.widgets ++ [Widget.part newId],
          sizes := [width.tdiv 2, width.tdiv 2], parent := p.parent, deleteLater := p.deleteLater })
      else a[j]? := by
  unfold singleArena setSizes addWidget setOrientation
  simp only [getElem?_updateAt]
  by_cases h : sp = j
  · subst h
    cases a[sp]? <;> simp
  · simp [h]

theorem length_singleArena (a : List Splitter) (sp : Nat) (o : Orientation) (newId width : Int) :
    (singleArena a sp o newId width).length = a.length := by
  simp [singleArena, setSizes, addWidget, setOrientation, length_updateAt]

theorem length_nestArena (a : List Splitter) (sp : Nat) (p : Splitter) (o : Orientation)
    (id newId second : Int) :
    (nestArena a sp p o id newId second).length = a.length + 1 := by
  unfold nestArena setSizes addWidget setParent newSplitter
  simp only [length_updateAt, length_removeWidget]
  split
  · split
    · simp [insertWidgetFront, addWidget, length_updateAt, length_removeWidget]
    · simp [addWidget, length_updateAt, length_removeWidget]
  · simp [addWidget, length_updateAt, length_removeWidget]

theorem getElem?_nestArena (a : List Splitter) (sp : Nat) (p : Splitter) (o : Orientation)
    (id newId second : Int) (hp : a[sp]? = some p) (j : Nat) :
    (nestArena a sp p o id newId second)[j]? =
      if j = a.length then
        some { orientation := o, widgets := [Widget.part id, Widget.part newId],
               sizes := [second.tdiv 2, second.tdiv 2], parent := some sp, deleteLater := false }
      else if j = sp then
        some { p with widgets := nestWidgets p.widgets id a.length }
      else (a[j]?).map (fun n => { n with widgets := n.widgets.erase (Widget.part id) }) := by
  have hlt : sp < a.length := (List.getElem?_eq_some.1 hp).1
  have hne : sp ≠ a.length := by omega
  have ha1 : (newSplitter a o sp)[sp]? =
      some { p with widgets := p.widgets ++ [Widget.splitter a.length] } := by
    simp [newSplitter, addWidget, getElem?_updateAt, List.getElem?_append_left hlt, hp]
  unfold nestArena
  simp only [ha1]
  by_cases h0 : indexOf (p.widgets ++ [Widget.splitter a.length]) (Widget.part id) = 0
  · simp only [h0, if_true]
    simp only [setSizes, addWidget, setParent, insertWidgetFront, newSplitter, getElem?_updateAt,
      getElem?_removeWidget]
    by_cases hj : j = a.length
    · subst hj
      simp [hne, hne.symm]
    · by_cases hj2 : j = sp
      · subst hj2
        simp [hne, hne.symm, List.getElem?_append_left hlt, hp, nestWidgets, h0]
      · have hj3 : ¬ sp = j := fun h => hj2 h.symm
        have hj4 : ¬ a.length = j := fun h => hj h.symm
        by_cases hjl : j < a.length
        · simp [hj, hj2, hj3, hj4, List.getElem?_append_left hjl]
        · have hn1 : a[j]? = none := List.getElem?_eq_none (by omega)
          have hn2 : ∀ x : Splitter, (a ++ [x])[j]? = none := fun x =>
            List.getElem?_eq_none (by simp; omega)
          simp [hj, hj2, hj3, hj4, hn1, hn2]
  · simp only [h0, if_false]
    simp only [setSizes, addWidget, setParent, newSplitter, getElem?_updateAt,
      getElem?_removeWidget]
    by_cases hj : j = a.length
    · subst hj
      simp [hne, hne.symm]
    · by_cases hj2 : j = sp
      · subst hj2
        simp [hne, hne.symm, List.getElem?_append_left hlt, hp, nestWidgets, h0]
      · have hj3 : ¬ sp = j := fun h => hj2 h.symm
        have hj4 : ¬ a.length = j := fun h => hj h.symm
        by_cases hjl : j < a.length
        · simp [hj, hj2, hj3, hj4, List.getElem?_append_left hjl]
        · have hn1 : a[j]? = none := List.getElem?_eq_none (by omega)
          have hn2 : ∀ x : Splitter, (a ++ [x])[j]? = none := fun x =>
            List.getElem?_eq_none (by simp; omega)
          simp [hj, hj2, hj3, hj4, hn1, hn2]

theorem indexOf_eq_zero_iff (ws : List Widget) (w : Widget) :
    indexOf ws w = 0 ↔ ∃ rest, ws = w :: rest := by
  cases ws with
  | nil => simp [indexOf]
  | cons u rest =>
    by_cases h : u = w
    · simp [indexOf, h]
    · have h2 : ¬ w = u := fun h3 => h h3.symm
      simp only [indexOf, h, if_false, List.cons.injEq, exists_eq_right', h2, false_and,
        exists_false, iff_false]
      split <;> omega

theorem indexOf_nonneg_or (ws : List Widget) (w : Widget) :
    indexOf ws w = -1 ∨ 0 ≤ indexOf ws w := by
  induction ws with
  | nil => simp [indexOf]
  | cons u rest ih =>
    unfold indexOf
    split
    · right; omega
    · split
      · left; rfl
      · right; omega

theorem nestWidgets_two (u v : Widget) (id : Int) (created : Nat)
    (hmem : Widget.part id ∈ [u, v]) (hnew : Widget.splitter created ∉ [u, v]) :
    ∃ i, [u, v][i]? = some (Widget.part id)
      ∧ nestWidgets [u, v] id created = [u, v].set i (Widget.splitter created)
      ∧ ((i = 0 ∧ u = Widget.part id) ∨ (i = 1 ∧ v = Widget.part id)) := by
  have hu : u ≠ Widget.splitter created := fun h => hnew (by simp [h])
  have hv : v ≠ Widget.splitter created := fun h => hnew (by simp [h])
  by_cases h1 : u = Widget.part id
  · refine ⟨0, by simp [h1], ?_, Or.inl ⟨rfl, h1⟩⟩
    subst h1
    simp [nestWidgets, indexOf, List.erase_cons, hv]
  · have h2 : v = Widget.part id := by
      simp only [List.mem_cons, List.mem_singleton, List.not_mem_nil, or_false] at hmem
      rcases hmem with h | h
      · exact absurd h.symm h1
      · exact h.symm
    refine ⟨1, by simp [h2], ?_, Or.inr ⟨rfl, h2⟩⟩
    subst h2
    have h3 : ¬ Widget.part id = u := fun h => h1 h.symm
    simp [nestWidgets, indexOf, List.erase_cons, h1, h3]

theorem available_bump (g : Statics) (k : SessionContent) :
    (g.bump k).available k = g.available k + 1 := by
  cases k <;> rfl

theorem counters_bump (g : Statics) (k : SessionContent)
    (h : 0 ≤ g.availableTerminalId ∧ 0 ≤ g.availableBrowserId) :
    0 ≤ (g.bump k).availableTerminalId ∧ 0 ≤ (g.bump k).availableBrowserId := by
  cases k <;> simp only [Statics.bump] <;> omega

theorem available_nonneg (g : Statics) (k : SessionContent)
    (h : 0 ≤ g.availableTerminalId ∧ 0 ≤ g.availableBrowserId) : 0 ≤ g.available k := by
  cases k <;> simp only [Statics.available] <;> omega

theorem leaves_eq (s s1 : Session) (hc : s1.contentType = s.contentType) :
    s1.leaves = s1.registry s.contentType := by
  simp [Session.leaves, hc]

/-- The registry side of the invariant after a leaf with the next id was appended. -/
theorem wf_registry_append (g : Statics) (s s1 : Session) (m : List (Int × Leaf)) (leaf : Leaf)
    (hwf : WF g s) (hkeys : StdMap.keys m = StdMap.keys s.leaves)
    (hc : s1.contentType = s.contentType)
    (hr : s1.registry s.contentType = m ++ [(g.available s.contentType, leaf)])
    (ho : ∀ k2, k2 ≠ s.contentType → s1.registry k2 = s.registry k2) :
    (StdMap.keys s1.leaves).Pairwise (fun a b => a < b)
      ∧ (∀ k ∈ StdMap.keys s1.leaves, 0 ≤ k ∧ k < (g.bump s.contentType).available s1.contentType)
      ∧ (s1.contentType = SessionContent.BrowserType → s1.terminals = [])
      ∧ (s1.contentType = SessionContent.TerminalType → s1.browsers = []) := by
  have hl : StdMap.keys s1.leaves = StdMap.keys s.leaves ++ [g.available s.contentType] := by
    rw [leaves_eq s s1 hc, hr]
    simp only [StdMap.keys, List.map_append, List.map_cons, List.map_nil] at hkeys ⊢
    rw [hkeys]
  refine ⟨?_, ?_, ?_, ?_⟩
  · rw [hl, List.pairwise_append]
    refine ⟨hwf.sorted, by simp, ?_⟩
    intro a ha b hb
    simp only [List.mem_singleton] at hb
    subst hb
    exact (hwf.fresh a ha).2
  · intro k hk
    rw [hl, List.mem_append] at hk
    rw [hc, available_bump]
    rcases hk with hk | hk
    · have := hwf.fresh k hk
      omega
    · simp only [List.mem_singleton] at hk
      subst hk
      have := available_nonneg g s.contentType hwf.counters
      omega
  · intro h
    rw [hc] at h
    have h1 := ho SessionContent.TerminalType (by rw [h]; decide)
    simp only [Session.registry] at h1
    rw [h1]
    exact hwf.otherTerminals h
  · intro h
    rw [hc] at h
    have h1 := ho SessionContent.BrowserType (by rw [h]; decide)
    simp only [Session.registry] at h1
    rw [h1]
    exact hwf.otherBrowsers h

theorem wf_split_single (g : Statics) (s s1 : Session) (_id : Int) (leaf newLeaf : Leaf)
    (o : Orientation) (width : Int) (p : Splitter)
    (hwf : WF g s) (hp : s.splitters[leaf.splitter]? = some p) (hone : p.widgets.length = 1)
    (hnew : newLeaf.splitter = leaf.splitter)
    (hs : s1.splitters = singleArena s.splitters leaf.splitter o (g.available s.contentType) width)
    (hr : s1.registry s.contentType = s.leaves ++ [(g.available s.contentType, newLeaf)])
    (ho : ∀ k2, k2 ≠ s.contentType → s1.registry k2 = s.registry k2)
    (hc : s1.contentType = s.contentType) :
    WF (g.bump s.contentType) s1 := by
  obtain ⟨h1, h2, h3, h4⟩ := wf_registry_append g s s1 s.leaves newLeaf hwf rfl hc hr ho
  have hget := getElem?_singleArena s.splitters leaf.splitter o (g.available s.contentType) width
  have hNfresh : ∀ (j : Nat) (q : Splitter), s.splitters[j]? = some q →
      Widget.part (g.available s.contentType) ∉ q.widgets := fun j q hq hmem => by
    have := hwf.partsFresh j q _ hq hmem
    omega
  have hold : ∀ (j : Nat) (n : Splitter), s1.splitters[j]? = some n →
      ∃ q, s.splitters[j]? = some q ∧ ∀ w ∈ n.widgets,
        w ∈ q.widgets ∨ (w = Widget.part (g.available s.contentType) ∧ j = leaf.splitter) := by
    intro j n hn
    rw [hs, hget] at hn
    by_cases hj : leaf.splitter = j
    · subst hj
      simp only [if_true, hp, Option.map_some', Option.some.injEq] at hn
      subst hn
      refine ⟨p, hp, fun w hw => ?_⟩
      simp only [List.mem_append, List.mem_singleton] at hw
      rcases hw with hw | hw
      · exact Or.inl hw
      · exact Or.inr ⟨hw, rfl⟩
    · rw [if_neg hj] at hn
      exact ⟨n, hn, fun w hw => Or.inl hw⟩
  refine ⟨h1, h2, counters_bump g _ hwf.counters, h3, h4, ?_, ?_, ?_, ?_, ?_, ?_, ?_, ?_⟩
  rotate_left 5
  · intro j n hn
    rw [hs, hget] at hn
    by_cases hj : leaf.splitter = j
    · subst hj
      simp only [if_true, hp, Option.map_some', Option.some.injEq] at hn
      subst hn
      rw [List.nodup_append]
      refine ⟨hwf.nodup _ p hp, by simp, ?_⟩
      intro w hw hw2
      simp only [List.mem_singleton] at hw2
      subst hw2
      exact hNfresh _ p hp hw
    · rw [if_neg hj] at hn
      exact hwf.nodup j n hn
  · intro i j n m w hn hm hw1 hw2
    obtain ⟨q, hq, hq1⟩ := hold i n hn
    obtain ⟨q2, hq2, hq3⟩ := hold j m hm
    rcases hq1 w hw1 with ha | ⟨ha, hi⟩
    · rcases hq3 w hw2 with hb | ⟨hb, _⟩
      · exact hwf.unique i j q q2 w hq hq2 ha hb
      · subst hb
        exact absurd ha (hNfresh i q hq)
    · rcases hq3 w hw2 with hb | ⟨_, hj⟩
      · subst ha
        exact absurd hb (hNfresh j q2 hq2)
      · rw [hi, hj]
  · intro j n k hn hk
    obtain ⟨q, hq, hq1⟩ := hold j n hn
    rw [hc, available_bump]
    rcases hq1 _ hk with ha | ⟨ha, _⟩
    · have := hwf.partsFresh j q k hq ha
      omega
    · cases ha
      omega
  · intro e he
    rw [leaves_eq s s1 hc, hr, List.mem_append] at he
    rw [hs, hget]
    rcases he with he | he
    · obtain ⟨n, hn, hmem⟩ := hwf.held e he
      by_cases hj : leaf.splitter = e.2.splitter
      · rw [if_pos hj, hn]
        exact ⟨_, rfl, by simp [hmem]⟩
      · rw [if_neg hj]
        exact ⟨n, hn, hmem⟩
    · simp only [List.mem_singleton] at he
      subst he
      simp only [hnew, if_true, hp, Option.map_some']
      exact ⟨_, rfl, by simp⟩
  · intro j n hn
    rw [hs, hget] at hn
    by_cases hj : leaf.splitter = j
    · subst hj
      simp only [if_true, hp, Option.map_some', Option.some.injEq] at hn
      subst hn
      simp [hone]
    · rw [if_neg hj] at hn
      exact hwf.atMostTwo j n hn
  · intro j n hn
    rw [hs, hget] at hn
    by_cases hj : leaf.splitter = j
    · subst hj
      simp only [if_true, hp, Option.map_some', Option.some.injEq] at hn
      subst hn
      simp
    · rw [if_neg hj] at hn
      exact hwf.sized j n hn
  · intro j n q hn hq
    rw [hs, hget] at hn
    by_cases hj : leaf.splitter = j
    · subst hj
      simp only [if_true, hp, Option.map_some', Option.some.injEq] at hn
      subst hn
      exact hwf.parentLt _ p q hp hq
    · rw [if_neg hj] at hn
      exact hwf.parentLt j n q hn hq
  · intro j n k hn hk
    rw [hs, length_singleArena]
    rw [hs, hget] at hn
    by_cases hj : leaf.splitter = j
    · subst hj
      simp only [if_true, hp, Option.map_some', Option.some.injEq] at hn
      subst hn
      simp only [List.mem_append, List.mem_singleton] at hk
      rcases hk with hk | hk
      · exact hwf.nestedLt _ p k hp hk
      · cases hk
    · rw [if_neg hj] at hn
      exact hwf.nestedLt j n k hn hk

theorem two_of_held (g : Statics) (s : Session) (id : Int) (leaf : Leaf) (p : Splitter)
    (hwf : WF g s) (hmem : (id, leaf) ∈ s.leaves)
    (hp : s.splitters[leaf.splitter]? = some p) (hmany : p.widgets.length ≠ 1) :
    Widget.part id ∈ p.widgets ∧ p.widgets.length = 2 ∧
      Widget.splitter s.splitters.length ∉ p.widgets ∧ ∃ second, p.sizes[1]? = some second := by
  obtain ⟨n, hn, hin⟩ := hwf.held (id, leaf) hmem
  simp only [hp, Option.some.injEq] at hn
  subst hn
  have hle := hwf.atMostTwo _ p hp
  have hpos : 0 < p.widgets.length := List.length_pos_of_mem hin
  have htwo : p.widgets.length = 2 := by omega
  refine ⟨hin, htwo, ?_, ?_⟩
  · intro h
    have := hwf.nestedLt _ p _ hp h
    omega
  · have hsz := hwf.sized _ p hp htwo
    exact ⟨p.sizes[1], List.getElem?_eq_getElem (by omega)⟩

theorem wf_split_nest (g : Statics) (s s1 : Session) (id : Int) (leaf newLeaf : Leaf)
    (o : Orientation) (second : Int) (p : Splitter)
    (hwf : WF g s) (hmem : (id, leaf) ∈ s.leaves)
    (hp : s.splitters[leaf.splitter]? = some p) (hmany : p.widgets.length ≠ 1)
    (hnew : newLeaf.splitter = s.splitters.length)
    (hs : s1.splitters = nestArena s.splitters leaf.splitter p o id (g.available s.contentType) second)
    (hr : s1.registry s.contentType =
      StdMap.update s.leaves id (fun l => { l with splitter := s.splitters.length })
        ++ [(g.available s.contentType, newLeaf)])
    (ho : ∀ k2, k2 ≠ s.contentType → s1.registry k2 = s.registry k2)
    (hc : s1.contentType = s.contentType) :
    WF (g.bump s.contentType) s1 := by
  obtain ⟨h1, h2, h3, h4⟩ := wf_registry_append g s s1 _ newLeaf hwf
    (StdMap.keys_update s.leaves id _) hc hr ho
  have hget := getElem?_nestArena s.splitters leaf.splitter p o id (g.available s.contentType)
    second hp
  obtain ⟨hin, htwo, hfreshNode, _⟩ := two_of_held g s id leaf p hwf hmem hp hmany
  obtain ⟨u, v, huv⟩ := List.length_eq_two.1 htwo
  have hlt : leaf.splitter < s.splitters.length := (List.getElem?_eq_some.1 hp).1
  obtain ⟨i, hi, hW, hcase⟩ :=
    nestWidgets_two u v id s.splitters.length (huv ▸ hin) (huv ▸ hfreshNode)
  rw [← huv] at hW hi
  have hNfresh : ∀ (j : Nat) (q : Splitter), s.splitters[j]? = some q →
      Widget.part (g.available s.contentType) ∉ q.widgets := fun j q hq hmem => by
    have := hwf.partsFresh j q _ hq hmem
    omega
  have hidlt : id < g.available s.contentType :=
    (hwf.fresh id (List.mem_map.2 ⟨(id, leaf), hmem, rfl⟩)).2
  have hpnd : [u, v].Nodup := huv ▸ hwf.nodup _ p hp
  have hset : ∀ w ∈ p.widgets.set i (Widget.splitter s.splitters.length),
      (w ∈ p.widgets ∧ w ≠ Widget.part id) ∨ w = Widget.splitter s.splitters.length := by
    intro w hw
    rw [huv] at hw ⊢
    simp only [List.nodup_cons, List.mem_singleton, List.not_mem_nil, not_false_eq_true,
      List.nodup_nil, and_true] at hpnd
    rcases hcase with ⟨h0, hu⟩ | ⟨h0, hv⟩
    · subst h0
      subst hu
      simp only [List.set_cons_zero, List.mem_cons, List.mem_singleton, List.not_mem_nil,
        or_false] at hw ⊢
      rcases hw with hw | hw
      · exact Or.inr hw
      · subst hw
        exact Or.inl ⟨Or.inr rfl, fun h => hpnd h.symm⟩
    · subst h0
      subst hv
      simp only [List.set_cons_succ, List.set_cons_zero, List.mem_cons, List.mem_singleton,
        List.not_mem_nil, or_false] at hw ⊢
      rcases hw with hw | hw
      · subst hw
        exact Or.inl ⟨Or.inl rfl, hpnd⟩
      · exact Or.inr hw
  have hold : ∀ (j : Nat) (n : Splitter), s1.splitters[j]? = some n →
      (j = s.splitters.length ∧
        n.widgets = [Widget.part id, Widget.part (g.available s.contentType)]) ∨
      (j ≠ s.splitters.length ∧ ∃ q, s.splitters[j]? = some q ∧ ∀ w ∈ n.widgets,
        (w ∈ q.widgets ∧ w ≠ Widget.part id)
          ∨ (w = Widget.splitter s.splitters.length ∧ j = leaf.splitter)) := by
    intro j n hn
    rw [hs, hget] at hn
    by_cases hj : j = s.splitters.length
    · rw [if_pos hj] at hn
      cases hn
      exact Or.inl ⟨hj, rfl⟩
    · rw [if_neg hj] at hn
      right
      refine ⟨hj, ?_⟩
      by_cases hj2 : j = leaf.splitter
      · rw [if_pos hj2] at hn
        cases hn
        refine ⟨p, hj2 ▸ hp, fun w hw => ?_⟩
        simp only [hW] at hw
        rcases hset w hw with h | h
        · exact Or.inl h
        · exact Or.inr ⟨h, hj2⟩
      · rw [if_neg hj2] at hn
        cases hq : s.splitters[j]? with
        | none => simp [hq] at hn
        | some q =>
          simp only [hq, Option.map_some', Option.some.injEq] at hn
          subst hn
          refine ⟨q, rfl, fun w hw => Or.inl ?_⟩
          have := (List.Nodup.mem_erase_iff (hwf.nodup j q hq)).1 hw
          exact ⟨this.2, this.1⟩
  refine ⟨h1, h2, counters_bump g _ hwf.counters, h3, h4, ?_, ?_, ?_, ?_, ?_, ?_, ?_, ?_⟩
  rotate_left 5
  · intro j n hn
    rw [hs, hget] at hn
    by_cases hj : j = s.splitters.length
    · rw [if_pos hj] at hn
      cases hn
      have : id ≠ g.available s.contentType := by omega
      simp [this]
    · rw [if_neg hj] at hn
      by_cases hj2 : j = leaf.splitter
      · rw [if_pos hj2] at hn
        cases hn
        simp only [hW]
        rw [huv]
        simp only [List.nodup_cons, List.mem_singleton, List.not_mem_nil, not_false_eq_true,
          List.nodup_nil, and_true] at hpnd
        have hu : u ≠ Widget.splitter s.splitters.length := fun h =>
          hfreshNode (by rw [huv, h]; simp)
        have hv : v ≠ Widget.splitter s.splitters.length := fun h =>
          hfreshNode (by rw [huv, h]; simp)
        rcases hcase with ⟨h0, _⟩ | ⟨h0, _⟩
        · subst h0
          simp [Ne.symm hv]
        · subst h0
          simp [hu]
      · rw [if_neg hj2] at hn
        cases hq : s.splitters[j]? with
        | none => simp [hq] at hn
        | some q =>
          simp only [hq, Option.map_some', Option.some.injEq] at hn
          subst hn
          exact (hwf.nodup j q hq).erase _
  · intro i j n m w hn hm hw1 hw2
    rcases hold i n hn with ⟨hi1, hn1⟩ | ⟨hi1, q, hq, hq1⟩
    · rcases hold j m hm with ⟨hj1, _⟩ | ⟨_, q2, hq2, hq3⟩
      · rw [hi1, hj1]
      · exfalso
        rw [hn1] at hw1
        simp only [List.mem_cons, List.mem_singleton, List.not_mem_nil, or_false] at hw1
        rcases hq3 w hw2 with ⟨hb, hne⟩ | ⟨hb, _⟩
        · rcases hw1 with hw1 | hw1
          · exact hne hw1
          · subst hw1
            exact hNfresh j q2 hq2 hb
        · rcases hw1 with hw1 | hw1 <;> rw [hw1] at hb <;> cases hb
    · rcases hold j m hm with ⟨_, hm1⟩ | ⟨_, q2, hq2, hq3⟩
      · exfalso
        rw [hm1] at hw2
        simp only [List.mem_cons, List.mem_singleton, List.not_mem_nil, or_false] at hw2
        rcases hq1 w hw1 with ⟨hb, hne⟩ | ⟨hb, _⟩
        · rcases hw2 with hw2 | hw2
          · exact hne hw2
          · subst hw2
            exact hNfresh i q hq hb
        · rcases hw2 with hw2 | hw2 <;> rw [hw2] at hb <;> cases hb
      · rcases hq1 w hw1 with ⟨ha, _⟩ | ⟨ha, hi2⟩
        · rcases hq3 w hw2 with ⟨hb, _⟩ | ⟨hb, _⟩
          · exact hwf.unique i j q q2 w hq hq2 ha hb
          · exfalso
            subst hb
            have := hwf.nestedLt i q _ hq ha
            omega
        · rcases hq3 w hw2 with ⟨hb, _⟩ | ⟨_, hj2⟩
          · exfalso
            subst ha
            have := hwf.nestedLt j q2 _ hq2 hb
            omega
          · rw [hi2, hj2]
  · intro j n k hn hk
    rw [hc, available_bump]
    rcases hold j n hn with ⟨_, hn1⟩ | ⟨_, q, hq, hq1⟩
    · rw [hn1] at hk
      simp only [List.mem_cons, List.mem_singleton, List.not_mem_nil, or_false,
        Widget.part.injEq] at hk
      omega
    · rcases hq1 _ hk with ⟨ha, _⟩ | ⟨ha, _⟩
      · have := hwf.partsFresh j q k hq ha
        omega
      · cases ha
  · intro e he
    rw [leaves_eq s s1 hc, hr, List.mem_append] at he
    rw [hs, hget]
    rcases he with he | he
    · rcases StdMap.mem_update _ _ _ _ he with ⟨hold, hne⟩ | ⟨l, _, rfl⟩
      · obtain ⟨n, hn, hmemn⟩ := hwf.held e hold
        have hlt2 : e.2.splitter < s.splitters.length := (List.getElem?_eq_some.1 hn).1
        have hne2 : Widget.part e.1 ≠ Widget.part id := fun h => hne (by cases h; rfl)
        rw [if_neg (by omega)]
        by_cases hj : e.2.splitter = leaf.splitter
        · rw [if_pos hj]
          rw [hj, hp] at hn
          simp only [Option.some.injEq] at hn
          subst hn
          refine ⟨_, rfl, ?_⟩
          simp only [hW]
          rcases List.mem_iff_getElem?.1 hmemn with ⟨i2, hi2⟩
          have hii : i2 ≠ i := fun h => hne2 (by rw [h, hi] at hi2; cases hi2; rfl)
          exact List.mem_iff_getElem?.2 ⟨i2, by rw [List.getElem?_set_ne (Ne.symm hii)]; exact hi2⟩
        · rw [if_neg hj, hn]
          exact ⟨_, rfl, (List.mem_erase_of_ne hne2).2 hmemn⟩
      · simp
    · simp only [List.mem_singleton] at he
      subst he
      simp [hnew]
  · intro j n hn
    rw [hs, hget] at hn
    by_cases hj : j = s.splitters.length
    · rw [if_pos hj] at hn
      cases hn
      simp
    · rw [if_neg hj] at hn
      by_cases hj2 : j = leaf.splitter
      · rw [if_pos hj2] at hn
        cases hn
        simp [hW, htwo]
      · rw [if_neg hj2] at hn
        cases hq : s.splitters[j]? with
        | none => simp [hq] at hn
        | some q =>
          simp only [hq, Option.map_some', Option.some.injEq] at hn
          subst hn
          exact le_trans (List.length_erase_le _ _) (hwf.atMostTwo j q hq)
  · intro j n hn hlen
    rw [hs, hget] at hn
    by_cases hj : j = s.splitters.length
    · rw [if_pos hj] at hn
      cases hn
      simp
    · rw [if_neg hj] at hn
      by_cases hj2 : j = leaf.splitter
      · rw [if_pos hj2] at hn
        cases hn
        exact hwf.sized _ p hp htwo
      · rw [if_neg hj2] at hn
        cases hq : s.splitters[j]? with
        | none => simp [hq] at hn
        | some q =>
          simp only [hq, Option.map_some', Option.some.injEq] at hn
          subst hn
          have h5 := List.length_erase_le (Widget.part id) q.widgets
          have h6 := hwf.atMostTwo j q hq
          exact hwf.sized j q hq (by simp only at hlen; omega)
  · intro j n k hn hk
    rw [hs, hget] at hn
    by_cases hj : j = s.splitters.length
    · rw [if_pos hj] at hn
      cases hn
      simp only [Option.some.injEq] at hk
      omega
    · rw [if_neg hj] at hn
      by_cases hj2 : j = leaf.splitter
      · rw [if_pos hj2] at hn
        cases hn
        exact hj2 ▸ hwf.parentLt _ p k hp hk
      · rw [if_neg hj2] at hn
        cases hq : s.splitters[j]? with
        | none => simp [hq] at hn
        | some q =>
          simp only [hq, Option.map_some', Option.some.injEq] at hn
          subst hn
          exact hwf.parentLt j q k hq hk
  · intro j n k hn hk
    rw [hs, length_nestArena]
    rw [hs, hget] at hn
    by_cases hj : j = s.splitters.length
    · rw [if_pos hj] at hn
      cases hn
      simp at hk
    · rw [if_neg hj] at hn
      by_cases hj2 : j = leaf.splitter
      · rw [if_pos hj2] at hn
        cases hn
        simp only [hW] at hk
        rcases List.mem_or_eq_of_mem_set hk with hk | hk
        · have := hwf.nestedLt _ p k hp hk
          omega
        · cases hk
          omega
      · rw [if_neg hj2] at hn
        cases hq : s.splitters[j]? with
        | none => simp [hq] at hn
        | some q =>
          simp only [hq, Option.map_some', Option.some.injEq] at hn
          subst hn
          have := hwf.nestedLt j q k hq (List.mem_of_mem_erase hk)
          omega

theorem update_id (m : List (Int × Leaf)) (id : Int) : StdMap.update m id (fun l => l) = m := by
  induction m with
  | nil => rfl
  | cons e rest ih =>
    simp only [StdMap.update, List.map_cons] at ih ⊢
    rw [ih]
    by_cases h : e.1 = id
    · subst h
      simp
    · simp [h]

/-- What `split` does on a well-formed state, whichever branch it takes. -/
theorem split_ok (g : Statics) (s : Session) (id : Int) (leaf : Leaf) (o : Orientation) (env : Env)
    (hwf : WF g s) (hfind : StdMap.find s.leaves id = some leaf) :
    ∃ s1 f newLeaf,
      split s.contentType g s id leaf o env
          = some (g.bump s.contentType, s1, g.available s.contentType)
      ∧ WF (g.bump s.contentType) s1
      ∧ s1.leaves = StdMap.update s.leaves id f ++ [(g.available s.contentType, newLeaf)]
      ∧ (∀ l, (f l).contentWidget = l.contentWidget ∧ (f l).title = l.title)
      ∧ newLeaf.contentWidget = env.partLoaded
      ∧ s1.activeId = g.available s.contentType
      ∧ s1.contentType = s.contentType := by
  have hmem := StdMap.find_some_mem _ _ _ hfind
  obtain ⟨p, hp, _⟩ := hwf.held _ hmem
  have hfresh : ∀ k ∈ StdMap.keys (s.registry s.contentType), k < g.available s.contentType :=
    fun k hk => (hwf.fresh k hk).2
  by_cases hone : p.widgets.length = 1
  · obtain ⟨s1, h1, h2, h3, h4, h5, _, h7, _⟩ :=
      split_single s.contentType g s id leaf o env p rfl hfresh hp hone
    refine ⟨s1, fun l => l,
      { splitter := leaf.splitter, title := env.newTitle, contentWidget := env.partLoaded },
      h1, ?_, ?_, fun l => ⟨rfl, rfl⟩, rfl, h5, h7⟩
    · exact wf_split_single g s s1 id leaf
        { splitter := leaf.splitter, title := env.newTitle, contentWidget := env.partLoaded }
        o env.splitterWidth p hwf hp hone rfl h2 h3 h4 h7
    · rw [leaves_eq s s1 h7, h3, update_id]
      rfl
  · obtain ⟨_, _, _, second, hsecond⟩ := two_of_held g s id leaf p hwf hmem hp hone
    obtain ⟨s1, h1, h2, h3, h4, h5, _, h7, _⟩ :=
      split_nest s.contentType g s id leaf o env p second rfl hfresh hp hone hsecond
    refine ⟨s1, fun l => { l with splitter := s.splitters.length },
      { splitter := s.splitters.length, title := env.newTitle, contentWidget := env.partLoaded },
      h1, ?_, ?_, fun l => ⟨rfl, rfl⟩, rfl, h5, h7⟩
    · exact wf_split_nest g s s1 id leaf
        { splitter := s.splitters.length, title := env.newTitle, contentWidget := env.partLoaded }
        o second p hwf hmem hp hone rfl h2 h3 h4 h7
    · rw [leaves_eq s s1 h7, h3]
      rfl

theorem splitWith_ok (o : Orientation) (g : Statics) (s : Session) (id : Int) (env : Env)
    (hwf : WF g s) (hreg : StdMap.contains s.leaves (resolve s id) = true) :
    ∃ leaf, StdMap.find s.leaves (resolve s id) = some leaf
      ∧ splitWith o g s id env = split s.contentType g s (resolve s id) leaf o env := by
  obtain ⟨leaf, hleaf⟩ := StdMap.find_of_contains _ _ hreg
  have hk := (hwf.fresh _ ((StdMap.contains_iff _ _).1 hreg)).1
  have hne : ¬ resolve s id = -1 := by omega
  refine ⟨leaf, hleaf, ?_⟩
  unfold splitWith
  simp only [hne, if_false, hreg, Bool.not_true, hleaf]
  simp

theorem splitAuto_eq (g : Statics) (s : Session) (id : Int) (env : Env) :
    splitAuto g s id env =
      if env.partWidth > env.partHeight then splitLeftRight g s id env
      else splitTopBottom g s id env := by
  unfold splitAuto splitLeftRight splitTopBottom splitWith
  by_cases h : env.partWidth > env.partHeight
  · simp only [h, if_true]
  · simp only [h, if_false]

theorem splitWith_fail (o : Orientation) (g : Statics) (s : Session) (id : Int) (env : Env)
    (hreg : ¬ StdMap.contains s.leaves (resolve s id) = true) :
    splitWith o g s id env = some (g, s, -1) := by
  unfold splitWith
  by_cases h1 : resolve s id = -1
  · simp only [h1, if_true]
  · simp only [h1, if_false, hreg]
    simp

theorem shrinks_refl (keep : Widget → Prop) (a : List Splitter) : Shrinks keep a a :=
  ⟨rfl, fun _ q1 h => ⟨q1, h, rfl, rfl, List.Sublist.refl _, fun _ _ hw => hw⟩⟩

theorem shrinks_trans (keep : Widget → Prop) (a b c : List Splitter)
    (h1 : Shrinks keep a b) (h2 : Shrinks keep b c) : Shrinks keep a c := by
  refine ⟨h2.1.trans h1.1, ?_⟩
  intro i q2 hq2
  obtain ⟨q1, hq1, hp1, hs1, hw1, hk1⟩ := h2.2 i q2 hq2
  obtain ⟨q, hq, hp, hs, hw, hk⟩ := h1.2 i q1 hq1
  exact ⟨q, hq, hp1.trans hp, hs1.trans hs, hw1.trans hw, fun w hkw hmem => hk1 w hkw (hk w hkw hmem)⟩

theorem shrinks_mono (keep keep2 : Widget → Prop) (a b : List Splitter)
    (h : ∀ w, keep2 w → keep w) (h1 : Shrinks keep a b) : Shrinks keep2 a b := by
  refine ⟨h1.1, ?_⟩
  intro i q1 hq1
  obtain ⟨q, hq, hp, hs, hw, hk⟩ := h1.2 i q1 hq1
  exact ⟨q, hq, hp, hs, hw, fun w hkw hmem => hk w (h w hkw) hmem⟩

theorem shrinks_updateAt (keep : Widget → Prop) (a : List Splitter) (i : Nat)
    (f : Splitter → Splitter)
    (hf : ∀ q, a[i]? = some q → (f q).parent = q.parent ∧ (f q).sizes.length = q.sizes.length
      ∧ (f q).widgets.Sublist q.widgets ∧ ∀ w, keep w → w ∈ q.widgets → w ∈ (f q).widgets) :
    Shrinks keep a (updateAt a i f) := by
  refine ⟨length_updateAt a i f, ?_⟩
  intro j q1 hq1
  rw [getElem?_updateAt] at hq1
  by_cases hij : i = j
  · rw [if_pos hij] at hq1
    cases hq : a[j]? with
    | none => simp [hq] at hq1
    | some q =>
      simp only [hq, Option.map_some', Option.some.injEq] at hq1
      subst hq1
      exact ⟨q, rfl, hf q (hij ▸ hq)⟩
  · rw [if_neg hij] at hq1
    exact ⟨q1, hq1, rfl, rfl, List.Sublist.refl _, fun _ _ hw => hw⟩

theorem shrinks_removeWidget (a : List Splitter) (w : Widget) :
    Shrinks (fun x => x ≠ w) a (removeWidget a w) := by
  refine ⟨length_removeWidget a w, ?_⟩
  intro j q1 hq1
  rw [getElem?_removeWidget] at hq1
  cases hq : a[j]? with
  | none => simp [hq] at hq1
  | some q =>
    simp only [hq, Option.map_some', Option.some.injEq] at hq1
    subst hq1
    exact ⟨q, rfl, rfl, rfl, List.erase_sublist _ _, fun x hx hmem => (List.mem_erase_of_ne hx).2 hmem⟩

theorem shrinks_pruneIfEmpty (a : List Splitter) (j : Nat) : Shrinks isPart a (pruneIfEmpty a j) := by
  unfold pruneIfEmpty
  cases hn : a[j]? with
  | none => exact shrinks_refl _ _
  | some n =>
    simp only
    split
    · have h1 : Shrinks isPart a (a.set j { n with deleteLater := true }) := by
        rw [← updateAt_of_some a j (fun q => { q with deleteLater := true }) n hn]
        exact shrinks_updateAt _ _ _ _ (fun q _ =>
          ⟨rfl, rfl, List.Sublist.refl _, fun _ _ hw => hw⟩)
      split
      · refine shrinks_trans _ _ _ _ h1 (shrinks_updateAt _ _ _ _ (fun q _ =>
          ⟨rfl, rfl, List.erase_sublist _ _, fun x hx hmem => ?_⟩))
        refine (List.mem_erase_of_ne ?_).2 hmem
        intro h
        subst h
        exact hx
      · exact h1
    · exact shrinks_refl _ _

theorem shrinks_pruneDown (j : Nat) (a : List Splitter) : Shrinks isPart a (pruneDown j a) := by
  induction j generalizing a with
  | zero => exact shrinks_pruneIfEmpty a 0
  | succ j ih =>
    exact shrinks_trans _ _ _ _ (shrinks_pruneIfEmpty a (j + 1)) (ih _)

theorem shrinks_recursiveCleanup (a : List Splitter) : Shrinks isPart a (recursiveCleanup a) :=
  shrinks_pruneDown _ a

/-- The invariant survives when the tree shrinks and the registry loses entries. -/
theorem wf_of_shrinks (keep : Widget → Prop) (g : Statics) (s s1 : Session) (hwf : WF g s)
    (hc : s1.contentType = s.contentType)
    (ha : Shrinks keep s.splitters s1.splitters)
    (hsub : ∀ e ∈ s1.leaves, ∃ e0 ∈ s.leaves,
      e0.1 = e.1 ∧ e0.2.splitter = e.2.splitter ∧ keep (Widget.part e.1))
    (hkeys : (StdMap.keys s1.leaves).Sublist (StdMap.keys s.leaves))
    (ht : s.terminals = [] → s1.terminals = [])
    (hb : s.browsers = [] → s1.browsers = []) : WF g s1 := by
  refine ⟨List.Pairwise.sublist hkeys hwf.sorted, ?_, hwf.counters, ?_, ?_, ?_, ?_, ?_, ?_, ?_,
    ?_, ?_, ?_⟩
  · intro k hk
    rw [hc]
    exact hwf.fresh k (hkeys.subset hk)
  · intro h
    exact ht (hwf.otherTerminals (hc ▸ h))
  · intro h
    exact hb (hwf.otherBrowsers (hc ▸ h))
  · intro e he
    obtain ⟨e0, hold, hid, hsp, hkeep⟩ := hsub e he
    obtain ⟨n, hn, hmem⟩ := hwf.held e0 hold
    rw [hid] at hmem
    rw [hsp] at hn
    have hlt : e.2.splitter < s1.splitters.length := by
      rw [ha.1]
      exact (List.getElem?_eq_some.1 hn).1
    obtain ⟨q, hq, _, _, _, hk⟩ := ha.2 _ _ (List.getElem?_eq_getElem hlt)
    rw [hn] at hq
    cases hq
    exact ⟨_, List.getElem?_eq_getElem hlt, hk _ hkeep hmem⟩
  · intro j n hn
    obtain ⟨q, hq, _, _, hw, _⟩ := ha.2 j n hn
    exact le_trans hw.length_le (hwf.atMostTwo j q hq)
  · intro j n hn hlen
    obtain ⟨q, hq, _, hs, hw, _⟩ := ha.2 j n hn
    have h1 := hw.length_le
    have h2 := hwf.atMostTwo j q hq
    rw [hs]
    exact hwf.sized j q hq (by omega)
  · intro j n p hn hp
    obtain ⟨q, hq, hpar, _, _, _⟩ := ha.2 j n hn
    exact hwf.parentLt j q p hq (hpar ▸ hp)
  · intro j n k hn hk
    obtain ⟨q, hq, _, _, hw, _⟩ := ha.2 j n hn
    rw [ha.1]
    exact hwf.nestedLt j q k hq (hw.subset hk)
  · intro j n hn
    obtain ⟨q, hq, _, _, hw, _⟩ := ha.2 j n hn
    exact (hwf.nodup j q hq).sublist hw
  · intro i j n m w hn hm h1 h2
    obtain ⟨q, hq, _, _, hw, _⟩ := ha.2 i n hn
    obtain ⟨q2, hq2, _, _, hw2, _⟩ := ha.2 j m hm
    exact hwf.unique i j q q2 w hq hq2 (hw.subset h1) (hw2.subset h2)
  · intro j n k hn hk
    obtain ⟨q, hq, _, _, hw, _⟩ := ha.2 j n hn
    rw [hc]
    exact hwf.partsFresh j q k hq (hw.subset hk)

theorem sameTree_refl (s : Session) : SameTree s s := ⟨rfl, rfl, rfl, rfl⟩

theorem sameTree_leaves (s s1 : Session) (h : SameTree s s1) : s1.leaves = s.leaves := by
  obtain ⟨hc, ht, hb, _⟩ := h
  unfold Session.leaves Session.registry
  rw [hc]
  cases s.contentType
  · exact ht
  · exact hb

theorem wf_sameTree (g : Statics) (s s1 : Session) (h : SameTree s s1) (hwf : WF g s) :
    WF g s1 := by
  have hl := sameTree_leaves s s1 h
  obtain ⟨hc, ht, hb, hs⟩ := h
  refine ⟨hl ▸ hwf.sorted, ?_, hwf.counters, ?_, ?_, ?_, ?_, ?_, ?_, ?_, ?_, ?_, ?_⟩
  · rw [hl, hc]
    exact hwf.fresh
  · rw [hc, ht]
    exact hwf.otherTerminals
  · rw [hc, hb]
    exact hwf.otherBrowsers
  · rw [hl, hs]
    exact hwf.held
  · rw [hs]
    exact hwf.atMostTwo
  · rw [hs]
    exact hwf.sized
  · rw [hs]
    exact hwf.parentLt
  · rw [hs]
    exact hwf.nestedLt
  · rw [hs]
    exact hwf.nodup
  · rw [hs]
    exact hwf.unique
  · rw [hs, hc]
    exact hwf.partsFresh

theorem setActiveId_some (s s1 : Session) (id : Int) (h : setActiveId s id = some s1) :
    ∃ leaf, StdMap.find s.leaves id = some leaf
      ∧ s1 = { s with activeId := id, title := leaf.title } := by
  unfold setActiveId at h
  cases hf : StdMap.find s.leaves id with
  | none => simp [hf] at h
  | some leaf =>
    simp only [hf, Option.some.injEq, setTitle, if_true] at h
    exact ⟨leaf, rfl, h.symm⟩

theorem setActiveId_of_find (s : Session) (id : Int) (leaf : Leaf)
    (h : StdMap.find s.leaves id = some leaf) :
    setActiveId s id = some { s with activeId := id, title := leaf.title } := by
  unfold setActiveId
  simp [h, setTitle]

theorem setActiveId_sameTree (s s1 : Session) (id : Int) (h : setActiveId s id = some s1) :
    SameTree s s1 ∧ s1.activeId = id := by
  obtain ⟨leaf, _, rfl⟩ := setActiveId_some s s1 id h
  exact ⟨⟨rfl, rfl, rfl, rfl⟩, rfl⟩

theorem requestFocus_sameTree (s s1 : Session) (id : Int) (leaf : Leaf)
    (h : requestFocus s id leaf = some s1) :
    SameTree s s1 ∧ s1.activeId = (if leaf.contentWidget then id else s.activeId) := by
  unfold requestFocus at h
  cases hw : leaf.contentWidget
  · simp only [hw, Bool.false_eq_true, if_false, Option.some.injEq] at h ⊢
    subst h
    exact ⟨sameTree_refl s, rfl⟩
  · simp only [hw, if_true] at h ⊢
    exact setActiveId_sameTree s s1 id h

theorem focusPrevious_sameTree (s s1 : Session) (h : focusPrevious s = some s1) :
    SameTree s s1 := by
  unfold focusPrevious at h
  split at h
  · cases h; exact sameTree_refl s
  · split at h
    · cases h; exact sameTree_refl s
    · split at h
      · exact (requestFocus_sameTree _ _ _ _ h).1
      · cases h

theorem focusNext_sameTree (s s1 : Session) (h : focusNext s = some s1) :
    SameTree s s1 := by
  unfold focusNext at h
  split at h
  · cases h; exact sameTree_refl s
  · split at h
    · cases h; exact sameTree_refl s
    · split at h
      · exact (requestFocus_sameTree _ _ _ _ h).1
      · cases h

theorem wf_cleanup (g : Statics) (s : Session) (hwf : WF g s) : WF g (cleanup s) := by
  have h1 : WF g { s with splitters := recursiveCleanup s.splitters } :=
    wf_of_shrinks isPart g s _ hwf rfl (shrinks_recursiveCleanup _)
      (fun e he => ⟨e, he, rfl, rfl, trivial⟩) (List.Sublist.refl _) (fun h => h) (fun h => h)
  unfold cleanup
  split
  · exact hwf
  · split
    · exact wf_of_shrinks (fun _ => True) g _ _ h1 rfl
        (shrinks_updateAt _ _ _ _ (fun q _ => ⟨rfl, rfl, List.Sublist.refl _, fun _ _ hw => hw⟩))
        (fun e he => ⟨e, he, rfl, rfl, trivial⟩) (List.Sublist.refl _) (fun h => h) (fun h => h)
    · exact h1

theorem keys_erase_sublist (m : List (Int × Leaf)) (id : Int) :
    (StdMap.keys (StdMap.erase m id)).Sublist (StdMap.keys m) := by
  unfold StdMap.keys StdMap.erase
  exact (List.filter_sublist m).map _

theorem mem_erase_map (m : List (Int × Leaf)) (id : Int) (e : Int × Leaf)
    (h : e ∈ StdMap.erase m id) : e ∈ m ∧ e.1 ≠ id := by
  unfold StdMap.erase at h
  simpa using h

theorem wf_deleteLeaf (g : Statics) (s : Session) (id : Int) (hwf : WF g s) :
    WF g (deleteLeaf s.contentType s id) := by
  cases hc : s.contentType with
  | TerminalType =>
    have hl : s.leaves = s.terminals := by simp [Session.leaves, Session.registry, hc]
    have hl1 : (deleteLeaf SessionContent.TerminalType s id).leaves = StdMap.erase s.terminals id := by
      simp [deleteLeaf, Session.leaves, Session.registry, hc]
    refine wf_of_shrinks (fun x => x ≠ Widget.part id) g s _ hwf (by simp [deleteLeaf]) ?_ ?_ ?_ ?_
      (fun h => h)
    · simp only [deleteLeaf]
      split
      · exact shrinks_removeWidget _ _
      · exact shrinks_refl _ _
    · intro e he
      rw [hl1] at he
      obtain ⟨h1, h2⟩ := mem_erase_map _ _ _ he
      exact ⟨e, hl ▸ h1, rfl, rfl, fun h => h2 (by cases h; rfl)⟩
    · rw [hl1, hl]
      exact keys_erase_sublist _ _
    · intro h
      simp [deleteLeaf, h, StdMap.erase]
  | BrowserType =>
    have hl : s.leaves = s.browsers := by simp [Session.leaves, Session.registry, hc]
    have hl1 : (deleteLeaf SessionContent.BrowserType s id).leaves = StdMap.erase s.browsers id := by
      simp [deleteLeaf, Session.leaves, Session.registry, hc]
    refine wf_of_shrinks (fun _ => True) g s _ hwf (by simp [deleteLeaf]) (shrinks_refl _ _)
      ?_ ?_ (fun h => h) ?_
    · intro e he
      rw [hl1] at he
      obtain ⟨h1, _⟩ := mem_erase_map _ _ _ he
      exact ⟨e, hl ▸ h1, rfl, rfl, trivial⟩
    · rw [hl1, hl]
      exact keys_erase_sublist _ _
    · intro h
      simp [deleteLeaf, h, StdMap.erase]

theorem wf_closeTerminal (g : Statics) (s : Session) (id : Int) (hwf : WF g s) :
    WF g (closeTerminal s id) := by
  unfold closeTerminal
  split
  · exact hwf
  · rename_i hcont
    cases hc : s.contentType with
    | TerminalType =>
      have := wf_deleteLeaf g s id hwf
      rw [hc] at this
      exact wf_cleanup g _ this
    | BrowserType =>
      exfalso
      apply hcont
      simp [hwf.otherTerminals hc, StdMap.contains]

theorem wf_closeBrowser (g : Statics) (s : Session) (id : Int) (hwf : WF g s) :
    WF g (closeBrowser s id) := by
  unfold closeBrowser
  split
  · exact hwf
  · rename_i hcont
    cases hc : s.contentType with
    | BrowserType =>
      have := wf_deleteLeaf g s id hwf
      rw [hc] at this
      exact wf_cleanup g _ this
    | TerminalType =>
      exfalso
      apply hcont
      simp [hwf.otherBrowsers hc, StdMap.contains]

theorem cleanupId_some (s s1 : Session) (id : Int) (h : cleanupId s id = some s1) :
    ∃ s2, (if s.activeId = id ∧ s.leaves.length > 1 then focusPrevious s else some s) = some s2
      ∧ SameTree s s2 ∧ s1 = cleanup (deleteLeaf s2.contentType s2 id) := by
  unfold cleanupId at h
  cases hf : (if s.activeId = id ∧ s.leaves.length > 1 then focusPrevious s else some s) with
  | none => simp [hf] at h
  | some s2 =>
    simp only [hf, Option.some.injEq] at h
    refine ⟨s2, rfl, ?_, h.symm⟩
    by_cases hc : s.activeId = id ∧ s.leaves.length > 1
    · rw [if_pos hc] at hf
      exact focusPrevious_sameTree _ _ hf
    · rw [if_neg hc] at hf
      cases hf
      exact sameTree_refl s

theorem wf_cleanupId (g : Statics) (s s1 : Session) (id : Int) (hwf : WF g s)
    (h : cleanupId s id = some s1) : WF g s1 := by
  obtain ⟨s2, _, hst, rfl⟩ := cleanupId_some s s1 id h
  exact wf_cleanup g _ (wf_deleteLeaf g s2 id (wf_sameTree g s s2 hst hwf))

theorem wf_closeSession (g : Statics) (s s1 : Session) (id : Int) (hwf : WF g s)
    (h : closeSession s id = some s1) : WF g s1 := by
  unfold closeSession at h
  by_cases h1 : resolve s id = -1
  · rw [if_pos h1] at h
    cases h
    exact hwf
  · rw [if_neg h1] at h
    by_cases h2 : (!StdMap.contains s.leaves (resolve s id)) = true
    · rw [if_pos h2] at h
      cases h
      exact hwf
    · rw [if_neg h2] at h
      exact wf_cleanupId g s s1 _ hwf h

theorem tryGrowLoop_none (h f : Bool) (px : Nat) (rb : Int) (fuel : Nat) (a : List Splitter)
    (c : Widget) : tryGrowLoop h f px rb fuel a c none = some (a, -1) := by
  cases fuel <;> rfl

theorem tryGrowLoop_shrinks (h f : Bool) (px : Nat) (rb : Int) (fuel : Nat) (a : List Splitter)
    (c : Widget) (sp : Option Nat) (b : List Splitter) (r : Int)
    (hr : tryGrowLoop h f px rb fuel a c sp = some (b, r)) : Shrinks (fun _ => True) a b := by
  induction fuel generalizing c sp with
  | zero =>
    cases sp with
    | none =>
      rw [tryGrowLoop_none] at hr
      cases hr
      exact shrinks_refl _ _
    | some i => simp [tryGrowLoop] at hr
  | succ fuel ih =>
    cases sp with
    | none =>
      rw [tryGrowLoop_none] at hr
      cases hr
      exact shrinks_refl _ _
    | some i =>
      simp only [tryGrowLoop] at hr
      split at hr
      · cases hr
      · rename_i n hn
        split at hr
        · split at hr
          · split at hr
            · cases hr
            · split at hr
              · cases hr
              · simp only [Option.some.injEq, Prod.mk.injEq] at hr
                obtain ⟨hb, _⟩ := hr
                subst hb
                refine shrinks_updateAt _ _ _ _ (fun q hq =>
                  ⟨rfl, ?_, List.Sublist.refl _, fun _ _ hw => hw⟩)
                rw [hn] at hq
                cases hq
                simp
          · split at hr
            · exact ih _ _ hr
            · cases hr
        · split at hr
          · exact ih _ _ hr
          · cases hr

theorem wf_tryGrow (g : Statics) (s s1 : Session) (id : Int) (d : GrowthDirection) (px : Nat)
    (rb r : Int) (hwf : WF g s) (h : tryGrow s id d px rb = some (s1, r)) : WF g s1 := by
  unfold tryGrow at h
  simp only at h
  split at h
  · cases h
    exact hwf
  · split at h
    · rename_i arena delta hloop
      cases h
      exact wf_of_shrinks (fun _ => True) g s _ hwf rfl (tryGrowLoop_shrinks _ _ _ _ _ _ _ _ _ _ hloop)
        (fun e he => ⟨e, he, rfl, rfl, trivial⟩) (List.Sublist.refl _) (fun h => h) (fun h => h)
    · cases h

theorem leafActivated_sameTree (s s1 : Session) (id : Int) (h : leafActivated s id = some s1) :
    SameTree s s1 := by
  unfold leafActivated at h
  split at h
  · split at h
    · exact (setActiveId_sameTree _ _ _ h).1
    · cases h
      exact sameTree_refl s
  · cases h
    exact sameTree_refl s

theorem wf_leafTitleChanged (g : Statics) (s : Session) (id : Int) (title : String)
    (hwf : WF g s) : WF g (leafTitleChanged s id title) := by
  unfold leafTitleChanged
  split
  · have hst : SameTree
        (s.setRegistry s.contentType
          (StdMap.update s.leaves id (fun l => { l with title := title })))
        (setTitle (s.setRegistry s.contentType
          (StdMap.update s.leaves id (fun l => { l with title := title }))) id title) := by
      unfold setTitle
      split
      · exact ⟨rfl, rfl, rfl, rfl⟩
      · exact sameTree_refl _
    refine wf_sameTree g _ _ hst ?_
    have hl : (s.setRegistry s.contentType
          (StdMap.update s.leaves id (fun l => { l with title := title }))).leaves
        = StdMap.update s.leaves id (fun l => { l with title := title }) := by
      simp [Session.leaves]
    refine wf_of_shrinks (fun _ => True) g s _ hwf (by simp) (by simpa using shrinks_refl _ _)
      ?_ ?_ ?_ ?_
    · intro e he
      rw [hl] at he
      rcases StdMap.mem_update _ _ _ _ he with ⟨h1, _⟩ | ⟨l, h1, rfl⟩
      · exact ⟨e, h1, rfl, rfl, trivial⟩
      · exact ⟨_, h1, rfl, rfl, trivial⟩
    · rw [hl, StdMap.keys_update]
    · intro h
      cases hc : s.contentType
      · simp [Session.setRegistry, Session.leaves, Session.registry, hc, h, StdMap.update]
      · simp [Session.setRegistry, h]
    · intro h
      cases hc : s.contentType
      · simp [Session.setRegistry, h]
      · simp [Session.setRegistry, Session.leaves, Session.registry, hc, h, StdMap.update]
  · exact hwf

theorem wf_counters (g : Statics) (s : Session) (a b c : Nat) (hwf : WF g s) :
    WF { availableSessionId := g.availableSessionId + a
         availableTerminalId := g.availableTerminalId + b
         availableBrowserId := g.availableBrowserId + c } s := by
  refine ⟨hwf.sorted, ?_, ?_, hwf.otherTerminals, hwf.otherBrowsers, hwf.held, hwf.atMostTwo,
    hwf.sized, hwf.parentLt, hwf.nestedLt, hwf.nodup, hwf.unique, ?_⟩
  · intro k hk
    have := hwf.fresh k hk
    cases hc : s.contentType <;> simp only [hc, Statics.available] at this ⊢ <;> omega
  rotate_left
  · intro j n k hn hk
    have := hwf.partsFresh j n k hn hk
    cases hc : s.contentType <;> simp only [hc, Statics.available] at this ⊢ <;> omega
  · have := hwf.counters
    simp only
    omega

theorem wf_applyOp (g : Statics) (s : Session) (op : Op) (g1 : Statics) (s1 : Session)
    (hwf : WF g s) (h : applyOp g s op = some (g1, s1)) : WF g1 s1 := by
  have hsplit : ∀ o id env, splitWith o g s id env = some (g1, s1, (splitWith o g s id env).elim 0 (fun r => r.2.2)) → WF g1 s1 := by
    intro o id env hs
    by_cases hreg : StdMap.contains s.leaves (resolve s id) = true
    · obtain ⟨leaf, hleaf, heq⟩ := splitWith_ok o g s id env hwf hreg
      obtain ⟨s2, _, _, hs2, hwf2, _⟩ := split_ok g s (resolve s id) leaf o env hwf hleaf
      rw [heq, hs2] at hs
      simp only [Option.some.injEq, Prod.mk.injEq] at hs
      obtain ⟨hg, hs3, _⟩ := hs
      rw [← hg, ← hs3]
      exact hwf2
    · rw [splitWith_fail o g s id env hreg] at hs
      simp only [Option.some.injEq, Prod.mk.injEq] at hs
      obtain ⟨hg, hs3, _⟩ := hs
      rw [← hg, ← hs3]
      exact hwf
  have hsplit2 : ∀ o id env, (splitWith o g s id env).map (fun r => (r.1, r.2.1)) = some (g1, s1) → WF g1 s1 := by
    intro o id env hs
    cases hr : splitWith o g s id env with
    | none => simp [hr] at hs
    | some r =>
      simp only [hr, Option.map_some', Option.some.injEq, Prod.mk.injEq] at hs
      apply hsplit o id env
      rw [hr]
      obtain ⟨rg, rs, ri⟩ := r
      simp only at hs
      simp [hs.1, hs.2]
  cases op with
  | splitLeftRight id env => exact hsplit2 _ id env h
  | splitTopBottom id env => exact hsplit2 _ id env h
  | splitAuto id env =>
    simp only [applyOp, splitAuto_eq] at h
    split at h
    · exact hsplit2 _ id env h
    · exact hsplit2 _ id env h
  | closeSession id =>
    simp only [applyOp] at h
    cases hr : closeSession s id with
    | none => simp [hr] at h
    | some s2 =>
      simp only [hr, Option.map_some', Option.some.injEq, Prod.mk.injEq] at h
      rw [← h.1, ← h.2]
      exact wf_closeSession g s s2 id hwf hr
  | closeTerminal id =>
    simp only [applyOp, Option.some.injEq, Prod.mk.injEq] at h
    rw [← h.1, ← h.2]
    exact wf_closeTerminal g s id hwf
  | closeBrowser id =>
    simp only [applyOp, Option.some.injEq, Prod.mk.injEq] at h
    rw [← h.1, ← h.2]
    exact wf_closeBrowser g s id hwf
  | focusNext =>
    simp only [applyOp] at h
    cases hr : focusNext s with
    | none => simp [hr] at h
    | some s2 =>
      simp only [hr, Option.map_some', Option.some.injEq, Prod.mk.injEq] at h
      rw [← h.1, ← h.2]
      exact wf_sameTree g s s2 (focusNext_sameTree s s2 hr) hwf
  | focusPrevious =>
    simp only [applyOp] at h
    cases hr : focusPrevious s with
    | none => simp [hr] at h
    | some s2 =>
      simp only [hr, Option.map_some', Option.some.injEq, Prod.mk.injEq] at h
      rw [← h.1, ← h.2]
      exact wf_sameTree g s s2 (focusPrevious_sameTree s s2 hr) hwf
  | tryGrow id d px rb =>
    simp only [applyOp] at h
    cases hr : tryGrow s id d px rb with
    | none => simp [hr] at h
    | some r =>
      simp only [hr, Option.map_some', Option.some.injEq, Prod.mk.injEq] at h
      rw [← h.1, ← h.2]
      exact wf_tryGrow g s r.1 id d px rb r.2 hwf hr
  | activated id =>
    simp only [applyOp] at h
    cases hr : leafActivated s id with
    | none => simp [hr] at h
    | some s2 =>
      simp only [hr, Option.map_some', Option.some.injEq, Prod.mk.injEq] at h
      rw [← h.1, ← h.2]
      exact wf_sameTree g s s2 (leafActivated_sameTree s s2 id hr) hwf
  | titleChanged id title =>
    simp only [applyOp, Option.some.injEq, Prod.mk.injEq] at h
    rw [← h.1, ← h.2]
    exact wf_leafTitleChanged g s id title hwf
  | constructedElsewhere a b c =>
    simp only [applyOp, Option.some.injEq, Prod.mk.injEq] at h
    rw [← h.1, ← h.2]
    exact wf_counters g s a b c hwf
  | prepareShutdown =>
    simp only [applyOp] at h
    have hst : SameTree s (prepareShutdown s) := ⟨rfl, rfl, rfl, rfl⟩
    split at h
    · split at h
      · simp only [Option.some.injEq, Prod.mk.injEq] at h
        rw [← h.1, ← h.2]
        exact wf_sameTree g s _ hst hwf
      · simp only [Option.some.injEq, Prod.mk.injEq] at h
        rw [← h.1, ← h.2]
        exact hwf
    · simp only [Option.some.injEq, Prod.mk.injEq] at h
      rw [← h.1, ← h.2]
      exact hwf

set_option maxHeartbeats 4000000 in
theorem wf_newSession (g0 : Statics) (ct : SessionContent) (ty : SessionType) (env : Env)
    (g : Statics) (s : Session)
    (h0 : 0 ≤ g0.availableTerminalId ∧ 0 ≤ g0.availableBrowserId)
    (h : newSession g0 ct ty env = some (g, s)) : WF g s := by
  obtain ⟨a, t, b⟩ := g0
  obtain ⟨w, hh, pw, ph, loaded, title⟩ := env
  simp only at h0
  have f1 : ¬ (t + 1 < t) := by omega
  have f2 : ¬ (t + 1 = t) := by omega
  have f3 : ¬ (t + 1 + 1 < t) := by omega
  have f4 : ¬ (t + 1 + 1 = t) := by omega
  have f5 : ¬ (t + 1 + 1 < t + 1) := by omega
  have f6 : ¬ (t + 1 + 1 = t + 1) := by omega
  have f7 : ¬ (t + 1 + 1 + 1 < t) := by omega
  have f8 : ¬ (t + 1 + 1 + 1 = t) := by omega
  have f9 : ¬ (t + 1 + 1 + 1 < t + 1) := by omega
  have f10 : ¬ (t + 1 + 1 + 1 = t + 1) := by omega
  have f11 : ¬ (t + 1 + 1 + 1 < t + 1 + 1) := by omega
  have f12 : ¬ (t + 1 + 1 + 1 = t + 1 + 1) := by omega
  have e1 : ¬ (t = t + 1) := by omega
  have e2 : ¬ (t = t + 1 + 1) := by omega
  have e3 : ¬ (t = t + 1 + 1 + 1) := by omega
  have e4 : ¬ (t + 1 = t + 1 + 1) := by omega
  have e5 : ¬ (t + 1 = t + 1 + 1 + 1) := by omega
  have e6 : ¬ (t + 1 + 1 = t + 1 + 1 + 1) := by omega
  cases ct <;> cases ty <;> cases loaded <;>
  · simp [newSession, setupSession, addTerminal, addBrowser, addLeaf, requestFocus, setActiveId,
      focusFirst, Session.setRegistry, Session.registry, Session.leaves, Statics.available,
      Statics.bump, StdMap.insert, StdMap.find, setTitle, newSplitter, addWidget, setSizes,
      setOrientation, updateAt, f1, f2, f3, f4, f5, f6, f7, f8, f9, f10, f11, f12, e1, e2, e3,
      e4, e5, e6] at h
    obtain ⟨hg, hs⟩ := h
    subst hg
    subst hs
    refine ⟨?_, ?_, ?_, ?_, ?_, ?_, ?_, ?_, ?_, ?_, ?_, ?_, ?_⟩
    · simp [StdMap.keys, Session.leaves, Session.registry]
      try omega
    · simp [StdMap.keys, Session.leaves, Session.registry, Statics.available]
      try omega
    · simp only
      omega
    · simp
    · simp
    · simp [Session.leaves, Session.registry]
    · intro j n hn
      rcases j with _ | _ | _ | j <;> simp at hn <;> subst hn <;> simp
    · intro j n hn
      rcases j with _ | _ | _ | j <;> simp at hn <;> subst hn <;> simp
    · intro j n p hn hp
      rcases j with _ | _ | _ | j <;> simp at hn <;> subst hn <;> simp at hp <;> omega
    · intro j n k hn hk
      rcases j with _ | _ | _ | j <;> simp at hn <;> subst hn <;> simp at hk ⊢ <;> omega
    · intro j n hn
      rcases j with _ | _ | _ | j <;> simp at hn <;> subst hn <;> simp
    · intro i j n m w hn hm hw1 hw2
      rcases i with _ | _ | _ | i <;> rcases j with _ | _ | _ | j <;> simp at hn hm <;>
        subst hn <;> subst hm <;> first
        | rfl
        | (exfalso
           simp only [List.mem_cons, List.mem_singleton, List.not_mem_nil, or_false] at hw1 hw2
           rcases hw1 with hw1 | hw1 <;> subst hw1 <;> simp at hw2 <;> omega)
    · intro j n k hn hk
      rcases j with _ | _ | _ | j <;> simp at hn <;> subst hn <;>
        simp [Statics.available] at hk ⊢ <;> omega

theorem reachableVia_wf (initial : SessionContent → SessionType → Env → Prop) (allowed : Op → Prop) (g : Statics) (s : Session)
    (h : ReachableVia initial allowed g s) : WF g s := by
  induction h with
  | init g0 ct ty env g s h1 h2 _ h4 => exact wf_newSession g0 ct ty env g s ⟨h1, h2⟩ h4
  | step g s op g1 s1 _ _ h3 ih => exact wf_applyOp g s op g1 s1 ih h3

theorem reachable_wf (g : Statics) (s : Session) (h : Reachable g s) : WF g s :=
  reachableVia_wf _ _ g s h

theorem reachableVia_reachable (initial : SessionContent → SessionType → Env → Prop) (allowed : Op → Prop) (g : Statics)
    (s : Session) (h : ReachableVia initial allowed g s) : Reachable g s := by
  induction h with
  | init g0 ct ty env g s h1 h2 _ h4 => exact ReachableVia.init g0 ct ty env g s h1 h2 trivial h4
  | step g s op g1 s1 _ _ h3 ih => exact ReachableVia.step g s op g1 s1 ih trivial h3

theorem runOps_reachable (initial : SessionContent → SessionType → Env → Prop)
    (allowed : Op → Prop) (ops : List Op) (g : Statics) (s : Session) (g1 : Statics)
    (s1 : Session) (hr : ReachableVia initial allowed g s) (hall : ∀ op ∈ ops, allowed op)
    (h : runOps g s ops = some (g1, s1)) : ReachableVia initial allowed g1 s1 := by
  induction ops generalizing g s with
  | nil =>
    simp only [runOps, Option.some.injEq, Prod.mk.injEq] at h
    rw [← h.1, ← h.2]
    exact hr
  | cons op rest ih =>
    simp only [runOps] at h
    cases hop : applyOp g s op with
    | none => simp [hop] at h
    | some r =>
      obtain ⟨g2, s2⟩ := r
      simp only [hop] at h
      exact ih g2 s2 (ReachableVia.step g s op g2 s2 hr (hall op (by simp)) hop)
        (fun o ho => hall o (by simp [ho])) h

theorem runFresh_reachable (initial : SessionContent → SessionType → Env → Prop)
    (allowed : Op → Prop) (ct : SessionContent) (ty : SessionType) (env : Env) (ops : List Op)
    (g1 : Statics) (s1 : Session) (hinit : initial ct ty env) (hall : ∀ op ∈ ops, allowed op)
    (h : runFresh ct ty env ops = some (g1, s1)) : ReachableVia initial allowed g1 s1 := by
  unfold runFresh at h
  cases hn : newSession sampleStatics ct ty env with
  | none => simp [hn] at h
  | some r =>
    obtain ⟨g, s⟩ := r
    simp only [hn] at h
    exact runOps_reachable initial allowed ops g s g1 s1
      (ReachableVia.init sampleStatics ct ty env g s (by decide) (by decide) hinit hn) hall h

theorem sampleSingle_run :
    runFresh SessionContent.TerminalType SessionType.Single sampleEnv [] = some sampleSingle := by
  decide

theorem sampleSingle_reachable : Reachable sampleSingle.1 sampleSingle.2 :=
  runFresh_reachable _ _ _ _ _ [] _ _ trivial (fun _ _ => trivial) sampleSingle_run

/-- C5: splitLeftRight, splitTopBottom and splitAuto return -1 when the given id
(other than -1) is not a key of the leaf registry, or when the argument is -1
and activeId is -1; the counters and the whole session state (leaf registry,
split tree, activeId, title) are returned unchanged. -/
theorem split_failure_changes_nothing (g : Statics) (s : Session) (id : Int) (env : Env)
    (h : (id ≠ -1 ∧ StdMap.contains s.leaves id = false) ∨ (id = -1 ∧ s.activeId = -1)) :
    splitLeftRight g s id env = some (g, s, -1)
      ∧ splitTopBottom g s id env = some (g, s, -1)
      ∧ splitAuto g s id env = some (g, s, -1) := by
  have hfail : ∀ o, splitWith o g s id env = some (g, s, -1) := by
    intro o
    rcases h with ⟨h1, h2⟩ | ⟨h1, h2⟩
    · apply splitWith_fail
      simp [resolve, h1, h2]
    · unfold splitWith
      simp [resolve, h1, h2]
  refine ⟨hfail _, hfail _, ?_⟩
  rw [splitAuto_eq]
  split
  · exact hfail _
  · exact hfail _

/-- Witness of C5: splitting the unknown leaf 7 of a freshly constructed single
terminal session. -/
theorem split_failure_changes_nothing_witness :
    splitLeftRight sampleSingle.1 sampleSingle.2 7 sampleEnv
        = some (sampleSingle.1, sampleSingle.2, -1)
      ∧ splitTopBottom sampleSingle.1 sampleSingle.2 7 sampleEnv
        = some (sampleSingle.1, sampleSingle.2, -1)
      ∧ splitAuto sampleSingle.1 sampleSingle.2 7 sampleEnv
        = some (sampleSingle.1, sampleSingle.2, -1) :=
  split_failure_changes_nothing sampleSingle.1 sampleSingle.2 7 sampleEnv
    (Or.inl ⟨by decide, by decide⟩)

/-- C4: when the id resolves to a registered leaf, splitLeftRight and
splitTopBottom return an id that was not a key of the registry, the keys of the
registry afterwards are the old keys followed by exactly that id, and activeId
is the returned id. -/
theorem split_registers_returned_id (g : Statics) (s : Session) (id : Int) (env : Env)
    (hr : Reachable g s) (hreg : StdMap.contains s.leaves (resolve s id) = true) :
    (∃ g1 s1 r, splitLeftRight g s id env = some (g1, s1, r)
        ∧ r ∉ StdMap.keys s.leaves
        ∧ StdMap.keys s1.leaves = StdMap.keys s.leaves ++ [r]
        ∧ s1.activeId = r)
      ∧ (∃ g1 s1 r, splitTopBottom g s id env = some (g1, s1, r)
        ∧ r ∉ StdMap.keys s.leaves
        ∧ StdMap.keys s1.leaves = StdMap.keys s.leaves ++ [r]
        ∧ s1.activeId = r) := by
  have hwf := reachable_wf g s hr
  have hboth : ∀ o, ∃ g1 s1 r, splitWith o g s id env = some (g1, s1, r)
      ∧ r ∉ StdMap.keys s.leaves
      ∧ StdMap.keys s1.leaves = StdMap.keys s.leaves ++ [r]
      ∧ s1.activeId = r := by
    intro o
    obtain ⟨leaf, hleaf, heq⟩ := splitWith_ok o g s id env hwf hreg
    obtain ⟨s1, f, newLeaf, hs1, _, hl, _, _, hact, _⟩ :=
      split_ok g s (resolve s id) leaf o env hwf hleaf
    refine ⟨_, s1, _, heq.trans hs1, ?_, ?_, hact⟩
    · intro hmem
      have := (hwf.fresh _ hmem).2
      omega
    · rw [hl]
      simp only [StdMap.keys, List.map_append, List.map_cons, List.map_nil]
      have := StdMap.keys_update s.leaves (resolve s id) f
      simp only [StdMap.keys] at this
      rw [this]
  exact ⟨hboth _, hboth _⟩

/-- Witness of C4: splitting the active leaf of a freshly constructed single
terminal session. -/
theorem split_registers_returned_id_witness :
    (∃ g1 s1 r, splitLeftRight sampleSingle.1 sampleSingle.2 (-1) sampleEnv = some (g1, s1, r)
        ∧ r ∉ StdMap.keys sampleSingle.2.leaves
        ∧ StdMap.keys s1.leaves = StdMap.keys sampleSingle.2.leaves ++ [r]
        ∧ s1.activeId = r)
      ∧ (∃ g1 s1 r, splitTopBottom sampleSingle.1 sampleSingle.2 (-1) sampleEnv = some (g1, s1, r)
        ∧ r ∉ StdMap.keys sampleSingle.2.leaves
        ∧ StdMap.keys s1.leaves = StdMap.keys sampleSingle.2.leaves ++ [r]
        ∧ s1.activeId = r) :=
  split_registers_returned_id sampleSingle.1 sampleSingle.2 (-1) sampleEnv
    sampleSingle_reachable (by decide)

/-- C3: for a registered leaf T (the entry `leaf` under `id`) and an
orientation, `split` succeeds and produces exactly one new leaf N. The splitter
recorded for T is a node `p` of the tree that holds T. If T is the only child
of `p`, the node gets the requested orientation and the children [T, N];
otherwise a new node of the requested orientation stands where T stood in
`p`'s child sequence, the other children of `p` being unchanged and in the same
order, and the new node has exactly the children [T, N]. -/
theorem split_tree_shape (g : Statics) (s : Session) (id : Int) (leaf : Leaf)
    (o : Orientation) (env : Env) (hr : Reachable g s)
    (hfind : StdMap.find s.leaves id = some leaf) :
    ∃ g1 s1 newId p,
      split s.contentType g s id leaf o env = some (g1, s1, newId)
      ∧ newId ∉ StdMap.keys s.leaves
      ∧ StdMap.keys s1.leaves = StdMap.keys s.leaves ++ [newId]
      ∧ s.splitters[leaf.splitter]? = some p ∧ Widget.part id ∈ p.widgets
      ∧ (p.widgets = [Widget.part id] →
          ∃ p1, s1.splitters[leaf.splitter]? = some p1 ∧ p1.orientation = o
            ∧ p1.widgets = [Widget.part id, Widget.part newId])
      ∧ (p.widgets ≠ [Widget.part id] →
          ∃ i p1 created,
            p.widgets[i]? = some (Widget.part id)
            ∧ s.splitters[s.splitters.length]? = none
            ∧ s1.splitters[leaf.splitter]? = some p1
            ∧ p1.widgets = p.widgets.set i (Widget.splitter s.splitters.length)
            ∧ p1.orientation = p.orientation
            ∧ s1.splitters[s.splitters.length]? = some created
            ∧ created.orientation = o
            ∧ created.widgets = [Widget.part id, Widget.part newId]) := by
  have hwf := reachable_wf g s hr
  have hmem := StdMap.find_some_mem _ _ _ hfind
  obtain ⟨p, hp, hin⟩ := hwf.held _ hmem
  have hfresh : ∀ k ∈ StdMap.keys (s.registry s.contentType), k < g.available s.contentType :=
    fun k hk => (hwf.fresh k hk).2
  have hnot : g.available s.contentType ∉ StdMap.keys s.leaves := fun h => by
    have := (hwf.fresh _ h).2
    omega
  have hkeys : ∀ (s1 : Session) (m : List (Int × Leaf)) (l : Leaf),
      s1.contentType = s.contentType → StdMap.keys m = StdMap.keys s.leaves →
      s1.registry s.contentType = m ++ [(g.available s.contentType, l)] →
      StdMap.keys s1.leaves = StdMap.keys s.leaves ++ [g.available s.contentType] := by
    intro s1 m l hc hm hreg
    rw [leaves_eq s s1 hc, hreg]
    simp only [StdMap.keys, List.map_append, List.map_cons, List.map_nil] at hm ⊢
    rw [hm]
  by_cases hone : p.widgets.length = 1
  · obtain ⟨s1, h1, h2, h3, _, _, _, h7, _⟩ :=
      split_single s.contentType g s id leaf o env p rfl hfresh hp hone
    have hsingle : p.widgets = [Widget.part id] := by
      obtain ⟨w, hw⟩ := List.length_eq_one.1 hone
      rw [hw] at hin ⊢
      simp only [List.mem_singleton] at hin
      rw [hin]
    refine ⟨_, s1, _, p, h1, hnot, hkeys s1 _ _ h7 rfl h3, hp, hin, ?_, fun h => absurd hsingle h⟩
    intro _
    rw [h2, getElem?_singleArena, if_pos rfl, hp]
    exact ⟨_, rfl, rfl, by simp [hsingle]⟩
  · obtain ⟨_, htwo, hfreshNode, second, hsecond⟩ := two_of_held g s id leaf p hwf hmem hp hone
    obtain ⟨s1, h1, h2, h3, _, _, _, h7, _⟩ :=
      split_nest s.contentType g s id leaf o env p second rfl hfresh hp hone hsecond
    obtain ⟨u, v, huv⟩ := List.length_eq_two.1 htwo
    obtain ⟨i, hi, hW, _⟩ :=
      nestWidgets_two u v id s.splitters.length (huv ▸ hin) (huv ▸ hfreshNode)
    rw [← huv] at hW hi
    have hlt : leaf.splitter < s.splitters.length := (List.getElem?_eq_some.1 hp).1
    refine ⟨_, s1, _, p, h1, hnot, hkeys s1 _ _ h7 (StdMap.keys_update _ _ _) h3, hp, hin,
      fun h => absurd (by rw [h]; rfl) hone, ?_⟩
    intro _
    refine ⟨i, { p with widgets := nestWidgets p.widgets id s.splitters.length },
      { orientation := o, widgets := [Widget.part id, Widget.part (g.available s.contentType)],
        sizes := [second.tdiv 2, second.tdiv 2], parent := some leaf.splitter,
        deleteLater := false },
      hi, List.getElem?_eq_none (le_refl _), ?_, hW, rfl, ?_, rfl, rfl⟩
    · rw [h2, getElem?_nestArena _ _ _ _ _ _ _ hp, if_neg (by omega), if_pos rfl]
    · rw [h2, getElem?_nestArena _ _ _ _ _ _ _ hp, if_pos rfl]

/-- Witness of C3: the only leaf of a freshly constructed single terminal
session is split top/bottom. -/
theorem split_tree_shape_witness :
    ∃ g1 s1 newId p,
      split sampleSingle.2.contentType sampleSingle.1 sampleSingle.2 0
          { splitter := 0, title := "shell", contentWidget := true }
          Orientation.Vertical sampleEnv = some (g1, s1, newId)
      ∧ newId ∉ StdMap.keys sampleSingle.2.leaves
      ∧ StdMap.keys s1.leaves = StdMap.keys sampleSingle.2.leaves ++ [newId]
      ∧ sampleSingle.2.splitters[(0 : Nat)]? = some p ∧ Widget.part 0 ∈ p.widgets
      ∧ (p.widgets = [Widget.part 0] →
          ∃ p1, s1.splitters[(0 : Nat)]? = some p1 ∧ p1.orientation = Orientation.Vertical
            ∧ p1.widgets = [Widget.part 0, Widget.part newId])
      ∧ (p.widgets ≠ [Widget.part 0] →
          ∃ i p1 created,
            p.widgets[i]? = some (Widget.part 0)
            ∧ sampleSingle.2.splitters[sampleSingle.2.splitters.length]? = none
            ∧ s1.splitters[(0 : Nat)]? = some p1
            ∧ p1.widgets = p.widgets.set i (Widget.splitter sampleSingle.2.splitters.length)
            ∧ p1.orientation = p.orientation
            ∧ s1.splitters[sampleSingle.2.splitters.length]? = some created
            ∧ created.orientation = Orientation.Vertical
            ∧ created.widgets = [Widget.part 0, Widget.part newId]) :=
  split_tree_shape sampleSingle.1 sampleSingle.2 0
    { splitter := 0, title := "shell", contentWidget := true } Orientation.Vertical sampleEnv
    sampleSingle_reachable (by decide)

namespace StdMap

theorem sorted_cons (e : Int × Leaf) (rest : List (Int × Leaf)) (h : Sorted (e :: rest)) :
    (∀ x ∈ rest, e.1 < x.1) ∧ Sorted rest := by
  unfold Sorted keys at h ⊢
  simp only [List.map_cons, List.pairwise_cons, List.mem_map, forall_exists_index, and_imp,
    forall_apply_eq_imp_iff₂] at h
  exact h

theorem position_spec (m : List (Int × Leaf)) (a : Int) (i : Nat) (h : position m a = some i) :
    ∃ e, m[i]? = some e ∧ e.1 = a := by
  induction m generalizing i with
  | nil => simp [position] at h
  | cons e rest ih =>
    by_cases h1 : e.1 = a
    · simp only [position, h1, if_true, Option.some.injEq] at h
      subst h
      exact ⟨e, by simp, h1⟩
    · simp only [position, h1, if_false, Option.map_eq_some'] at h
      obtain ⟨j, hj, rfl⟩ := h
      obtain ⟨e2, he2, he3⟩ := ih j hj
      exact ⟨e2, by simpa using he2, he3⟩

theorem position_of_mem (m : List (Int × Leaf)) (a : Int) (h : a ∈ keys m) :
    ∃ i, position m a = some i := by
  induction m with
  | nil => simp [keys] at h
  | cons e rest ih =>
    by_cases h1 : e.1 = a
    · exact ⟨0, by simp [position, h1]⟩
    · have h2 : a ∈ keys rest := by
        simp only [keys, List.map_cons, List.mem_cons] at h
        rcases h with h | h
        · exact absurd h.symm h1
        · exact h
      obtain ⟨i, hi⟩ := ih h2
      exact ⟨i + 1, by simp [position, h1, hi]⟩

theorem sorted_lt (m : List (Int × Leaf)) (hs : Sorted m) (i j : Nat) (e1 e2 : Int × Leaf)
    (h1 : m[i]? = some e1) (h2 : m[j]? = some e2) (hij : i < j) : e1.1 < e2.1 := by
  induction m generalizing i j with
  | nil => simp at h1
  | cons e rest ih =>
    obtain ⟨hhead, hrest⟩ := sorted_cons e rest hs
    cases j with
    | zero => omega
    | succ j =>
      simp only [List.getElem?_cons_succ] at h2
      cases i with
      | zero =>
        simp only [List.getElem?_cons_zero, Option.some.injEq] at h1
        subst h1
        exact hhead e2 (List.getElem?_mem h2)
      | succ i =>
        simp only [List.getElem?_cons_succ] at h1
        exact ih hrest i j h1 h2 (by omega)

theorem sorted_le (m : List (Int × Leaf)) (hs : Sorted m) (i j : Nat) (e1 e2 : Int × Leaf)
    (h1 : m[i]? = some e1) (h2 : m[j]? = some e2) (hij : i ≤ j) : e1.1 ≤ e2.1 := by
  rcases Nat.lt_or_eq_of_le hij with h | h
  · exact le_of_lt (sorted_lt m hs i j e1 e2 h1 h2 h)
  · subst h
    rw [h1] at h2
    cases h2
    exact le_refl _

theorem position_of_index (m : List (Int × Leaf)) (hs : Sorted m) (j : Nat) (e : Int × Leaf)
    (h : m[j]? = some e) : position m e.1 = some j := by
  obtain ⟨i, hi⟩ := position_of_mem m e.1 (List.mem_map.2 ⟨e, List.getElem?_mem h, rfl⟩)
  obtain ⟨e2, he2, he3⟩ := position_spec m e.1 i hi
  rw [hi]
  rcases Nat.lt_trichotomy i j with hlt | heq | hgt
  · have := sorted_lt m hs i j e2 e he2 h hlt
    omega
  · rw [heq]
  · have := sorted_lt m hs j i e e2 h he2 hgt
    omega

theorem mem_keys_index (m : List (Int × Leaf)) (x : Int) (h : x ∈ keys m) :
    ∃ (j : Nat) (e : Int × Leaf), m[j]? = some e ∧ e.1 = x := by
  obtain ⟨e, he, rfl⟩ := List.mem_map.1 h
  obtain ⟨j, hj⟩ := List.mem_iff_getElem?.1 he
  exact ⟨j, e, hj, rfl⟩

theorem mem_keys_of_get (m : List (Int × Leaf)) (j : Nat) (e : Int × Leaf) (h : m[j]? = some e) :
    e.1 ∈ keys m :=
  List.mem_map.2 ⟨e, List.getElem?_mem h, rfl⟩

/-- The entry `focusNext` picks, in terms of the key order. -/
theorem nextEntry_spec (m : List (Int × Leaf)) (hs : Sorted m) (a : Int) (ha : a ∈ keys m) :
    ∃ e, nextEntry m a = some e ∧ e ∈ m
      ∧ ((∃ x ∈ keys m, a < x) → IsLeastAbove m a e.1)
      ∧ ((¬ ∃ x ∈ keys m, a < x) → IsLeast m e.1) := by
  obtain ⟨i, hi⟩ := position_of_mem m a ha
  obtain ⟨ei, hei, heia⟩ := position_spec m a i hi
  unfold nextEntry
  simp only [hi]
  cases hnext : m[i + 1]? with
  | some e =>
    have hlt : a < e.1 := heia ▸ sorted_lt m hs i (i + 1) ei e hei hnext (by omega)
    refine ⟨e, rfl, List.getElem?_mem hnext, ?_, ?_⟩
    · intro _
      refine ⟨mem_keys_of_get m _ e hnext, hlt, ?_⟩
      intro x hx hax
      obtain ⟨j, ex, hj, rfl⟩ := mem_keys_index m x hx
      have hij : i + 1 ≤ j := by
        by_contra hcon
        have := sorted_le m hs j i ex ei hj hei (by omega)
        omega
      exact sorted_le m hs (i + 1) j e ex hnext hj hij
    · intro hno
      exact absurd ⟨e.1, mem_keys_of_get m _ e hnext, hlt⟩ hno
  | none =>
    have hlen : m.length ≤ i + 1 := List.getElem?_eq_none_iff.1 hnext
    have hpos : 0 < m.length := by
      have := (List.getElem?_eq_some.1 hei).1
      omega
    obtain ⟨e0, hhead⟩ : ∃ e0, m[0]? = some e0 := ⟨_, List.getElem?_eq_getElem hpos⟩
    refine ⟨e0, by simp [List.head?_eq_getElem?, hhead], List.getElem?_mem hhead, ?_, ?_⟩
    · rintro ⟨x, hx, hax⟩
      exfalso
      obtain ⟨j, ex, hj, rfl⟩ := mem_keys_index m x hx
      have hjlt := (List.getElem?_eq_some.1 hj).1
      have := sorted_le m hs j i ex ei hj hei (by omega)
      omega
    · intro _
      refine ⟨mem_keys_of_get m 0 _ hhead, ?_⟩
      intro x hx
      obtain ⟨j, ex, hj, rfl⟩ := mem_keys_index m x hx
      exact sorted_le m hs 0 j _ ex hhead hj (Nat.zero_le _)

/-- The entry `focusPrevious` picks, in terms of the key order. -/
theorem previousEntry_spec (m : List (Int × Leaf)) (hs : Sorted m) (a : Int) (ha : a ∈ keys m) :
    ∃ e, previousEntry m a = some e ∧ e ∈ m
      ∧ ((∃ x ∈ keys m, x < a) → IsGreatestBelow m a e.1)
      ∧ ((¬ ∃ x ∈ keys m, x < a) → IsGreatest m e.1) := by
  obtain ⟨i, hi⟩ := position_of_mem m a ha
  obtain ⟨ei, hei, heia⟩ := position_spec m a i hi
  have hilt : i < m.length := (List.getElem?_eq_some.1 hei).1
  unfold previousEntry
  simp only [hi]
  cases i with
  | zero =>
    simp only
    obtain ⟨el, hlast⟩ : ∃ el, m[m.length - 1]? = some el :=
      ⟨_, List.getElem?_eq_getElem (by omega)⟩
    refine ⟨el, by rw [List.getLast?_eq_getElem?, hlast], List.getElem?_mem hlast, ?_, ?_⟩
    · rintro ⟨x, hx, hxa⟩
      exfalso
      obtain ⟨j, ex, hj, rfl⟩ := mem_keys_index m x hx
      have := sorted_le m hs 0 j ei ex hei hj (Nat.zero_le _)
      omega
    · intro _
      refine ⟨mem_keys_of_get m _ el hlast, ?_⟩
      intro x hx
      obtain ⟨j, ex, hj, rfl⟩ := mem_keys_index m x hx
      have hjlt := (List.getElem?_eq_some.1 hj).1
      exact sorted_le m hs j _ ex el hj hlast (by omega)
  | succ i =>
    simp only
    obtain ⟨e, hprev⟩ : ∃ e, m[i]? = some e := ⟨_, List.getElem?_eq_getElem (by omega)⟩
    have hlt : e.1 < a := heia ▸ sorted_lt m hs i (i + 1) e ei hprev hei (by omega)
    refine ⟨e, hprev, List.getElem?_mem hprev, ?_, ?_⟩
    · intro _
      refine ⟨mem_keys_of_get m _ e hprev, hlt, ?_⟩
      intro x hx hxa
      obtain ⟨j, ex, hj, rfl⟩ := mem_keys_index m x hx
      have hji : j ≤ i := by
        by_contra hcon
        have := sorted_le m hs (i + 1) j ei ex hei hj (by omega)
        omega
      exact sorted_le m hs j i ex e hj hprev hji
    · intro hno
      exact absurd ⟨e.1, mem_keys_of_get m _ e hprev, hlt⟩ hno

/-- Going to the next entry and then to the previous one comes back. -/
theorem previous_of_next (m : List (Int × Leaf)) (hs : Sorted m) (a : Int) (e : Int × Leaf)
    (h : nextEntry m a = some e) : ∃ ea, previousEntry m e.1 = some ea ∧ ea.1 = a := by
  unfold nextEntry at h
  cases hi : position m a with
  | none => simp [hi] at h
  | some i =>
    obtain ⟨ei, hei, heia⟩ := position_spec m a i hi
    have hilt : i < m.length := (List.getElem?_eq_some.1 hei).1
    simp only [hi] at h
    cases hnext : m[i + 1]? with
    | some e2 =>
      simp only [hnext, Option.some.injEq] at h
      subst h
      refine ⟨ei, ?_, heia⟩
      unfold previousEntry
      rw [position_of_index m hs (i + 1) e2 hnext]
      exact hei
    | none =>
      simp only [hnext, List.head?_eq_getElem?] at h
      have hlen : m.length ≤ i + 1 := List.getElem?_eq_none_iff.1 hnext
      refine ⟨ei, ?_, heia⟩
      unfold previousEntry
      rw [position_of_index m hs 0 e h]
      simp only
      rw [List.getLast?_eq_getElem?]
      have : m.length - 1 = i := by omega
      rw [this]
      exact hei

/-- Going to the previous entry and then to the next one comes back. -/
theorem next_of_previous (m : List (Int × Leaf)) (hs : Sorted m) (a : Int) (e : Int × Leaf)
    (h : previousEntry m a = some e) : ∃ ea, nextEntry m e.1 = some ea ∧ ea.1 = a := by
  unfold previousEntry at h
  cases hi : position m a with
  | none => simp [hi] at h
  | some i =>
    obtain ⟨ei, hei, heia⟩ := position_spec m a i hi
    have hilt : i < m.length := (List.getElem?_eq_some.1 hei).1
    cases i with
    | zero =>
      simp only [hi, List.getLast?_eq_getElem?] at h
      refine ⟨ei, ?_, heia⟩
      unfold nextEntry
      rw [position_of_index m hs _ e h]
      simp only
      have : m[m.length - 1 + 1]? = none := List.getElem?_eq_none (by omega)
      rw [this]
      simp only [List.head?_eq_getElem?]
      exact hei
    | succ i =>
      simp only [hi] at h
      refine ⟨ei, ?_, heia⟩
      unfold nextEntry
      rw [position_of_index m hs i e h]
      simp only [hei]

/-- In a map whose last entry is `(a, leaf)`, the entry before `a` is the last of
the others. -/
theorem previousEntry_append (m : List (Int × Leaf)) (a : Int) (leaf : Leaf)
    (hs : Sorted (m ++ [(a, leaf)])) (hne : m ≠ []) :
    previousEntry (m ++ [(a, leaf)]) a = m.getLast? := by
  have hget : (m ++ [(a, leaf)])[m.length]? = some (a, leaf) := by
    simp
  have hpos := position_of_index _ hs m.length (a, leaf) hget
  unfold previousEntry
  simp only at hpos
  rw [hpos]
  have hlen : 0 < m.length := List.length_pos.2 hne
  obtain ⟨k, hk⟩ : ∃ k, m.length = k + 1 := ⟨m.length - 1, by omega⟩
  rw [hk]
  simp only
  rw [List.getElem?_append_left (by omega), List.getLast?_eq_getElem?]
  congr 1
  omega

end StdMap

theorem find_of_mem_sorted (m : List (Int × Leaf)) (hs : StdMap.Sorted m) (e : Int × Leaf)
    (he : e ∈ m) : StdMap.find m e.1 = some e.2 := by
  induction m with
  | nil => simp at he
  | cons e0 rest ih =>
    obtain ⟨hhead, hrest⟩ := StdMap.sorted_cons e0 rest hs
    simp only [List.mem_cons] at he
    rcases he with he | he
    · subst he
      simp [StdMap.find]
    · have := hhead e he
      have hne : ¬ e0.1 = e.1 := by omega
      simp only [StdMap.find, hne, if_false]
      exact ih hrest he

theorem wf_sorted (g : Statics) (s : Session) (hwf : WF g s) : StdMap.Sorted s.leaves :=
  hwf.sorted

theorem requestFocus_eval (g : Statics) (s : Session) (hwf : WF g s) (e : Int × Leaf)
    (he : e ∈ s.leaves) :
    requestFocus s e.1 e.2 =
      some (if e.2.contentWidget then { s with activeId := e.1, title := e.2.title } else s) := by
  unfold requestFocus
  cases hw : e.2.contentWidget
  · simp
  · simp only [if_true]
    exact setActiveId_of_find s e.1 e.2 (find_of_mem_sorted _ hwf.sorted e he)

theorem active_ne_sentinel (g : Statics) (s : Session) (hwf : WF g s)
    (hc : StdMap.contains s.leaves s.activeId = true) : s.activeId ≠ -1 := by
  have := (hwf.fresh _ ((StdMap.contains_iff _ _).1 hc)).1
  omega

theorem focusNext_eval (s : Session) (e : Int × Leaf) (hne : s.activeId ≠ -1)
    (hc : StdMap.contains s.leaves s.activeId = true)
    (hn : StdMap.nextEntry s.leaves s.activeId = some e) :
    focusNext s = requestFocus s e.1 e.2 := by
  unfold focusNext
  simp [hne, hc, hn]

theorem focusPrevious_eval (s : Session) (e : Int × Leaf) (hne : s.activeId ≠ -1)
    (hc : StdMap.contains s.leaves s.activeId = true)
    (hn : StdMap.previousEntry s.leaves s.activeId = some e) :
    focusPrevious s = requestFocus s e.1 e.2 := by
  unfold focusPrevious
  simp [hne, hc, hn]

theorem focus_noop (s : Session)
    (h : s.activeId = -1 ∨ StdMap.contains s.leaves s.activeId = false) :
    focusNext s = some s ∧ focusPrevious s = some s := by
  unfold focusNext focusPrevious
  rcases h with h | h
  · simp [h]
  · simp [h]

@[simp]
theorem cleanup_activeId (s : Session) : (cleanup s).activeId = s.activeId := by
  unfold cleanup
  split
  · rfl
  · split <;> rfl

@[simp]
theorem cleanup_contentType (s : Session) : (cleanup s).contentType = s.contentType := by
  unfold cleanup
  split
  · rfl
  · split <;> rfl

@[simp]
theorem cleanup_terminals (s : Session) : (cleanup s).terminals = s.terminals := by
  unfold cleanup
  split
  · rfl
  · split <;> rfl

@[simp]
theorem cleanup_browsers (s : Session) : (cleanup s).browsers = s.browsers := by
  unfold cleanup
  split
  · rfl
  · split <;> rfl

@[simp]
theorem cleanup_title (s : Session) : (cleanup s).title = s.title := by
  unfold cleanup
  split
  · rfl
  · split <;> rfl

@[simp]
theorem cleanup_leaves (s : Session) : (cleanup s).leaves = s.leaves := by
  simp [Session.leaves, Session.registry]

@[simp]
theorem deleteLeaf_activeId (k : SessionContent) (s : Session) (id : Int) :
    (deleteLeaf k s id).activeId = s.activeId := by
  cases k <;> rfl

@[simp]
theorem deleteLeaf_contentType (k : SessionContent) (s : Session) (id : Int) :
    (deleteLeaf k s id).contentType = s.contentType := by
  cases k <;> rfl

@[simp]
theorem deleteLeaf_title (k : SessionContent) (s : Session) (id : Int) :
    (deleteLeaf k s id).title = s.title := by
  cases k <;> rfl

theorem deleteLeaf_leaves (s : Session) (id : Int) :
    (deleteLeaf s.contentType s id).leaves = StdMap.erase s.leaves id := by
  cases hc : s.contentType <;> simp [deleteLeaf, Session.leaves, Session.registry, hc]

/-- `closeSession` on a registered id: the optional focus move, then the removal. -/
theorem closeSession_eval (g : Statics) (s : Session) (id : Int) (hwf : WF g s)
    (hc : StdMap.contains s.leaves (resolve s id) = true) (s2 : Session)
    (hf : (if s.activeId = resolve s id ∧ s.leaves.length > 1 then focusPrevious s else some s)
      = some s2) (hst : SameTree s s2) :
    ∃ s1, closeSession s id = some s1
      ∧ s1.leaves = StdMap.erase s.leaves (resolve s id)
      ∧ s1.activeId = s2.activeId ∧ s1.title = s2.title := by
  have hne : resolve s id ≠ -1 := by
    have := (hwf.fresh _ ((StdMap.contains_iff _ _).1 hc)).1
    omega
  refine ⟨cleanup (deleteLeaf s2.contentType s2 (resolve s id)), ?_, ?_, by simp, by simp⟩
  · unfold closeSession cleanupId
    simp only [hne, if_false, hc, Bool.not_true, hf]
    simp
  · rw [cleanup_leaves, deleteLeaf_leaves, sameTree_leaves s s2 hst]

theorem sampleTwo_run :
    runFresh SessionContent.TerminalType SessionType.TwoHorizontal sampleEnv [] = some sampleTwo := by
  decide

theorem sampleTwo_reachable : Reachable sampleTwo.1 sampleTwo.2 :=
  runFresh_reachable _ _ _ _ _ [] _ _ trivial (fun _ _ => trivial) sampleTwo_run

theorem sampleMixed_run :
    runFresh SessionContent.TerminalType SessionType.Single sampleEnv
      [Op.splitLeftRight (-1) sampleEnvNoPart, Op.splitLeftRight (-1) sampleEnv, Op.activated 0]
      = some sampleMixed := by
  decide

theorem sampleMixed_reachable : Reachable sampleMixed.1 sampleMixed.2 :=
  runFresh_reachable _ _ _ _ _ _ _ _ trivial (fun _ _ => trivial) sampleMixed_run

theorem sampleNoPart_run :
    runFresh SessionContent.TerminalType SessionType.Single sampleEnvNoPart
      [Op.splitLeftRight (-1) sampleEnvNoPart] = some sampleNoPart := by
  decide

theorem sampleNoPart_reachable : Reachable sampleNoPart.1 sampleNoPart.2 :=
  runFresh_reachable _ _ _ _ _ _ _ _ trivial (fun _ _ => trivial) sampleNoPart_run

/-- C8: in a reachable state whose activeId is a registry key, focusNext makes
its (guarded) focus request on the entry with the least key greater than
activeId, or with the least key of all when activeId is the greatest;
focusPrevious on the entry with the greatest key smaller than activeId, or with
the greatest key of all when activeId is the least; with a single entry both
pick activeId itself. When activeId is -1 or not a key, both change nothing. -/
theorem focus_targets (g : Statics) (s : Session) (hr : Reachable g s) :
    (StdMap.contains s.leaves s.activeId = true →
      ∃ next previous,
        StdMap.nextEntry s.leaves s.activeId = some next
        ∧ focusNext s = requestFocus s next.1 next.2
        ∧ ((∃ x ∈ StdMap.keys s.leaves, s.activeId < x) →
            StdMap.IsLeastAbove s.leaves s.activeId next.1)
        ∧ ((¬ ∃ x ∈ StdMap.keys s.leaves, s.activeId < x) → StdMap.IsLeast s.leaves next.1)
        ∧ StdMap.previousEntry s.leaves s.activeId = some previous
        ∧ focusPrevious s = requestFocus s previous.1 previous.2
        ∧ ((∃ x ∈ StdMap.keys s.leaves, x < s.activeId) →
            StdMap.IsGreatestBelow s.leaves s.activeId previous.1)
        ∧ ((¬ ∃ x ∈ StdMap.keys s.leaves, x < s.activeId) →
            StdMap.IsGreatest s.leaves previous.1)
        ∧ (s.leaves.length = 1 → next.1 = s.activeId ∧ previous.1 = s.activeId))
      ∧ ((s.activeId = -1 ∨ StdMap.contains s.leaves s.activeId = false) →
        focusNext s = some s ∧ focusPrevious s = some s) := by
  have hwf := reachable_wf g s hr
  refine ⟨?_, focus_noop s⟩
  intro hc
  have hne := active_ne_sentinel g s hwf hc
  have hmem := (StdMap.contains_iff _ _).1 hc
  obtain ⟨n, hn, hnm, hn1, hn2⟩ := StdMap.nextEntry_spec s.leaves hwf.sorted s.activeId hmem
  obtain ⟨p, hp, hpm, hp1, hp2⟩ := StdMap.previousEntry_spec s.leaves hwf.sorted s.activeId hmem
  refine ⟨n, p, hn, focusNext_eval s n hne hc hn, hn1, hn2, hp, focusPrevious_eval s p hne hc hp,
    hp1, hp2, ?_⟩
  intro hone
  obtain ⟨e, he⟩ := List.length_eq_one.1 hone
  rw [he] at hnm hpm
  simp only [StdMap.keys, he, List.map_cons, List.map_nil, List.mem_singleton] at hmem
  simp only [List.mem_singleton] at hnm hpm
  rw [hnm, hpm, hmem]
  exact ⟨rfl, rfl⟩

/-- Witness of C8: two terminals side by side, leaf 0 active. -/
theorem focus_targets_witness :
    ∃ next previous,
      StdMap.nextEntry sampleTwo.2.leaves sampleTwo.2.activeId = some next
      ∧ focusNext sampleTwo.2 = requestFocus sampleTwo.2 next.1 next.2
      ∧ ((∃ x ∈ StdMap.keys sampleTwo.2.leaves, sampleTwo.2.activeId < x) →
          StdMap.IsLeastAbove sampleTwo.2.leaves sampleTwo.2.activeId next.1)
      ∧ ((¬ ∃ x ∈ StdMap.keys sampleTwo.2.leaves, sampleTwo.2.activeId < x) →
          StdMap.IsLeast sampleTwo.2.leaves next.1)
      ∧ StdMap.previousEntry sampleTwo.2.leaves sampleTwo.2.activeId = some previous
      ∧ focusPrevious sampleTwo.2 = requestFocus sampleTwo.2 previous.1 previous.2
      ∧ ((∃ x ∈ StdMap.keys sampleTwo.2.leaves, x < sampleTwo.2.activeId) →
          StdMap.IsGreatestBelow sampleTwo.2.leaves sampleTwo.2.activeId previous.1)
      ∧ ((¬ ∃ x ∈ StdMap.keys sampleTwo.2.leaves, x < sampleTwo.2.activeId) →
          StdMap.IsGreatest sampleTwo.2.leaves previous.1)
      ∧ (sampleTwo.2.leaves.length = 1 →
          next.1 = sampleTwo.2.activeId ∧ previous.1 = sampleTwo.2.activeId) :=
  (focus_targets sampleTwo.1 sampleTwo.2 sampleTwo_reachable).1 (by decide)

/-- C9 as stated fails: with three leaves of which leaf 1 has no content widget
and leaf 0 active, focusNext makes no focus request (its target, leaf 1, has no
widget) and focusPrevious then moves to leaf 2. -/
theorem focus_round_trip_counterexample :
    Reachable sampleMixed.1 sampleMixed.2
      ∧ 2 ≤ sampleMixed.2.leaves.length
      ∧ StdMap.contains sampleMixed.2.leaves sampleMixed.2.activeId = true
      ∧ sampleMixed.2.activeId = 0
      ∧ focusNext sampleMixed.2 = some sampleMixed.2
      ∧ (focusPrevious sampleMixed.2).map (fun s => s.activeId) = some 2 :=
  ⟨sampleMixed_reachable, by decide, by decide, by decide, by decide, by decide⟩

/-- C9, amended: in a reachable state whose leaves all have a content widget
and whose activeId is a registry key, focusNext followed by focusPrevious
returns activeId to its original value, and so does focusPrevious followed by
focusNext; this holds for a registry of any size, in particular for one with at
least two leaves. -/
theorem focus_round_trip (g : Statics) (s : Session) (hr : Reachable g s)
    (hc : StdMap.contains s.leaves s.activeId = true)
    (hall : ∀ e ∈ s.leaves, e.2.contentWidget = true) :
    (∃ s1 s2, focusNext s = some s1 ∧ focusPrevious s1 = some s2 ∧ s2.activeId = s.activeId)
      ∧ (∃ s1 s2, focusPrevious s = some s1 ∧ focusNext s1 = some s2
          ∧ s2.activeId = s.activeId) := by
  have hwf := reachable_wf g s hr
  have hne := active_ne_sentinel g s hwf hc
  have hmem := (StdMap.contains_iff _ _).1 hc
  obtain ⟨n, hn, hnm, _, _⟩ := StdMap.nextEntry_spec s.leaves hwf.sorted s.activeId hmem
  obtain ⟨p, hp, hpm, _, _⟩ := StdMap.previousEntry_spec s.leaves hwf.sorted s.activeId hmem
  obtain ⟨back, hback, hbacka⟩ := StdMap.previous_of_next s.leaves hwf.sorted s.activeId n hn
  obtain ⟨forth, hforth, hfortha⟩ := StdMap.next_of_previous s.leaves hwf.sorted s.activeId p hp
  have hstep : ∀ (e : Int × Leaf), e ∈ s.leaves →
      requestFocus s e.1 e.2 = some { s with activeId := e.1, title := e.2.title } := by
    intro e he
    rw [requestFocus_eval g s hwf e he, hall e he]
    rfl
  have hbackm : back ∈ s.leaves := by
    unfold StdMap.previousEntry at hback
    split at hback
    · cases hback
    · exact List.mem_of_mem_getLast? hback
    · exact List.getElem?_mem hback
  have hforthm : forth ∈ s.leaves := by
    unfold StdMap.nextEntry at hforth
    split at hforth
    · cases hforth
    · split at hforth
      · rename_i e he
        cases hforth
        exact List.getElem?_mem he
      · exact List.mem_of_mem_head? hforth
  constructor
  · refine ⟨{ s with activeId := n.1, title := n.2.title },
      { s with activeId := back.1, title := back.2.title }, ?_, ?_, hbacka⟩
    · rw [focusNext_eval s n hne hc hn, hstep n hnm]
    · have hwf1 : WF g { s with activeId := n.1, title := n.2.title } :=
        wf_sameTree g s _ ⟨rfl, rfl, rfl, rfl⟩ hwf
      have hc1 : StdMap.contains ({ s with activeId := n.1, title := n.2.title } : Session).leaves
          n.1 = true :=
        (StdMap.contains_iff _ _).2 (List.mem_map.2 ⟨n, hnm, rfl⟩)
      rw [focusPrevious_eval _ back (active_ne_sentinel g _ hwf1 hc1) hc1 hback]
      have := requestFocus_eval g _ hwf1 back hbackm
      rw [this, hall back hbackm]
      rfl
  · refine ⟨{ s with activeId := p.1, title := p.2.title },
      { s with activeId := forth.1, title := forth.2.title }, ?_, ?_, hfortha⟩
    · rw [focusPrevious_eval s p hne hc hp, hstep p hpm]
    · have hwf1 : WF g { s with activeId := p.1, title := p.2.title } :=
        wf_sameTree g s _ ⟨rfl, rfl, rfl, rfl⟩ hwf
      have hc1 : StdMap.contains ({ s with activeId := p.1, title := p.2.title } : Session).leaves
          p.1 = true :=
        (StdMap.contains_iff _ _).2 (List.mem_map.2 ⟨p, hpm, rfl⟩)
      rw [focusNext_eval _ forth (active_ne_sentinel g _ hwf1 hc1) hc1 hforth]
      have := requestFocus_eval g _ hwf1 forth hforthm
      rw [this, hall forth hforthm]
      rfl

/-- Witness of the amended C9: two loaded terminals side by side. -/
theorem focus_round_trip_witness :
    (∃ s1 s2, focusNext sampleTwo.2 = some s1 ∧ focusPrevious s1 = some s2
        ∧ s2.activeId = sampleTwo.2.activeId)
      ∧ (∃ s1 s2, focusPrevious sampleTwo.2 = some s1 ∧ focusNext s1 = some s2
          ∧ s2.activeId = sampleTwo.2.activeId) :=
  focus_round_trip sampleTwo.1 sampleTwo.2 sampleTwo_reachable (by decide) (by decide)

/-- C7 as stated fails: two terminals without content widget, leaf 1 active;
closeSession() removes leaf 1 and makes no focus request (leaf 0 has no
widget), so activeId stays 1 although the registry now holds leaf 0 only. -/
theorem closeSession_active_counterexample :
    Reachable sampleNoPart.1 sampleNoPart.2
      ∧ 1 < sampleNoPart.2.leaves.length
      ∧ sampleNoPart.2.activeId = 1
      ∧ StdMap.keys sampleNoPart.2.leaves = [0, 1]
      ∧ (closeSession sampleNoPart.2 (-1)).map (fun s => (StdMap.keys s.leaves, s.activeId))
          = some ([0], 1) :=
  ⟨sampleNoPart_reachable, by decide, by decide, by decide, by decide⟩

/-- C7, amended: in a reachable state with more than one leaf, closeSession on
the active leaf (id = activeId, or id = -1) removes exactly that id from the
registry; focusPrevious first picks the entry with the greatest key smaller
than the closed id, or with the greatest key of all when the closed id was the
smallest, and activeId becomes that key when the entry has a content widget,
while it stays the closed id when the entry has none. Closing a registered
leaf that is not active removes exactly its id and leaves activeId unchanged. -/
theorem closeSession_active (g : Statics) (s : Session) (id : Int) (hr : Reachable g s)
    (hmany : 1 < s.leaves.length) :
    (StdMap.contains s.leaves s.activeId = true → (id = s.activeId ∨ id = -1) →
      ∃ s1 previous,
        closeSession s id = some s1
        ∧ s1.leaves = StdMap.erase s.leaves s.activeId
        ∧ StdMap.previousEntry s.leaves s.activeId = some previous
        ∧ ((∃ x ∈ StdMap.keys s.leaves, x < s.activeId) →
            StdMap.IsGreatestBelow s.leaves s.activeId previous.1)
        ∧ ((¬ ∃ x ∈ StdMap.keys s.leaves, x < s.activeId) →
            StdMap.IsGreatest s.leaves previous.1)
        ∧ s1.activeId = (if previous.2.contentWidget then previous.1 else s.activeId))
      ∧ (StdMap.contains s.leaves id = true → id ≠ s.activeId →
        ∃ s1, closeSession s id = some s1
          ∧ s1.leaves = StdMap.erase s.leaves id
          ∧ s1.activeId = s.activeId) := by
  have hwf := reachable_wf g s hr
  constructor
  · intro hc hid
    have hne := active_ne_sentinel g s hwf hc
    have hres : resolve s id = s.activeId := by
      unfold resolve
      rcases hid with h | h
      · rw [h]
        simp [hne]
      · simp [h]
    have hmem := (StdMap.contains_iff _ _).1 hc
    obtain ⟨p, hp, hpm, hp1, hp2⟩ :=
      StdMap.previousEntry_spec s.leaves hwf.sorted s.activeId hmem
    have hfocus : focusPrevious s
        = some (if p.2.contentWidget then { s with activeId := p.1, title := p.2.title } else s) := by
      rw [focusPrevious_eval s p hne hc hp, requestFocus_eval g s hwf p hpm]
    obtain ⟨s1, h1, h2, h3, _⟩ := closeSession_eval g s id hwf (hres ▸ hc)
      (if p.2.contentWidget then { s with activeId := p.1, title := p.2.title } else s)
      (by rw [hres, if_pos ⟨rfl, hmany⟩]; exact hfocus)
      (by split
          · exact ⟨rfl, rfl, rfl, rfl⟩
          · exact sameTree_refl s)
    refine ⟨s1, p, h1, hres ▸ h2, hp, hp1, hp2, ?_⟩
    rw [h3]
    split <;> rfl
  · intro hc hid
    have hne : id ≠ -1 := by
      have := (hwf.fresh _ ((StdMap.contains_iff _ _).1 hc)).1
      omega
    have hres : resolve s id = id := by
      unfold resolve
      simp [hne]
    obtain ⟨s1, h1, h2, h3, _⟩ := closeSession_eval g s id hwf (hres.symm ▸ hc) s
      (by rw [hres, if_neg (fun h => hid h.1.symm)]) (sameTree_refl s)
    exact ⟨s1, h1, hres ▸ h2, h3⟩

/-- Witness of the amended C7: two loaded terminals side by side, the active
leaf 0 is closed with closeSession(). -/
theorem closeSession_active_witness :
    ∃ s1 previous,
      closeSession sampleTwo.2 (-1) = some s1
      ∧ s1.leaves = StdMap.erase sampleTwo.2.leaves sampleTwo.2.activeId
      ∧ StdMap.previousEntry sampleTwo.2.leaves sampleTwo.2.activeId = some previous
      ∧ ((∃ x ∈ StdMap.keys sampleTwo.2.leaves, x < sampleTwo.2.activeId) →
          StdMap.IsGreatestBelow sampleTwo.2.leaves sampleTwo.2.activeId previous.1)
      ∧ ((¬ ∃ x ∈ StdMap.keys sampleTwo.2.leaves, x < sampleTwo.2.activeId) →
          StdMap.IsGreatest sampleTwo.2.leaves previous.1)
      ∧ s1.activeId
          = (if previous.2.contentWidget then previous.1 else sampleTwo.2.activeId) :=
  (closeSession_active sampleTwo.1 sampleTwo.2 (-1) sampleTwo_reachable (by decide)).1
    (by decide) (Or.inr rfl)

/-- C2 as stated fails: with leaves 0 and 1, splitting leaf 0 creates leaf 2,
and closing leaf 2 moves the focus to leaf 1, the previous key, not to leaf 0. -/
theorem split_then_close_counterexample :
    Reachable sampleTwo.1 sampleTwo.2
      ∧ StdMap.contains sampleTwo.2.leaves 0 = true
      ∧ (splitLeftRight sampleTwo.1 sampleTwo.2 0 sampleEnv).map (fun r => r.2.2) = some 2
      ∧ ((splitLeftRight sampleTwo.1 sampleTwo.2 0 sampleEnv).bind
          (fun r => closeSession r.2.1 r.2.2)).map
            (fun s => (StdMap.keys s.leaves, s.activeId)) = some ([0, 1], 1) :=
  ⟨sampleTwo_reachable, by decide, by decide, by decide⟩

theorem erase_append_new (m : List (Int × Leaf)) (a : Int) (leaf : Leaf) (h : a ∉ StdMap.keys m) :
    StdMap.erase (m ++ [(a, leaf)]) a = m := by
  unfold StdMap.erase
  rw [List.filter_append]
  have h1 : List.filter (fun e => e.1 != a) m = m := by
    apply List.filter_eq_self.2
    intro e he
    have : e.1 ≠ a := fun h2 => h (List.mem_map.2 ⟨e, he, h2⟩)
    simpa using this
  rw [h1]
  simp

theorem getLast_isGreatest (m : List (Int × Leaf)) (hs : StdMap.Sorted m) (e : Int × Leaf)
    (h : m.getLast? = some e) : StdMap.IsGreatest m e.1 := by
  rw [List.getLast?_eq_getElem?] at h
  refine ⟨StdMap.mem_keys_of_get m _ e h, ?_⟩
  intro x hx
  obtain ⟨j, ex, hj, rfl⟩ := StdMap.mem_keys_index m x hx
  have hjlt := (List.getElem?_eq_some.1 hj).1
  exact StdMap.sorted_le m hs j _ ex e hj h (by omega)

theorem getLast_update (m : List (Int × Leaf)) (id : Int) (f : Leaf → Leaf) (e : Int × Leaf)
    (h : m.getLast? = some e) :
    ∃ e1, (StdMap.update m id f).getLast? = some e1 ∧ e1.1 = e.1
      ∧ (e1.2 = e.2 ∨ e1.2 = f e.2) := by
  unfold StdMap.update
  rw [List.getLast?_map, h]
  by_cases hid : e.1 = id
  · exact ⟨(e.1, f e.2), by simp [hid], rfl, Or.inr rfl⟩
  · exact ⟨e, by simp [hid], rfl, Or.inl rfl⟩

/-- Splitting a registered leaf and closing the new leaf, for either orientation. -/
theorem splitWith_then_close (o : Orientation) (g : Statics) (s : Session) (id : Int) (env : Env)
    (hwf : WF g s) (hL : StdMap.contains s.leaves id = true) :
    ∃ g1 s1 newId s2 last,
      splitWith o g s id env = some (g1, s1, newId)
      ∧ closeSession s1 newId = some s2
      ∧ StdMap.keys s2.leaves = StdMap.keys s.leaves
      ∧ s.leaves.getLast? = some last
      ∧ StdMap.IsGreatest s.leaves last.1
      ∧ s2.activeId = (if last.2.contentWidget then last.1 else newId) := by
  have hkey := (StdMap.contains_iff _ _).1 hL
  have hidne : id ≠ -1 := by
    have := (hwf.fresh _ hkey).1
    omega
  have hres : resolve s id = id := by
    unfold resolve
    simp [hidne]
  obtain ⟨leaf, hleaf, heq⟩ := splitWith_ok o g s id env hwf (hres.symm ▸ hL)
  rw [hres] at hleaf heq
  obtain ⟨s1, f, newLeaf, hs1, hwf1, hl, hf, _, hact, hct⟩ := split_ok g s id leaf o env hwf hleaf
  have hnonempty : s.leaves ≠ [] := fun h => by
    rw [h] at hkey
    simp [StdMap.keys] at hkey
  obtain ⟨last, hlast⟩ : ∃ last, s.leaves.getLast? = some last := by
    cases h : s.leaves.getLast? with
    | none => exact absurd (List.getLast?_eq_none_iff.1 h) hnonempty
    | some e => exact ⟨e, rfl⟩
  obtain ⟨last1, hlast1, hk1, hw1⟩ := getLast_update s.leaves id f last hlast
  have hcw : last1.2.contentWidget = last.2.contentWidget := by
    rcases hw1 with h | h
    · rw [h]
    · rw [h, (hf last.2).1]
  have hN0 : 0 ≤ g.available s.contentType := available_nonneg g s.contentType hwf.counters
  have hNne : g.available s.contentType ≠ -1 := by omega
  have hres1 : resolve s1 (g.available s.contentType) = g.available s.contentType := by
    unfold resolve
    simp [hNne]
  have hnot : g.available s.contentType ∉ StdMap.keys (StdMap.update s.leaves id f) := by
    rw [StdMap.keys_update]
    intro h
    have := (hwf.fresh _ h).2
    omega
  have hc1 : StdMap.contains s1.leaves (g.available s.contentType) = true := by
    rw [StdMap.contains_iff, hl]
    simp [StdMap.keys]
  have hupne : StdMap.update s.leaves id f ≠ [] := fun h => by
    rw [h] at hlast1
    simp at hlast1
  have hprev : StdMap.previousEntry s1.leaves s1.activeId = some last1 := by
    rw [hact, hl, StdMap.previousEntry_append _ _ _ (hl ▸ hwf1.sorted) hupne, hlast1]
  have hlast1m : last1 ∈ s1.leaves := by
    rw [hl]
    exact List.mem_append_left _ (List.mem_of_mem_getLast? hlast1)
  have hlen : s1.leaves.length > 1 := by
    rw [hl, List.length_append]
    have := List.length_pos.2 hupne
    simp only [List.length_cons, List.length_nil]
    omega
  have hfocus : focusPrevious s1 = some (if last1.2.contentWidget
      then { s1 with activeId := last1.1, title := last1.2.title } else s1) := by
    rw [focusPrevious_eval s1 last1 (hact ▸ hNne) (hact.symm ▸ hc1) hprev,
      requestFocus_eval _ s1 hwf1 last1 hlast1m]
  obtain ⟨s2, h1, h2, h3, _⟩ := closeSession_eval _ s1 (g.available s.contentType) hwf1
    (hres1.symm ▸ hc1)
    (if last1.2.contentWidget then { s1 with activeId := last1.1, title := last1.2.title } else s1)
    (by rw [hres1, if_pos ⟨hact, hlen⟩]; exact hfocus)
    (by split
        · exact ⟨rfl, rfl, rfl, rfl⟩
        · exact sameTree_refl s1)
  refine ⟨_, s1, _, s2, last, heq.trans hs1, h1, ?_, hlast, getLast_isGreatest _ hwf.sorted _ hlast,
    ?_⟩
  · rw [h2, hres1, hl, erase_append_new _ _ _ hnot, StdMap.keys_update]
  · rw [h3, hcw, ← hk1]
    split
    · rfl
    · exact hact

/-- C2, amended: in a reachable state, splitting a registered leaf L
(splitLeftRight or splitTopBottom) and then closing the new leaf with
closeSession(newId) yields a registry with the same keys as before the split
(hence the same number of leaves); activeId is then the greatest key of that
registry when the leaf registered under it has a content widget (it is L
exactly when L is the leaf with the greatest id), and stays newId when that
leaf has none. -/
theorem split_then_close (g : Statics) (s : Session) (id : Int) (env : Env)
    (hr : Reachable g s) (hL : StdMap.contains s.leaves id = true) :
    (∃ g1 s1 newId s2 last,
        splitLeftRight g s id env = some (g1, s1, newId)
        ∧ closeSession s1 newId = some s2
        ∧ StdMap.keys s2.leaves = StdMap.keys s.leaves
        ∧ s.leaves.getLast? = some last
        ∧ StdMap.IsGreatest s.leaves last.1
        ∧ s2.activeId = (if last.2.contentWidget then last.1 else newId))
      ∧ (∃ g1 s1 newId s2 last,
        splitTopBottom g s id env = some (g1, s1, newId)
        ∧ closeSession s1 newId = some s2
        ∧ StdMap.keys s2.leaves = StdMap.keys s.leaves
        ∧ s.leaves.getLast? = some last
        ∧ StdMap.IsGreatest s.leaves last.1
        ∧ s2.activeId = (if last.2.contentWidget then last.1 else newId)) :=
  ⟨splitWith_then_close _ g s id env (reachable_wf g s hr) hL,
    splitWith_then_close _ g s id env (reachable_wf g s hr) hL⟩

/-- Witness of the amended C2: leaf 0 of two loaded terminals is split and the
new leaf closed. -/
theorem split_then_close_witness :
    (∃ g1 s1 newId s2 last,
        splitLeftRight sampleTwo.1 sampleTwo.2 0 sampleEnv = some (g1, s1, newId)
        ∧ closeSession s1 newId = some s2
        ∧ StdMap.keys s2.leaves = StdMap.keys sampleTwo.2.leaves
        ∧ sampleTwo.2.leaves.getLast? = some last
        ∧ StdMap.IsGreatest sampleTwo.2.leaves last.1
        ∧ s2.activeId = (if last.2.contentWidget then last.1 else newId))
      ∧ (∃ g1 s1 newId s2 last,
        splitTopBottom sampleTwo.1 sampleTwo.2 0 sampleEnv = some (g1, s1, newId)
        ∧ closeSession s1 newId = some s2
        ∧ StdMap.keys s2.leaves = StdMap.keys sampleTwo.2.leaves
        ∧ sampleTwo.2.leaves.getLast? = some last
        ∧ StdMap.IsGreatest sampleTwo.2.leaves last.1
        ∧ s2.activeId = (if last.2.contentWidget then last.1 else newId)) :=
  split_then_close sampleTwo.1 sampleTwo.2 0 sampleEnv sampleTwo_reachable (by decide)

set_option maxHeartbeats 4000000 in
theorem activeOk_newSession (g0 : Statics) (ct : SessionContent) (ty : SessionType) (env : Env)
    (g : Statics) (s : Session) (hl : env.partLoaded = true)
    (h : newSession g0 ct ty env = some (g, s)) : ActiveOk s := by
  obtain ⟨a, t, b⟩ := g0
  obtain ⟨w, hh, pw, ph, loaded, title⟩ := env
  simp only at hl
  subst hl
  have f1 : ¬ (t + 1 < t) := by omega
  have f2 : ¬ (t + 1 = t) := by omega
  have f3 : ¬ (t + 1 + 1 < t) := by omega
  have f4 : ¬ (t + 1 + 1 = t) := by omega
  have f5 : ¬ (t + 1 + 1 < t + 1) := by omega
  have f6 : ¬ (t + 1 + 1 = t + 1) := by omega
  have f7 : ¬ (t + 1 + 1 + 1 < t) := by omega
  have f8 : ¬ (t + 1 + 1 + 1 = t) := by omega
  have f9 : ¬ (t + 1 + 1 + 1 < t + 1) := by omega
  have f10 : ¬ (t + 1 + 1 + 1 = t + 1) := by omega
  have f11 : ¬ (t + 1 + 1 + 1 < t + 1 + 1) := by omega
  have f12 : ¬ (t + 1 + 1 + 1 = t + 1 + 1) := by omega
  have e1 : ¬ (t = t + 1) := by omega
  have e2 : ¬ (t = t + 1 + 1) := by omega
  have e3 : ¬ (t = t + 1 + 1 + 1) := by omega
  have e4 : ¬ (t + 1 = t + 1 + 1) := by omega
  have e5 : ¬ (t + 1 = t + 1 + 1 + 1) := by omega
  have e6 : ¬ (t + 1 + 1 = t + 1 + 1 + 1) := by omega
  cases ct <;> cases ty <;>
  · simp [newSession, setupSession, addTerminal, addBrowser, addLeaf, requestFocus, setActiveId,
      focusFirst, Session.setRegistry, Session.registry, Session.leaves, Statics.available,
      Statics.bump, StdMap.insert, StdMap.find, setTitle, newSplitter, addWidget, setSizes,
      setOrientation, updateAt, f1, f2, f3, f4, f5, f6, f7, f8, f9, f10, f11, f12, e1, e2, e3,
      e4, e5, e6] at h
    obtain ⟨_, hs⟩ := h
    subst hs
    simp [ActiveOk, Session.leaves, Session.registry, StdMap.contains]

theorem activeOk_split (o : Orientation) (g : Statics) (s : Session) (id : Int) (env : Env)
    (g1 : Statics) (s1 : Session) (r : Int) (hwf : WF g s) (hok : ActiveOk s)
    (hl : env.partLoaded = true) (h : splitWith o g s id env = some (g1, s1, r)) :
    ActiveOk s1 := by
  by_cases hreg : StdMap.contains s.leaves (resolve s id) = true
  · obtain ⟨leaf, hleaf, heq⟩ := splitWith_ok o g s id env hwf hreg
    obtain ⟨s2, f, newLeaf, hs2, _, hlv, hf, hnl, hact, _⟩ :=
      split_ok g s (resolve s id) leaf o env hwf hleaf
    rw [heq, hs2] at h
    simp only [Option.some.injEq, Prod.mk.injEq] at h
    obtain ⟨_, hs3, _⟩ := h
    subst hs3
    constructor
    · intro e he
      rw [hlv, List.mem_append] at he
      rcases he with he | he
      · rcases StdMap.mem_update _ _ _ _ he with ⟨h1, _⟩ | ⟨l, h1, rfl⟩
        · exact hok.1 e h1
        · simp only
          rw [(hf l).1]
          exact hok.1 _ h1
      · simp only [List.mem_singleton] at he
        subst he
        simp only
        rw [hnl, hl]
    · right
      left
      rw [hact, StdMap.contains_iff, hlv]
      simp [StdMap.keys]
  · rw [splitWith_fail o g s id env hreg] at h
    simp only [Option.some.injEq, Prod.mk.injEq] at h
    rw [← h.2.1]
    exact hok

theorem previous_ne_of_many (m : List (Int × Leaf)) (hs : StdMap.Sorted m) (a : Int)
    (ha : a ∈ StdMap.keys m) (hmany : 1 < m.length) (p : Int × Leaf)
    (hp : StdMap.previousEntry m a = some p) : p.1 ≠ a ∧ p ∈ m := by
  obtain ⟨p2, hp2, hpm, h1, h2⟩ := StdMap.previousEntry_spec m hs a ha
  rw [hp] at hp2
  cases hp2
  refine ⟨?_, hpm⟩
  by_cases hex : ∃ x ∈ StdMap.keys m, x < a
  · have := (h1 hex).2.1
    omega
  · have hgr := (h2 hex).2
    obtain ⟨e0, he0⟩ : ∃ e0, m[0]? = some e0 := ⟨_, List.getElem?_eq_getElem (by omega)⟩
    obtain ⟨e1, he1⟩ : ∃ e1, m[1]? = some e1 := ⟨_, List.getElem?_eq_getElem (by omega)⟩
    have hlt := StdMap.sorted_lt m hs 0 1 e0 e1 he0 he1 (by omega)
    have h0 : ¬ e0.1 < a := fun h => hex ⟨_, StdMap.mem_keys_of_get m _ _ he0, h⟩
    have := hgr _ (StdMap.mem_keys_of_get m _ _ he1)
    omega

theorem contains_erase (m : List (Int × Leaf)) (a b : Int) (h : StdMap.contains m a = true)
    (hne : a ≠ b) : StdMap.contains (StdMap.erase m b) a = true := by
  rw [StdMap.contains_iff] at h ⊢
  rw [StdMap.keys_erase]
  exact List.mem_filter.2 ⟨h, by simpa using hne⟩

theorem activeOk_closeSession (g : Statics) (s s1 : Session) (id : Int) (hwf : WF g s)
    (hok : ActiveOk s) (h : closeSession s id = some s1) : ActiveOk s1 := by
  by_cases hc : StdMap.contains s.leaves (resolve s id) = true
  · have hkey := (StdMap.contains_iff _ _).1 hc
    by_cases hact : s.activeId = resolve s id ∧ s.leaves.length > 1
    · have hca : StdMap.contains s.leaves s.activeId = true := hact.1 ▸ hc
      have hne := active_ne_sentinel g s hwf hca
      obtain ⟨p, hp, hpm, _, _⟩ :=
        StdMap.previousEntry_spec s.leaves hwf.sorted s.activeId (hact.1 ▸ hkey)
      obtain ⟨hpne, _⟩ := previous_ne_of_many s.leaves hwf.sorted s.activeId (hact.1 ▸ hkey)
        hact.2 p hp
      have hfocus : focusPrevious s = some { s with activeId := p.1, title := p.2.title } := by
        rw [focusPrevious_eval s p hne hca hp, requestFocus_eval g s hwf p hpm, hok.1 p hpm]
        rfl
      obtain ⟨s2, h1, h2, h3, _⟩ := closeSession_eval g s id hwf hc
        { s with activeId := p.1, title := p.2.title }
        (by rw [if_pos hact]; exact hfocus) ⟨rfl, rfl, rfl, rfl⟩
      rw [h1] at h
      cases h
      constructor
      · intro e he
        rw [h2] at he
        exact hok.1 e (mem_erase_map _ _ _ he).1
      · right
        left
        rw [h2, h3]
        exact contains_erase _ _ _ ((StdMap.contains_iff _ _).2 (List.mem_map.2 ⟨p, hpm, rfl⟩))
          (fun h => hpne (h.trans hact.1.symm))
    · obtain ⟨s2, h1, h2, h3, _⟩ := closeSession_eval g s id hwf hc s
        (by rw [if_neg hact]) (sameTree_refl s)
      rw [h1] at h
      cases h
      constructor
      · intro e he
        rw [h2] at he
        exact hok.1 e (mem_erase_map _ _ _ he).1
      · rw [h2, h3]
        rcases hok.2 with h4 | h4 | h4
        · exact Or.inl h4
        · by_cases heq : s.activeId = resolve s id
          · right
            right
            have hlen : s.leaves.length ≤ 1 := by
              by_contra hcon
              exact hact ⟨heq, by omega⟩
            cases hm : s.leaves with
            | nil => rfl
            | cons e rest =>
              rw [hm] at hlen hkey
              have hrest : rest = [] := by
                cases rest with
                | nil => rfl
                | cons _ _ => simp at hlen
              subst hrest
              simp only [StdMap.keys, List.map_cons, List.map_nil, List.mem_singleton] at hkey
              simp [StdMap.erase, hkey]
          · exact Or.inr (Or.inl (contains_erase _ _ _ h4 heq))
        · right
          right
          rw [h4]
          rfl
  · have : closeSession s id = some s := by
      unfold closeSession
      by_cases h1 : resolve s id = -1
      · simp [h1]
      · simp [h1, hc]
    rw [this] at h
    cases h
    exact hok

theorem activeOk_requestFocus (s s1 : Session) (e : Int × Leaf) (hok : ActiveOk s)
    (he : e ∈ s.leaves) (h : requestFocus s e.1 e.2 = some s1) : ActiveOk s1 := by
  obtain ⟨hst, hact⟩ := requestFocus_sameTree s s1 e.1 e.2 h
  have hl := sameTree_leaves s s1 hst
  refine ⟨hl ▸ hok.1, ?_⟩
  rw [hl, hact, hok.1 e he]
  exact Or.inr (Or.inl ((StdMap.contains_iff _ _).2 (List.mem_map.2 ⟨e, he, rfl⟩)))

theorem nextEntry_mem (m : List (Int × Leaf)) (a : Int) (e : Int × Leaf)
    (h : StdMap.nextEntry m a = some e) : e ∈ m := by
  unfold StdMap.nextEntry at h
  split at h
  · cases h
  · split at h
    · rename_i e2 he2
      cases h
      exact List.getElem?_mem he2
    · exact List.mem_of_mem_head? h

theorem previousEntry_mem (m : List (Int × Leaf)) (a : Int) (e : Int × Leaf)
    (h : StdMap.previousEntry m a = some e) : e ∈ m := by
  unfold StdMap.previousEntry at h
  split at h
  · cases h
  · exact List.mem_of_mem_getLast? h
  · exact List.getElem?_mem h

theorem activeOk_focusNext (s s1 : Session) (hok : ActiveOk s) (h : focusNext s = some s1) :
    ActiveOk s1 := by
  unfold focusNext at h
  split at h
  · cases h; exact hok
  · split at h
    · cases h; exact hok
    · split at h
      · rename_i e he
        exact activeOk_requestFocus s s1 e hok (nextEntry_mem _ _ _ he) h
      · cases h

theorem activeOk_focusPrevious (s s1 : Session) (hok : ActiveOk s)
    (h : focusPrevious s = some s1) : ActiveOk s1 := by
  unfold focusPrevious at h
  split at h
  · cases h; exact hok
  · split at h
    · cases h; exact hok
    · split at h
      · rename_i e he
        exact activeOk_requestFocus s s1 e hok (previousEntry_mem _ _ _ he) h
      · cases h

theorem tryGrow_frame (s s1 : Session) (id : Int) (d : GrowthDirection) (px : Nat) (rb r : Int)
    (h : tryGrow s id d px rb = some (s1, r)) :
    s1.leaves = s.leaves ∧ s1.activeId = s.activeId ∧ s1.title = s.title := by
  unfold tryGrow at h
  simp only at h
  split at h
  · cases h
    exact ⟨rfl, rfl, rfl⟩
  · split at h
    · cases h
      exact ⟨rfl, rfl, rfl⟩
    · cases h

theorem activeOk_applyOp (g : Statics) (s : Session) (op : Op) (g1 : Statics) (s1 : Session)
    (hwf : WF g s) (hok : ActiveOk s) (hop : focusKeeping op)
    (h : applyOp g s op = some (g1, s1)) : ActiveOk s1 := by
  have hsplit : ∀ o id env, env.partLoaded = true →
      (splitWith o g s id env).map (fun r => (r.1, r.2.1)) = some (g1, s1) → ActiveOk s1 := by
    intro o id env hl hs
    cases hr : splitWith o g s id env with
    | none => simp [hr] at hs
    | some r =>
      obtain ⟨rg, rs, ri⟩ := r
      simp only [hr, Option.map_some', Option.some.injEq, Prod.mk.injEq] at hs
      rw [← hs.2]
      exact activeOk_split o g s id env rg rs ri hwf hok hl hr
  cases op with
  | splitLeftRight id env => exact hsplit _ id env hop h
  | splitTopBottom id env => exact hsplit _ id env hop h
  | splitAuto id env =>
    simp only [applyOp, splitAuto_eq] at h
    split at h
    · exact hsplit _ id env hop h
    · exact hsplit _ id env hop h
  | closeSession id =>
    simp only [applyOp] at h
    cases hr : closeSession s id with
    | none => simp [hr] at h
    | some s2 =>
      simp only [hr, Option.map_some', Option.some.injEq, Prod.mk.injEq] at h
      rw [← h.2]
      exact activeOk_closeSession g s s2 id hwf hok hr
  | closeTerminal id => exact absurd hop (by simp [focusKeeping])
  | closeBrowser id => exact absurd hop (by simp [focusKeeping])
  | focusNext =>
    simp only [applyOp] at h
    cases hr : focusNext s with
    | none => simp [hr] at h
    | some s2 =>
      simp only [hr, Option.map_some', Option.some.injEq, Prod.mk.injEq] at h
      rw [← h.2]
      exact activeOk_focusNext s s2 hok hr
  | focusPrevious =>
    simp only [applyOp] at h
    cases hr : focusPrevious s with
    | none => simp [hr] at h
    | some s2 =>
      simp only [hr, Option.map_some', Option.some.injEq, Prod.mk.injEq] at h
      rw [← h.2]
      exact activeOk_focusPrevious s s2 hok hr
  | tryGrow id d px rb =>
    simp only [applyOp] at h
    cases hr : tryGrow s id d px rb with
    | none => simp [hr] at h
    | some r =>
      simp only [hr, Option.map_some', Option.some.injEq, Prod.mk.injEq] at h
      rw [← h.2]
      obtain ⟨h1, h2, _⟩ := tryGrow_frame s r.1 id d px rb r.2 hr
      unfold ActiveOk
      rw [h1, h2]
      exact hok
  | activated id =>
    simp only [applyOp] at h
    cases hr : leafActivated s id with
    | none => simp [hr] at h
    | some s2 =>
      simp only [hr, Option.map_some', Option.some.injEq, Prod.mk.injEq] at h
      rw [← h.2]
      unfold leafActivated at hr
      split at hr
      · rename_i leaf hleaf
        have hm := StdMap.find_some_mem _ _ _ hleaf
        exact activeOk_requestFocus s s2 (id, leaf) hok hm (by unfold requestFocus; exact hr)
      · cases hr
        exact hok
  | titleChanged id title =>
    simp only [applyOp, Option.some.injEq, Prod.mk.injEq] at h
    rw [← h.2]
    unfold leafTitleChanged
    split
    · have hst : SameTree
          (s.setRegistry s.contentType
            (StdMap.update s.leaves id (fun l => { l with title := title })))
          (setTitle (s.setRegistry s.contentType
            (StdMap.update s.leaves id (fun l => { l with title := title }))) id title) := by
        unfold setTitle
        split
        · exact ⟨rfl, rfl, rfl, rfl⟩
        · exact sameTree_refl _
      have hl : (setTitle (s.setRegistry s.contentType
          (StdMap.update s.leaves id (fun l => { l with title := title }))) id title).leaves
          = StdMap.update s.leaves id (fun l => { l with title := title }) := by
        rw [sameTree_leaves _ _ hst]
        simp [Session.leaves]
      have ha : (setTitle (s.setRegistry s.contentType
          (StdMap.update s.leaves id (fun l => { l with title := title }))) id title).activeId
          = s.activeId := by
        unfold setTitle
        split <;> simp
      unfold ActiveOk
      rw [hl, ha]
      constructor
      · intro e he
        rcases StdMap.mem_update _ _ _ _ he with ⟨h1, _⟩ | ⟨l, h1, rfl⟩
        · exact hok.1 e h1
        · exact hok.1 (id, l) h1
      · rcases hok.2 with h4 | h4 | h4
        · exact Or.inl h4
        · right
          left
          rw [StdMap.contains_iff, StdMap.keys_update]
          exact (StdMap.contains_iff _ _).1 h4
        · right
          right
          rw [h4]
          rfl
    · exact hok
  | constructedElsewhere a b c =>
    simp only [applyOp, Option.some.injEq, Prod.mk.injEq] at h
    rw [← h.2]
    exact hok
  | prepareShutdown =>
    simp only [applyOp] at h
    have hps : ActiveOk (prepareShutdown s) := hok
    split at h
    · split at h
      · simp only [Option.some.injEq, Prod.mk.injEq] at h
        rw [← h.2]
        exact hps
      · simp only [Option.some.injEq, Prod.mk.injEq] at h
        rw [← h.2]
        exact hok
    · simp only [Option.some.injEq, Prod.mk.injEq] at h
      rw [← h.2]
      exact hok

theorem sampleLeafClosed_run :
    runFresh SessionContent.TerminalType SessionType.TwoHorizontal sampleEnv [Op.closeTerminal 0]
      = some sampleLeafClosed := by
  decide

theorem sampleNoPartClosed_run :
    runFresh SessionContent.TerminalType SessionType.Single sampleEnvNoPart
      [Op.splitLeftRight (-1) sampleEnvNoPart, Op.closeSession (-1)] = some sampleNoPartClosed := by
  decide

theorem sampleLastClosed_run :
    runFresh SessionContent.TerminalType SessionType.Single sampleEnv [Op.closeSession (-1)]
      = some sampleLastClosed := by
  decide

/-- C1 as stated fails in three reachable states: after closeTerminal on the
active leaf (activeId 0, registry {1}); after closeSession on the active leaf
when the previous leaf has no content widget (activeId 1, registry {0}); and
after closeSession on the last leaf (activeId 0, registry empty). -/
theorem activeId_registered_counterexample :
    (Reachable sampleLeafClosed.1 sampleLeafClosed.2
        ∧ sampleLeafClosed.2.activeId ≠ -1
        ∧ StdMap.contains sampleLeafClosed.2.leaves sampleLeafClosed.2.activeId = false)
      ∧ (Reachable sampleNoPartClosed.1 sampleNoPartClosed.2
        ∧ sampleNoPartClosed.2.activeId ≠ -1
        ∧ StdMap.contains sampleNoPartClosed.2.leaves sampleNoPartClosed.2.activeId = false)
      ∧ (Reachable sampleLastClosed.1 sampleLastClosed.2
        ∧ sampleLastClosed.2.activeId ≠ -1
        ∧ StdMap.contains sampleLastClosed.2.leaves sampleLastClosed.2.activeId = false) :=
  ⟨⟨runFresh_reachable _ _ _ _ _ _ _ _ trivial (fun _ _ => trivial) sampleLeafClosed_run,
      by decide, by decide⟩,
    ⟨runFresh_reachable _ _ _ _ _ _ _ _ trivial (fun _ _ => trivial) sampleNoPartClosed_run,
      by decide, by decide⟩,
    ⟨runFresh_reachable _ _ _ _ _ _ _ _ trivial (fun _ _ => trivial) sampleLastClosed_run,
      by decide, by decide⟩⟩

/-- C1, amended: in every state reachable from a construction whose parts load
through the events other than closeTerminal and closeBrowser (the split
operations with parts that load, closeSession, focusNext, focusPrevious,
tryGrow, leaf activation and title changes), activeId is -1 or a key of the
leaf registry, or the registry is empty (the last leaf was closed). -/
theorem activeId_registered (g : Statics) (s : Session)
    (h : ReachableVia loadedInitial focusKeeping g s) :
    s.activeId = -1 ∨ StdMap.contains s.leaves s.activeId = true ∨ s.leaves = [] := by
  have hok : ActiveOk s := by
    induction h with
    | init g0 ct ty env g s _ _ h3 h4 => exact activeOk_newSession g0 ct ty env g s h3 h4
    | step g s op g1 s1 hprev hop h3 ih =>
      exact activeOk_applyOp g s op g1 s1 (reachableVia_wf _ _ g s hprev) ih hop h3
  exact hok.2

theorem sampleSplitClosed_run :
    runFresh SessionContent.TerminalType SessionType.Single sampleEnv
      [Op.splitLeftRight (-1) sampleEnv, Op.focusNext, Op.closeSession (-1)]
      = some sampleSplitClosed := by
  decide

/-- Witness of the amended C1: a single loaded terminal is split, the focus
moves on, and the active leaf is closed. -/
theorem activeId_registered_witness :
    sampleSplitClosed.2.activeId = -1
      ∨ StdMap.contains sampleSplitClosed.2.leaves sampleSplitClosed.2.activeId = true
      ∨ sampleSplitClosed.2.leaves = [] :=
  activeId_registered sampleSplitClosed.1 sampleSplitClosed.2
    (runFresh_reachable loadedInitial focusKeeping SessionContent.TerminalType SessionType.Single
      sampleEnv [Op.splitLeftRight (-1) sampleEnv, Op.focusNext, Op.closeSession (-1)] _ _ rfl
      (fun op h => by
        simp only [List.mem_cons, List.mem_singleton, List.not_mem_nil, or_false] at h
        rcases h with h | h | h <;> subst h <;> simp [focusKeeping, sampleEnv])
      sampleSplitClosed_run)

theorem parentWidget_some (a : List Splitter) (w : Widget) (i : Nat)
    (h : parentWidget a w = some i) : ∃ n, a[i]? = some n ∧ w ∈ n.widgets := by
  induction a generalizing i with
  | nil => simp [parentWidget] at h
  | cons n rest ih =>
    by_cases hm : w ∈ n.widgets
    · simp only [parentWidget, hm, if_true, Option.some.injEq] at h
      subst h
      exact ⟨n, by simp, hm⟩
    · simp only [parentWidget, hm, if_false, Option.map_eq_some'] at h
      obtain ⟨j, hj, rfl⟩ := h
      obtain ⟨n2, hn2, hw⟩ := ih j hj
      exact ⟨n2, by simpa using hn2, hw⟩

theorem parentWidget_of_mem (a : List Splitter) (w : Widget) (i : Nat) (n : Splitter)
    (hn : a[i]? = some n) (hw : w ∈ n.widgets) : ∃ j, parentWidget a w = some j := by
  induction a generalizing i with
  | nil => simp at hn
  | cons n0 rest ih =>
    by_cases hm : w ∈ n0.widgets
    · exact ⟨0, by simp [parentWidget, hm]⟩
    · cases i with
      | zero =>
        simp only [List.getElem?_cons_zero, Option.some.injEq] at hn
        subst hn
        exact absurd hw hm
      | succ i =>
        simp only [List.getElem?_cons_succ] at hn
        obtain ⟨j, hj⟩ := ih i hn
        exact ⟨j + 1, by simp [parentWidget, hm, hj]⟩

theorem indexOf_spec (ws : List Widget) (c : Widget) (h : indexOf ws c ≠ -1) :
    ∃ i : Nat, indexOf ws c = (i : Int) ∧ ws[i]? = some c := by
  induction ws with
  | nil => simp [indexOf] at h
  | cons w rest ih =>
    by_cases hw : w = c
    · exact ⟨0, by simp [indexOf, hw], by simp [hw]⟩
    · simp only [indexOf, hw, if_false] at h ⊢
      by_cases hr : indexOf rest c = -1
      · simp [hr] at h
      · obtain ⟨i, hi, hget⟩ := ih hr
        refine ⟨i + 1, ?_, by simpa using hget⟩
        simp only [hr, if_false, hi]
        push_cast
        rfl

theorem ancestor_valid (a : List Splitter) (id : Int) (sp : Nat) (child : Widget)
    (hpl : ∀ (j : Nat) (n : Splitter) (p : Nat), a[j]? = some n → n.parent = some p → p < j)
    (h : Ancestor a id sp child) : ∃ n, a[sp]? = some n := by
  cases h with
  | parent _ hp =>
    obtain ⟨n, hn, _⟩ := parentWidget_some a _ sp hp
    exact ⟨n, hn⟩
  | up sp0 child0 n p _ hn hpar =>
    have h1 := hpl sp0 n sp hn hpar
    have h2 := (List.getElem?_eq_some.1 hn).1
    exact ⟨_, List.getElem?_eq_getElem (by omega)⟩

/-- Without a qualifying ancestor the loop of `tryGrow` runs up to the base
splitter and goes on with its parent widget, which is not a `Splitter`. -/
theorem tryGrowLoop_fail (a : List Splitter) (id : Int) (d : GrowthDirection) (px : Nat)
    (rb : Int)
    (hpl : ∀ (j : Nat) (n : Splitter) (p : Nat), a[j]? = some n → n.parent = some p → p < j)
    (hno : ∀ sp, ¬ Qualifies a id d sp) (fuel : Nat) (child : Widget) (sp : Nat)
    (hanc : Ancestor a id sp child) (hfuel : sp < fuel) :
    tryGrowLoop (decide (d = GrowthDirection.Right ∨ d = GrowthDirection.Left))
      (decide (d = GrowthDirection.Down ∨ d = GrowthDirection.Right)) px rb fuel a child (some sp)
      = none := by
  induction fuel generalizing child sp with
  | zero => omega
  | succ fuel ih =>
    obtain ⟨n, hn⟩ := ancestor_valid a id sp child hpl hanc
    have hcont : ∀ p, n.parent = some p →
        tryGrowLoop (decide (d = GrowthDirection.Right ∨ d = GrowthDirection.Left))
          (decide (d = GrowthDirection.Down ∨ d = GrowthDirection.Right)) px rb fuel a
          (Widget.splitter sp) (some p) = none := by
      intro p hp
      have := hpl sp n p hn hp
      exact ih (Widget.splitter sp) p (Ancestor.up sp child n p hanc hn hp) (by omega)
    simp only [tryGrowLoop, hn]
    split
    · rename_i hor
      split
      · rename_i hpos
        exfalso
        apply hno sp
        refine ⟨child, n, hanc, hn, ?_, ?_⟩
        · cases d <;> cases ho : n.orientation <;> simp [ho, axisOf] at hor ⊢
        · simp only [Bool.and_eq_true, bne_iff_ne, ne_eq, Bool.or_eq_true, decide_eq_true_eq,
            Bool.not_eq_true', decide_eq_false_iff_not] at hpos
          obtain ⟨⟨h1, h2⟩, h3⟩ := hpos
          obtain ⟨i, hi, hget⟩ := indexOf_spec n.widgets child h1
          have hilt := (List.getElem?_eq_some.1 hget).1
          refine ⟨i, hget, ?_⟩
          rw [hi] at h2 h3
          cases d <;> simp [towardsNext] at h2 h3 ⊢ <;> omega
      · split
        · rename_i p hp
          exact hcont p hp
        · rfl
    · split
      · rename_i p hp
        exact hcont p hp
      · rfl

/-- In a tree whose nodes hold at most one child each, no node qualifies. -/
theorem single_child_no_qualify (a : List Splitter) (id : Int) (d : GrowthDirection)
    (hsingle : ∀ (j : Nat) (n : Splitter), a[j]? = some n → n.widgets.length ≤ 1) (sp : Nat) :
    ¬ Qualifies a id d sp := by
  rintro ⟨child, n, _, hn, _, i, hget, hdir⟩
  have hlen := hsingle sp n hn
  have hilt := (List.getElem?_eq_some.1 hget).1
  split at hdir <;> omega

/-- C10: in a reachable state, tryGrow returns -1 and leaves the whole state
unchanged when the id is not in the registry. For a registered leaf without a
qualifying ancestor (no ancestor node both has the orientation of the
direction's axis and holds the leaf's branch at a position with a neighbour in
that direction; so in any tree whose nodes hold at most one child each) the
call does not return -1: the loop climbs past the base splitter, whose parent
widget is the `SessionStack`, and uses it as a `Splitter`; the call has no
defined result. -/
theorem tryGrow_without_ancestor (g : Statics) (s : Session) (id : Int) (d : GrowthDirection)
    (px : Nat) (rb : Int) (hr : Reachable g s) :
    (StdMap.contains s.leaves id = false → tryGrow s id d px rb = some (s, -1))
      ∧ (StdMap.contains s.leaves id = true → (∀ sp, ¬ Qualifies s.splitters id d sp) →
          tryGrow s id d px rb = none)
      ∧ (StdMap.contains s.leaves id = true →
          (∀ (j : Nat) (n : Splitter), s.splitters[j]? = some n → n.widgets.length ≤ 1) →
          (∀ sp, ¬ Qualifies s.splitters id d sp) ∧ tryGrow s id d px rb = none) := by
  have hwf := reachable_wf g s hr
  have hmain : StdMap.contains s.leaves id = true → (∀ sp, ¬ Qualifies s.splitters id d sp) →
      tryGrow s id d px rb = none := by
    intro hreg hno
    obtain ⟨leaf, hleaf⟩ := StdMap.find_of_contains _ _ hreg
    have hmem := StdMap.find_some_mem _ _ _ hleaf
    obtain ⟨p, hp, hin⟩ := hwf.held _ hmem
    obtain ⟨sp0, hsp0⟩ := parentWidget_of_mem s.splitters (Widget.part id) _ p hp hin
    obtain ⟨n0, hn0, _⟩ := parentWidget_some _ _ sp0 hsp0
    have hloop := tryGrowLoop_fail s.splitters id d px rb hwf.parentLt hno s.splitters.length
      (Widget.part id) sp0 (Ancestor.parent sp0 hsp0) (List.getElem?_eq_some.1 hn0).1
    simp only [Bool.decide_or] at hloop
    unfold tryGrow
    cases hct : s.contentType <;>
      simp only [Session.leaves, Session.registry, hct] at hreg hleaf <;>
      simp [getTerminal, getBrowser, hreg, hleaf, hsp0, hloop]
  refine ⟨?_, hmain, fun hreg hsingle =>
    ⟨single_child_no_qualify s.splitters id d hsingle,
     hmain hreg (single_child_no_qualify s.splitters id d hsingle)⟩⟩
  intro hc
  unfold tryGrow getTerminal getBrowser
  cases hct : s.contentType <;>
    simp [Session.leaves, Session.registry, hct] at hc <;> simp [hc]

/-- Witness of C10: in the single-leaf tree of a freshly constructed session,
growing the registered leaf 0 to the right has no defined result, also when the
call comes through the stack, while growing the unregistered id 7 returns
-1. -/
theorem tryGrow_without_ancestor_witness :
    Reachable sampleSingle.1 sampleSingle.2
      ∧ StdMap.contains sampleSingle.2.leaves 0 = true
      ∧ tryGrow sampleSingle.2 0 GrowthDirection.Right 10 0 = none
      ∧ SessionStack.tryGrow sampleStackOne.2 GrowthDirection.Right 0 10 0 = none
      ∧ tryGrow sampleSingle.2 7 GrowthDirection.Right 10 0 = some (sampleSingle.2, -1) :=
  ⟨sampleSingle_reachable, by decide,
   ((tryGrow_without_ancestor sampleSingle.1 sampleSingle.2 0 GrowthDirection.Right 10 0
      sampleSingle_reachable).2.2 (by decide) (fun j n hn => by
        rcases j with _ | j
        · simp only [sampleSingle, List.getElem?_cons_zero, Option.some.injEq] at hn
          subst hn
          decide
        · simp [sampleSingle] at hn)).2,
   by decide,
   (tryGrow_without_ancestor sampleSingle.1 sampleSingle.2 7 GrowthDirection.Right 10 0
      sampleSingle_reachable).1 (by decide)⟩

theorem ancestorAt_unique (a : List Splitter) (id : Int) (k sp : Nat) (child : Widget)
    (h1 : AncestorAt a id k sp child) :
    ∀ sp2 child2, AncestorAt a id k sp2 child2 → sp2 = sp ∧ child2 = child := by
  induction h1 with
  | parent sp hp =>
    intro sp2 child2 h2
    cases h2 with
    | parent _ hp2 =>
      rw [hp] at hp2
      simp only [Option.some.injEq] at hp2
      exact ⟨hp2.symm, rfl⟩
  | up k sp child n p _ hn hpar ih =>
    intro sp2 child2 h2
    cases h2 with
    | up _ sp0 child0 n0 _ h0 hn0 hpar0 =>
      obtain ⟨hsp, _⟩ := ih sp0 child0 h0
      subst hsp
      rw [hn] at hn0
      simp only [Option.some.injEq] at hn0
      subst hn0
      rw [hpar] at hpar0
      simp only [Option.some.injEq] at hpar0
      exact ⟨hpar0.symm, rfl⟩

theorem ancestorAt_valid (a : List Splitter) (id : Int) (k sp : Nat) (child : Widget)
    (hpl : ∀ (j : Nat) (n : Splitter) (p : Nat), a[j]? = some n → n.parent = some p → p < j)
    (h : AncestorAt a id k sp child) : ∃ n, a[sp]? = some n := by
  cases h with
  | parent _ hp =>
    obtain ⟨n, hn, _⟩ := parentWidget_some a _ sp hp
    exact ⟨n, hn⟩
  | up k0 sp0 child0 n _ _ hn hpar =>
    have h1 := hpl sp0 n sp hn hpar
    have h2 := (List.getElem?_eq_some.1 hn).1
    exact ⟨_, List.getElem?_eq_getElem (by omega)⟩

theorem ancestor_iff (a : List Splitter) (id : Int) (sp : Nat) (child : Widget) :
    Ancestor a id sp child ↔ ∃ k, AncestorAt a id k sp child := by
  constructor
  · intro h
    induction h with
    | parent sp hp => exact ⟨0, AncestorAt.parent sp hp⟩
    | up sp child n p _ hn hpar ih =>
      obtain ⟨k, hk⟩ := ih
      exact ⟨k + 1, AncestorAt.up k sp child n p hk hn hpar⟩
  · rintro ⟨k, h⟩
    induction h with
    | parent sp hp => exact Ancestor.parent sp hp
    | up k sp child n p _ hn hpar ih => exact Ancestor.up sp child n p ih hn hpar

theorem indexOf_of_get (ws : List Widget) (c : Widget) (i : Nat) (hnd : ws.Nodup)
    (h : ws[i]? = some c) : indexOf ws c = (i : Int) := by
  induction ws generalizing i with
  | nil => simp at h
  | cons w rest ih =>
    rw [List.nodup_cons] at hnd
    cases i with
    | zero =>
      simp only [List.getElem?_cons_zero, Option.some.injEq] at h
      simp [indexOf, h]
    | succ i =>
      simp only [List.getElem?_cons_succ] at h
      have hmem : c ∈ rest := List.getElem?_mem h
      have hne : ¬ w = c := fun hw => hnd.1 (hw ▸ hmem)
      have hi := ih i hnd.2 h
      simp only [indexOf, hne, if_false, hi]
      have : ¬ ((i : Int) = -1) := by omega
      simp only [this, if_false]
      push_cast
      rfl

theorem adjacent_ne (d : GrowthDirection) (i : Nat)
    (hdir : if towardsNext d then True else 0 < i) : adjacentIndex d i ≠ i := by
  unfold adjacentIndex
  split
  · omega
  · rename_i h
    simp only [h] at hdir
    simp only [Bool.false_eq_true, if_false] at hdir
    omega

/-- One iteration of the loop of `tryGrow` at a node that qualifies. -/
theorem tryGrowLoop_here (a : List Splitter) (d : GrowthDirection) (px : Nat) (rb : Int)
    (fuel : Nat) (child : Widget) (sp : Nat) (n : Splitter) (i : Nat) (old nb : Int)
    (hn : a[sp]? = some n) (hor : n.orientation = axisOf d) (hnd : n.widgets.Nodup)
    (hget : n.widgets[i]? = some child)
    (hdir : if towardsNext d then i + 1 < n.widgets.length else 0 < i)
    (hold : n.sizes[i]? = some old) (hnb : n.sizes[adjacentIndex d i]? = some nb) :
    tryGrowLoop (decide (d = GrowthDirection.Right ∨ d = GrowthDirection.Left))
      (decide (d = GrowthDirection.Down ∨ d = GrowthDirection.Right)) px rb (fuel + 1) a child
      (some sp)
      = some (setSizes a sp ((n.sizes.set i (wrap32 (old + (px : Int)))).set (adjacentIndex d i)
                (wrap32 (nb - (px : Int)))), rb - old) := by
  have hidx := indexOf_of_get n.widgets child i hnd hget
  have hilt := (List.getElem?_eq_some.1 hget).1
  have hislt := (List.getElem?_eq_some.1 hold).1
  have h1 : ¬ ((i : Int) = -1) := by omega
  have e0 : ((i : Int)).toNat = i := by omega
  have e1 : ((i : Int) + 1).toNat = i + 1 := by omega
  have e2 : ((i : Int) - 1).toNat = i - 1 := by omega
  have hne : adjacentIndex d i ≠ i := adjacent_ne d i (by
    split at hdir
    · simp [*]
    · simp [*])
  have hg1 : (n.sizes.set i (wrap32 (old + (px : Int))))[adjacentIndex d i]? = some nb := by
    rw [List.getElem?_set_ne (fun h => hne h.symm)]
    exact hnb
  cases d
  · -- Up
    have h2 : ¬ ((i : Int) = 0) := by
      simp only [towardsNext, Bool.false_eq_true, if_false] at hdir
      omega
    simp only [adjacentIndex, towardsNext, Bool.false_eq_true, if_false] at hg1 ⊢
    simp [tryGrowLoop, hn, hor, axisOf, hidx, h1, h2, e0, e2, hold, hg1]
  · -- Right
    have h2 : ¬ ((i : Int) = (n.widgets.length : Int) - 1) := by
      simp only [towardsNext, if_true] at hdir
      omega
    simp only [adjacentIndex, towardsNext, if_true] at hg1 ⊢
    simp [tryGrowLoop, hn, hor, axisOf, hidx, h1, h2, e0, e1, hold, hg1]
  · -- Down
    have h2 : ¬ ((i : Int) = (n.widgets.length : Int) - 1) := by
      simp only [towardsNext, if_true] at hdir
      omega
    simp only [adjacentIndex, towardsNext, if_true] at hg1 ⊢
    simp [tryGrowLoop, hn, hor, axisOf, hidx, h1, h2, e0, e1, hold, hg1]
  · -- Left
    have h2 : ¬ ((i : Int) = 0) := by
      simp only [towardsNext, Bool.false_eq_true, if_false] at hdir
      omega
    simp only [adjacentIndex, towardsNext, Bool.false_eq_true, if_false] at hg1 ⊢
    simp [tryGrowLoop, hn, hor, axisOf, hidx, h1, h2, e0, e2, hold, hg1]

/-- One iteration of the loop of `tryGrow` at a node that does not qualify. -/
theorem tryGrowLoop_skip (a : List Splitter) (d : GrowthDirection) (px : Nat) (rb : Int)
    (fuel : Nat) (child : Widget) (sp : Nat) (n : Splitter) (p : Nat) (hn : a[sp]? = some n)
    (hno : ¬ (n.orientation = axisOf d ∧ HasNeighbour n.widgets child d))
    (hpar : n.parent = some p) :
    tryGrowLoop (decide (d = GrowthDirection.Right ∨ d = GrowthDirection.Left))
      (decide (d = GrowthDirection.Down ∨ d = GrowthDirection.Right)) px rb (fuel + 1) a child
      (some sp)
      = tryGrowLoop (decide (d = GrowthDirection.Right ∨ d = GrowthDirection.Left))
          (decide (d = GrowthDirection.Down ∨ d = GrowthDirection.Right)) px rb fuel a
          (Widget.splitter sp) (some p) := by
  simp only [tryGrowLoop, hn, hpar]
  split
  · rename_i hor
    split
    · rename_i hpos
      exfalso
      apply hno
      refine ⟨?_, ?_⟩
      · cases d <;> cases ho : n.orientation <;> simp [ho, axisOf] at hor ⊢
      · simp only [Bool.and_eq_true, bne_iff_ne, ne_eq, Bool.or_eq_true, decide_eq_true_eq,
          Bool.not_eq_true', decide_eq_false_iff_not] at hpos
        obtain ⟨⟨h1, h2⟩, h3⟩ := hpos
        obtain ⟨i, hi, hget⟩ := indexOf_spec n.widgets child h1
        have hilt := (List.getElem?_eq_some.1 hget).1
        refine ⟨i, hget, ?_⟩
        rw [hi] at h2 h3
        cases d <;> simp [towardsNext] at h2 h3 ⊢ <;> omega
    · rfl
  · rfl

theorem ancestorAt_le (a : List Splitter) (id : Int) (k2 sp2 : Nat) (child2 : Widget)
    (h : AncestorAt a id k2 sp2 child2) :
    ∀ k, k ≤ k2 → ∃ sp child, AncestorAt a id k sp child := by
  induction h with
  | parent sp hp =>
    intro k hk
    have : k = 0 := by omega
    subst this
    exact ⟨sp, _, AncestorAt.parent sp hp⟩
  | up k0 sp child n p h0 hn hpar ih =>
    intro k hk
    by_cases hkk : k = k0 + 1
    · subst hkk
      exact ⟨p, _, AncestorAt.up k0 sp child n p h0 hn hpar⟩
    · exact ih k (by omega)

theorem ancestorAt_prev (a : List Splitter) (id : Int) (k p : Nat) (c : Widget)
    (h : AncestorAt a id (k + 1) p c) :
    ∃ sp child n, AncestorAt a id k sp child ∧ a[sp]? = some n ∧ n.parent = some p
      ∧ c = Widget.splitter sp := by
  cases h with
  | up _ sp child n _ h0 hn hpar => exact ⟨sp, child, n, h0, hn, hpar, rfl⟩

/-- With a qualifying ancestor at or above the node the loop stands at, the loop
of `tryGrow` acts on the nearest one. -/
theorem tryGrowLoop_acts (a : List Splitter) (id : Int) (d : GrowthDirection) (px : Nat)
    (rb : Int)
    (hpl : ∀ (j : Nat) (n : Splitter) (p : Nat), a[j]? = some n → n.parent = some p → p < j)
    (hnd : ∀ (j : Nat) (n : Splitter), a[j]? = some n → n.widgets.Nodup)
    (h2 : ∀ (j : Nat) (n : Splitter), a[j]? = some n → n.widgets.length ≤ 2)
    (hsz : ∀ (j : Nat) (n : Splitter), a[j]? = some n → n.widgets.length = 2 →
      n.sizes.length = 2)
    (fuel : Nat) :
    ∀ (k sp : Nat) (child : Widget), AncestorAt a id k sp child → sp < fuel →
      (∃ k2 sp2 child2, k ≤ k2 ∧ AncestorAt a id k2 sp2 child2 ∧ QualifiesWith a d sp2 child2) →
      ∃ k1 sp1 child1 n i old nb,
        k ≤ k1 ∧ AncestorAt a id k1 sp1 child1 ∧ a[sp1]? = some n
        ∧ n.orientation = axisOf d ∧ n.widgets[i]? = some child1
        ∧ (if towardsNext d then i + 1 < n.widgets.length else 0 < i)
        ∧ (∀ k3 sp3 child3, k ≤ k3 → k3 < k1 → AncestorAt a id k3 sp3 child3 →
            ¬ QualifiesWith a d sp3 child3)
        ∧ n.sizes[i]? = some old ∧ n.sizes[adjacentIndex d i]? = some nb
        ∧ tryGrowLoop (decide (d = GrowthDirection.Right ∨ d = GrowthDirection.Left))
            (decide (d = GrowthDirection.Down ∨ d = GrowthDirection.Right)) px rb fuel a child
            (some sp)
          = some (setSizes a sp1 ((n.sizes.set i (wrap32 (old + (px : Int)))).set
                    (adjacentIndex d i) (wrap32 (nb - (px : Int)))),
                  rb - old) := by
  induction fuel with
  | zero =>
    intro k sp child _ hfuel
    omega
  | succ fuel ih =>
    intro k sp child hanc hfuel hq
    obtain ⟨n, hn⟩ := ancestorAt_valid a id k sp child hpl hanc
    by_cases hq0 : QualifiesWith a d sp child
    · obtain ⟨n0, hn0, hor, i, hget, hdir⟩ := hq0
      rw [hn] at hn0
      simp only [Option.some.injEq] at hn0
      subst hn0
      have hilt := (List.getElem?_eq_some.1 hget).1
      have hle := h2 sp n hn
      have htwo : n.widgets.length = 2 := by
        split at hdir <;> omega
      have hs2 := hsz sp n hn htwo
      have hadj : adjacentIndex d i < 2 := by
        unfold adjacentIndex
        split at hdir <;> simp [*] <;> omega
      refine ⟨k, sp, child, n, i, n.sizes[i], n.sizes[adjacentIndex d i], le_refl k, hanc, hn,
        hor, hget, hdir, fun k3 _ _ h3 h4 => by omega, List.getElem?_eq_getElem (by omega),
        List.getElem?_eq_getElem (by omega), ?_⟩
      exact tryGrowLoop_here a d px rb fuel child sp n i _ _ hn hor (hnd sp n hn) hget hdir
        (List.getElem?_eq_getElem (by omega)) (List.getElem?_eq_getElem (by omega))
    · have hno : ¬ (n.orientation = axisOf d ∧ HasNeighbour n.widgets child d) :=
        fun h => hq0 ⟨n, hn, h.1, h.2⟩
      obtain ⟨k2, sp2, child2, hk2, hanc2, hq2⟩ := hq
      have hne : k2 ≠ k := by
        intro h
        subst h
        obtain ⟨h1, h3⟩ := ancestorAt_unique a id k2 sp child hanc sp2 child2 hanc2
        subst h1
        subst h3
        exact hq0 hq2
      obtain ⟨p, c, hnext⟩ := ancestorAt_le a id k2 sp2 child2 hanc2 (k + 1) (by omega)
      obtain ⟨sp0, child0, n0, h0, hn0, hpar0, hc⟩ := ancestorAt_prev a id k p c hnext
      obtain ⟨h1, _⟩ := ancestorAt_unique a id k sp child hanc sp0 child0 h0
      subst h1
      rw [hn] at hn0
      simp only [Option.some.injEq] at hn0
      subst hn0
      subst hc
      have hlt := hpl sp0 n p hn hpar0
      rw [tryGrowLoop_skip a d px rb fuel child sp0 n p hn hno hpar0]
      obtain ⟨k1, sp1, child1, n1, i, old, nb, hk1, ha1, hn1, hor1, hget1, hdir1, hnear, hold,
        hnb, hres⟩ := ih (k + 1) p (Widget.splitter sp0) hnext (by omega)
          ⟨k2, sp2, child2, by omega, hanc2, hq2⟩
      refine ⟨k1, sp1, child1, n1, i, old, nb, by omega, ha1, hn1, hor1, hget1, hdir1, ?_, hold,
        hnb, hres⟩
      intro k3 sp3 child3 h3 h4 hanc3
      by_cases hk3 : k3 = k
      · subst hk3
        obtain ⟨h5, h6⟩ := ancestorAt_unique a id k3 sp0 child hanc sp3 child3 hanc3
        subst h5
        subst h6
        exact hq0
      · exact hnear k3 sp3 child3 (by omega) h4 hanc3

/-- What `tryGrow` does in a well-formed state when some ancestor of the
registered leaf qualifies. -/
theorem tryGrow_acts (g : Statics) (s : Session) (id : Int) (d : GrowthDirection) (px : Nat)
    (rb : Int) (hwf : WF g s) (hreg : StdMap.contains s.leaves id = true)
    (hq : ∃ sp, Qualifies s.splitters id d sp) :
    ∃ k sp child n i old nb,
      AncestorAt s.splitters id k sp child ∧ s.splitters[sp]? = some n
      ∧ n.orientation = axisOf d ∧ n.widgets[i]? = some child
      ∧ (if towardsNext d then i + 1 < n.widgets.length else 0 < i)
      ∧ (∀ k3 sp3 child3, k3 < k → AncestorAt s.splitters id k3 sp3 child3 →
          ¬ QualifiesWith s.splitters d sp3 child3)
      ∧ n.sizes[i]? = some old ∧ n.sizes[adjacentIndex d i]? = some nb
      ∧ tryGrow s id d px rb
          = some ({ s with splitters := setSizes s.splitters sp (grownSizes n.sizes d i old nb px) },
                  rb - old) := by
  obtain ⟨leaf, hleaf⟩ := StdMap.find_of_contains _ _ hreg
  have hmem := StdMap.find_some_mem _ _ _ hleaf
  obtain ⟨p, hp, hin⟩ := hwf.held _ hmem
  obtain ⟨sp0, hsp0⟩ := parentWidget_of_mem s.splitters (Widget.part id) _ p hp hin
  obtain ⟨n0, hn0, _⟩ := parentWidget_some _ _ sp0 hsp0
  obtain ⟨spq, childq, nq, hancq, hnq, horq, hnbq⟩ := hq
  obtain ⟨kq, hkq⟩ := (ancestor_iff _ _ _ _).1 hancq
  obtain ⟨k1, sp1, child1, n, i, old, nb, _, ha1, hn1, hor1, hget1, hdir1, hnear, hold, hnb,
    hres⟩ := tryGrowLoop_acts s.splitters id d px rb hwf.parentLt hwf.nodup hwf.atMostTwo hwf.sized
      s.splitters.length 0 sp0 (Widget.part id) (AncestorAt.parent sp0 hsp0)
      (List.getElem?_eq_some.1 hn0).1 ⟨kq, spq, childq, Nat.zero_le _, hkq, nq, hnq, horq, hnbq⟩
  refine ⟨k1, sp1, child1, n, i, old, nb, ha1, hn1, hor1, hget1, hdir1,
    fun k3 sp3 child3 h3 h4 => hnear k3 sp3 child3 (Nat.zero_le _) h3 h4, hold, hnb, ?_⟩
  simp only [Bool.decide_or] at hres
  unfold tryGrow
  cases hct : s.contentType <;>
    simp only [Session.leaves, Session.registry, hct] at hreg hleaf <;>
    simp [getTerminal, getBrowser, hreg, hleaf, hsp0, hres, grownSizes]

theorem wrap32_le (x : Int) (h : -2147483648 ≤ x) : wrap32 x ≤ x := by
  unfold wrap32
  omega

theorem wrap32_id (x : Int) (h1 : -2147483648 ≤ x) (h2 : x < 2147483648) : wrap32 x = x := by
  unfold wrap32
  omega

theorem sampleTwo_qualifies :
    ∃ sp, Qualifies sampleTwo.2.splitters 0 GrowthDirection.Right sp :=
  ⟨0, Widget.part 0,
    { orientation := Orientation.Horizontal, widgets := [Widget.part 0, Widget.part 1],
      sizes := [320, 320], parent := none, deleteLater := false },
    Ancestor.parent 0 (by decide), rfl, rfl, 0, rfl, by decide⟩

set_option maxHeartbeats 4000000 in
theorem newSession_single (g0 : Statics) (env : Env) :
    newSession g0 SessionContent.TerminalType SessionType.Single env
      = some (afterTerminals g0 1,
          { sessionId := g0.availableSessionId, contentType := SessionContent.TerminalType,
            activeId := g0.availableTerminalId,
            terminals := [(g0.availableTerminalId, freshLeaf env 0)],
            browsers := [], title := env.newTitle, closable := true, baseSplitter := some 0,
            splitters := [{ orientation := Orientation.Horizontal,
                            widgets := [Widget.part g0.availableTerminalId],
                            sizes := [100], parent := none, deleteLater := false }] }) := by
  obtain ⟨a, t, b⟩ := g0
  obtain ⟨w, hh, pw, ph, loaded, title⟩ := env
  cases loaded <;>
    simp [newSession, setupSession, addTerminal, addBrowser, addLeaf, requestFocus, setActiveId,
      focusFirst, Session.setRegistry, Session.registry, Session.leaves, Statics.available,
      Statics.bump, StdMap.insert, StdMap.find, setTitle, newSplitter, addWidget, setSizes,
      setOrientation, updateAt, afterTerminals, freshLeaf]

set_option maxHeartbeats 4000000 in
theorem newSession_browser (g0 : Statics) (ty : SessionType) (env : Env) :
    newSession g0 SessionContent.BrowserType ty env
      = some (afterBrowser g0,
          { sessionId := g0.availableSessionId, contentType := SessionContent.BrowserType,
            activeId := g0.availableBrowserId,
            terminals := [], browsers := [(g0.availableBrowserId, freshLeaf env 0)],
            title := env.newTitle, closable := true, baseSplitter := some 0,
            splitters := [{ orientation := Orientation.Horizontal,
                            widgets := [Widget.part g0.availableBrowserId],
                            sizes := [100], parent := none, deleteLater := false }] }) := by
  obtain ⟨a, t, b⟩ := g0
  obtain ⟨w, hh, pw, ph, loaded, title⟩ := env
  cases loaded <;> cases ty <;>
    simp [newSession, setupSession, addTerminal, addBrowser, addLeaf, requestFocus, setActiveId,
      focusFirst, Session.setRegistry, Session.registry, Session.leaves, Statics.available,
      Statics.bump, StdMap.insert, StdMap.find, setTitle, newSplitter, addWidget, setSizes,
      setOrientation, updateAt, afterBrowser, freshLeaf]

set_option maxHeartbeats 4000000 in
theorem newSession_twoHorizontal (g0 : Statics) (env : Env) :
    newSession g0 SessionContent.TerminalType SessionType.TwoHorizontal env
      = some (afterTerminals g0 2,
          { sessionId := g0.availableSessionId, contentType := SessionContent.TerminalType,
            activeId := if env.partLoaded then g0.availableTerminalId else -1,
            terminals := [(g0.availableTerminalId, freshLeaf env 0),
                          (g0.availableTerminalId + 1, freshLeaf env 0)],
            browsers := [], title := if env.partLoaded then env.newTitle else "",
            closable := true, baseSplitter := some 0,
            splitters := [pairNode Orientation.Horizontal (Widget.part g0.availableTerminalId)
                            (Widget.part (g0.availableTerminalId + 1))
                            (env.splitterWidth.tdiv 2) none] }) := by
  obtain ⟨a, t, b⟩ := g0
  obtain ⟨w, hh, pw, ph, loaded, title⟩ := env
  have f1 : ¬ (t + 1 < t) := by omega
  have f2 : ¬ (t + 1 = t) := by omega
  have e1 : ¬ (t = t + 1) := by omega
  have a2 : t + 1 + 1 = t + 2 := by ring
  cases loaded <;>
    simp [newSession, setupSession, addTerminal, addBrowser, addLeaf, requestFocus, setActiveId,
      focusFirst, Session.setRegistry, Session.registry, Session.leaves, Statics.available,
      Statics.bump, StdMap.insert, StdMap.find, setTitle, newSplitter, addWidget, setSizes,
      setOrientation, updateAt, afterTerminals, freshLeaf, pairNode, f1, f2, e1, a2]

set_option maxHeartbeats 4000000 in
theorem newSession_twoVertical (g0 : Statics) (env : Env) :
    newSession g0 SessionContent.TerminalType SessionType.TwoVertical env
      = some (afterTerminals g0 2,
          { sessionId := g0.availableSessionId, contentType := SessionContent.TerminalType,
            activeId := if env.partLoaded then g0.availableTerminalId else -1,
            terminals := [(g0.availableTerminalId, freshLeaf env 0),
                          (g0.availableTerminalId + 1, freshLeaf env 0)],
            browsers := [], title := if env.partLoaded then env.newTitle else "",
            closable := true, baseSplitter := some 0,
            splitters := [pairNode Orientation.Vertical (Widget.part g0.availableTerminalId)
                            (Widget.part (g0.availableTerminalId + 1))
                            (env.splitterHeight.tdiv 2) none] }) := by
  obtain ⟨a, t, b⟩ := g0
  obtain ⟨w, hh, pw, ph, loaded, title⟩ := env
  have f1 : ¬ (t + 1 < t) := by omega
  have f2 : ¬ (t + 1 = t) := by omega
  have e1 : ¬ (t = t + 1) := by omega
  have a2 : t + 1 + 1 = t + 2 := by ring
  cases loaded <;>
    simp [newSession, setupSession, addTerminal, addBrowser, addLeaf, requestFocus, setActiveId,
      focusFirst, Session.setRegistry, Session.registry, Session.leaves, Statics.available,
      Statics.bump, StdMap.insert, StdMap.find, setTitle, newSplitter, addWidget, setSizes,
      setOrientation, updateAt, afterTerminals, freshLeaf, pairNode, f1, f2, e1, a2]

set_option maxHeartbeats 4000000 in
theorem newSession_quad (g0 : Statics) (env : Env) :
    newSession g0 SessionContent.TerminalType SessionType.Quad env
      = some (afterTerminals g0 4,
          { sessionId := g0.availableSessionId, contentType := SessionContent.TerminalType,
            activeId := if env.partLoaded then g0.availableTerminalId else -1,
            terminals := [(g0.availableTerminalId, freshLeaf env 1),
                          (g0.availableTerminalId + 1, freshLeaf env 1),
                          (g0.availableTerminalId + 2, freshLeaf env 2),
                          (g0.availableTerminalId + 3, freshLeaf env 2)],
            browsers := [], title := if env.partLoaded then env.newTitle else "",
            closable := true, baseSplitter := some 0,
            splitters := [pairNode Orientation.Vertical (Widget.splitter 1) (Widget.splitter 2)
                            (env.splitterHeight.tdiv 2) none,
                          pairNode Orientation.Horizontal (Widget.part g0.availableTerminalId)
                            (Widget.part (g0.availableTerminalId + 1))
                            (env.splitterWidth.tdiv 2) (some 0),
                          pairNode Orientation.Horizontal
                            (Widget.part (g0.availableTerminalId + 2))
                            (Widget.part (g0.availableTerminalId + 3))
                            (env.splitterWidth.tdiv 2) (some 0)] }) := by
  obtain ⟨a, t, b⟩ := g0
  obtain ⟨w, hh, pw, ph, loaded, title⟩ := env
  have f1 : ¬ (t + 1 < t) := by omega
  have f2 : ¬ (t + 1 = t) := by omega
  have f3 : ¬ (t + 1 + 1 < t) := by omega
  have f4 : ¬ (t + 1 + 1 = t) := by omega
  have f5 : ¬ (t + 1 + 1 < t + 1) := by omega
  have f6 : ¬ (t + 1 + 1 = t + 1) := by omega
  have f7 : ¬ (t + 1 + 1 + 1 < t) := by omega
  have f8 : ¬ (t + 1 + 1 + 1 = t) := by omega
  have f9 : ¬ (t + 1 + 1 + 1 < t + 1) := by omega
  have f10 : ¬ (t + 1 + 1 + 1 = t + 1) := by omega
  have f11 : ¬ (t + 1 + 1 + 1 < t + 1 + 1) := by omega
  have f12 : ¬ (t + 1 + 1 + 1 = t + 1 + 1) := by omega
  have e1 : ¬ (t = t + 1) := by omega
  have e2 : ¬ (t = t + 1 + 1) := by omega
  have e3 : ¬ (t = t + 1 + 1 + 1) := by omega
  have e4 : ¬ (t + 1 = t + 1 + 1) := by omega
  have e5 : ¬ (t + 1 = t + 1 + 1 + 1) := by omega
  have e6 : ¬ (t + 1 + 1 = t + 1 + 1 + 1) := by omega
  have a2 : t + 2 = t + 1 + 1 := by ring
  have a3 : t + 3 = t + 1 + 1 + 1 := by ring
  have a4 : t + 4 = t + 1 + 1 + 1 + 1 := by ring
  rw [show (({ availableSessionId := a, availableTerminalId := t, availableBrowserId := b } :
    Statics).availableTerminalId) = t from rfl]
  simp only [afterTerminals, a2, a3, a4]
  cases loaded <;>
    simp [newSession, setupSession, addTerminal, addBrowser, addLeaf, requestFocus, setActiveId,
      focusFirst, Session.setRegistry, Session.registry, Session.leaves, Statics.available,
      Statics.bump, StdMap.insert, StdMap.find, setTitle, newSplitter, addWidget, setSizes,
      setOrientation, updateAt, freshLeaf, pairNode, f1, f2, f3, f4, f5, f6, f7, f8,
      f9, f10, f11, f12, e1, e2, e3, e4, e5, e6]

/-- C13: a freshly constructed terminal session has, for the layout Single, a
root holding one leaf; for TwoHorizontal a horizontal root holding two leaves
with sizes [w/2, w/2]; for TwoVertical a vertical root holding two leaves with
sizes [h/2, h/2]; for Quad a vertical root with sizes [h/2, h/2] holding two
horizontal nodes, each with two leaves and sizes [w/2, w/2]. The registry holds
1, 2, 2 and 4 leaves with consecutive ids in creation order, starting at the
terminal counter `t`; the first two Quad leaves are in the upper node, the last
two in the lower node. Halving is the truncating division of `int`. -/
theorem fresh_layouts (g0 : Statics) (env : Env) :
    (∃ g s root,
        newSession g0 SessionContent.TerminalType SessionType.Single env = some (g, s)
        ∧ s.baseSplitter = some 0 ∧ s.splitters = [root] ∧ root.parent = none
        ∧ root.widgets = [Widget.part g0.availableTerminalId]
        ∧ StdMap.keys s.terminals = [g0.availableTerminalId] ∧ s.browsers = []
        ∧ s.terminals.map (fun e => e.2.splitter) = [0])
      ∧ (∃ g s root,
        newSession g0 SessionContent.TerminalType SessionType.TwoHorizontal env = some (g, s)
        ∧ s.baseSplitter = some 0 ∧ s.splitters = [root] ∧ root.parent = none
        ∧ root.orientation = Orientation.Horizontal
        ∧ root.widgets = [Widget.part g0.availableTerminalId,
                          Widget.part (g0.availableTerminalId + 1)]
        ∧ root.sizes = [env.splitterWidth.tdiv 2, env.splitterWidth.tdiv 2]
        ∧ StdMap.keys s.terminals = [g0.availableTerminalId, g0.availableTerminalId + 1]
        ∧ s.browsers = []
        ∧ s.terminals.map (fun e => e.2.splitter) = [0, 0])
      ∧ (∃ g s root,
        newSession g0 SessionContent.TerminalType SessionType.TwoVertical env = some (g, s)
        ∧ s.baseSplitter = some 0 ∧ s.splitters = [root] ∧ root.parent = none
        ∧ root.orientation = Orientation.Vertical
        ∧ root.widgets = [Widget.part g0.availableTerminalId,
                          Widget.part (g0.availableTerminalId + 1)]
        ∧ root.sizes = [env.splitterHeight.tdiv 2, env.splitterHeight.tdiv 2]
        ∧ StdMap.keys s.terminals = [g0.availableTerminalId, g0.availableTerminalId + 1]
        ∧ s.browsers = []
        ∧ s.terminals.map (fun e => e.2.splitter) = [0, 0])
      ∧ (∃ g s root upper lower,
        newSession g0 SessionContent.TerminalType SessionType.Quad env = some (g, s)
        ∧ s.baseSplitter = some 0 ∧ s.splitters = [root, upper, lower] ∧ root.parent = none
        ∧ root.orientation = Orientation.Vertical
        ∧ root.widgets = [Widget.splitter 1, Widget.splitter 2]
        ∧ root.sizes = [env.splitterHeight.tdiv 2, env.splitterHeight.tdiv 2]
        ∧ upper.parent = some 0 ∧ upper.orientation = Orientation.Horizontal
        ∧ upper.widgets = [Widget.part g0.availableTerminalId,
                           Widget.part (g0.availableTerminalId + 1)]
        ∧ upper.sizes = [env.splitterWidth.tdiv 2, env.splitterWidth.tdiv 2]
        ∧ lower.parent = some 0 ∧ lower.orientation = Orientation.Horizontal
        ∧ lower.widgets = [Widget.part (g0.availableTerminalId + 2),
                           Widget.part (g0.availableTerminalId + 3)]
        ∧ lower.sizes = [env.splitterWidth.tdiv 2, env.splitterWidth.tdiv 2]
        ∧ StdMap.keys s.terminals = [g0.availableTerminalId, g0.availableTerminalId + 1,
                                     g0.availableTerminalId + 2, g0.availableTerminalId + 3]
        ∧ s.browsers = []
        ∧ s.terminals.map (fun e => e.2.splitter) = [1, 1, 2, 2]) :=
  ⟨⟨_, _, _, newSession_single g0 env, rfl, rfl, rfl, rfl, rfl, rfl, rfl⟩,
   ⟨_, _, _, newSession_twoHorizontal g0 env, rfl, rfl, rfl, rfl, rfl, rfl, rfl, rfl, rfl⟩,
   ⟨_, _, _, newSession_twoVertical g0 env, rfl, rfl, rfl, rfl, rfl, rfl, rfl, rfl, rfl⟩,
   ⟨_, _, _, _, _, newSession_quad g0 env, rfl, rfl, rfl, rfl, rfl, rfl, rfl, rfl, rfl, rfl,
     rfl, rfl, rfl, rfl, rfl, rfl, rfl⟩⟩

theorem pruneIfEmpty_id (a : List Splitter) (j : Nat)
    (h : ∀ n, a[j]? = some n → n.deleteLater = false → n.widgets ≠ []) :
    pruneIfEmpty a j = a := by
  unfold pruneIfEmpty
  cases hn : a[j]? with
  | none => rfl
  | some n =>
    simp only
    split
    · rename_i hc
      simp only [Bool.and_eq_true, List.isEmpty_iff, Bool.not_eq_true'] at hc
      exact absurd hc.1 (h n hn hc.2)
    · rfl

/-- The nodes of `pruneIfEmpty a j` when the node `j` is empty and not yet
removed. -/
theorem getElem?_pruneIfEmpty (a : List Splitter) (j : Nat) (n : Splitter) (hpl : ParentLt a)
    (hn : a[j]? = some n) (he : n.widgets = []) (hd : n.deleteLater = false) (i : Nat) :
    (pruneIfEmpty a j)[i]? =
      if i = j then some { n with deleteLater := true }
      else if n.parent = some i then
        (a[i]?).map (fun q => { q with widgets := q.widgets.erase (Widget.splitter j) })
      else a[i]? := by
  have hjlt := (List.getElem?_eq_some.1 hn).1
  unfold pruneIfEmpty
  simp only [hn, he, hd, List.isEmpty_nil, Bool.not_false, Bool.and_self, if_true]
  cases hp : n.parent with
  | none =>
    simp only [List.getElem?_set, hjlt, if_true]
    by_cases hij : i = j
    · subst hij
      simp
    · have : ¬ j = i := fun h => hij h.symm
      simp [hij, this]
  | some p =>
    have hlt := hpl j n p hn hp
    simp only [getElem?_updateAt, List.getElem?_set, hjlt, if_true, Option.some.injEq]
    by_cases hij : i = j
    · subst hij
      have : ¬ p = i := by omega
      simp [this]
    · have h1 : ¬ j = i := fun h => hij h.symm
      by_cases hpi : p = i
      · subst hpi
        simp [hij, h1]
      · simp [hij, h1, hpi]

theorem parentLt_pruneIfEmpty (a : List Splitter) (j : Nat) (hpl : ParentLt a) :
    ParentLt (pruneIfEmpty a j) := by
  intro i q p hq hp
  obtain ⟨q0, hq0, hpar, _⟩ := (shrinks_pruneIfEmpty a j).2 i q hq
  exact hpl i q0 p hq0 (hpar ▸ hp)

/-- After `pruneIfEmpty a j` the node `j` is settled, and so is every node above
`j` that was. -/
theorem settled_pruneIfEmpty (a : List Splitter) (j : Nat) (hpl : ParentLt a)
    (hdone : ∀ (i : Nat) (q : Splitter), j < i → a[i]? = some q → q.deleteLater = false →
      q.widgets ≠ []) :
    ∀ (i : Nat) (q : Splitter), j ≤ i → (pruneIfEmpty a j)[i]? = some q →
      q.deleteLater = false → q.widgets ≠ [] := by
  intro i q hji hq hd
  cases hn : a[j]? with
  | none =>
    rw [pruneIfEmpty_id a j (fun n h => by rw [hn] at h; cases h)] at hq
    have hlt := (List.getElem?_eq_some.1 hq).1
    have hnone := List.getElem?_eq_none_iff.1 hn
    by_cases hij : i = j
    · subst hij
      omega
    · exact hdone i q (by omega) hq hd
  | some n =>
    by_cases hsettled : n.deleteLater = false → n.widgets ≠ []
    · rw [pruneIfEmpty_id a j (fun n2 h => by
        rw [hn] at h
        cases h
        exact hsettled)] at hq
      by_cases hij : i = j
      · subst hij
        rw [hn] at hq
        cases hq
        exact hsettled hd
      · exact hdone i q (by omega) hq hd
    · have hd0 : n.deleteLater = false := by
        by_contra h
        exact hsettled (fun h2 => absurd h2 h)
      have he : n.widgets = [] := by
        by_contra h
        exact hsettled (fun _ => h)
      rw [getElem?_pruneIfEmpty a j n hpl hn he hd0] at hq
      by_cases hij : i = j
      · simp only [hij, if_true, Option.some.injEq] at hq
        subst hq
        simp at hd
      · simp only [hij, if_false] at hq
        have hne : ¬ n.parent = some i := by
          intro hp
          have := hpl j n i hn hp
          omega
        simp only [hne, if_false] at hq
        exact hdone i q (by omega) hq hd

theorem settled_pruneDown (j : Nat) (a : List Splitter) (hpl : ParentLt a)
    (hdone : ∀ (i : Nat) (q : Splitter), j < i → a[i]? = some q → q.deleteLater = false →
      q.widgets ≠ []) :
    NoEmptyNode (pruneDown j a) := by
  induction j generalizing a with
  | zero =>
    intro i q hq hd
    exact settled_pruneIfEmpty a 0 hpl hdone i q (Nat.zero_le _) hq hd
  | succ j ih =>
    simp only [pruneDown]
    apply ih _ (parentLt_pruneIfEmpty a (j + 1) hpl)
    intro i q hji hq hd
    exact settled_pruneIfEmpty a (j + 1) hpl hdone i q (by omega) hq hd

theorem noEmptyNode_recursiveCleanup (a : List Splitter) (hpl : ParentLt a) :
    NoEmptyNode (recursiveCleanup a) := by
  unfold recursiveCleanup
  apply settled_pruneDown _ a hpl
  intro i q hji hq _
  have := (List.getElem?_eq_some.1 hq).1
  omega

theorem pruneDown_id (j : Nat) (a : List Splitter) (h : NoEmptyNode a) : pruneDown j a = a := by
  induction j with
  | zero => exact pruneIfEmpty_id a 0 (fun n hn hd => h 0 n hn hd)
  | succ j ih =>
    simp only [pruneDown]
    rw [pruneIfEmpty_id a (j + 1) (fun n hn hd => h (j + 1) n hn hd)]
    exact ih

theorem recursiveCleanup_id (a : List Splitter) (h : NoEmptyNode a) : recursiveCleanup a = a :=
  pruneDown_id _ a h

theorem nodupLists_shrinks (keep : Widget → Prop) (a b : List Splitter) (h : Shrinks keep a b)
    (hnd : NodupLists a) : NodupLists b := by
  intro j n hn
  obtain ⟨q, hq, _, _, hsub, _⟩ := h.2 j n hn
  exact List.Nodup.sublist hsub (hnd j q hq)

theorem parentLt_shrinks (keep : Widget → Prop) (a b : List Splitter) (h : Shrinks keep a b)
    (hpl : ParentLt a) : ParentLt b := by
  intro i q p hq hp
  obtain ⟨q0, hq0, hpar, _⟩ := h.2 i q hq
  exact hpl i q0 p hq0 (hpar ▸ hp)

theorem detachedSince_pruneIfEmpty (a : List Splitter) (k : Nat) (hpl : ParentLt a)
    (hnd : NodupLists a) :
    DetachedSince a (pruneIfEmpty a k)
      ∧ ∀ (j : Nat) (n0 n : Splitter), a[j]? = some n0 → (pruneIfEmpty a k)[j]? = some n →
          n0.deleteLater = false → n.deleteLater = true → j = k := by
  cases hn : a[k]? with
  | none =>
    rw [pruneIfEmpty_id a k (fun n h => by rw [hn] at h; cases h)]
    refine ⟨?_, ?_⟩
    · intro j n0 n p q h0 hd0 h1 hd1
      rw [h0] at h1
      cases h1
      rw [hd0] at hd1
      cases hd1
    · intro j n0 n h0 h1 hd0 hd1
      rw [h0] at h1
      cases h1
      rw [hd0] at hd1
      cases hd1
  | some nk =>
    by_cases hsettled : nk.deleteLater = false → nk.widgets ≠ []
    · rw [pruneIfEmpty_id a k (fun n2 h => by
        rw [hn] at h
        cases h
        exact hsettled)]
      refine ⟨?_, ?_⟩
      · intro j n0 n p q h0 hd0 h1 hd1
        rw [h0] at h1
        cases h1
        rw [hd0] at hd1
        cases hd1
      · intro j n0 n h0 h1 hd0 hd1
        rw [h0] at h1
        cases h1
        rw [hd0] at hd1
        cases hd1
    · have hd0 : nk.deleteLater = false := by
        by_contra h
        exact hsettled (fun h2 => absurd h2 h)
      have he : nk.widgets = [] := by
        by_contra h
        exact hsettled (fun _ => h)
      have hget := getElem?_pruneIfEmpty a k nk hpl hn he hd0
      have honly : ∀ (j : Nat) (n0 n : Splitter), a[j]? = some n0 →
          (pruneIfEmpty a k)[j]? = some n → n0.deleteLater = false → n.deleteLater = true →
          j = k := by
        intro j n0 n h0 h1 hdz hd1
        by_contra hjk
        rw [hget] at h1
        simp only [hjk, if_false, h0, Option.map_some'] at h1
        split at h1
        · simp only [Option.some.injEq] at h1
          subst h1
          simp only at hd1
          rw [hdz] at hd1
          cases hd1
        · simp only [Option.some.injEq] at h1
          subst h1
          rw [hdz] at hd1
          cases hd1
      refine ⟨?_, honly⟩
      intro j n0 n p q h0 hdz h1 hd1 hp hq
      have hjk := honly j n0 n h0 h1 hdz hd1
      subst hjk
      rw [hn] at h0
      simp only [Option.some.injEq] at h0
      subst h0
      rw [hget] at h1
      simp only [if_true, Option.some.injEq] at h1
      subst h1
      simp only at hp
      have hlt := hpl j nk p hn hp
      rw [hget] at hq
      have hpj : ¬ p = j := by omega
      simp only [hpj, if_false, hp, if_true] at hq
      cases hq0 : a[p]? with
      | none => simp [hq0] at hq
      | some q0 =>
        simp only [hq0, Option.map_some', Option.some.injEq] at hq
        subst hq
        simp only
        exact fun hmem => ((List.Nodup.mem_erase_iff (hnd p q0 hq0)).1 hmem).1 rfl

theorem detachedSince_trans (a b : List Splitter) (k : Nat) (hpl : ParentLt b)
    (hnd : NodupLists b) (h : DetachedSince a b) : DetachedSince a (pruneIfEmpty b k) := by
  obtain ⟨hstep, _⟩ := detachedSince_pruneIfEmpty b k hpl hnd
  have hsh := shrinks_pruneIfEmpty b k
  intro j n0 n p q h0 hdz h1 hd1 hp hq
  obtain ⟨nb, hnb, hparb, _⟩ := hsh.2 j n h1
  obtain ⟨qb, hqb, _, _, hsub, _⟩ := hsh.2 p q hq
  cases hdb : nb.deleteLater with
  | false => exact hstep j nb n p q hnb hdb h1 hd1 hp hq
  | true =>
    intro hmem
    exact h j n0 nb p qb h0 hdz hnb hdb (hparb ▸ hp) hqb (hsub.subset hmem)

theorem detachedSince_pruneDown (j : Nat) (a b : List Splitter) (hpl : ParentLt b)
    (hnd : NodupLists b) (h : DetachedSince a b) : DetachedSince a (pruneDown j b) := by
  induction j generalizing b with
  | zero => exact detachedSince_trans a b 0 hpl hnd h
  | succ j ih =>
    simp only [pruneDown]
    exact ih _ (parentLt_pruneIfEmpty b (j + 1) hpl)
      (nodupLists_shrinks _ _ _ (shrinks_pruneIfEmpty b (j + 1)) hnd)
      (detachedSince_trans a b (j + 1) hpl hnd h)

theorem updateAt_idem (a : List Splitter) (i : Nat) (f : Splitter → Splitter)
    (hf : ∀ n, f (f n) = f n) : updateAt (updateAt a i f) i f = updateAt a i f := by
  apply List.ext_getElem?
  intro j
  simp only [getElem?_updateAt]
  by_cases hij : i = j
  · simp only [hij, if_true, Option.map_map]
    cases a[j]? with
    | none => rfl
    | some n => simp [hf]
  · simp only [hij, if_false]

theorem cleanup_eq (s : Session) (base : Nat) (hb : s.baseSplitter = some base) :
    cleanup s =
      if s.terminals.isEmpty && s.browsers.isEmpty then
        { s with splitters := updateAt (recursiveCleanup s.splitters) base
                    (fun n => { n with deleteLater := true }) }
      else { s with splitters := recursiveCleanup s.splitters } := by
  unfold cleanup
  simp only [hb]

/-- What one run of `Session::cleanup()` achieves on an arena whose parents
precede their children and whose child lists are free of duplicates. -/
theorem cleanup_settles (s : Session) (a0 : List Splitter) (hpl : ParentLt s.splitters)
    (hnd : NodupLists s.splitters) (hb : s.baseSplitter ≠ none)
    (hdet : DetachedSince a0 s.splitters) :
    NoEmptyNode (cleanup s).splitters ∧ cleanup (cleanup s) = cleanup s
      ∧ (∀ (j : Nat) (n0 n : Splitter) (p : Nat) (q : Splitter), some j ≠ s.baseSplitter →
          a0[j]? = some n0 → n0.deleteLater = false → (cleanup s).splitters[j]? = some n →
          n.deleteLater = true → n.parent = some p → (cleanup s).splitters[p]? = some q →
          Widget.splitter j ∉ q.widgets) := by
  obtain ⟨base, hbase⟩ : ∃ base, s.baseSplitter = some base := by
    cases h : s.baseSplitter with
    | none => exact absurd h hb
    | some base => exact ⟨base, rfl⟩
  have hr := noEmptyNode_recursiveCleanup s.splitters hpl
  have hd : DetachedSince a0 (recursiveCleanup s.splitters) :=
    detachedSince_pruneDown _ a0 s.splitters hpl hnd hdet
  by_cases hempty : (s.terminals.isEmpty && s.browsers.isEmpty) = true
  · have hc : cleanup s =
        { s with splitters := updateAt (recursiveCleanup s.splitters) base
                                (fun n => { n with deleteLater := true }) } := by
      rw [cleanup_eq s base hbase, if_pos hempty]
    have hne : NoEmptyNode (updateAt (recursiveCleanup s.splitters) base
        (fun n => { n with deleteLater := true })) := by
      intro j n hn hdl
      rw [getElem?_updateAt] at hn
      by_cases hj : base = j
      · simp only [hj, if_true] at hn
        cases hq : (recursiveCleanup s.splitters)[j]? with
        | none => simp [hq] at hn
        | some q =>
          simp only [hq, Option.map_some', Option.some.injEq] at hn
          subst hn
          simp at hdl
      · simp only [hj, if_false] at hn
        exact hr j n hn hdl
    rw [hc]
    refine ⟨hne, ?_, ?_⟩
    · unfold cleanup
      simp only [hbase, hempty, if_true]
      rw [recursiveCleanup_id _ hne, updateAt_idem _ base (fun n => { n with deleteLater := true }) (fun _ => rfl)]
    · intro j n0 n p q hj h0 hd0 h1 hd1 hp hq
      simp only at h1 hq
      rw [hbase] at hj
      have hj2 : ¬ base = j := fun h => hj (by rw [h])
      rw [getElem?_updateAt] at h1 hq
      simp only [hj2, if_false] at h1
      cases hq0 : (recursiveCleanup s.splitters)[p]? with
      | none => simp [hq0] at hq
      | some q0 =>
        have hmem := hd j n0 n p q0 h0 hd0 h1 hd1 hp hq0
        by_cases hbp : base = p
        · simp only [hbp, if_true, hq0, Option.map_some', Option.some.injEq] at hq
          subst hq
          exact hmem
        · simp only [hbp, if_false, hq0, Option.some.injEq] at hq
          subst hq
          exact hmem
  · have hc : cleanup s = { s with splitters := recursiveCleanup s.splitters } := by
      rw [cleanup_eq s base hbase, if_neg hempty]
    rw [hc]
    refine ⟨hr, ?_, ?_⟩
    · unfold cleanup
      simp only [hbase, hempty, if_false]
      rw [recursiveCleanup_id _ hr]
      simp
    · intro j n0 n p q _ h0 hd0 h1 hd1 hp hq
      exact hd j n0 n p q h0 hd0 h1 hd1 hp hq

theorem detachedSince_refl (a : List Splitter) : DetachedSince a a := by
  intro j n0 n p q h0 hd0 h1 hd1
  rw [h0] at h1
  cases h1
  rw [hd0] at hd1
  cases hd1

theorem detachedSince_removeWidget (a : List Splitter) (w : Widget) :
    DetachedSince a (removeWidget a w) := by
  intro j n0 n p q h0 hd0 h1 hd1
  rw [getElem?_removeWidget, h0] at h1
  simp only [Option.map_some', Option.some.injEq] at h1
  subst h1
  simp only at hd1
  rw [hd0] at hd1
  cases hd1

theorem detachedSince_deleteLeaf (k : SessionContent) (s : Session) (id : Int) :
    DetachedSince s.splitters (deleteLeaf k s id).splitters := by
  cases k
  · simp only [deleteLeaf]
    split
    · exact detachedSince_removeWidget _ _
    · exact detachedSince_refl _
  · exact detachedSince_refl _

@[simp]
theorem deleteLeaf_baseSplitter (k : SessionContent) (s : Session) (id : Int) :
    (deleteLeaf k s id).baseSplitter = s.baseSplitter := by
  cases k <;> rfl

theorem focusPrevious_total (g : Statics) (s : Session) (hwf : WF g s) :
    ∃ s1, focusPrevious s = some s1 := by
  by_cases h : s.activeId = -1 ∨ StdMap.contains s.leaves s.activeId = false
  · exact ⟨s, (focus_noop s h).2⟩
  · have hne : s.activeId ≠ -1 := fun h1 => h (Or.inl h1)
    have hc : StdMap.contains s.leaves s.activeId = true := by
      cases hcc : StdMap.contains s.leaves s.activeId with
      | true => rfl
      | false => exact absurd (Or.inr hcc) h
    obtain ⟨e, he, hem, _⟩ := StdMap.previousEntry_spec s.leaves hwf.sorted s.activeId
      ((StdMap.contains_iff _ _).1 hc)
    rw [focusPrevious_eval s e hne hc he, requestFocus_eval g s hwf e hem]
    exact ⟨_, rfl⟩

theorem focusPrevious_form (g : Statics) (s : Session) (hwf : WF g s) :
    ∃ s1, focusPrevious s = some s1 ∧ s1.baseSplitter = s.baseSplitter
      ∧ s1.splitters = s.splitters ∧ s1.contentType = s.contentType := by
  by_cases h : s.activeId = -1 ∨ StdMap.contains s.leaves s.activeId = false
  · exact ⟨s, (focus_noop s h).2, rfl, rfl, rfl⟩
  · have hne : s.activeId ≠ -1 := fun h1 => h (Or.inl h1)
    have hc : StdMap.contains s.leaves s.activeId = true := by
      cases hcc : StdMap.contains s.leaves s.activeId with
      | true => rfl
      | false => exact absurd (Or.inr hcc) h
    obtain ⟨e, he, hem, _⟩ := StdMap.previousEntry_spec s.leaves hwf.sorted s.activeId
      ((StdMap.contains_iff _ _).1 hc)
    rw [focusPrevious_eval s e hne hc he, requestFocus_eval g s hwf e hem]
    refine ⟨_, rfl, ?_, ?_, ?_⟩ <;> split <;> rfl

theorem cleaned_cleanup_deleteLeaf (g : Statics) (s s2 : Session) (id : Int) (hwf : WF g s2)
    (hb : s2.baseSplitter ≠ none) (hbase : s2.baseSplitter = s.baseSplitter)
    (hsp : s2.splitters = s.splitters) :
    Cleaned s (cleanup (deleteLeaf s2.contentType s2 id)) := by
  have hwf1 := wf_deleteLeaf g s2 id hwf
  have hdet : DetachedSince s.splitters (deleteLeaf s2.contentType s2 id).splitters := by
    rw [← hsp]
    exact detachedSince_deleteLeaf _ s2 id
  obtain ⟨h1, h2, h3⟩ := cleanup_settles (deleteLeaf s2.contentType s2 id) s.splitters
    hwf1.parentLt hwf1.nodup (by simpa using hb) hdet
  refine ⟨h1, h2, ?_⟩
  intro j n0 n p q hj
  exact h3 j n0 n p q (by simpa [hbase] using hj)

/-- C15: in a reachable state whose base splitter exists (so that `cleanup()`
reaches `recursiveCleanup`), after closeSession on a registered leaf, after
closeTerminal on a registered terminal and after closeBrowser on a registered
browser, no node of the tree that has not been removed is without children,
every nested node removed by the operation has been dropped from its parent's
child list, and running `cleanup()` a second time changes nothing. -/
theorem close_cleans_tree (g : Statics) (s : Session) (id : Int) (hr : Reachable g s)
    (hb : s.baseSplitter ≠ none) :
    (StdMap.contains s.leaves (resolve s id) = true →
        ∃ s1, closeSession s id = some s1 ∧ Cleaned s s1)
      ∧ (StdMap.contains s.terminals id = true → Cleaned s (closeTerminal s id))
      ∧ (StdMap.contains s.browsers id = true → Cleaned s (closeBrowser s id)) := by
  have hwf := reachable_wf g s hr
  refine ⟨?_, ?_, ?_⟩
  · intro hc
    have hne : resolve s id ≠ -1 := by
      have := (hwf.fresh _ ((StdMap.contains_iff _ _).1 hc)).1
      omega
    obtain ⟨s2, hf, hbase, hsp, hct⟩ : ∃ s2,
        (if s.activeId = resolve s id ∧ s.leaves.length > 1 then focusPrevious s else some s)
          = some s2 ∧ s2.baseSplitter = s.baseSplitter ∧ s2.splitters = s.splitters
          ∧ s2.contentType = s.contentType := by
      split
      · exact focusPrevious_form g s hwf
      · exact ⟨s, rfl, rfl, rfl, rfl⟩
    have hst : SameTree s s2 := by
      split at hf
      · exact focusPrevious_sameTree s s2 hf
      · cases hf
        exact sameTree_refl s
    refine ⟨cleanup (deleteLeaf s2.contentType s2 (resolve s id)), ?_, ?_⟩
    · unfold closeSession cleanupId
      simp only [hne, if_false, hc, Bool.not_true, hf]
      simp
    · exact cleaned_cleanup_deleteLeaf g s s2 _ (wf_sameTree g s s2 hst hwf)
        (by rw [hbase]; exact hb) hbase hsp
  · intro hc
    have hct : s.contentType = SessionContent.TerminalType := by
      cases h : s.contentType with
      | TerminalType => rfl
      | BrowserType =>
        rw [hwf.otherTerminals h] at hc
        simp [StdMap.contains] at hc
    unfold closeTerminal
    simp only [hc, Bool.not_true, Bool.false_eq_true, if_false]
    rw [← hct]
    exact cleaned_cleanup_deleteLeaf g s s id hwf hb rfl rfl
  · intro hc
    have hct : s.contentType = SessionContent.BrowserType := by
      cases h : s.contentType with
      | BrowserType => rfl
      | TerminalType =>
        rw [hwf.otherBrowsers h] at hc
        simp [StdMap.contains] at hc
    unfold closeBrowser
    simp only [hc, Bool.not_true, Bool.false_eq_true, if_false]
    rw [← hct]
    exact cleaned_cleanup_deleteLeaf g s s id hwf hb rfl rfl

/-- Witness of C15: of two terminals side by side, leaf 0 is closed with
closeSession(0) and with closeTerminal(0). -/
theorem close_cleans_tree_witness :
    (∃ s1, closeSession sampleTwo.2 0 = some s1 ∧ Cleaned sampleTwo.2 s1)
      ∧ Cleaned sampleTwo.2 (closeTerminal sampleTwo.2 0) :=
  ⟨(close_cleans_tree sampleTwo.1 sampleTwo.2 0 sampleTwo_reachable (by decide)).1 (by decide),
   (close_cleans_tree sampleTwo.1 sampleTwo.2 0 sampleTwo_reachable (by decide)).2.1
     (by decide)⟩

theorem advances_refl (g : Statics) : Advances g g := ⟨le_refl _, le_refl _, le_refl _⟩

theorem advances_bump (g : Statics) (k : SessionContent) : Advances g (g.bump k) := by
  cases k <;> simp [Advances, Statics.bump]

theorem sessionStep_same (g : Statics) (s s1 : Session) (hc : s1.contentType = s.contentType)
    (hl : ∀ k ∈ StdMap.keys s1.leaves, k ∈ StdMap.keys s.leaves) : SessionStep g s g s1 :=
  ⟨advances_refl g, hc, fun k hk => Or.inl (hl k hk)⟩

theorem sessionStep_sameTree (g : Statics) (s s1 : Session) (h : SameTree s s1) :
    SessionStep g s g s1 :=
  sessionStep_same g s s1 h.1 (fun k hk => by rw [sameTree_leaves s s1 h] at hk; exact hk)

theorem wf_mono (g g1 : Statics) (s : Session) (hwf : WF g s) (h : Advances g g1) : WF g1 s := by
  obtain ⟨h1, h2, h3⟩ := h
  have := wf_counters g s (g1.availableSessionId - g.availableSessionId).toNat
    (g1.availableTerminalId - g.availableTerminalId).toNat
    (g1.availableBrowserId - g.availableBrowserId).toNat hwf
  have e1 : g.availableSessionId + ((g1.availableSessionId - g.availableSessionId).toNat : Int)
      = g1.availableSessionId := by omega
  have e2 : g.availableTerminalId + ((g1.availableTerminalId - g.availableTerminalId).toNat : Int)
      = g1.availableTerminalId := by omega
  have e3 : g.availableBrowserId + ((g1.availableBrowserId - g.availableBrowserId).toNat : Int)
      = g1.availableBrowserId := by omega
  rw [e1, e2, e3] at this
  exact this

theorem sessionStep_cleanup_deleteLeaf (g : Statics) (s s2 : Session) (id : Int)
    (hst : SameTree s s2) :
    SessionStep g s g (cleanup (deleteLeaf s2.contentType s2 id)) := by
  apply sessionStep_same
  · simp [hst.1]
  · intro k hk
    rw [cleanup_leaves, deleteLeaf_leaves, sameTree_leaves s s2 hst] at hk
    exact (keys_erase_sublist _ _).subset hk

theorem tryGrow_contentType (s s1 : Session) (id : Int) (d : GrowthDirection) (px : Nat)
    (rb r : Int) (h : tryGrow s id d px rb = some (s1, r)) : s1.contentType = s.contentType := by
  unfold tryGrow at h
  simp only at h
  split at h
  · cases h
    rfl
  · split at h
    · cases h
      rfl
    · cases h

theorem splitWith_step (o : Orientation) (g : Statics) (s : Session) (id : Int) (env : Env)
    (g1 : Statics) (s1 : Session) (r : Int) (hwf : WF g s)
    (h : splitWith o g s id env = some (g1, s1, r)) : SessionStep g s g1 s1 := by
  by_cases hreg : StdMap.contains s.leaves (resolve s id) = true
  · obtain ⟨leaf, hleaf, heq⟩ := splitWith_ok o g s id env hwf hreg
    obtain ⟨s2, f, newLeaf, hs2, _, hl, _, _, _, hct⟩ :=
      split_ok g s (resolve s id) leaf o env hwf hleaf
    rw [heq, hs2] at h
    simp only [Option.some.injEq, Prod.mk.injEq] at h
    obtain ⟨hg, hs3, _⟩ := h
    subst hg
    subst hs3
    refine ⟨advances_bump g _, hct, ?_⟩
    intro k hk
    rw [hl] at hk
    simp only [StdMap.keys, List.map_append, List.map_cons, List.map_nil, List.mem_append,
      List.mem_singleton] at hk
    rcases hk with hk | hk
    · left
      have := StdMap.keys_update s.leaves (resolve s id) f
      simp only [StdMap.keys] at this ⊢
      rw [← this]
      exact hk
    · right
      omega
  · rw [splitWith_fail o g s id env hreg] at h
    simp only [Option.some.injEq, Prod.mk.injEq] at h
    obtain ⟨hg, hs3, _⟩ := h
    subst hg
    subst hs3
    exact sessionStep_same g s s rfl (fun k hk => hk)

theorem closeSession_step (g : Statics) (s s1 : Session) (id : Int)
    (h : closeSession s id = some s1) : SessionStep g s g s1 := by
  unfold closeSession at h
  split at h
  · cases h
    exact sessionStep_same g s s rfl (fun k hk => hk)
  · split at h
    · cases h
      exact sessionStep_same g s s rfl (fun k hk => hk)
    · obtain ⟨s2, _, hst, rfl⟩ := cleanupId_some s s1 _ h
      exact sessionStep_cleanup_deleteLeaf g s s2 _ hst

theorem closeTerminal_step (g : Statics) (s : Session) (id : Int) (hwf : WF g s) :
    SessionStep g s g (closeTerminal s id) := by
  unfold closeTerminal
  split
  · exact sessionStep_same g s s rfl (fun k hk => hk)
  · rename_i hcont
    cases hc : s.contentType with
    | TerminalType =>
      have := sessionStep_cleanup_deleteLeaf g s s id (sameTree_refl s)
      rw [hc] at this
      exact this
    | BrowserType =>
      exfalso
      apply hcont
      simp [hwf.otherTerminals hc, StdMap.contains]

theorem closeBrowser_step (g : Statics) (s : Session) (id : Int) (hwf : WF g s) :
    SessionStep g s g (closeBrowser s id) := by
  unfold closeBrowser
  split
  · exact sessionStep_same g s s rfl (fun k hk => hk)
  · rename_i hcont
    cases hc : s.contentType with
    | BrowserType =>
      have := sessionStep_cleanup_deleteLeaf g s s id (sameTree_refl s)
      rw [hc] at this
      exact this
    | TerminalType =>
      exfalso
      apply hcont
      simp [hwf.otherBrowsers hc, StdMap.contains]

theorem leafTitleChanged_step (g : Statics) (s : Session) (id : Int) (title : String) :
    SessionStep g s g (leafTitleChanged s id title) := by
  unfold leafTitleChanged
  split
  · apply sessionStep_same
    · unfold setTitle
      split <;> simp
    · intro k hk
      have hl : (setTitle (s.setRegistry s.contentType
          (StdMap.update s.leaves id (fun l => { l with title := title }))) id title).leaves
          = StdMap.update s.leaves id (fun l => { l with title := title }) := by
        unfold setTitle
        cases hc : s.contentType <;> split <;>
          simp [Session.leaves, Session.registry, Session.setRegistry, hc]
      rw [hl, StdMap.keys_update] at hk
      exact hk
  · exact sessionStep_same g s s rfl (fun k hk => hk)

theorem tryGrow_step (g : Statics) (s s1 : Session) (id : Int) (d : GrowthDirection) (px : Nat)
    (rb r : Int) (h : tryGrow s id d px rb = some (s1, r)) : SessionStep g s g s1 :=
  sessionStep_same g s s1 (tryGrow_contentType s s1 id d px rb r h)
    (fun k hk => by rw [(tryGrow_frame s s1 id d px rb r h).1] at hk; exact hk)

theorem applyOp_step (g : Statics) (s : Session) (op : Op) (g1 : Statics) (s1 : Session)
    (hwf : WF g s) (h : applyOp g s op = some (g1, s1)) : SessionStep g s g1 s1 := by
  have hsplit : ∀ o id env,
      (splitWith o g s id env).map (fun r => (r.1, r.2.1)) = some (g1, s1) →
      SessionStep g s g1 s1 := by
    intro o id env hs
    cases hr : splitWith o g s id env with
    | none => simp [hr] at hs
    | some r =>
      obtain ⟨rg, rs, ri⟩ := r
      simp only [hr, Option.map_some', Option.some.injEq, Prod.mk.injEq] at hs
      rw [← hs.1, ← hs.2]
      exact splitWith_step o g s id env rg rs ri hwf hr
  cases op with
  | splitLeftRight id env => exact hsplit Orientation.Horizontal id env h
  | splitTopBottom id env => exact hsplit Orientation.Vertical id env h
  | splitAuto id env =>
    simp only [applyOp, splitAuto_eq] at h
    by_cases hw : env.partWidth > env.partHeight
    · simp only [hw, if_true] at h
      exact hsplit Orientation.Horizontal id env h
    · simp only [hw, if_false] at h
      exact hsplit Orientation.Vertical id env h
  | closeSession id =>
    simp only [applyOp] at h
    cases hr : closeSession s id with
    | none => simp [hr] at h
    | some s2 =>
      simp only [hr, Option.map_some', Option.some.injEq, Prod.mk.injEq] at h
      rw [← h.1, ← h.2]
      exact closeSession_step g s s2 id hr
  | closeTerminal id =>
    simp only [applyOp, Option.some.injEq, Prod.mk.injEq] at h
    rw [← h.1, ← h.2]
    exact closeTerminal_step g s id hwf
  | closeBrowser id =>
    simp only [applyOp, Option.some.injEq, Prod.mk.injEq] at h
    rw [← h.1, ← h.2]
    exact closeBrowser_step g s id hwf
  | focusNext =>
    simp only [applyOp] at h
    cases hr : focusNext s with
    | none => simp [hr] at h
    | some s2 =>
      simp only [hr, Option.map_some', Option.some.injEq, Prod.mk.injEq] at h
      rw [← h.1, ← h.2]
      exact sessionStep_sameTree g s s2 (focusNext_sameTree s s2 hr)
  | focusPrevious =>
    simp only [applyOp] at h
    cases hr : focusPrevious s with
    | none => simp [hr] at h
    | some s2 =>
      simp only [hr, Option.map_some', Option.some.injEq, Prod.mk.injEq] at h
      rw [← h.1, ← h.2]
      exact sessionStep_sameTree g s s2 (focusPrevious_sameTree s s2 hr)
  | tryGrow id d px rb =>
    simp only [applyOp] at h
    cases hr : tryGrow s id d px rb with
    | none => simp [hr] at h
    | some r =>
      obtain ⟨s2, ri⟩ := r
      simp only [hr, Option.map_some', Option.some.injEq, Prod.mk.injEq] at h
      rw [← h.1, ← h.2]
      exact tryGrow_step g s s2 id d px rb ri hr
  | activated id =>
    simp only [applyOp] at h
    cases hr : leafActivated s id with
    | none => simp [hr] at h
    | some s2 =>
      simp only [hr, Option.map_some', Option.some.injEq, Prod.mk.injEq] at h
      rw [← h.1, ← h.2]
      exact sessionStep_sameTree g s s2 (leafActivated_sameTree s s2 id hr)
  | titleChanged id t =>
    simp only [applyOp, Option.some.injEq, Prod.mk.injEq] at h
    rw [← h.1, ← h.2]
    exact leafTitleChanged_step g s id t
  | constructedElsewhere a b c =>
    simp only [applyOp, Option.some.injEq, Prod.mk.injEq] at h
    rw [← h.1, ← h.2]
    refine ⟨⟨by simp, by simp, by simp⟩, rfl, fun k hk => Or.inl hk⟩
  | prepareShutdown =>
    simp only [applyOp] at h
    split at h
    · split at h
      · simp only [Option.some.injEq, Prod.mk.injEq] at h
        rw [← h.1, ← h.2]
        exact sessionStep_same g s _ rfl (fun k hk => hk)
      · simp only [Option.some.injEq, Prod.mk.injEq] at h
        rw [← h.1, ← h.2]
        exact sessionStep_same g s s rfl (fun k hk => hk)
    · simp only [Option.some.injEq, Prod.mk.injEq] at h
      rw [← h.1, ← h.2]
      exact sessionStep_same g s s rfl (fun k hk => hk)

namespace QHash

theorem contains_iff_keys (m : List (Int × Session)) (k : Int) :
    contains m k = true ↔ k ∈ keys m := by
  simp only [contains, keys, List.any_eq_true, List.mem_map, beq_iff_eq]

theorem value_some_mem (m : List (Int × Session)) (k : Int) (s : Session)
    (h : value m k = some s) : (k, s) ∈ m := by
  induction m with
  | nil => simp [value] at h
  | cons e rest ih =>
    by_cases h1 : e.1 = k
    · simp only [value, h1, if_true, Option.some.injEq] at h
      subst h
      subst h1
      simp
    · simp only [value, h1, if_false] at h
      exact List.mem_cons_of_mem _ (ih h)

theorem value_eq_none_iff (m : List (Int × Session)) (k : Int) :
    value m k = none ↔ k ∉ keys m := by
  induction m with
  | nil => simp [value, keys]
  | cons e rest ih =>
    by_cases h1 : e.1 = k
    · simp [value, keys, h1]
    · have h2 : ¬ k = e.1 := fun h => h1 h.symm
      simp only [value, h1, if_false, ih, keys, List.map_cons, List.mem_cons, h2, false_or]

theorem value_of_contains (m : List (Int × Session)) (k : Int) (h : contains m k = true) :
    ∃ s, value m k = some s := by
  cases hv : value m k with
  | some s => exact ⟨s, rfl⟩
  | none => exact absurd ((contains_iff_keys m k).1 h) ((value_eq_none_iff m k).1 hv)

theorem value_of_mem (m : List (Int × Session)) (k : Int) (s : Session) (hnd : (keys m).Nodup)
    (h : (k, s) ∈ m) : value m k = some s := by
  induction m with
  | nil => simp at h
  | cons e rest ih =>
    simp only [keys, List.map_cons, List.nodup_cons] at hnd
    rcases List.mem_cons.1 h with h1 | h1
    · subst h1
      simp [value]
    · have hne : ¬ e.1 = k := by
        intro he
        apply hnd.1
        rw [he]
        exact List.mem_map.2 ⟨(k, s), h1, rfl⟩
      simp only [value, hne, if_false]
      exact ih hnd.2 h1

theorem mem_insert (m : List (Int × Session)) (k : Int) (v : Session) (e : Int × Session)
    (h : e ∈ insert m k v) : e = (k, v) ∨ (e ∈ m ∧ e.1 ≠ k) := by
  unfold insert at h
  split at h
  · simp only [List.mem_map] at h
    obtain ⟨e0, he0, he⟩ := h
    by_cases hk : e0.1 = k
    · simp only [hk, if_true] at he
      exact Or.inl he.symm
    · simp only [hk, if_false] at he
      subst he
      exact Or.inr ⟨he0, hk⟩
  · rename_i hc
    simp only [List.mem_append, List.mem_singleton] at h
    rcases h with h | h
    · right
      refine ⟨h, ?_⟩
      intro hk
      apply hc
      rw [contains_iff_keys]
      exact List.mem_map.2 ⟨e, h, hk⟩
    · exact Or.inl h

theorem mem_insert_self (m : List (Int × Session)) (k : Int) (v : Session) :
    (k, v) ∈ insert m k v := by
  unfold insert
  split
  · rename_i hc
    rw [contains_iff_keys] at hc
    obtain ⟨e, he, hek⟩ := List.mem_map.1 hc
    exact List.mem_map.2 ⟨e, he, by simp [hek]⟩
  · simp

theorem mem_insert_of_ne (m : List (Int × Session)) (k : Int) (v : Session) (e : Int × Session)
    (h : e ∈ m) (hne : e.1 ≠ k) : e ∈ insert m k v := by
  unfold insert
  split
  · exact List.mem_map.2 ⟨e, h, by simp [hne]⟩
  · simp [h]

theorem keys_insert (m : List (Int × Session)) (k : Int) (v : Session) :
    keys (insert m k v) = if contains m k then keys m else keys m ++ [k] := by
  unfold insert
  split
  · simp only [keys, List.map_map]
    apply List.map_congr_left
    intro e _
    by_cases hk : e.1 = k
    · simp [hk]
    · simp [hk]
  · simp [keys]

theorem mem_remove (m : List (Int × Session)) (k : Int) (e : Int × Session) :
    e ∈ remove m k ↔ e ∈ m ∧ e.1 ≠ k := by
  simp [remove]

theorem remove_sublist (m : List (Int × Session)) (k : Int) : (remove m k).Sublist m :=
  List.filter_sublist m

theorem remove_remove (m : List (Int × Session)) (k : Int) : remove (remove m k) k = remove m k := by
  simp [remove, List.filter_filter]

end QHash

theorem stackWF_sub (g : Statics) (st st1 : SessionStack) (h : StackWF g st)
    (hsub : st1.sessions.Sublist st.sessions) : StackWF g st1 :=
  ⟨List.Nodup.sublist (hsub.map _) h.nodup, h.counters,
   fun e he => h.ids e (hsub.subset he), fun e he => h.wf e (hsub.subset he),
   fun e1 he1 e2 he2 => h.disjoint e1 (hsub.subset he1) e2 (hsub.subset he2)⟩

theorem stackWF_store (g : Statics) (st : SessionStack) (k : Int) (s : Session) (g1 : Statics)
    (s1 : Session) (h : StackWF g st) (hmem : (k, s) ∈ st.sessions) (hwf1 : WF g1 s1)
    (hstep : SessionStep g s g1 s1) : StackWF g1 (SessionStack.store st k s1) := by
  obtain ⟨hadv, hct, hkeys⟩ := hstep
  have hc : QHash.contains st.sessions k = true :=
    (QHash.contains_iff_keys _ _).2 (List.mem_map.2 ⟨(k, s), hmem, rfl⟩)
  have hold : ∀ e ∈ (SessionStack.store st k s1).sessions,
      e = (k, s1) ∨ (e ∈ st.sessions ∧ e.1 ≠ k) := fun e he => QHash.mem_insert _ _ _ _ he
  have hfresh : ∀ e ∈ st.sessions, e.2.contentType = s.contentType →
      ∀ c ∈ StdMap.keys e.2.leaves, c < g.available s.contentType := by
    intro e he hcte c hcmem
    have := ((h.wf e he).fresh c hcmem).2
    rw [hcte] at this
    exact this
  refine ⟨?_, ?_, ?_, ?_, ?_⟩
  · simp only [SessionStack.store, QHash.keys_insert, hc, if_true]
    exact h.nodup
  · exact ⟨le_trans h.counters.1 hadv.1, hwf1.counters⟩
  · intro e he
    rcases hold e he with h1 | ⟨h1, _⟩
    · subst h1
      have := h.ids _ hmem
      exact ⟨this.1, lt_of_lt_of_le this.2 hadv.1⟩
    · have := h.ids e h1
      exact ⟨this.1, lt_of_lt_of_le this.2 hadv.1⟩
  · intro e he
    rcases hold e he with h1 | ⟨h1, _⟩
    · subst h1
      exact hwf1
    · exact wf_mono g g1 e.2 (h.wf e h1) hadv
  · intro e1 he1 e2 he2 hne hty c hc1 hc2
    rcases hold e1 he1 with h1 | ⟨h1, hk1⟩
    · subst h1
      rcases hold e2 he2 with h2 | ⟨h2, hk2⟩
      · subst h2
        exact hne rfl
      · simp only at hty hc1
        rcases hkeys c hc1 with hin | hge
        · exact h.disjoint (k, s) hmem e2 h2 (fun h3 => hk2 h3.symm) (by rw [← hty, hct]) c hin
            hc2
        · have := hfresh e2 h2 (by rw [← hty, hct]) c hc2
          omega
    · rcases hold e2 he2 with h2 | ⟨h2, hk2⟩
      · subst h2
        simp only at hty hc2
        rcases hkeys c hc2 with hin | hge
        · exact h.disjoint e1 h1 (k, s) hmem hk1 (by rw [hty, hct]) c hc1 hin
        · have := hfresh e1 h1 (by rw [hty, hct]) c hc1
          omega
      · exact h.disjoint e1 h1 e2 h2 hne hty c hc1 hc2

theorem newSession_fresh (g : Statics) (ct : SessionContent) (ty : SessionType) (env : Env) :
    ∃ g1 s, newSession g ct ty env = some (g1, s)
      ∧ s.sessionId = g.availableSessionId
      ∧ g1.availableSessionId = g.availableSessionId + 1 ∧ Advances g g1
      ∧ s.contentType = ct ∧ (∀ k ∈ StdMap.keys s.leaves, g.available ct ≤ k)
      ∧ s.closable = true := by
  cases ct
  · cases ty
    · refine ⟨_, _, newSession_single g env, rfl, rfl, ?_, rfl, ?_, rfl⟩
      · simp [Advances, afterTerminals]
      · simp [StdMap.keys, Session.leaves, Session.registry, Statics.available]
    · refine ⟨_, _, newSession_twoHorizontal g env, rfl, rfl, ?_, rfl, ?_, rfl⟩
      · simp [Advances, afterTerminals]
      · simp [StdMap.keys, Session.leaves, Session.registry, Statics.available]
    · refine ⟨_, _, newSession_twoVertical g env, rfl, rfl, ?_, rfl, ?_, rfl⟩
      · simp [Advances, afterTerminals]
      · simp [StdMap.keys, Session.leaves, Session.registry, Statics.available]
    · refine ⟨_, _, newSession_quad g env, rfl, rfl, ?_, rfl, ?_, rfl⟩
      · simp [Advances, afterTerminals]
      · simp [StdMap.keys, Session.leaves, Session.registry, Statics.available]
  · refine ⟨_, _, newSession_browser g ty env, rfl, rfl, ?_, rfl, ?_, rfl⟩
    · simp [Advances, afterBrowser]
    · simp [StdMap.keys, Session.leaves, Session.registry, Statics.available]

theorem stackWF_addSessionImpl (g : Statics) (st : SessionStack) (ct : SessionContent)
    (ty : SessionType) (env : Env) (h : StackWF g st) :
    ∃ g1 s, newSession g ct ty env = some (g1, s)
      ∧ SessionStack.addSessionImpl g st ct ty env
          = some (g1, { st with sessions := st.sessions ++ [(g.availableSessionId, s)] },
                  g.availableSessionId)
      ∧ StackWF g1 { st with sessions := st.sessions ++ [(g.availableSessionId, s)] } := by
  obtain ⟨g1, s, hnew, hid, hg1, hadv, hct, hkeys, _⟩ := newSession_fresh g ct ty env
  have hwf1 : WF g1 s := wf_newSession g ct ty env g1 s ⟨h.counters.2.1, h.counters.2.2⟩ hnew
  have hnot : QHash.contains st.sessions g.availableSessionId = false := by
    cases hcc : QHash.contains st.sessions g.availableSessionId with
    | false => rfl
    | true =>
      obtain ⟨e, he, hek⟩ := List.mem_map.1 ((QHash.contains_iff_keys _ _).1 hcc)
      have := (h.ids e he).2
      omega
  refine ⟨g1, s, hnew, ?_, ?_⟩
  · unfold SessionStack.addSessionImpl
    simp only [hnew, hid, QHash.insert, hnot, Bool.false_eq_true, if_false]
  · have hold : ∀ e ∈ st.sessions ++ [(g.availableSessionId, s)],
        e = (g.availableSessionId, s) ∨ e ∈ st.sessions := by
      intro e he
      simp only [List.mem_append, List.mem_singleton] at he
      exact he.symm
    refine ⟨?_, ?_, ?_, ?_, ?_⟩
    · simp only [QHash.keys, List.map_append, List.map_cons, List.map_nil]
      refine List.Nodup.append h.nodup (by simp) ?_
      intro k hk1 hk2
      simp only [List.mem_singleton] at hk2
      subst hk2
      obtain ⟨e, he, hek⟩ := List.mem_map.1 hk1
      have := (h.ids e he).2
      omega
    · exact ⟨le_trans h.counters.1 hadv.1, hwf1.counters⟩
    · intro e he
      rcases hold e he with h1 | h1
      · subst h1
        simp only
        exact ⟨h.counters.1, by omega⟩
      · have := h.ids e h1
        exact ⟨this.1, by omega⟩
    · intro e he
      rcases hold e he with h1 | h1
      · subst h1
        exact hwf1
      · exact wf_mono g g1 e.2 (h.wf e h1) hadv
    · intro e1 he1 e2 he2 hne hty c hc1 hc2
      rcases hold e1 he1 with h1 | h1
      · subst h1
        rcases hold e2 he2 with h2 | h2
        · subst h2
          exact hne rfl
        · simp only at hty hc1
          have h3 := hkeys c hc1
          have h4 := ((h.wf e2 h2).fresh c hc2).2
          rw [← hty, hct] at h4
          omega
      · rcases hold e2 he2 with h2 | h2
        · subst h2
          simp only at hty hc2
          have h3 := hkeys c hc2
          have h4 := ((h.wf e1 h1).fresh c hc1).2
          rw [hty, hct] at h4
          omega
        · exact h.disjoint e1 h1 e2 h2 hne hty c hc1 hc2

theorem hasContent_eq (s : Session) (c : Int) :
    hasContent s c =
      (match s.contentType with
       | SessionContent.TerminalType => hasTerminal s c
       | SessionContent.BrowserType => hasBrowser s c) := by
  unfold hasContent hasTerminal hasBrowser Session.leaves Session.registry
  cases s.contentType <;> rfl

theorem findContent_some (m : List (Int × Session)) (c : Int) (e : Int × Session)
    (h : findContent m c = some e) : e ∈ m ∧ hasContent e.2 c = true := by
  induction m with
  | nil => simp [findContent] at h
  | cons e0 rest ih =>
    by_cases h0 : hasContent e0.2 c = true
    · have : findContent (e0 :: rest) c = some e0 := by
        rw [hasContent_eq] at h0
        rw [findContent]
        cases hc : e0.2.contentType <;> simp only [hc] at h0 ⊢ <;> simp [h0]
      rw [this] at h
      cases h
      exact ⟨by simp, h0⟩
    · have : findContent (e0 :: rest) c = findContent rest c := by
        rw [hasContent_eq] at h0
        rw [findContent]
        cases hc : e0.2.contentType <;> simp only [hc] at h0 ⊢ <;> simp [h0]
      rw [this] at h
      exact ⟨List.mem_cons_of_mem _ (ih h).1, (ih h).2⟩

theorem findContent_none (m : List (Int × Session)) (c : Int) :
    findContent m c = none ↔ ∀ e ∈ m, hasContent e.2 c = false := by
  induction m with
  | nil => simp [findContent]
  | cons e0 rest ih =>
    by_cases h0 : hasContent e0.2 c = true
    · have : findContent (e0 :: rest) c = some e0 := by
        rw [hasContent_eq] at h0
        rw [findContent]
        cases hc : e0.2.contentType <;> simp only [hc] at h0 ⊢ <;> simp [h0]
      rw [this]
      simp only [List.mem_cons, forall_eq_or_imp, h0, false_and]
      simp
    · have : findContent (e0 :: rest) c = findContent rest c := by
        rw [hasContent_eq] at h0
        rw [findContent]
        cases hc : e0.2.contentType <;> simp only [hc] at h0 ⊢ <;> simp [h0]
      rw [this, ih]
      simp only [Bool.not_eq_true] at h0
      simp [h0]

theorem goodSplit_splitWith (o : Orientation) : GoodSplit (splitWith o) := by
  intro g s id env g1 s1 r hwf h
  refine ⟨?_, splitWith_step o g s id env g1 s1 r hwf h⟩
  have hop : applyOp g s (match o with
      | Orientation.Horizontal => Op.splitLeftRight id env
      | Orientation.Vertical => Op.splitTopBottom id env) = some (g1, s1) := by
    cases o <;> simp [applyOp, splitLeftRight, splitTopBottom, h]
  exact wf_applyOp g s _ g1 s1 hwf hop

theorem goodSplit_leftRight : GoodSplit splitLeftRight := goodSplit_splitWith _

theorem goodSplit_topBottom : GoodSplit splitTopBottom := goodSplit_splitWith _

theorem goodSplit_auto : GoodSplit splitAuto := by
  intro g s id env g1 s1 r hwf h
  rw [splitAuto_eq] at h
  split at h
  · exact goodSplit_leftRight g s id env g1 s1 r hwf h
  · exact goodSplit_topBottom g s id env g1 s1 r hwf h

theorem stackWF_splitSessionWith
    (f : Statics → Session → Int → Env → Option (Statics × Session × Int)) (hf : GoodSplit f)
    (g : Statics) (st : SessionStack) (id : Int) (env : Env) (g1 : Statics) (st1 : SessionStack)
    (r : Int) (h : StackWF g st)
    (hres : SessionStack.splitSessionWith f g st id env = some (g1, st1, r)) :
    StackWF g1 st1 := by
  unfold SessionStack.splitSessionWith at hres
  split at hres
  · cases hres
    exact h
  · split at hres
    · cases hres
    · rename_i session hv
      cases hr : f g session (-1) env with
      | none => simp [hr] at hres
      | some res =>
        obtain ⟨rg, rs, ri⟩ := res
        simp only [hr, Option.map_some', Option.some.injEq, Prod.mk.injEq] at hres
        obtain ⟨h1, h2, _⟩ := hres
        subst h1
        subst h2
        have hmem := QHash.value_some_mem _ _ _ hv
        obtain ⟨hwf1, hstep⟩ := hf g session (-1) env rg rs ri (h.wf _ hmem) hr
        exact stackWF_store g st _ session rg rs h hmem hwf1 hstep

theorem stackWF_splitContentWith
    (f : Statics → Session → Int → Env → Option (Statics × Session × Int)) (hf : GoodSplit f)
    (g : Statics) (st : SessionStack) (id : Int) (env : Env) (g1 : Statics) (st1 : SessionStack)
    (r : Int) (h : StackWF g st)
    (hres : SessionStack.splitContentWith f g st id env = some (g1, st1, r)) :
    StackWF g1 st1 := by
  unfold SessionStack.splitContentWith at hres
  split at hres
  · cases hres
    exact h
  · rename_i e he
    cases hr : f g e.2 id env with
    | none => simp [hr] at hres
    | some res =>
      obtain ⟨rg, rs, ri⟩ := res
      simp only [hr, Option.map_some', Option.some.injEq, Prod.mk.injEq] at hres
      obtain ⟨h1, h2, _⟩ := hres
      subst h1
      subst h2
      have hmem := (findContent_some _ _ _ he).1
      obtain ⟨hwf1, hstep⟩ := hf g e.2 id env rg rs ri (h.wf _ hmem) hr
      exact stackWF_store g st e.1 e.2 rg rs h hmem hwf1 hstep

theorem stackWF_active (g : Statics) (st : SessionStack) (a : Int) (h : StackWF g st) :
    StackWF g { st with activeSessionId := a } :=
  stackWF_sub g st _ h (List.Sublist.refl _)

theorem stackWF_raiseSession (g : Statics) (st st1 : SessionStack) (id : Int) (h : StackWF g st)
    (hres : SessionStack.raiseSession st id = some st1) : StackWF g st1 := by
  unfold SessionStack.raiseSession at hres
  split at hres
  · cases hres
    exact h
  · split at hres
    · cases hres
    · split at hres
      · split at hres
        · cases hres
        · cases hres
          exact stackWF_active g st _ h
      · cases hres
        exact stackWF_active g st _ h

theorem stackWF_deleteSession (g : Statics) (st : SessionStack) (id : Int) (h : StackWF g st) :
    StackWF g (SessionStack.deleteSession st id) :=
  stackWF_sub g st _ h
    ((QHash.remove_sublist _ _).trans (QHash.remove_sublist _ _))

theorem stackWF_removeSession (g : Statics) (st : SessionStack) (id : Int) (dlg : Dialog)
    (env : Env) (g1 : Statics) (st1 : SessionStack) (h : StackWF g st)
    (hres : SessionStack.removeSession g st id dlg env = some (g1, st1)) : StackWF g1 st1 := by
  unfold SessionStack.removeSession at hres
  split at hres
  · cases hres
    exact h
  · split at hres
    · cases hres
      exact h
    · split at hres
      · cases hres
      · split at hres
        · split at hres
          · have hd := stackWF_deleteSession g st (SessionStack.resolve st id) h
            obtain ⟨g2, s, _, hadd, hwf2⟩ := stackWF_addSessionImpl g _
              SessionContent.TerminalType SessionType.Single env hd
            unfold SessionStack.addTerminalSession at hres
            rw [hadd] at hres
            simp only [Option.map_some', Option.some.injEq, Prod.mk.injEq] at hres
            rw [← hres.1, ← hres.2]
            exact hwf2
          · cases hres
            exact stackWF_deleteSession g st _ h
        · cases hres
          exact h

theorem stackWF_closeSession (g : Statics) (st : SessionStack) (k : Int) (session : Session)
    (id : Int) (st1 : SessionStack) (h : StackWF g st)
    (hv : QHash.value st.sessions k = some session)
    (hres : (closeSession session id).map (SessionStack.store st k) = some st1) :
    StackWF g st1 := by
  cases hr : closeSession session id with
  | none => simp [hr] at hres
  | some s1 =>
    simp only [hr, Option.map_some', Option.some.injEq] at hres
    subst hres
    have hmem := QHash.value_some_mem _ _ _ hv
    exact stackWF_store g st k session g s1 h hmem (wf_closeSession g session s1 id (h.wf _ hmem) hr)
      (closeSession_step g session s1 id hr)

theorem stackWF_removeContent (g : Statics) (st st1 : SessionStack) (id : Int) (h : StackWF g st)
    (hres : SessionStack.removeContent st id = some st1) : StackWF g st1 := by
  unfold SessionStack.removeContent at hres
  split at hres
  · split at hres
    · cases hres
      exact h
    · split at hres
      · cases hres
        exact h
      · split at hres
        · cases hres
        · rename_i session hv
          split at hres
          · exact stackWF_closeSession g st _ session _ st1 h hv hres
          · cases hres
            exact h
  · split at hres
    · cases hres
    · rename_i session hv
      split at hres
      · exact stackWF_closeSession g st _ session _ st1 h hv hres
      · cases hres
        exact h

theorem stackWF_closeActive (g : Statics) (st st1 : SessionStack) (id : Int) (dlg : Dialog)
    (h : StackWF g st) (hres : SessionStack.closeActive st id dlg = some st1) :
    StackWF g st1 := by
  unfold SessionStack.closeActive at hres
  split at hres
  · cases hres
    exact h
  · split at hres
    · cases hres
      exact h
    · split at hres
      · cases hres
      · rename_i session hv
        have hmem := QHash.value_some_mem _ _ _ hv
        split at hres
        · split at hres
          · cases hres
          · split at hres
            · cases hres
              exact stackWF_store g st _ session g _ h hmem
                (wf_closeTerminal g session _ (h.wf _ hmem))
                (closeTerminal_step g session _ (h.wf _ hmem))
            · cases hres
              exact h
        · split at hres
          · cases hres
          · split at hres
            · cases hres
              exact stackWF_store g st _ session g _ h hmem
                (wf_closeBrowser g session _ (h.wf _ hmem))
                (closeBrowser_step g session _ (h.wf _ hmem))
            · cases hres
              exact h

theorem stackWF_setSessionClosable (g : Statics) (st : SessionStack) (id : Int) (b : Bool)
    (h : StackWF g st) : StackWF g (SessionStack.setSessionClosable st id b) := by
  unfold SessionStack.setSessionClosable
  split
  · exact h
  · split
    · exact h
    · split
      · exact h
      · rename_i session hv
        have hmem := QHash.value_some_mem _ _ _ hv
        exact stackWF_store g st _ session g _ h hmem
          (wf_sameTree g session _ ⟨rfl, rfl, rfl, rfl⟩ (h.wf _ hmem))
          (sessionStep_sameTree g session _ ⟨rfl, rfl, rfl, rfl⟩)

theorem stackWF_tryGrow (g : Statics) (st st1 : SessionStack) (d : GrowthDirection) (id : Int)
    (px : Nat) (rb r : Int) (h : StackWF g st)
    (hres : SessionStack.tryGrow st d id px rb = some (st1, r)) : StackWF g st1 := by
  unfold SessionStack.tryGrow at hres
  split at hres
  · cases hres
    exact h
  · rename_i e he
    cases hr : tryGrow e.2 id d px rb with
    | none => simp [hr] at hres
    | some res =>
      obtain ⟨s1, ri⟩ := res
      simp only [hr, Option.map_some', Option.some.injEq, Prod.mk.injEq] at hres
      obtain ⟨h1, _⟩ := hres
      subst h1
      have hmem := (findContent_some _ _ _ he).1
      exact stackWF_store g st e.1 e.2 g s1 h hmem (wf_tryGrow g e.2 s1 id d px rb ri (h.wf _ hmem) hr)
        (tryGrow_step g e.2 s1 id d px rb ri hr)

theorem stackWF_sessionEvent (g : Statics) (st : SessionStack) (k : Int) (op : Op)
    (g1 : Statics) (st1 : SessionStack) (h : StackWF g st)
    (hres : SessionStack.sessionEvent g st k op = some (g1, st1)) : StackWF g1 st1 := by
  unfold SessionStack.sessionEvent at hres
  split at hres
  · cases hres
    exact h
  · rename_i session hv
    cases hr : applyOp g session op with
    | none => simp [hr] at hres
    | some res =>
      obtain ⟨rg, rs⟩ := res
      simp only [hr, Option.map_some', Option.some.injEq, Prod.mk.injEq] at hres
      obtain ⟨h1, h2⟩ := hres
      subst h1
      subst h2
      have hmem := QHash.value_some_mem _ _ _ hv
      exact stackWF_store g st k session rg rs h hmem (wf_applyOp g session op rg rs (h.wf _ hmem) hr)
        (applyOp_step g session op rg rs (h.wf _ hmem) hr)

theorem stackWF_applyStackOp (g : Statics) (st : SessionStack) (op : StackOp) (g1 : Statics)
    (st1 : SessionStack) (h : StackWF g st) (hres : applyStackOp g st op = some (g1, st1)) :
    StackWF g1 st1 := by
  have hsplit : ∀ (r : Option (Statics × SessionStack × Int)),
      (∀ rg rst ri, r = some (rg, rst, ri) → StackWF rg rst) →
      r.map (fun x => (x.1, x.2.1)) = some (g1, st1) → StackWF g1 st1 := by
    intro r hr hmap
    cases r with
    | none => simp at hmap
    | some x =>
      obtain ⟨rg, rst, ri⟩ := x
      simp only [Option.map_some', Option.some.injEq, Prod.mk.injEq] at hmap
      rw [← hmap.1, ← hmap.2]
      exact hr rg rst ri rfl
  have hsame : ∀ (r : Option SessionStack), (∀ rst, r = some rst → StackWF g rst) →
      r.map (fun x => (g, x)) = some (g1, st1) → StackWF g1 st1 := by
    intro r hr hmap
    cases r with
    | none => simp at hmap
    | some x =>
      simp only [Option.map_some', Option.some.injEq, Prod.mk.injEq] at hmap
      rw [← hmap.1, ← hmap.2]
      exact hr x rfl
  cases op with
  | addSessionImpl ct ty env =>
    obtain ⟨g2, s, _, hadd, hwf2⟩ := stackWF_addSessionImpl g st ct ty env h
    simp only [applyStackOp, hadd, Option.map_some', Option.some.injEq, Prod.mk.injEq] at hres
    rw [← hres.1, ← hres.2]
    exact hwf2
  | raiseSession id =>
    exact hsame _ (fun rst hr => stackWF_raiseSession g st rst id h hr) hres
  | removeSession id dlg env => exact stackWF_removeSession g st id dlg env g1 st1 h hres
  | removeContent id =>
    exact hsame _ (fun rst hr => stackWF_removeContent g st rst id h hr) hres
  | closeActive id dlg =>
    exact hsame _ (fun rst hr => stackWF_closeActive g st rst id dlg h hr) hres
  | cleanup id =>
    simp only [applyStackOp, Option.some.injEq, Prod.mk.injEq] at hres
    rw [← hres.1, ← hres.2]
    exact stackWF_sub g st _ h (QHash.remove_sublist _ _)
  | setSessionClosable id b =>
    simp only [applyStackOp, Option.some.injEq, Prod.mk.injEq] at hres
    rw [← hres.1, ← hres.2]
    exact stackWF_setSessionClosable g st id b h
  | splitSessionLeftRight id env =>
    exact hsplit _ (fun rg rst ri hr =>
      stackWF_splitSessionWith _ goodSplit_leftRight g st id env rg rst ri h hr) hres
  | splitSessionTopBottom id env =>
    exact hsplit _ (fun rg rst ri hr =>
      stackWF_splitSessionWith _ goodSplit_topBottom g st id env rg rst ri h hr) hres
  | splitSessionAuto id env =>
    exact hsplit _ (fun rg rst ri hr =>
      stackWF_splitSessionWith _ goodSplit_auto g st id env rg rst ri h hr) hres
  | splitContentLeftRight id env =>
    exact hsplit _ (fun rg rst ri hr =>
      stackWF_splitContentWith _ goodSplit_leftRight g st id env rg rst ri h hr) hres
  | splitContentTopBottom id env =>
    exact hsplit _ (fun rg rst ri hr =>
      stackWF_splitContentWith _ goodSplit_topBottom g st id env rg rst ri h hr) hres
  | tryGrow d id px rb =>
    simp only [applyStackOp] at hres
    cases hr : SessionStack.tryGrow st d id px rb with
    | none => simp [hr] at hres
    | some x =>
      obtain ⟨rst, ri⟩ := x
      simp only [hr, Option.map_some', Option.some.injEq, Prod.mk.injEq] at hres
      rw [← hres.1, ← hres.2]
      exact stackWF_tryGrow g st rst d id px rb ri h hr
  | sessionEvent k op => exact stackWF_sessionEvent g st k op g1 st1 h hres

theorem stackReachable_wf (g : Statics) (st : SessionStack) (h : StackReachable g st) :
    StackWF g st := by
  induction h with
  | init g a h1 h2 h3 =>
    exact ⟨by simp [QHash.keys], ⟨h1, h2, h3⟩, by simp, by simp, by simp⟩
  | step g st op g1 st1 _ hres ih => exact stackWF_applyStackOp g st op g1 st1 ih hres

theorem runStackOps_reachable (ops : List StackOp) (g : Statics) (st : SessionStack)
    (g1 : Statics) (st1 : SessionStack) (h0 : StackReachable g st)
    (h : runStackOps g st ops = some (g1, st1)) : StackReachable g1 st1 := by
  induction ops generalizing g st with
  | nil =>
    simp only [runStackOps, Option.some.injEq, Prod.mk.injEq] at h
    rw [← h.1, ← h.2]
    exact h0
  | cons op rest ih =>
    cases hop : applyStackOp g st op with
    | none => simp [runStackOps, hop] at h
    | some r =>
      obtain ⟨g2, st2⟩ := r
      simp only [runStackOps, hop] at h
      exact ih g2 st2 (StackReachable.step g st op g2 st2 h0 hop) h

theorem sampleStackEmpty_reachable : StackReachable sampleStatics sampleStackEmpty :=
  StackReachable.init sampleStatics (-1) (by decide) (by decide) (by decide)

theorem sampleStackOne_run :
    runStackOps sampleStatics sampleStackEmpty
      [StackOp.addSessionImpl SessionContent.TerminalType SessionType.Single sampleEnv]
      = some sampleStackOne := by
  decide

theorem sampleStackOne_reachable : StackReachable sampleStackOne.1 sampleStackOne.2 :=
  runStackOps_reachable _ _ _ _ _ sampleStackEmpty_reachable sampleStackOne_run

theorem sampleStackMixed_run :
    runStackOps sampleStatics sampleStackEmpty
      [StackOp.addSessionImpl SessionContent.TerminalType SessionType.Single sampleEnv,
       StackOp.addSessionImpl SessionContent.BrowserType SessionType.Single sampleEnv]
      = some sampleStackMixed := by
  decide

theorem sampleStackMixed_reachable : StackReachable sampleStackMixed.1 sampleStackMixed.2 :=
  runStackOps_reachable _ _ _ _ _ sampleStackEmpty_reachable sampleStackMixed_run

theorem sampleStackTwo_run :
    runStackOps sampleStatics sampleStackEmpty
      [StackOp.addSessionImpl SessionContent.TerminalType SessionType.Single sampleEnv,
       StackOp.addSessionImpl SessionContent.TerminalType SessionType.Single sampleEnv]
      = some sampleStackTwo := by
  decide

theorem sampleStackTwo_reachable : StackReachable sampleStackTwo.1 sampleStackTwo.2 :=
  runStackOps_reachable _ _ _ _ _ sampleStackEmpty_reachable sampleStackTwo_run

theorem hasContent_iff (s : Session) (c : Int) :
    hasContent s c = true ↔ c ∈ StdMap.keys s.leaves :=
  StdMap.contains_iff _ _

theorem hasContent_false_iff (s : Session) (c : Int) :
    hasContent s c = false ↔ c ∉ StdMap.keys s.leaves := by
  rw [← hasContent_iff]
  simp

theorem stackWF_key_ne (g : Statics) (st : SessionStack) (h : StackWF g st) :
    QHash.value st.sessions (-1) = none := by
  rw [QHash.value_eq_none_iff]
  intro hc
  obtain ⟨e, he, hek⟩ := List.mem_map.1 hc
  have := (h.ids e he).1
  omega

theorem sessionIdForContentId_none (st : SessionStack) (c : Int)
    (h : ∀ e ∈ st.sessions, c ∉ StdMap.keys e.2.leaves) :
    SessionStack.sessionIdForContentId st c = -1 := by
  have hn : findContent st.sessions c = none :=
    (findContent_none _ _).2 (fun e he => (hasContent_false_iff _ _).2 (h e he))
  simp [SessionStack.sessionIdForContentId, hn]

/-- C16: in every reachable stack, sessionIdForContentId(c) is -1 exactly when no
registered session has c in the registry of its content type, and otherwise it
is the key of a registered session whose registry contains c. The function
returns the id only: the stack is not changed. -/
theorem sessionIdForContentId_spec (g : Statics) (st : SessionStack) (c : Int)
    (h : StackReachable g st) :
    (SessionStack.sessionIdForContentId st c = -1
        ↔ ∀ e ∈ st.sessions, c ∉ StdMap.keys e.2.leaves)
      ∧ (SessionStack.sessionIdForContentId st c ≠ -1 →
          ∃ s, (SessionStack.sessionIdForContentId st c, s) ∈ st.sessions
            ∧ QHash.value st.sessions (SessionStack.sessionIdForContentId st c) = some s
            ∧ c ∈ StdMap.keys s.leaves) := by
  have hwf := stackReachable_wf g st h
  cases hf : findContent st.sessions c with
  | none =>
    have hall := (findContent_none _ _).1 hf
    have hid : SessionStack.sessionIdForContentId st c = -1 := by
      simp [SessionStack.sessionIdForContentId, hf]
    refine ⟨⟨fun _ e he => (hasContent_false_iff _ _).1 (hall e he), fun _ => hid⟩, ?_⟩
    intro hne
    exact absurd hid hne
  | some e =>
    obtain ⟨hmem, hhas⟩ := findContent_some _ _ _ hf
    have hid : SessionStack.sessionIdForContentId st c = e.1 := by
      simp [SessionStack.sessionIdForContentId, hf]
    have hge := (hwf.ids e hmem).1
    rw [hid]
    refine ⟨⟨fun h1 => by omega, fun hall => ?_⟩, fun _ => ⟨e.2, hmem, ?_, (hasContent_iff _ _).1 hhas⟩⟩
    · exact absurd ((hasContent_iff _ _).1 hhas) (hall e hmem)
    · exact QHash.value_of_mem _ _ _ hwf.nodup hmem

theorem sessionIdForContentId_spec_witness :
    StackReachable sampleStackTwo.1 sampleStackTwo.2
      ∧ SessionStack.sessionIdForContentId sampleStackTwo.2 1 = 1
      ∧ SessionStack.sessionIdForContentId sampleStackTwo.2 7 = -1
      ∧ ((SessionStack.sessionIdForContentId sampleStackTwo.2 7 = -1
            ↔ ∀ e ∈ sampleStackTwo.2.sessions, (7 : Int) ∉ StdMap.keys e.2.leaves)
          ∧ (SessionStack.sessionIdForContentId sampleStackTwo.2 7 ≠ -1 →
              ∃ s, (SessionStack.sessionIdForContentId sampleStackTwo.2 7, s)
                    ∈ sampleStackTwo.2.sessions
                ∧ QHash.value sampleStackTwo.2.sessions
                    (SessionStack.sessionIdForContentId sampleStackTwo.2 7) = some s
                ∧ (7 : Int) ∈ StdMap.keys s.leaves)) :=
  ⟨sampleStackTwo_reachable, by decide, by decide,
   sessionIdForContentId_spec sampleStackTwo.1 sampleStackTwo.2 7 sampleStackTwo_reachable⟩

/-- C17, as stated: a reachable stack in which two distinct registered sessions,
a terminal session and a browser session, both hold the content id 0 (terminal
ids and browser ids come from two counters that both start at 0). -/
theorem content_ids_disjoint_counterexample :
    StackReachable sampleStackMixed.1 sampleStackMixed.2
      ∧ ∃ e1 ∈ sampleStackMixed.2.sessions, ∃ e2 ∈ sampleStackMixed.2.sessions,
          e1.1 ≠ e2.1 ∧ (0 : Int) ∈ StdMap.keys e1.2.leaves ∧ (0 : Int) ∈ StdMap.keys e2.2.leaves :=
  ⟨sampleStackMixed_reachable, (0, sampleSingle.2), by decide, (1, sampleBrowserSession),
    by decide, by decide, by decide, by decide⟩

/-- C17, amended: in every reachable stack the session keys are pairwise
different, the leaf keys of one session are pairwise different, and the leaf
registries of two distinct registered sessions of the same content type are
disjoint; so a content id of a given content type identifies at most one leaf
and at most one owning session. -/
theorem content_ids_disjoint (g : Statics) (st : SessionStack) (h : StackReachable g st) :
    (QHash.keys st.sessions).Nodup
      ∧ (∀ e ∈ st.sessions, (StdMap.keys e.2.leaves).Nodup)
      ∧ ∀ e1 ∈ st.sessions, ∀ e2 ∈ st.sessions, e1.1 ≠ e2.1 →
          e1.2.contentType = e2.2.contentType →
          ∀ c, c ∈ StdMap.keys e1.2.leaves → c ∉ StdMap.keys e2.2.leaves := by
  have hwf := stackReachable_wf g st h
  refine ⟨hwf.nodup, fun e he => ?_, hwf.disjoint⟩
  exact ((hwf.wf e he).sorted.imp (fun hab => ne_of_lt hab))

theorem content_ids_disjoint_witness :
    StackReachable sampleStackTwo.1 sampleStackTwo.2
      ∧ sampleStackTwo.2.sessions.length = 2
      ∧ ((QHash.keys sampleStackTwo.2.sessions).Nodup
          ∧ (∀ e ∈ sampleStackTwo.2.sessions, (StdMap.keys e.2.leaves).Nodup)
          ∧ ∀ e1 ∈ sampleStackTwo.2.sessions, ∀ e2 ∈ sampleStackTwo.2.sessions, e1.1 ≠ e2.1 →
              e1.2.contentType = e2.2.contentType →
              ∀ c, c ∈ StdMap.keys e1.2.leaves → c ∉ StdMap.keys e2.2.leaves) :=
  ⟨sampleStackTwo_reachable, by decide,
   content_ids_disjoint sampleStackTwo.1 sampleStackTwo.2 sampleStackTwo_reachable⟩

/-- C18: in every reachable stack, removeContent(c) for a content id c other
than -1 that no registered session holds is not a no-op: the lookup
`m_sessions.value(sessionIdForContentId(c))` yields the null pointer and
`->closable()` dereferences it, so the call has no defined result. -/
theorem removeContent_absent (g : Statics) (st : SessionStack) (c : Int)
    (h : StackReachable g st) (hc : c ≠ -1)
    (habsent : ∀ e ∈ st.sessions, c ∉ StdMap.keys e.2.leaves) :
    SessionStack.sessionIdForContentId st c = -1
      ∧ QHash.value st.sessions (SessionStack.sessionIdForContentId st c) = none
      ∧ SessionStack.removeContent st c = none := by
  have hwf := stackReachable_wf g st h
  have hid := sessionIdForContentId_none st c habsent
  have hv : QHash.value st.sessions (SessionStack.sessionIdForContentId st c) = none := by
    rw [hid]
    exact stackWF_key_ne g st hwf
  refine ⟨hid, hv, ?_⟩
  unfold SessionStack.removeContent
  simp only [hc, if_false, hv]

theorem removeContent_absent_witness :
    StackReachable sampleStackOne.1 sampleStackOne.2 ∧ (7 : Int) ≠ -1
      ∧ (∀ e ∈ sampleStackOne.2.sessions, (7 : Int) ∉ StdMap.keys e.2.leaves)
      ∧ (SessionStack.sessionIdForContentId sampleStackOne.2 7 = -1
          ∧ QHash.value sampleStackOne.2.sessions
              (SessionStack.sessionIdForContentId sampleStackOne.2 7) = none
          ∧ SessionStack.removeContent sampleStackOne.2 7 = none) :=
  ⟨sampleStackOne_reachable, by decide, by decide,
   removeContent_absent sampleStackOne.1 sampleStackOne.2 7 sampleStackOne_reachable
     (by decide) (by decide)⟩

/-- C19: for a session id s other than -1 that is not a key of the session
registry, splitSessionLeftRight(s), splitSessionTopBottom(s) and
splitSessionAuto(s) do not return -1: `m_sessions[s]` yields a null pointer
(and adds an entry for s), and `session->contentType()` dereferences it, so the
calls have no defined result. -/
theorem splitSession_unregistered (g : Statics) (st : SessionStack) (s : Int) (env : Env)
    (hs : s ≠ -1) (hkey : QHash.contains st.sessions s = false) :
    QHash.value st.sessions s = none
      ∧ SessionStack.splitSessionLeftRight g st s env = none
      ∧ SessionStack.splitSessionTopBottom g st s env = none
      ∧ SessionStack.splitSessionAuto g st s env = none := by
  have hv : QHash.value st.sessions s = none := by
    rw [QHash.value_eq_none_iff]
    intro hm
    rw [← QHash.contains_iff_keys, hkey] at hm
    cases hm
  have hr : SessionStack.resolve st s = s := by simp [SessionStack.resolve, hs]
  refine ⟨hv, ?_, ?_, ?_⟩ <;>
    simp [SessionStack.splitSessionLeftRight, SessionStack.splitSessionTopBottom,
      SessionStack.splitSessionAuto, SessionStack.splitSessionWith, hr, hs, hv]

theorem splitSession_unregistered_witness :
    (5 : Int) ≠ -1 ∧ QHash.contains sampleStackOne.2.sessions 5 = false
      ∧ (QHash.value sampleStackOne.2.sessions 5 = none
          ∧ SessionStack.splitSessionLeftRight sampleStackOne.1 sampleStackOne.2 5 sampleEnv = none
          ∧ SessionStack.splitSessionTopBottom sampleStackOne.1 sampleStackOne.2 5 sampleEnv = none
          ∧ SessionStack.splitSessionAuto sampleStackOne.1 sampleStackOne.2 5 sampleEnv = none) :=
  ⟨by decide, by decide,
   splitSession_unregistered sampleStackOne.1 sampleStackOne.2 5 sampleEnv (by decide)
     (by decide)⟩

/-- C20: in a reachable stack whose registry holds exactly one session, under key
k, removeSession(k) with the close confirmed (queryClose returns true) returns,
and leaves a registry with exactly one session, whose key is the next session id
and differs from k, whose content type is terminal and which has exactly one
leaf. -/
theorem removeSession_last (g : Statics) (st : SessionStack) (k : Int) (s : Session)
    (dlg : Dialog) (env : Env) (asked : Bool) (h : StackReachable g st)
    (hone : st.sessions = [(k, s)])
    (hq : SessionStack.queryClose st k QueryCloseType.QueryCloseSession dlg = some (asked, true)) :
    ∃ g1 st1 s1, SessionStack.removeSession g st k dlg env = some (g1, st1)
      ∧ st1.sessions = [(g.availableSessionId, s1)]
      ∧ s1.sessionId = g.availableSessionId
      ∧ g.availableSessionId ≠ k
      ∧ s1.contentType = SessionContent.TerminalType
      ∧ (StdMap.keys s1.leaves).length = 1
      ∧ s1.browsers = [] := by
  have hwf := stackReachable_wf g st h
  have hk := hwf.ids (k, s) (by rw [hone]; simp)
  have hk1 : k ≠ -1 := by
    intro hk1
    have := hk.1
    simp only [hk1] at this
    omega
  have hr : SessionStack.resolve st k = k := by simp [SessionStack.resolve, hk1]
  have hcont : QHash.contains st.sessions k = true := by
    rw [hone]
    simp [QHash.contains]
  have hdel : (SessionStack.deleteSession st k).sessions = [] := by
    simp [SessionStack.deleteSession, SessionStack.cleanup, QHash.remove, hone]
  have hwfd := stackWF_deleteSession g st k hwf
  obtain ⟨g1, s1, hnew, hadd, _⟩ := stackWF_addSessionImpl g (SessionStack.deleteSession st k)
    SessionContent.TerminalType SessionType.Single env hwfd
  rw [newSession_single] at hnew
  simp only [Option.some.injEq, Prod.mk.injEq] at hnew
  refine ⟨g1, { activeSessionId := (SessionStack.deleteSession st k).activeSessionId,
                sessions := (SessionStack.deleteSession st k).sessions
                  ++ [(g.availableSessionId, s1)] }, s1, ?_, ?_, ?_, ?_, ?_, ?_, ?_⟩
  · unfold SessionStack.removeSession
    simp only [hr, hk1, if_false, hcont, Bool.not_true, Bool.false_eq_true, hq, if_true, hdel,
      List.isEmpty_nil, SessionStack.addTerminalSession, hadd, Option.map_some']
  · simp [hdel]
  · rw [← hnew.2]
  · have := hk.2
    omega
  · rw [← hnew.2]
  · rw [← hnew.2]
    simp [StdMap.keys, Session.leaves, Session.registry]
  · rw [← hnew.2]

theorem removeSession_last_witness :
    StackReachable sampleStackOne.1 sampleStackOne.2
      ∧ sampleStackOne.2.sessions = [(0, sampleSingle.2)]
      ∧ SessionStack.queryClose sampleStackOne.2 0 QueryCloseType.QueryCloseSession sampleDialog
          = some (false, true)
      ∧ SessionStack.removeSession sampleStackOne.1 sampleStackOne.2 0 sampleDialog sampleEnv
          = some sampleStackReplaced
      ∧ ∃ g1 st1 s1,
          SessionStack.removeSession sampleStackOne.1 sampleStackOne.2 0 sampleDialog sampleEnv
            = some (g1, st1)
          ∧ st1.sessions = [(sampleStackOne.1.availableSessionId, s1)]
          ∧ s1.sessionId = sampleStackOne.1.availableSessionId
          ∧ sampleStackOne.1.availableSessionId ≠ 0
          ∧ s1.contentType = SessionContent.TerminalType
          ∧ (StdMap.keys s1.leaves).length = 1
          ∧ s1.browsers = [] :=
  ⟨sampleStackOne_reachable, by decide, by decide, by decide,
   removeSession_last sampleStackOne.1 sampleStackOne.2 0 sampleSingle.2 sampleDialog sampleEnv
     false sampleStackOne_reachable (by decide) (by decide)⟩

theorem stackReachableVia_reachable (allowed : StackOp → Prop) (u : Int) (g : Statics)
    (st : SessionStack) (h : StackReachableVia allowed u g st) : StackReachable g st := by
  induction h with
  | init g h1 h2 h3 => exact StackReachable.init g u h1 h2 h3
  | step g st op g1 st1 _ _ hres ih => exact StackReachable.step g st op g1 st1 ih hres

theorem runStackOps_reachableVia (allowed : StackOp → Prop) (u : Int) (ops : List StackOp)
    (g : Statics) (st : SessionStack) (g1 : Statics) (st1 : SessionStack)
    (h0 : StackReachableVia allowed u g st) (hall : ∀ op ∈ ops, allowed op)
    (h : runStackOps g st ops = some (g1, st1)) : StackReachableVia allowed u g1 st1 := by
  induction ops generalizing g st with
  | nil =>
    simp only [runStackOps, Option.some.injEq, Prod.mk.injEq] at h
    rw [← h.1, ← h.2]
    exact h0
  | cons op rest ih =>
    cases hop : applyStackOp g st op with
    | none => simp [runStackOps, hop] at h
    | some r =>
      obtain ⟨g2, st2⟩ := r
      simp only [runStackOps, hop] at h
      exact ih g2 st2 (StackReachableVia.step g st op g2 st2 h0 (hall op (by simp)) hop)
        (fun o ho => hall o (by simp [ho])) h

namespace QHash

theorem contains_insert (m : List (Int × Session)) (k : Int) (v : Session) (a : Int)
    (h : contains m a = true) : contains (insert m k v) a = true := by
  rw [contains_iff_keys] at h ⊢
  rw [keys_insert]
  split
  · exact h
  · exact List.mem_append_left _ h

theorem contains_remove (m : List (Int × Session)) (k a : Int) (h : contains m a = true)
    (hne : a ≠ k) : contains (remove m k) a = true := by
  rw [contains_iff_keys] at h ⊢
  obtain ⟨e, he, hek⟩ := List.mem_map.1 h
  exact List.mem_map.2 ⟨e, (mem_remove m k e).2 ⟨he, by rw [hek]; exact hne⟩, hek⟩

end QHash

theorem activeKnown_cleanup (u : Int) (st : SessionStack) (k : Int) (h : ActiveKnown u st) :
    ActiveKnown u (SessionStack.cleanup st k) := by
  unfold ActiveKnown SessionStack.cleanup
  by_cases hk : k = st.activeSessionId
  · simp [hk]
  · simp only [hk, if_false]
    rcases h with h | h | h
    · exact Or.inl h
    · exact Or.inr (Or.inl h)
    · exact Or.inr (Or.inr (QHash.contains_remove _ _ _ h (fun e => hk e.symm)))

theorem activeKnown_deleteSession (u : Int) (st : SessionStack) (k : Int)
    (h : ActiveKnown u st) : ActiveKnown u (SessionStack.deleteSession st k) := by
  unfold ActiveKnown SessionStack.deleteSession SessionStack.cleanup
  by_cases hk : k = st.activeSessionId
  · simp [hk]
  · simp only [hk, if_false]
    rcases h with h | h | h
    · exact Or.inl h
    · exact Or.inr (Or.inl h)
    · exact Or.inr (Or.inr (QHash.contains_remove _ _ _
        (QHash.contains_remove _ _ _ h (fun e => hk e.symm)) (fun e => hk e.symm)))

theorem activeKnown_insert (u : Int) (st : SessionStack) (k : Int) (v : Session)
    (h : ActiveKnown u st) :
    ActiveKnown u { st with sessions := QHash.insert st.sessions k v } := by
  rcases h with h | h | h
  · exact Or.inl h
  · exact Or.inr (Or.inl h)
  · exact Or.inr (Or.inr (QHash.contains_insert _ _ _ _ h))

theorem activeKnown_addSessionImpl (u : Int) (g : Statics) (st : SessionStack)
    (ct : SessionContent) (ty : SessionType) (env : Env) (g1 : Statics) (st1 : SessionStack)
    (r : Int) (h : ActiveKnown u st)
    (hres : SessionStack.addSessionImpl g st ct ty env = some (g1, st1, r)) :
    ActiveKnown u st1 := by
  unfold SessionStack.addSessionImpl at hres
  split at hres
  · cases hres
  · simp only [Option.some.injEq, Prod.mk.injEq] at hres
    rw [← hres.2.1]
    exact activeKnown_insert u st _ _ h

theorem activeKnown_raiseSession (u : Int) (st st1 : SessionStack) (id : Int)
    (h : ActiveKnown u st) (hres : SessionStack.raiseSession st id = some st1) :
    ActiveKnown u st1 := by
  unfold SessionStack.raiseSession at hres
  split at hres
  · cases hres
    exact h
  · rename_i hg
    have hc : QHash.contains st.sessions id = true := by
      cases hcc : QHash.contains st.sessions id with
      | true => rfl
      | false => simp [hcc] at hg
    split at hres
    · cases hres
    · split at hres
      · split at hres
        · cases hres
        · cases hres
          exact Or.inr (Or.inr hc)
      · cases hres
        exact Or.inr (Or.inr hc)

theorem activeKnown_removeSession (u : Int) (g : Statics) (st : SessionStack) (id : Int)
    (dlg : Dialog) (env : Env) (g1 : Statics) (st1 : SessionStack) (h : ActiveKnown u st)
    (hres : SessionStack.removeSession g st id dlg env = some (g1, st1)) :
    ActiveKnown u st1 := by
  unfold SessionStack.removeSession at hres
  split at hres
  · cases hres
    exact h
  · split at hres
    · cases hres
      exact h
    · split at hres
      · cases hres
      · split at hres
        · have hd := activeKnown_deleteSession u st (SessionStack.resolve st id) h
          split at hres
          · unfold SessionStack.addTerminalSession at hres
            cases hadd : SessionStack.addSessionImpl g
                (SessionStack.deleteSession st (SessionStack.resolve st id))
                SessionContent.TerminalType SessionType.Single env with
            | none => simp [hadd] at hres
            | some x =>
              obtain ⟨xg, xst, xr⟩ := x
              simp only [hadd, Option.map_some', Option.some.injEq, Prod.mk.injEq] at hres
              rw [← hres.2]
              exact activeKnown_addSessionImpl u g _ _ _ env xg xst xr hd hadd
          · cases hres
            exact hd
        · cases hres
          exact h

theorem sampleStackOrphaned_run :
    runStackOps sampleStatics sampleStackEmpty sampleLifecycleOps = some sampleStackOrphaned := by
  decide

theorem sampleStackOrphaned_reachable :
    StackReachableVia lifecycle (-1) sampleStackOrphaned.1 sampleStackOrphaned.2 :=
  runStackOps_reachableVia lifecycle (-1) sampleLifecycleOps sampleStatics sampleStackEmpty _ _
    (StackReachableVia.init sampleStatics (by decide) (by decide) (by decide))
    (by
      intro op hop
      simp only [sampleLifecycleOps, List.mem_cons, List.mem_singleton, List.not_mem_nil,
        or_false] at hop
      rcases hop with h | h | h | h <;> subst h <;> trivial)
    sampleStackOrphaned_run

/-- C21, as stated: two terminal sessions are added, session 1 is raised and then
removed. `cleanup(1)` sets the active session id to -1 while session 0 is still
registered. -/
theorem active_sentinel_counterexample :
    runStackOps sampleStatics sampleStackEmpty
        [StackOp.addSessionImpl SessionContent.TerminalType SessionType.Single sampleEnv,
         StackOp.addSessionImpl SessionContent.TerminalType SessionType.Single sampleEnv,
         StackOp.raiseSession 1,
         StackOp.removeSession 1 sampleDialog sampleEnv] = some sampleStackOrphaned
      ∧ StackReachableVia lifecycle (-1) sampleStackOrphaned.1 sampleStackOrphaned.2
      ∧ sampleStackOrphaned.2.activeSessionId = -1
      ∧ sampleStackOrphaned.2.sessions ≠ [] :=
  ⟨sampleStackOrphaned_run, sampleStackOrphaned_reachable, by decide, by decide⟩

/-- C21, amended: in every state reachable through addSessionImpl, raiseSession,
removeSession and the slot cleanup, the active session id is the value the
constructor left in it, or -1, or the key of a registered session; so when the
registry is empty it is -1 or the constructor's value, and an id that
raiseSession stored never outlives its session. -/
theorem active_sentinel (u : Int) (g : Statics) (st : SessionStack)
    (h : StackReachableVia lifecycle u g st) :
    (st.activeSessionId = u ∨ st.activeSessionId = -1
        ∨ QHash.contains st.sessions st.activeSessionId = true)
      ∧ (st.sessions = [] → st.activeSessionId = u ∨ st.activeSessionId = -1) := by
  have hk : ActiveKnown u st := by
    induction h with
    | init g _ _ _ => exact Or.inl rfl
    | step g st op g1 st1 _ hall hres ih =>
      cases op with
      | addSessionImpl ct ty env =>
        simp only [applyStackOp] at hres
        cases hadd : SessionStack.addSessionImpl g st ct ty env with
        | none => simp [hadd] at hres
        | some x =>
          obtain ⟨xg, xst, xr⟩ := x
          simp only [hadd, Option.map_some', Option.some.injEq, Prod.mk.injEq] at hres
          rw [← hres.2]
          exact activeKnown_addSessionImpl u g st ct ty env xg xst xr ih hadd
      | raiseSession id =>
        simp only [applyStackOp] at hres
        cases hr : SessionStack.raiseSession st id with
        | none => simp [hr] at hres
        | some x =>
          simp only [hr, Option.map_some', Option.some.injEq, Prod.mk.injEq] at hres
          rw [← hres.2]
          exact activeKnown_raiseSession u st x id ih hr
      | removeSession id dlg env => exact activeKnown_removeSession u g st id dlg env g1 st1 ih hres
      | cleanup id =>
        simp only [applyStackOp, Option.some.injEq, Prod.mk.injEq] at hres
        rw [← hres.2]
        exact activeKnown_cleanup u st id ih
      | removeContent _ => exact absurd hall (by simp [lifecycle])
      | closeActive _ _ => exact absurd hall (by simp [lifecycle])
      | setSessionClosable _ _ => exact absurd hall (by simp [lifecycle])
      | splitSessionLeftRight _ _ => exact absurd hall (by simp [lifecycle])
      | splitSessionTopBottom _ _ => exact absurd hall (by simp [lifecycle])
      | splitSessionAuto _ _ => exact absurd hall (by simp [lifecycle])
      | splitContentLeftRight _ _ => exact absurd hall (by simp [lifecycle])
      | splitContentTopBottom _ _ => exact absurd hall (by simp [lifecycle])
      | tryGrow _ _ _ _ => exact absurd hall (by simp [lifecycle])
      | sessionEvent _ _ => exact absurd hall (by simp [lifecycle])
  refine ⟨hk, fun hempty => ?_⟩
  rcases hk with h1 | h1 | h1
  · exact Or.inl h1
  · exact Or.inr h1
  · rw [hempty] at h1
    simp [QHash.contains] at h1

theorem active_sentinel_witness :
    StackReachableVia lifecycle (-1) sampleStackOrphaned.1 sampleStackOrphaned.2
      ∧ ((sampleStackOrphaned.2.activeSessionId = -1 ∨ sampleStackOrphaned.2.activeSessionId = -1
            ∨ QHash.contains sampleStackOrphaned.2.sessions
                sampleStackOrphaned.2.activeSessionId = true)
          ∧ (sampleStackOrphaned.2.sessions = [] →
              sampleStackOrphaned.2.activeSessionId = -1
                ∨ sampleStackOrphaned.2.activeSessionId = -1)) :=
  ⟨sampleStackOrphaned_reachable,
   active_sentinel (-1) sampleStackOrphaned.1 sampleStackOrphaned.2
     sampleStackOrphaned_reachable⟩

namespace QHash

theorem contains_of_value (m : List (Int × Session)) (k : Int) (s : Session)
    (h : value m k = some s) : contains m k = true := by
  rw [contains_iff_keys]
  by_contra hk
  rw [(value_eq_none_iff m k).2 hk] at h
  cases h

end QHash

theorem queryClose_asked (st : SessionStack) (k : Int) (ty : QueryCloseType) (dlg : Dialog)
    (b : Bool) (h : SessionStack.queryClose st k ty dlg = some (true, b)) :
    b = !dlg.cancel := by
  unfold SessionStack.queryClose at h
  split at h
  · cases h
  · split at h
    · cases h
    · cases ty
      · simp only at h
        split at h
        · cases h
          rfl
        · cases h
      · simp only at h
        split at h
        · split at h
          · cases h
          · split at h
            · cases h
              rfl
            · cases h
        · split at h
          · cases h
            rfl
          · cases h
      · simp only at h
        split at h
        · split at h
          · cases h
          · split at h
            · cases h
              rfl
            · cases h
        · split at h
          · cases h
            rfl
          · cases h

/-- C22: when the warning is presented and the user cancels, removeSession
returns with the counters and the whole stack (the session registry with every
session in it, and the active session id) as they were, and so does closeActive,
for a terminal session and for a browser session. -/
theorem cancel_changes_nothing (g : Statics) (st : SessionStack) (id : Int) (dlg : Dialog)
    (env : Env) (hc : dlg.cancel = true) :
    (∀ b, SessionStack.queryClose st (SessionStack.resolve st id)
            QueryCloseType.QueryCloseSession dlg = some (true, b) →
        SessionStack.removeSession g st id dlg env = some (g, st))
      ∧ (∀ session b, QHash.value st.sessions (SessionStack.resolve st id) = some session →
          session.contentType = SessionContent.TerminalType →
          SessionStack.queryClose st (SessionStack.resolve st id)
            QueryCloseType.QueryCloseTerminal dlg = some (true, b) →
          SessionStack.closeActive st id dlg = some st)
      ∧ (∀ session b, QHash.value st.sessions (SessionStack.resolve st id) = some session →
          session.contentType = SessionContent.BrowserType →
          SessionStack.queryClose st (SessionStack.resolve st id)
            QueryCloseType.QueryCloseBrowser dlg = some (true, b) →
          SessionStack.closeActive st id dlg = some st) := by
  refine ⟨?_, ?_, ?_⟩
  · intro b hq
    have hb := queryClose_asked _ _ _ _ _ hq
    rw [hc] at hb
    simp only [Bool.not_true] at hb
    subst hb
    unfold SessionStack.removeSession
    simp only [hq]
    split
    · rfl
    · split
      · rfl
      · simp
  · intro session b hv hct hq
    have hb := queryClose_asked _ _ _ _ _ hq
    rw [hc] at hb
    simp only [Bool.not_true] at hb
    subst hb
    unfold SessionStack.closeActive
    simp only [hv, hct, hq]
    split
    · rfl
    · split
      · rfl
      · simp
  · intro session b hv hct hq
    have hb := queryClose_asked _ _ _ _ _ hq
    rw [hc] at hb
    simp only [Bool.not_true] at hb
    subst hb
    unfold SessionStack.closeActive
    simp only [hv, hct, hq]
    split
    · rfl
    · split
      · rfl
      · simp

theorem cancel_changes_nothing_witness :
    sampleDialogCancel.cancel = true
      ∧ SessionStack.queryClose sampleStackLocked.2 (SessionStack.resolve sampleStackLocked.2 1)
          QueryCloseType.QueryCloseSession sampleDialogCancel = some (true, false)
      ∧ SessionStack.queryClose sampleStackLocked.2 (SessionStack.resolve sampleStackLocked.2 1)
          QueryCloseType.QueryCloseTerminal sampleDialogCancel = some (true, false)
      ∧ ((∀ b, SessionStack.queryClose sampleStackLocked.2
              (SessionStack.resolve sampleStackLocked.2 1)
              QueryCloseType.QueryCloseSession sampleDialogCancel = some (true, b) →
            SessionStack.removeSession sampleStackLocked.1 sampleStackLocked.2 1
              sampleDialogCancel sampleEnv = some (sampleStackLocked.1, sampleStackLocked.2))
          ∧ (∀ session b,
              QHash.value sampleStackLocked.2.sessions
                (SessionStack.resolve sampleStackLocked.2 1) = some session →
              session.contentType = SessionContent.TerminalType →
              SessionStack.queryClose sampleStackLocked.2
                (SessionStack.resolve sampleStackLocked.2 1)
                QueryCloseType.QueryCloseTerminal sampleDialogCancel = some (true, b) →
              SessionStack.closeActive sampleStackLocked.2 1 sampleDialogCancel
                = some sampleStackLocked.2)
          ∧ (∀ session b,
              QHash.value sampleStackLocked.2.sessions
                (SessionStack.resolve sampleStackLocked.2 1) = some session →
              session.contentType = SessionContent.BrowserType →
              SessionStack.queryClose sampleStackLocked.2
                (SessionStack.resolve sampleStackLocked.2 1)
                QueryCloseType.QueryCloseBrowser sampleDialogCancel = some (true, b) →
              SessionStack.closeActive sampleStackLocked.2 1 sampleDialogCancel
                = some sampleStackLocked.2)) :=
  ⟨by decide, by decide, by decide,
   cancel_changes_nothing sampleStackLocked.1 sampleStackLocked.2 1 sampleDialogCancel sampleEnv
     (by decide)⟩

/-- C23 as stated fails for the close-session kind: with one closable terminal
in the session and the confirm-quit setting enabled, queryClose returns true
without presenting the warning. -/
theorem queryClose_policy_counterexample :
    QHash.value sampleStackOne.2.sessions 0 = some sampleSingle.2
      ∧ sampleDialogConfirm.confirmQuit = true
      ∧ SessionStack.queryClose sampleStackOne.2 0 QueryCloseType.QueryCloseSession
          sampleDialogConfirm = some (false, true) :=
  ⟨by decide, by decide, by decide⟩

/-- C23, amended: for a registered session, queryClose of the close-session kind
presents the warning exactly when the session is marked non-closable or the
confirm-quit setting is enabled and the session has more than one leaf. Of the
close-terminal kind on a terminal session (close-browser kind on a browser
session) whose active leaf is registered, it presents the warning exactly when
confirm-quit is enabled or that leaf is marked non-closable; of a leaf kind that
does not match the session's content type, exactly when confirm-quit is enabled.
When it does not ask it returns true; when it asks it returns true exactly when
the user does not cancel. -/
theorem queryClose_policy (st : SessionStack) (k : Int) (session : Session) (dlg : Dialog)
    (hv : QHash.value st.sessions k = some session) :
    (∃ asked, asked = ((dlg.confirmQuit && decide (session.leaves.length > 1))
                        || !session.closable)
        ∧ SessionStack.queryClose st k QueryCloseType.QueryCloseSession dlg
            = some (asked, if asked then !dlg.cancel else true))
      ∧ (session.contentType = SessionContent.TerminalType →
          ∀ leaf, getTerminal session session.activeId = some leaf →
          ∃ asked, asked = (dlg.confirmQuit || !leaf.closable)
            ∧ SessionStack.queryClose st k QueryCloseType.QueryCloseTerminal dlg
                = some (asked, if asked then !dlg.cancel else true))
      ∧ (session.contentType = SessionContent.BrowserType →
          ∀ leaf, getBrowser session session.activeId = some leaf →
          ∃ asked, asked = (dlg.confirmQuit || !leaf.closable)
            ∧ SessionStack.queryClose st k QueryCloseType.QueryCloseBrowser dlg
                = some (asked, if asked then !dlg.cancel else true))
      ∧ (session.contentType = SessionContent.BrowserType →
          SessionStack.queryClose st k QueryCloseType.QueryCloseTerminal dlg
            = some (dlg.confirmQuit, if dlg.confirmQuit then !dlg.cancel else true))
      ∧ (session.contentType = SessionContent.TerminalType →
          SessionStack.queryClose st k QueryCloseType.QueryCloseBrowser dlg
            = some (dlg.confirmQuit, if dlg.confirmQuit then !dlg.cancel else true)) := by
  have hc := QHash.contains_of_value _ _ _ hv
  refine ⟨⟨_, rfl, ?_⟩, ?_, ?_, ?_, ?_⟩
  · unfold SessionStack.queryClose
    simp only [hc, hv, Bool.not_true, Bool.false_eq_true, if_false]
    cases hct : session.contentType <;> simp only [Session.leaves, Session.registry, hct] <;>
      split <;> simp [*]
  · intro hct leaf hleaf
    refine ⟨_, rfl, ?_⟩
    unfold SessionStack.queryClose
    simp only [hc, hv, Bool.not_true, Bool.false_eq_true, if_false, hct, hleaf]
    split <;> simp [*]
  · intro hct leaf hleaf
    refine ⟨_, rfl, ?_⟩
    unfold SessionStack.queryClose
    simp only [hc, hv, Bool.not_true, Bool.false_eq_true, if_false, hct, hleaf]
    split <;> simp [*]
  · intro hct
    unfold SessionStack.queryClose
    simp only [hc, hv, Bool.not_true, Bool.false_eq_true, if_false, hct]
    split <;> simp [*]
  · intro hct
    unfold SessionStack.queryClose
    simp only [hc, hv, Bool.not_true, Bool.false_eq_true, if_false, hct]
    split <;> simp [*]

theorem queryClose_policy_witness :
    QHash.value sampleStackLocked.2.sessions 1
        = some sampleLockedSession
      ∧ SessionStack.queryClose sampleStackLocked.2 1 QueryCloseType.QueryCloseSession
          sampleDialog = some (true, true)
      ∧ SessionStack.queryClose sampleStackLocked.2 1 QueryCloseType.QueryCloseTerminal
          sampleDialog = some (false, true)
      ∧ ((∃ asked, asked = ((sampleDialog.confirmQuit
                && decide (sampleLockedSession.leaves.length > 1))
              || !sampleLockedSession.closable)
            ∧ SessionStack.queryClose sampleStackLocked.2 1 QueryCloseType.QueryCloseSession
                sampleDialog = some (asked, if asked then !sampleDialog.cancel else true))
          ∧ (sampleLockedSession.contentType
                = SessionContent.TerminalType →
              ∀ leaf, getTerminal sampleLockedSession
                  sampleLockedSession.activeId = some leaf →
              ∃ asked, asked = (sampleDialog.confirmQuit || !leaf.closable)
                ∧ SessionStack.queryClose sampleStackLocked.2 1 QueryCloseType.QueryCloseTerminal
                    sampleDialog = some (asked, if asked then !sampleDialog.cancel else true))
          ∧ (sampleLockedSession.contentType
                = SessionContent.BrowserType →
              ∀ leaf, getBrowser sampleLockedSession
                  sampleLockedSession.activeId = some leaf →
              ∃ asked, asked = (sampleDialog.confirmQuit || !leaf.closable)
                ∧ SessionStack.queryClose sampleStackLocked.2 1 QueryCloseType.QueryCloseBrowser
                    sampleDialog = some (asked, if asked then !sampleDialog.cancel else true))
          ∧ (sampleLockedSession.contentType
                = SessionContent.BrowserType →
              SessionStack.queryClose sampleStackLocked.2 1 QueryCloseType.QueryCloseTerminal
                sampleDialog
                = some (sampleDialog.confirmQuit,
                    if sampleDialog.confirmQuit then !sampleDialog.cancel else true))
          ∧ (sampleLockedSession.contentType
                = SessionContent.TerminalType →
              SessionStack.queryClose sampleStackLocked.2 1 QueryCloseType.QueryCloseBrowser
                sampleDialog
                = some (sampleDialog.confirmQuit,
                    if sampleDialog.confirmQuit then !sampleDialog.cancel else true))) :=
  ⟨by decide, by decide, by decide,
   queryClose_policy sampleStackLocked.2 1 sampleLockedSession
     sampleDialog (by decide)⟩

/-- C24: in a reachable state, for an id that resolves to a registered leaf,
splitAuto returns, with the result and the state of splitLeftRight when the leaf
is wider than tall and with those of splitTopBottom when it is taller than wide
or square; it is the spec's splitAuto with the square case resolved top/bottom. -/
theorem splitAuto_refines (g : Statics) (s : Session) (id : Int) (env : Env)
    (hr : Reachable g s) (hreg : StdMap.contains s.leaves (resolve s id) = true) :
    ∃ r, splitAuto g s id env = some r
      ∧ r.2.2 = g.available s.contentType
      ∧ splitAuto g s id env = splitAutoSpec Orientation.Vertical g s id env
      ∧ (env.partWidth > env.partHeight → splitLeftRight g s id env = some r)
      ∧ (env.partWidth < env.partHeight → splitTopBottom g s id env = some r)
      ∧ (env.partWidth = env.partHeight → splitTopBottom g s id env = some r) := by
  have hwf := reachable_wf g s hr
  have heq := splitAuto_eq g s id env
  by_cases hw : env.partWidth > env.partHeight
  · simp only [hw, if_true] at heq
    obtain ⟨leaf, hleaf, hsplit⟩ := splitWith_ok Orientation.Horizontal g s id env hwf hreg
    obtain ⟨s1, f, newLeaf, hres, _⟩ := split_ok g s (resolve s id) leaf Orientation.Horizontal
      env hwf hleaf
    have hlr : splitLeftRight g s id env
        = some (g.bump s.contentType, s1, g.available s.contentType) := by
      unfold splitLeftRight
      rw [hsplit, hres]
    refine ⟨_, heq.trans hlr, rfl, ?_, fun _ => hlr, fun h => ?_, fun h => ?_⟩
    · rw [heq]
      simp [splitAutoSpec, hw]
    · omega
    · omega
  · simp only [hw, if_false] at heq
    obtain ⟨leaf, hleaf, hsplit⟩ := splitWith_ok Orientation.Vertical g s id env hwf hreg
    obtain ⟨s1, f, newLeaf, hres, _⟩ := split_ok g s (resolve s id) leaf Orientation.Vertical
      env hwf hleaf
    have htb : splitTopBottom g s id env
        = some (g.bump s.contentType, s1, g.available s.contentType) := by
      unfold splitTopBottom
      rw [hsplit, hres]
    refine ⟨_, heq.trans htb, rfl, ?_, fun h => absurd h hw, fun _ => htb, fun _ => htb⟩
    rw [heq]
    unfold splitAutoSpec
    simp only [hw, if_false]
    split
    · rfl
    · rfl

theorem splitAuto_refines_witness :
    Reachable sampleSingle.1 sampleSingle.2
      ∧ StdMap.contains sampleSingle.2.leaves (resolve sampleSingle.2 (-1)) = true
      ∧ sampleEnv.partWidth > sampleEnv.partHeight
      ∧ ∃ r, splitAuto sampleSingle.1 sampleSingle.2 (-1) sampleEnv = some r
          ∧ r.2.2 = sampleSingle.1.available sampleSingle.2.contentType
          ∧ splitAuto sampleSingle.1 sampleSingle.2 (-1) sampleEnv
              = splitAutoSpec Orientation.Vertical sampleSingle.1 sampleSingle.2 (-1) sampleEnv
          ∧ (sampleEnv.partWidth > sampleEnv.partHeight →
              splitLeftRight sampleSingle.1 sampleSingle.2 (-1) sampleEnv = some r)
          ∧ (sampleEnv.partWidth < sampleEnv.partHeight →
              splitTopBottom sampleSingle.1 sampleSingle.2 (-1) sampleEnv = some r)
          ∧ (sampleEnv.partWidth = sampleEnv.partHeight →
              splitTopBottom sampleSingle.1 sampleSingle.2 (-1) sampleEnv = some r) :=
  ⟨sampleSingle_reachable, by decide, by decide,
   splitAuto_refines sampleSingle.1 sampleSingle.2 (-1) sampleEnv sampleSingle_reachable
     (by decide)⟩

/-- C25: for an id of the session's registry, setActiveId makes the id the active
id and the leaf's title the session title, changes nothing else, and emits the
two title-changed signals with that title. setTitle called with the active id
sets the session title, changes nothing else, and emits the two title-changed
signals; called with any other id it changes nothing and emits nothing. -/
theorem setActiveId_setTitle (s : Session) :
    (∀ id, StdMap.contains s.leaves id = true →
        ∃ leaf, StdMap.find s.leaves id = some leaf
          ∧ setActiveId s id = some { s with activeId := id, title := leaf.title }
          ∧ setActiveIdSignals s id
              = some [TitleSignal.titleChanged leaf.title,
                      TitleSignal.titleChangedFor s.sessionId leaf.title])
      ∧ (∀ id title, id = s.activeId →
          setTitle s id title = { s with title := title }
            ∧ setTitleSignals s id title
                = [TitleSignal.titleChanged title, TitleSignal.titleChangedFor s.sessionId title])
      ∧ (∀ id title, id ≠ s.activeId →
          setTitle s id title = s ∧ setTitleSignals s id title = []) := by
  refine ⟨?_, ?_, ?_⟩
  · intro id hc
    obtain ⟨leaf, hleaf⟩ := StdMap.find_of_contains _ _ hc
    refine ⟨leaf, hleaf, ?_, ?_⟩
    · simp [setActiveId, hleaf, setTitle]
    · simp [setActiveIdSignals, hleaf, setTitleSignals]
  · intro id title h
    simp [setTitle, setTitleSignals, h]
  · intro id title h
    simp [setTitle, setTitleSignals, h]

theorem sampleStackPair_run :
    runStackOps sampleStatics sampleStackEmpty
      [StackOp.addSessionImpl SessionContent.TerminalType SessionType.TwoHorizontal sampleEnv]
      = some sampleStackPair := by
  decide

theorem sampleStackPair_reachable : StackReachable sampleStackPair.1 sampleStackPair.2 :=
  runStackOps_reachable _ _ _ _ _ sampleStackEmpty_reachable sampleStackPair_run

theorem idStrings_eq (m : List (Int × Leaf)) : idStrings m = (StdMap.keys m).map qNumber := by
  have h : ∀ (l : List (Int × Leaf)) (acc : List String),
      l.foldl (fun idList e => idList ++ [qNumber e.1]) acc
        = acc ++ (StdMap.keys l).map qNumber := by
    intro l
    induction l with
    | nil => simp [StdMap.keys]
    | cons e rest ih =>
      intro acc
      simp [List.foldl_cons, ih, StdMap.keys]
  simpa [idStrings] using h m []

theorem terminalIdList_eq (s : Session) :
    terminalIdList s = String.intercalate "," ((StdMap.keys s.leaves).map qNumber) := by
  unfold terminalIdList Session.leaves Session.registry
  cases s.contentType <;> simp [idStrings_eq]

/-- C26: in every reachable stack, contentIdsForSessionId(s) returns the string
"-1" when s is not registered. When s is the key of a session it returns the
decimal representations of the keys of that session's leaf registry, in the
order of the registry, which is strictly ascending (so each id occurs once),
joined by commas. -/
theorem contentIdsForSessionId_spec (g : Statics) (st : SessionStack) (k : Int)
    (h : StackReachable g st) :
    (QHash.contains st.sessions k = false →
        SessionStack.contentIdsForSessionId st k = some "-1")
      ∧ (QHash.contains st.sessions k = true →
          ∃ session, QHash.value st.sessions k = some session ∧ (k, session) ∈ st.sessions
            ∧ SessionStack.contentIdsForSessionId st k
                = some (String.intercalate "," ((StdMap.keys session.leaves).map qNumber))
            ∧ (StdMap.keys session.leaves).Pairwise (fun a b => a < b)
            ∧ (StdMap.keys session.leaves).Nodup
            ∧ ∀ id, id ∈ StdMap.keys session.leaves ↔ hasContent session id = true) := by
  have hwf := stackReachable_wf g st h
  refine ⟨?_, ?_⟩
  · intro hc
    simp only [SessionStack.contentIdsForSessionId, hc, Bool.not_false, if_true, qNumber]
    rfl
  · intro hc
    obtain ⟨session, hv⟩ := QHash.value_of_contains _ _ hc
    have hmem := QHash.value_some_mem _ _ _ hv
    have hsorted := (hwf.wf _ hmem).sorted
    refine ⟨session, hv, hmem, ?_, hsorted, hsorted.imp (fun hab => ne_of_lt hab), ?_⟩
    · simp only [SessionStack.contentIdsForSessionId, hc, Bool.not_true, Bool.false_eq_true,
        if_false, hv, terminalIdList_eq]
    · intro id
      exact (hasContent_iff session id).symm

theorem contentIdsForSessionId_spec_witness :
    StackReachable sampleStackPair.1 sampleStackPair.2
      ∧ SessionStack.contentIdsForSessionId sampleStackPair.2 0 = some "0,1"
      ∧ SessionStack.contentIdsForSessionId sampleStackPair.2 5 = some "-1"
      ∧ ((QHash.contains sampleStackPair.2.sessions 0 = false →
            SessionStack.contentIdsForSessionId sampleStackPair.2 0 = some "-1")
          ∧ (QHash.contains sampleStackPair.2.sessions 0 = true →
              ∃ session, QHash.value sampleStackPair.2.sessions 0 = some session
                ∧ ((0 : Int), session) ∈ sampleStackPair.2.sessions
                ∧ SessionStack.contentIdsForSessionId sampleStackPair.2 0
                    = some (String.intercalate "," ((StdMap.keys session.leaves).map qNumber))
                ∧ (StdMap.keys session.leaves).Pairwise (fun a b => a < b)
                ∧ (StdMap.keys session.leaves).Nodup
                ∧ ∀ id, id ∈ StdMap.keys session.leaves ↔ hasContent session id = true)) :=
  ⟨sampleStackPair_reachable, by decide, by decide,
   contentIdsForSessionId_spec sampleStackPair.1 sampleStackPair.2 0 sampleStackPair_reachable⟩

/-- C27: in every reachable state a terminal session has an empty browser
registry and a browser session has an empty terminal registry, so the leaves of
the session are those of one registry; each of them is held by a node of the
tree. -/
theorem one_content_type (g : Statics) (s : Session) (h : Reachable g s) :
    (s.contentType = SessionContent.TerminalType → s.browsers = [] ∧ s.leaves = s.terminals)
      ∧ (s.contentType = SessionContent.BrowserType → s.terminals = [] ∧ s.leaves = s.browsers)
      ∧ (∀ e ∈ s.terminals ++ s.browsers, e ∈ s.leaves
          ∧ ∃ n, s.splitters[e.2.splitter]? = some n ∧ Widget.part e.1 ∈ n.widgets) := by
  have hwf := reachable_wf g s h
  refine ⟨fun hct => ⟨hwf.otherBrowsers hct, ?_⟩, fun hct => ⟨hwf.otherTerminals hct, ?_⟩, ?_⟩
  · simp [Session.leaves, Session.registry, hct]
  · simp [Session.leaves, Session.registry, hct]
  · intro e he
    have hl : e ∈ s.leaves := by
      cases hct : s.contentType with
      | TerminalType =>
        rw [hwf.otherBrowsers hct, List.append_nil] at he
        simpa [Session.leaves, Session.registry, hct] using he
      | BrowserType =>
        rw [hwf.otherTerminals hct, List.nil_append] at he
        simpa [Session.leaves, Session.registry, hct] using he
    exact ⟨hl, hwf.held e hl⟩

theorem one_content_type_witness :
    Reachable sampleTwo.1 sampleTwo.2
      ∧ sampleTwo.2.contentType = SessionContent.TerminalType
      ∧ ((sampleTwo.2.contentType = SessionContent.TerminalType →
            sampleTwo.2.browsers = [] ∧ sampleTwo.2.leaves = sampleTwo.2.terminals)
          ∧ (sampleTwo.2.contentType = SessionContent.BrowserType →
              sampleTwo.2.terminals = [] ∧ sampleTwo.2.leaves = sampleTwo.2.browsers)
          ∧ (∀ e ∈ sampleTwo.2.terminals ++ sampleTwo.2.browsers, e ∈ sampleTwo.2.leaves
              ∧ ∃ n, sampleTwo.2.splitters[e.2.splitter]? = some n
                  ∧ Widget.part e.1 ∈ n.widgets)) :=
  ⟨sampleTwo_reachable, by decide, one_content_type sampleTwo.1 sampleTwo.2 sampleTwo_reachable⟩

/-- C28: in every reachable state (construction with any layout, then any of
the operations) every node of the tree has at most two children. -/
theorem at_most_two_children (g : Statics) (s : Session) (h : Reachable g s) :
    ∀ (j : Nat) (n : Splitter), s.splitters[j]? = some n → n.widgets.length ≤ 2 := by
  have hwf := reachable_wf g s h
  intro j n hn
  exact hwf.atMostTwo j n hn

theorem at_most_two_children_witness :
    Reachable sampleTwo.1 sampleTwo.2
      ∧ sampleTwo.2.splitters.map (fun n => n.widgets.length) = [2]
      ∧ ∀ (j : Nat) (n : Splitter), sampleTwo.2.splitters[j]? = some n → n.widgets.length ≤ 2 :=
  ⟨sampleTwo_reachable, by decide,
   at_most_two_children sampleTwo.1 sampleTwo.2 sampleTwo_reachable⟩

/-- C29: in every reachable state, the splitter recorded for a registered leaf is
a node of the tree, it holds the leaf's part widget, and no other node does.
When its child count is not 1 (the nesting branch of split) it has two children
and its size list has two entries, so that `splitterSizes[1]` is read in
bounds; and split returns for either orientation. -/
theorem leaf_splitter_holds (g : Statics) (s : Session) (id : Int) (leaf : Leaf)
    (h : Reachable g s) (hfind : StdMap.find s.leaves id = some leaf) :
    ∃ n, s.splitters[leaf.splitter]? = some n ∧ Widget.part id ∈ n.widgets
      ∧ (∀ (j : Nat) (m : Splitter), s.splitters[j]? = some m → Widget.part id ∈ m.widgets →
          j = leaf.splitter)
      ∧ (n.widgets.length ≠ 1 →
          n.widgets.length = 2 ∧ n.sizes.length = 2 ∧ ∃ second, n.sizes[1]? = some second)
      ∧ ∀ (o : Orientation) (env : Env), ∃ r, split s.contentType g s id leaf o env = some r := by
  have hwf := reachable_wf g s h
  have hmem := StdMap.find_some_mem _ _ _ hfind
  obtain ⟨n, hn, hin⟩ := hwf.held _ hmem
  refine ⟨n, hn, hin, ?_, ?_, ?_⟩
  · intro j m hm hjm
    exact hwf.unique j leaf.splitter m n (Widget.part id) hm hn hjm hin
  · intro hne
    have hle := hwf.atMostTwo _ n hn
    have hpos : 0 < n.widgets.length := List.length_pos_of_mem hin
    have h2 : n.widgets.length = 2 := by omega
    have hs := hwf.sized _ n hn h2
    refine ⟨h2, hs, ?_⟩
    have h1 : 1 < n.sizes.length := by omega
    exact ⟨n.sizes[1], List.getElem?_eq_getElem h1⟩
  · intro o env
    obtain ⟨s1, _, _, hres, _⟩ := split_ok g s id leaf o env hwf hfind
    exact ⟨_, hres⟩

theorem leaf_splitter_holds_witness :
    Reachable sampleTwo.1 sampleTwo.2
      ∧ StdMap.find sampleTwo.2.leaves 0
          = some { splitter := 0, title := "shell", contentWidget := true }
      ∧ ∃ n, sampleTwo.2.splitters[(0 : Nat)]? = some n ∧ Widget.part 0 ∈ n.widgets
          ∧ (∀ (j : Nat) (m : Splitter), sampleTwo.2.splitters[j]? = some m →
              Widget.part 0 ∈ m.widgets → j = 0)
          ∧ (n.widgets.length ≠ 1 →
              n.widgets.length = 2 ∧ n.sizes.length = 2 ∧ ∃ second, n.sizes[1]? = some second)
          ∧ ∀ (o : Orientation) (env : Env),
              ∃ r, split sampleTwo.2.contentType sampleTwo.1 sampleTwo.2 0
                { splitter := 0, title := "shell", contentWidget := true } o env = some r :=
  ⟨sampleTwo_reachable, by decide,
   leaf_splitter_holds sampleTwo.1 sampleTwo.2 0
     { splitter := 0, title := "shell", contentWidget := true } sampleTwo_reachable (by decide)⟩

theorem sum_set_int (l : List Int) (i : Nat) (a old : Int) (h : l[i]? = some old) :
    (l.set i a).sum = l.sum - old + a := by
  induction l generalizing i with
  | nil => simp at h
  | cons x rest ih =>
    cases i with
    | zero =>
      simp only [List.getElem?_cons_zero, Option.some.injEq] at h
      subst h
      simp only [List.set_cons_zero, List.sum_cons]
      omega
    | succ j =>
      simp only [List.getElem?_cons_succ] at h
      simp only [List.set_cons_succ, List.sum_cons, ih j h]
      omega

theorem sum_grownSizes (sizes : List Int) (d : GrowthDirection) (i : Nat) (old nb : Int)
    (px : Nat) (hne : adjacentIndex d i ≠ i) (hold : sizes[i]? = some old)
    (hnb : sizes[adjacentIndex d i]? = some nb) :
    (grownSizes sizes d i old nb px).sum
      = sizes.sum - old + wrap32 (old + (px : Int)) - nb + wrap32 (nb - (px : Int)) := by
  unfold grownSizes
  have h1 : (sizes.set i (wrap32 (old + (px : Int))))[adjacentIndex d i]? = some nb := by
    rw [List.getElem?_set_ne (fun h => hne h.symm)]
    exact hnb
  rw [sum_set_int _ _ _ nb h1, sum_set_int _ _ _ old hold]

/-- C30: in a reachable state, when tryGrow finds a qualifying ancestor, the
list it passes to setSizes has the length of the node's current size list,
holds at the branch's index the old entry plus the pixel count and at the
adjacent index the neighbour's entry minus the pixel count, both in 32-bit
arithmetic, and agrees with the current list everywhere else. Its sum is the
current sum modulo 2^32, and is the current sum when neither operation
overflows. -/
theorem tryGrow_size_list (g : Statics) (s : Session) (id : Int) (d : GrowthDirection)
    (px : Nat) (rb : Int) (hr : Reachable g s) (hreg : StdMap.contains s.leaves id = true)
    (hq : ∃ sp, Qualifies s.splitters id d sp) :
    ∃ sp n i old nb passed s1 delta,
      s.splitters[sp]? = some n
      ∧ n.sizes[i]? = some old ∧ n.sizes[adjacentIndex d i]? = some nb
      ∧ adjacentIndex d i ≠ i
      ∧ tryGrow s id d px rb = some (s1, delta)
      ∧ s1.splitters = setSizes s.splitters sp passed
      ∧ passed.length = n.sizes.length
      ∧ passed[i]? = some (wrap32 (old + (px : Int)))
      ∧ passed[adjacentIndex d i]? = some (wrap32 (nb - (px : Int)))
      ∧ (∀ m, m ≠ i → m ≠ adjacentIndex d i → passed[m]? = n.sizes[m]?)
      ∧ (passed.sum - n.sizes.sum) % 4294967296 = 0
      ∧ (old + (px : Int) < 2147483648 → -2147483648 ≤ old → -2147483648 ≤ nb - (px : Int) →
          nb < 2147483648 →
          passed[i]? = some (old + (px : Int))
            ∧ passed[adjacentIndex d i]? = some (nb - (px : Int))
            ∧ passed.sum = n.sizes.sum) := by
  obtain ⟨k, sp, child, n, i, old, nb, hanc, hn, hor, hget, hdir, _, hold, hnb, hres⟩ :=
    tryGrow_acts g s id d px rb (reachable_wf g s hr) hreg hq
  have hne : adjacentIndex d i ≠ i := adjacent_ne d i (by
    split at hdir
    · simp [*]
    · simp [*])
  have hi := (List.getElem?_eq_some.1 hold).1
  have ha := (List.getElem?_eq_some.1 hnb).1
  have hadj : (grownSizes n.sizes d i old nb px)[adjacentIndex d i]?
      = some (wrap32 (nb - (px : Int))) := by
    simp only [grownSizes]
    rw [List.getElem?_set_self]
    simp [ha]
  have hbr : (grownSizes n.sizes d i old nb px)[i]? = some (wrap32 (old + (px : Int))) := by
    simp only [grownSizes]
    rw [List.getElem?_set_ne hne, List.getElem?_set_self]
    exact hi
  have hsum := sum_grownSizes n.sizes d i old nb px hne hold hnb
  refine ⟨sp, n, i, old, nb, grownSizes n.sizes d i old nb px, _, _, hn, hold, hnb, hne, hres,
    rfl, ?_, hbr, hadj, ?_, ?_, ?_⟩
  · simp [grownSizes]
  · intro m hm1 hm2
    simp only [grownSizes]
    rw [List.getElem?_set_ne (fun h => hm2 h.symm), List.getElem?_set_ne (fun h => hm1 h.symm)]
  · rw [hsum]
    unfold wrap32
    omega
  · intro h1 h2 h3 h4
    have hw1 : wrap32 (old + (px : Int)) = old + (px : Int) := wrap32_id _ (by omega) h1
    have hw2 : wrap32 (nb - (px : Int)) = nb - (px : Int) := wrap32_id _ h3 (by omega)
    refine ⟨by rw [hbr, hw1], by rw [hadj, hw2], ?_⟩
    rw [hsum, hw1, hw2]
    omega

theorem tryGrow_size_list_witness :
    Reachable sampleTwo.1 sampleTwo.2
      ∧ StdMap.contains sampleTwo.2.leaves 0 = true
      ∧ (tryGrow sampleTwo.2 0 GrowthDirection.Right 100 420).map
          (fun r => (r.1.splitters.map (fun n => n.sizes), r.2)) = some ([[420, 220]], 100)
      ∧ ∃ sp n i old nb passed s1 delta,
          sampleTwo.2.splitters[sp]? = some n
          ∧ n.sizes[i]? = some old ∧ n.sizes[adjacentIndex GrowthDirection.Right i]? = some nb
          ∧ adjacentIndex GrowthDirection.Right i ≠ i
          ∧ tryGrow sampleTwo.2 0 GrowthDirection.Right 100 420 = some (s1, delta)
          ∧ s1.splitters = setSizes sampleTwo.2.splitters sp passed
          ∧ passed.length = n.sizes.length
          ∧ passed[i]? = some (wrap32 (old + ((100 : Nat) : Int)))
          ∧ passed[adjacentIndex GrowthDirection.Right i]?
              = some (wrap32 (nb - ((100 : Nat) : Int)))
          ∧ (∀ m, m ≠ i → m ≠ adjacentIndex GrowthDirection.Right i →
              passed[m]? = n.sizes[m]?)
          ∧ (passed.sum - n.sizes.sum) % 4294967296 = 0
          ∧ (old + ((100 : Nat) : Int) < 2147483648 → -2147483648 ≤ old →
              -2147483648 ≤ nb - ((100 : Nat) : Int) → nb < 2147483648 →
              passed[i]? = some (old + ((100 : Nat) : Int))
                ∧ passed[adjacentIndex GrowthDirection.Right i]?
                    = some (nb - ((100 : Nat) : Int))
                ∧ passed.sum = n.sizes.sum) :=
  ⟨sampleTwo_reachable, by decide, by decide,
   tryGrow_size_list sampleTwo.1 sampleTwo.2 0 GrowthDirection.Right 100 420 sampleTwo_reachable
     (by decide) sampleTwo_qualifies⟩

end Yakuake
